import Mathlib

/-!
# hmi2: sextet codec, register store and write path

A shallow embedding of `src/origLib/hmi2/src/hmi2.cpp` and `hmi2.h`.

Conventions of the embedding.

* Unsigned machine integers (`uint8_t`, `uint16_t`, `uint32_t`, `unsigned long`)
  are natural numbers, reduced modulo `2^w` wherever the C++ code stores into a
  narrower type.
* `int16_t` cells (`bFile`, `bFileOver`, `bFileUpdate`) hold their 16-bit
  two's-complement pattern, a natural number below `2^16`.  An `int` temporary
  is the two's-complement pattern of width `Target.intBits`.
* A `char` cell or parameter holds the byte pattern (0..255); `Target.charSigned`
  decides how it converts to `int`.  Passing a `uint8_t` where a `char` is
  expected keeps the byte pattern.
* A `float` is its four bytes in memory (`floatValue`, the union of the header).
* The serial lines, the socket and `millis()` are an explicit `World`.  A method
  that talks to the transport takes the object and the world and returns both;
  `(value, object, world)` when it also returns a value.
* Signed overflow of `<<` wraps modulo `2^w`, as the supported compilers do.
-/

namespace Hmi2

/-! ## Compile target -/

/-- Properties of the compile target that the C++ semantics depends on. -/
structure Target where
  /-- Width of `int` in bits (16 on AVR, 32 on SAM3X8E / ESP). -/
  intBits : Nat
  /-- Whether plain `char` is a signed type. -/
  charSigned : Bool
  /-- Whether the `SoftwareSerial` code is compiled in (the `#if !defined(ESP8266) ...` blocks). -/
  softSerial : Bool
deriving DecidableEq, Repr

/-- An AVR board (ATmega328P / ATmega2560): 16-bit `int`, signed `char`, SoftwareSerial present. -/
def Target.avr : Target := ⟨16, true, true⟩

/-- A 32-bit board (SAM3X8E, ESP8266, ESP32): 32-bit `int`, unsigned `char`, no SoftwareSerial. -/
def Target.arm32 : Target := ⟨32, false, false⟩

/-- The supported widths of `int`. -/
def Target.ok (t : Target) : Prop := t.intBits = 16 ∨ t.intBits = 32

instance (t : Target) : Decidable t.ok := by unfold Target.ok; infer_instance

/-! ## Machine-integer conversions -/

/-- Conversion to `uint8_t`. -/
def toU8 (n : Nat) : Nat := n % 256

/-- Conversion of an `int` value to `uint16_t`. -/
def toU16 (i : Int) : Nat := (i % 65536).toNat

/-- Conversion of a signed value to `uint32_t`. -/
def toU32 (i : Int) : Nat := (i % 4294967296).toNat

/-- The value of a `char` cell holding byte pattern `c`, converted to `int`. -/
def charToInt (t : Target) (c : Nat) : Int :=
  if t.charSigned && decide (128 ≤ c % 256) then (c % 256 : Nat) - 256 else (c % 256 : Nat)

/-! ## Header constants (`hmi2.h`) -/

def BYTE6MASK0 : Nat := 0x3F
def BYTE6MASK1 : Nat := 0xFC0
def BYTE6MASK2 : Nat := 0x3F000
def BYTE6MASK3 : Nat := 0xFC0000
def BYTE6MASK4 : Nat := 0x3F000000
def BYTE6MASK5 : Nat := 0xC0000000

def BYTEMASK0 : Nat := 0xFF
def BYTEMASK1 : Nat := 0xFF00
def BYTEMASK2 : Nat := 0xFF0000
def BYTEMASK3 : Nat := 0xFF000000

def LDMASK : Nat := 0x3F
def MDMASK : Nat := 0xFC0
def HDMASK : Nat := 0xF000

def gmask8 : Nat := 0xFF
def gmask16 : Nat := 0xFFFF

/-- The union `floatValue` of the header, seen through its `bytes[4]` member. -/
structure floatValue where
  bytes0 : Nat
  bytes1 : Nat
  bytes2 : Nat
  bytes3 : Nat
deriving DecidableEq, Repr

/-- The three transports of `enum ConnectionType`. -/
inductive ConnectionType where
  | HARD_SERIAL
  | SOFT_SERIAL
  | LAN
deriving DecidableEq, Repr

/-! ## Object state -/

/-- The data members of `class Hmi2` (the text-line members are left out). -/
structure State where
  bSize : Nat
  ndfSize : Nat
  bFile : List Nat
  bFileOver : List Nat
  bFileUpdate : List Nat
  nFile : List Nat
  nFileOver : List Bool
  nFileUpdate : List Bool
  dFile : List Nat
  dFileOver : List Bool
  dFileUpdate : List Bool
  fFile : List floatValue
  fFileOver : List Bool
  fFileUpdate : List Bool
  inCount : Bool
  syncro : Bool
  overrideSend : Bool
  ld : Nat
  md : Nat
  hd : Nat
  ld32 : Nat
  md32 : Nat
  hd32 : Nat
  tempValue : Nat
  tempValue32 : Nat
  bufferSerial : List Nat
  overDisplay : Bool
  reconectTime : Nat
  startTime : Nat
  serverTime : Nat
  connectionType : ConnectionType
  lanConnectionStatus : Bool
  myLanSlot : Int
  lanTimeCount : Bool
  reconnectServer : Bool
deriving DecidableEq, Repr

/-! ## FrameCodec -/

/-- Method `Hmi2::fragmentData32`: split a `uint32_t` into six sextets. -/
def fragmentData32 (s : State) (tempInt32 : Nat) : State :=
  let s := { s with ld := toU8 (tempInt32 &&& BYTE6MASK0) }
  let s := { s with tempValue32 := tempInt32 &&& BYTE6MASK1 }
  let s := { s with md := toU8 (s.tempValue32 >>> 6) }
  let s := { s with tempValue32 := tempInt32 &&& BYTE6MASK2 }
  let s := { s with hd := toU8 (s.tempValue32 >>> 12) }
  let s := { s with tempValue32 := tempInt32 &&& BYTE6MASK3 }
  let s := { s with ld32 := toU8 (s.tempValue32 >>> 18) }
  let s := { s with tempValue32 := tempInt32 &&& BYTE6MASK4 }
  let s := { s with md32 := toU8 (s.tempValue32 >>> 24) }
  let s := { s with tempValue32 := tempInt32 &&& BYTE6MASK5 }
  { s with hd32 := toU8 (s.tempValue32 >>> 30) }

/-- Method `Hmi2::fragmentData16`: split a `uint16_t` into three sextets. -/
def fragmentData16 (s : State) (tempInt16 : Nat) : State :=
  let s := { s with ld := toU8 (tempInt16 &&& LDMASK) }
  let s := { s with tempValue := tempInt16 &&& MDMASK }
  let s := { s with md := toU8 (s.tempValue >>> 6) }
  let s := { s with tempValue := tempInt16 &&& HDMASK }
  { s with hd := toU8 (s.tempValue >>> 12) }

/-- Method `Hmi2::fragmentData8`. -/
def fragmentData8 (s : State) (tempInt16 : Nat) : State :=
  let s := { s with ld := toU8 (tempInt16 &&& LDMASK) }
  let s := { s with tempValue := (tempInt16 &&& MDMASK) % 65536 }
  { s with md := toU8 (s.tempValue >>> 6) }

/-- Method `Hmi2::fragmentDataFloat`: the four bytes, least significant first, then `fragmentData32`. -/
def fragmentDataFloat (s : State) (preFloat : floatValue) : State :=
  let tempUint32 := preFloat.bytes0 % 256
  let tempUint32 := tempUint32 ||| (((preFloat.bytes1 % 256) <<< 8) % 4294967296)
  let tempUint32 := tempUint32 ||| (((preFloat.bytes2 % 256) <<< 16) % 4294967296)
  let tempUint32 := tempUint32 ||| (((preFloat.bytes3 % 256) <<< 24) % 4294967296)
  fragmentData32 s tempUint32

/-- The `uint32_t` that `fragmentDataFloat` assembles from the four bytes of a float. -/
def floatBits (f : floatValue) : Nat :=
  f.bytes0 % 256 + f.bytes1 % 256 * 256 + f.bytes2 % 256 * 65536 + f.bytes3 % 256 * 16777216

/-- Method `Hmi2::joinInt8`. -/
def joinInt8 (t : Target) (tempMd tempLd : Nat) : Nat :=
  let tempLd1 := toU8 (charToInt t tempLd % 256).toNat
  let tempMd1 := toU8 (charToInt t tempMd % 256).toNat
  let tempMd1 := toU8 (tempMd1 <<< 6)
  let temp := toU8 (tempLd1 ||| tempMd1)
  toU8 (temp &&& gmask8)

/-- The expression `((int32_t)c) << k` stored into a `uint32_t` (the shift wraps modulo `2^32`). -/
def shl32 (x : Int) (k : Nat) : Nat := toU32 (x * 2 ^ k)

/-- Method `Hmi2::joinInt32`: six `char` sextets, most significant first, to a `uint32_t`. -/
def joinInt32 (t : Target) (temp6 temp5 temp4 temp3 temp2 temp1 : Nat) : Nat :=
  let tempB := shl32 (charToInt t temp6) 30
  let tempA := shl32 (charToInt t temp5) 24
  let tempB := tempB ||| tempA
  let tempA := shl32 (charToInt t temp4) 18
  let tempB := tempB ||| tempA
  let tempA := shl32 (charToInt t temp3) 12
  let tempB := tempB ||| tempA
  let tempA := shl32 (charToInt t temp2) 6
  tempB ||| tempA ||| toU32 (charToInt t temp1)

/-- Method `Hmi2::joinFloat`: the four bytes of a `uint32_t`, least significant first. -/
def joinFloat (tempInt32 : Nat) : floatValue :=
  { bytes0 := toU8 (tempInt32 &&& BYTEMASK0)
    bytes1 := toU8 ((tempInt32 &&& BYTEMASK1) >>> 8)
    bytes2 := toU8 ((tempInt32 &&& BYTEMASK2) >>> 16)
    bytes3 := toU8 ((tempInt32 &&& BYTEMASK3) >>> 24) }

/-- Method `Hmi2::joinInt16`: three `char` sextets, most significant first, to a `uint16_t`. -/
def joinInt16 (t : Target) (tempHd tempMd tempLd : Nat) : Nat :=
  let tempLd1 := toU16 (charToInt t tempLd)
  let tempMd1 := toU16 (charToInt t tempMd)
  let tempHd1 := toU16 (charToInt t tempHd)
  let tempMd1 := (tempMd1 <<< 6) % 65536
  let tempHd1 := (tempHd1 <<< 12) % 65536
  let temp := (tempLd1 ||| tempMd1 ||| tempHd1) % 65536
  (temp &&& gmask16) % 65536

/-! ## World: the transport and the clock

`World` is what the Arduino runtime contributes: the bytes written to the
selected channel, the replies of the panel, the readings of `millis()` and the
outcome of socket connects.  One reply of `rx` is consumed per exchange; an
empty (or missing) reply means that no byte becomes available before the
900 ms deadline. -/

/-- What the object does to its channel. -/
inductive Event where
  | write (b : Nat)
  | flush
  | connect
  | stop
deriving DecidableEq, Repr

structure World where
  /-- Calls made on the channel, oldest first. -/
  trace : List Event
  /-- Bytes the panel delivers, one list per exchange. -/
  rx : List (List Nat)
  /-- Future readings of `millis()`. -/
  clock : List Nat
  /-- The last reading of `millis()`. -/
  now : Nat
  /-- Outcome of future `connect` calls on the socket. -/
  connects : List Bool
deriving DecidableEq, Repr

/-- The byte a `write(int8_t)` / `write(char)` call puts on the wire. -/
def byteOfInt (i : Int) : Nat := (i % 256).toNat

/-- Stream `write`: one byte. -/
def World.write (w : World) (b : Nat) : World :=
  { w with trace := w.trace ++ [Event.write (b % 256)] }

/-- Stream `flush`. -/
def World.flush (w : World) : World :=
  { w with trace := w.trace ++ [Event.flush] }

/-- The call `millis()`: the next clock reading, an `unsigned long`. -/
def World.millis (w : World) : Nat × World :=
  match w.clock with
  | [] => (w.now, w)
  | t :: ts => (t % 4294967296, { w with clock := ts, now := t % 4294967296 })

/-- The bytes that arrive during the next exchange. -/
def World.recv (w : World) : List Nat × World :=
  match w.rx with
  | [] => ([], w)
  | r :: rs => (r, { w with rx := rs })

/-- Socket `connect(ip, port)`. -/
def World.connect (w : World) : Bool × World :=
  match w.connects with
  | [] => (false, { w with trace := w.trace ++ [Event.connect] })
  | c :: cs => (c, { w with trace := w.trace ++ [Event.connect], connects := cs })

/-- Socket `stop()`. -/
def World.stop (w : World) : World :=
  { w with trace := w.trace ++ [Event.stop] }

/-- The bytes written so far, in order. -/
def World.sent (w : World) : List Nat :=
  w.trace.filterMap fun e => match e with
    | Event.write b => some b
    | _ => none

/-- Difference of two `unsigned long` values. -/
def subU32 (a b : Nat) : Nat := (a % 4294967296 + 4294967296 - b % 4294967296) % 4294967296

/-- The busy-wait loop while no byte is available: `millis()` is read until
`millis() - startTime > 900`.  A clock with no further reading ends the wait. -/
def spinClock (startTime : Nat) : List Nat → Nat → List Nat × Nat
  | [], now => ([], now)
  | t :: ts, _ =>
    if subU32 t startTime > 900 then (ts, t % 4294967296)
    else spinClock startTime ts (t % 4294967296)

def World.waitDeadline (w : World) (startTime : Nat) : World :=
  let r := spinClock startTime w.clock w.now
  { w with clock := r.1, now := r.2 }

/-- Stream `readBytesUntil(terminator, buffer, length)` over the bytes that arrive:
bytes are stored until the terminator, `length` bytes, or the end of the input. -/
def readBytesUntil (terminator : Nat) (length : Nat) :
    List Nat → List Nat → Nat → List Nat × Nat
  | [], buffer, index => (buffer, index)
  | c :: cs, buffer, index =>
    if index < length then
      if c % 256 = terminator then (buffer, index)
      else readBytesUntil terminator length cs (buffer.set index (c % 256)) (index + 1)
    else (buffer, index)

/-! ## Array cells

An index outside the array reads the default and stores nothing (C++ leaves such an
access undefined; the accessors below are only reached under the range guards). -/

def getAt {α : Type} (l : List α) (i : Int) (d : α) : α :=
  if 0 ≤ i then l.getD i.toNat d else d

def setAt {α : Type} (l : List α) (i : Int) (v : α) : List α :=
  if 0 ≤ i then l.set i.toNat v else l

/-! ## Transport session -/

/-- Method `Hmi2::connect2Server`. -/
def connect2Server (s : State) (w : World) : Bool × State × World :=
  if !s.lanConnectionStatus then
    let (s, w) :=
      if !s.reconnectServer then
        let (now, w) := w.millis
        if subU32 now s.serverTime > 3000 then ({ s with reconnectServer := true }, w)
        else (s, w)
      else (s, w)
    if s.reconnectServer then
      let s := { s with reconnectServer := false }
      let (ok, w) := w.connect
      if ok then
        (true, { s with lanTimeCount := false, lanConnectionStatus := true }, w)
      else
        let (now, w) := w.millis
        (false, { s with serverTime := now }, w)
    else (false, s, w)
  else (true, s, w)

/-- Method `Hmi2::checkHardResponse` (with `cleanHardSerial`, which drops the rest of the reply). -/
def checkHardResponse (s : State) (w : World) : Bool × State × World :=
  let s := { s with inCount := true }
  let (t0, w) := w.millis
  let s := { s with startTime := t0 }
  let (reply, w) := w.recv
  if reply ≠ [] then
    let s := { s with inCount := false }
    let r := readBytesUntil 98 128 reply s.bufferSerial 0
    let s := { s with bufferSerial := r.1 }
    let okData := decide (r.2 ≠ 0)
    let (_, w) := w.millis
    (okData, s, w)
  else
    let w := w.waitDeadline s.startTime
    (false, { s with inCount := false }, w)

/-- Method `Hmi2::checkSoftResponse` (with `cleanSoftSerial`); without SoftwareSerial only the
deadline loop is compiled. -/
def checkSoftResponse (t : Target) (s : State) (w : World) : Bool × State × World :=
  if t.softSerial then checkHardResponse s w
  else
    let s := { s with inCount := true }
    let (t0, w) := w.millis
    let s := { s with startTime := t0 }
    let w := w.waitDeadline s.startTime
    (false, { s with inCount := false }, w)

/-- Method `Hmi2::checkLANResponse` (with `cleanLan`). -/
def checkLANResponse (s : State) (w : World) : Bool × State × World :=
  let s := { s with inCount := true }
  let (t0, w) := w.millis
  let s := { s with startTime := t0 }
  let (reply, w) := w.recv
  let (okData, s, w) :=
    if reply ≠ [] then
      let s := { s with inCount := false }
      let r := readBytesUntil 98 128 reply s.bufferSerial 0
      let s := { s with bufferSerial := r.1 }
      let (okData, s) :=
        if r.2 ≠ 0 then (true, { s with lanTimeCount := false }) else (false, s)
      let (t1, w) := w.millis
      if subU32 t1 s.startTime > 900 then
        let s := { s with inCount := false }
        if !s.lanTimeCount then
          let (t2, w) := w.millis
          (okData, { s with lanTimeCount := true, reconectTime := t2 }, w)
        else (okData, s, w)
      else (okData, s, w)
    else
      let w := w.waitDeadline s.startTime
      let s := { s with inCount := false }
      if !s.lanTimeCount then
        let (t2, w) := w.millis
        (false, { s with lanTimeCount := true, reconectTime := t2 }, w)
      else (false, s, w)
  if s.lanTimeCount then
    let (t3, w) := w.millis
    if subU32 t3 s.reconectTime > 3000 then
      (okData, { s with lanConnectionStatus := false, lanTimeCount := false }, w.stop)
    else (okData, s, w)
  else (okData, s, w)

/-- The receive loop of `Hmi2::checkLANResponse` with `cleanLan`: everything before the
block `if(lanTimeCount)`. -/
def lanReceive (s : State) (w : World) : Bool × State × World :=
  let s := { s with inCount := true }
  let (t0, w) := w.millis
  let s := { s with startTime := t0 }
  let (reply, w) := w.recv
  if reply ≠ [] then
    let s := { s with inCount := false }
    let r := readBytesUntil 98 128 reply s.bufferSerial 0
    let s := { s with bufferSerial := r.1 }
    let (okData, s) :=
      if r.2 ≠ 0 then (true, { s with lanTimeCount := false }) else (false, s)
    let (t1, w) := w.millis
    if subU32 t1 s.startTime > 900 then
      let s := { s with inCount := false }
      if !s.lanTimeCount then
        let (t2, w) := w.millis
        (okData, { s with lanTimeCount := true, reconectTime := t2 }, w)
      else (okData, s, w)
    else (okData, s, w)
  else
    let w := w.waitDeadline s.startTime
    let s := { s with inCount := false }
    if !s.lanTimeCount then
      let (t2, w) := w.millis
      (false, { s with lanTimeCount := true, reconectTime := t2 }, w)
    else (false, s, w)

/-- The block `if(lanTimeCount)` that ends `Hmi2::checkLANResponse`: the session is closed
when the silence timer has run for more than 3000 ms. -/
def lanSilence (r : Bool × State × World) : Bool × State × World :=
  if r.2.1.lanTimeCount then
    let (t3, w) := r.2.2.millis
    if subU32 t3 r.2.1.reconectTime > 3000 then
      (r.1, { r.2.1 with lanConnectionStatus := false, lanTimeCount := false }, w.stop)
    else (r.1, r.2.1, w)
  else r

/-! ## RegisterStore: bit-packed words -/

/-- The `int` read from an `int16_t` cell: sign extension to `intBits` bits. -/
def sext (t : Target) (p : Nat) : Nat :=
  if 32768 ≤ p % 65536 then p % 65536 + (2 ^ t.intBits - 65536) else p % 65536

/-- The operator `>>` on an `int`: arithmetic shift of the `intBits`-bit pattern. -/
def asr (t : Target) (x : Nat) (k : Int) : Nat :=
  if x < 2 ^ (t.intBits - 1) then x >>> k.toNat
  else 2 ^ t.intBits - 1 - ((2 ^ t.intBits - 1 - x) >>> k.toNat)

/-- Method `Hmi2::setBitToInt`. -/
def setBitToInt (t : Target) (bitPos : Int) : Nat :=
  let temp := 1
  if bitPos > 0 then (temp <<< bitPos.toNat) % 2 ^ t.intBits else temp

/-- The loop body of `clearBitToInt`, run `n` times: `temp <<= 1; temp += 1`. -/
def clearBitLoop (t : Target) : Nat → Nat → Nat
  | 0, temp => temp
  | n + 1, temp => clearBitLoop t n (((temp <<< 1) % 2 ^ t.intBits + 1) % 2 ^ t.intBits)

/-- Method `Hmi2::clearBitToInt`. -/
def clearBitToInt (t : Target) (bitPos : Int) : Nat :=
  let temp := 0xFFFE % 2 ^ t.intBits
  if bitPos > 0 then clearBitLoop t bitPos.toNat temp else temp

/-- Method `Hmi2::setBitWord`. -/
def setBitWord (t : Target) (s : State) (wordPos bitPos : Int) (value : Bool) : State :=
  let temp := sext t (getAt s.bFile wordPos 0)
  let temp := if value then temp ||| setBitToInt t bitPos else temp &&& clearBitToInt t bitPos
  let temp := temp &&& gmask16
  { s with bFile := setAt s.bFile wordPos (temp % 65536) }

/-- Method `Hmi2::getBitWord`. -/
def getBitWord (t : Target) (s : State) (wordPos bitPos : Int) : Bool :=
  let tempInt := sext t (getAt s.bFile wordPos 0)
  let tempInt := asr t tempInt bitPos
  let tempInt := tempInt &&& 1
  if tempInt = 1 then true else false

/-- Method `Hmi2::setBitWordUpdate`. -/
def setBitWordUpdate (t : Target) (s : State) (wordPos bitPos : Int) : State :=
  let temp := sext t (getAt s.bFileUpdate wordPos 0)
  let temp := temp ||| setBitToInt t bitPos
  let temp := temp &&& gmask16
  { s with bFileUpdate := setAt s.bFileUpdate wordPos (temp % 65536) }

/-- Method `Hmi2::getBitWordUpdate`. -/
def getBitWordUpdate (t : Target) (s : State) (wordPos bitPos : Int) : Bool :=
  let tempInt := sext t (getAt s.bFileUpdate wordPos 0)
  let tempInt := asr t tempInt bitPos
  let tempInt := tempInt &&& 1
  if tempInt = 1 then true else false

/-- Method `Hmi2::resetBitWordOver`. -/
def resetBitWordOver (t : Target) (s : State) (wordPos bitPos : Int) : State :=
  let temp := sext t (getAt s.bFileOver wordPos 0)
  let temp := temp &&& clearBitToInt t bitPos
  let temp := temp &&& gmask16
  { s with bFileOver := setAt s.bFileOver wordPos (temp % 65536) }

/-- Method `Hmi2::getBitWordOver`: reads the override bit and clears it when set. -/
def getBitWordOver (t : Target) (s : State) (wordPos bitPos : Int) : Bool × State :=
  let tempInt := sext t (getAt s.bFileOver wordPos 0)
  let tempInt := asr t tempInt bitPos
  let tempInt := tempInt &&& 1
  if tempInt = 1 then (true, resetBitWordOver t s wordPos bitPos) else (false, s)

/-- Method `Hmi2::getNWordOver`. -/
def getNWordOver (s : State) (wordPos : Int) : Bool × State :=
  let temp := getAt s.nFileOver wordPos false
  if temp then (temp, { s with nFileOver := setAt s.nFileOver wordPos false }) else (temp, s)

/-- Method `Hmi2::getDWordOver`. -/
def getDWordOver (s : State) (wordPos : Int) : Bool × State :=
  let temp := getAt s.dFileOver wordPos false
  if temp then (temp, { s with dFileOver := setAt s.dFileOver wordPos false }) else (temp, s)

/-- Method `Hmi2::getFWordOver`. -/
def getFWordOver (s : State) (wordPos : Int) : Bool × State :=
  let temp := getAt s.fFileOver wordPos false
  if temp then (temp, { s with fFileOver := setAt s.fFileOver wordPos false }) else (temp, s)

/-! ## Write frames -/

/-- Method `Hmi2::writeBFile2`: the `C` frame. -/
def writeBFile2 (t : Target) (s : State) (w : World) (word bit : Int) (value : Bool) :
    State × World :=
  match s.connectionType with
  | ConnectionType.SOFT_SERIAL =>
    if t.softSerial then
      let w := w.write 64
      let w := w.write 67
      let w := w.write (byteOfInt word)
      let w := w.write (byteOfInt bit)
      let w := if value then w.write 49 else w.write 48
      let w := w.write 98
      let w := w.flush
      let r := checkSoftResponse t s w
      r.2
    else (s, w)
  | ConnectionType.HARD_SERIAL =>
    let w := w.write 64
    let w := w.write 67
    let w := w.write (byteOfInt word)
    let w := w.write (byteOfInt bit)
    let w := if value then w.write 49 else w.write 48
    let w := w.write 98
    let w := w.flush
    let r := checkHardResponse s w
    r.2
  | ConnectionType.LAN =>
    let (ok, s, w) := connect2Server s w
    if ok then
      let w := w.write (byteOfInt s.myLanSlot)
      let w := w.write 64
      let w := w.write 67
      let w := w.write (byteOfInt word)
      let w := w.write (byteOfInt bit)
      let w := if value then w.write 49 else w.write 48
      let w := w.write 98
      let w := w.flush
      let r := checkLANResponse s w
      r.2
    else (s, w)

/-- Method `Hmi2::writeNFile2`: the `L` frame. -/
def writeNFile2 (t : Target) (s : State) (w : World) (word : Int) (value : Nat) :
    State × World :=
  let s := fragmentData16 s value
  match s.connectionType with
  | ConnectionType.SOFT_SERIAL =>
    if t.softSerial then
      let w := w.write 64
      let w := w.write 76
      let w := w.write (byteOfInt word)
      let w := w.write s.hd
      let w := w.write s.md
      let w := w.write s.ld
      let w := w.write 98
      let w := w.flush
      let r := checkSoftResponse t s w
      r.2
    else (s, w)
  | ConnectionType.HARD_SERIAL =>
    let w := w.write 64
    let w := w.write 76
    let w := w.write (byteOfInt word)
    let w := w.write s.hd
    let w := w.write s.md
    let w := w.write s.ld
    let w := w.write 98
    let w := w.flush
    let r := checkHardResponse s w
    r.2
  | ConnectionType.LAN =>
    let (ok, s, w) := connect2Server s w
    if ok then
      let w := w.write (byteOfInt s.myLanSlot)
      let w := w.write 64
      let w := w.write 76
      let w := w.write (byteOfInt word)
      let w := w.write s.hd
      let w := w.write s.md
      let w := w.write s.ld
      let w := w.write 98
      let w := w.flush
      let r := checkLANResponse s w
      r.2
    else (s, w)

/-- Method `Hmi2::writeDFile2`: the `N` frame. -/
def writeDFile2 (t : Target) (s : State) (w : World) (word : Int) (value : Nat) :
    State × World :=
  let s := fragmentData32 s value
  match s.connectionType with
  | ConnectionType.SOFT_SERIAL =>
    if t.softSerial then
      let w := w.write 64
      let w := w.write 78
      let w := w.write (byteOfInt word)
      let w := w.write s.hd32
      let w := w.write s.md32
      let w := w.write s.ld32
      let w := w.write s.hd
      let w := w.write s.md
      let w := w.write s.ld
      let w := w.write 98
      let w := w.flush
      let r := checkSoftResponse t s w
      r.2
    else (s, w)
  | ConnectionType.HARD_SERIAL =>
    let w := w.write 64
    let w := w.write 78
    let w := w.write (byteOfInt word)
    let w := w.write s.hd32
    let w := w.write s.md32
    let w := w.write s.ld32
    let w := w.write s.hd
    let w := w.write s.md
    let w := w.write s.ld
    let w := w.write 98
    let w := w.flush
    let r := checkHardResponse s w
    r.2
  | ConnectionType.LAN =>
    let (ok, s, w) := connect2Server s w
    if ok then
      let w := w.write (byteOfInt s.myLanSlot)
      let w := w.write 64
      let w := w.write 78
      let w := w.write (byteOfInt word)
      let w := w.write s.hd32
      let w := w.write s.md32
      let w := w.write s.ld32
      let w := w.write s.hd
      let w := w.write s.md
      let w := w.write s.ld
      let w := w.write 98
      let w := w.flush
      let r := checkLANResponse s w
      r.2
    else (s, w)

/-- Method `Hmi2::writeFFile2`: the `P` frame. -/
def writeFFile2 (t : Target) (s : State) (w : World) (word : Int) (value : floatValue) :
    State × World :=
  let s := fragmentDataFloat s value
  match s.connectionType with
  | ConnectionType.SOFT_SERIAL =>
    if t.softSerial then
      let w := w.write 64
      let w := w.write 80
      let w := w.write (byteOfInt word)
      let w := w.write s.hd32
      let w := w.write s.md32
      let w := w.write s.ld32
      let w := w.write s.hd
      let w := w.write s.md
      let w := w.write s.ld
      let w := w.write 98
      let w := w.flush
      let r := checkSoftResponse t s w
      r.2
    else (s, w)
  | ConnectionType.HARD_SERIAL =>
    let w := w.write 64
    let w := w.write 80
    let w := w.write (byteOfInt word)
    let w := w.write s.hd32
    let w := w.write s.md32
    let w := w.write s.ld32
    let w := w.write s.hd
    let w := w.write s.md
    let w := w.write s.ld
    let w := w.write 98
    let w := w.flush
    let r := checkHardResponse s w
    r.2
  | ConnectionType.LAN =>
    let (ok, s, w) := connect2Server s w
    if ok then
      let w := w.write (byteOfInt s.myLanSlot)
      let w := w.write 64
      let w := w.write 80
      let w := w.write (byteOfInt word)
      let w := w.write s.hd32
      let w := w.write s.md32
      let w := w.write s.ld32
      let w := w.write s.hd
      let w := w.write s.md
      let w := w.write s.ld
      let w := w.write 98
      let w := w.flush
      let r := checkLANResponse s w
      r.2
    else (s, w)

/-! ## RegisterStore: read and write -/

/-- Whether a float is a NaN (IEEE-754 binary32, bytes least significant first). -/
def floatIsNaN (f : floatValue) : Bool :=
  decide (floatBits f / 8388608 % 256 = 255) && decide (floatBits f % 8388608 ≠ 0)

/-- Whether a float is `+0` or `-0`. -/
def floatIsZero (f : floatValue) : Bool := decide (floatBits f % 2147483648 = 0)

/-- The operator `!=` on two floats. -/
def floatNe (a b : floatValue) : Bool :=
  floatIsNaN a || floatIsNaN b ||
    (decide (floatBits a ≠ floatBits b) && !(floatIsZero a && floatIsZero b))

/-- Method `Hmi2::readBFile`. -/
def readBFile (t : Target) (s : State) (w : World) (word bit : Int) : Bool × State × World :=
  let temp := false
  if (0 ≤ word ∧ word < s.bSize) ∧ (0 ≤ bit ∧ bit < 16) then
    (getBitWord t s word bit, s, w)
  else (temp, s, w)

/-- Method `Hmi2::writeBFile`.  The operator `||` evaluates `getBitWordOver` only when the
stored bit equals `value`. -/
def writeBFile (t : Target) (s : State) (w : World) (word bit : Int) (value : Bool) :
    State × World :=
  if (0 ≤ word ∧ word < s.bSize) ∧ (0 ≤ bit ∧ bit < 16) then
    let c := if getBitWord t s word bit != value then (true, s) else getBitWordOver t s word bit
    let s := c.2
    if c.1 then
      let s := setBitWord t s word bit value
      let s := setBitWordUpdate t s word bit
      writeBFile2 t s w word bit value
    else (s, w)
  else (s, w)

/-- Method `Hmi2::readNFile`. -/
def readNFile (s : State) (w : World) (word : Int) : Nat × State × World :=
  let temp := 0
  if 0 ≤ word ∧ word < s.ndfSize then (getAt s.nFile word 0, s, w) else (temp, s, w)

/-- Method `Hmi2::writeNFile`.  The operator `||` evaluates `getNWordOver` only when the
stored value equals `value`. -/
def writeNFile (t : Target) (s : State) (w : World) (word : Int) (value : Nat) :
    State × World :=
  if 0 ≤ word ∧ word < s.ndfSize then
    let c := if getAt s.nFile word 0 ≠ value then (true, s) else getNWordOver s word
    let s := c.2
    if c.1 then
      let s := { s with nFile := setAt s.nFile word value }
      let s := { s with nFileUpdate := setAt s.nFileUpdate word true }
      writeNFile2 t s w word value
    else (s, w)
  else (s, w)

/-- Method `Hmi2::readDFile`. -/
def readDFile (s : State) (w : World) (word : Int) : Nat × State × World :=
  let temp := 0
  if 0 ≤ word ∧ word < s.ndfSize then (getAt s.dFile word 0, s, w) else (temp, s, w)

/-- Method `Hmi2::writeDFile`. -/
def writeDFile (t : Target) (s : State) (w : World) (word : Int) (value : Nat) :
    State × World :=
  if 0 ≤ word ∧ word < s.ndfSize then
    let c := if getAt s.dFile word 0 ≠ value then (true, s) else getDWordOver s word
    let s := c.2
    if c.1 then
      let s := { s with dFile := setAt s.dFile word value }
      let s := { s with dFileUpdate := setAt s.dFileUpdate word true }
      writeDFile2 t s w word value
    else (s, w)
  else (s, w)

/-- Method `Hmi2::readFFile`. -/
def readFFile (s : State) (w : World) (word : Int) : floatValue × State × World :=
  let temp : floatValue := ⟨0, 0, 0, 0⟩
  if 0 ≤ word ∧ word < s.ndfSize then (getAt s.fFile word ⟨0, 0, 0, 0⟩, s, w) else (temp, s, w)

/-- Method `Hmi2::writeFFile`. -/
def writeFFile (t : Target) (s : State) (w : World) (word : Int) (value : floatValue) :
    State × World :=
  if 0 ≤ word ∧ word < s.ndfSize then
    let c := if floatNe (getAt s.fFile word ⟨0, 0, 0, 0⟩) value then (true, s)
      else getFWordOver s word
    let s := c.2
    if c.1 then
      let s := { s with fFile := setAt s.fFile word value }
      let s := { s with fFileUpdate := setAt s.fFileUpdate word true }
      writeFFile2 t s w word value
    else (s, w)
  else (s, w)

/-! ## Public accessors -/

def getBoolean (t : Target) (s : State) (w : World) (word bit : Int) : Bool × State × World :=
  readBFile t s w word bit

def getBFileBit (t : Target) (s : State) (w : World) (word bit : Int) : Bool × State × World :=
  readBFile t s w word bit

def setBoolean (t : Target) (s : State) (w : World) (word bit : Int) (value : Bool) :
    State × World :=
  writeBFile t s w word bit value

def setBFileBit (t : Target) (s : State) (w : World) (word bit : Int) (value : Bool) :
    State × World :=
  writeBFile t s w word bit value

def getInt (s : State) (w : World) (word : Int) : Nat × State × World := readNFile s w word

def getNFile (s : State) (w : World) (word : Int) : Nat × State × World := readNFile s w word

def setInt (t : Target) (s : State) (w : World) (word : Int) (value : Nat) : State × World :=
  writeNFile t s w word value

def setNFile (t : Target) (s : State) (w : World) (word : Int) (value : Nat) : State × World :=
  writeNFile t s w word value

def getDouble (s : State) (w : World) (word : Int) : Nat × State × World := readDFile s w word

def getDInt (s : State) (w : World) (word : Int) : Nat × State × World := readDFile s w word

def setDouble (t : Target) (s : State) (w : World) (word : Int) (value : Nat) : State × World :=
  writeDFile t s w word value

def setDInt (t : Target) (s : State) (w : World) (word : Int) (value : Nat) : State × World :=
  writeDFile t s w word value

def getFloat (s : State) (w : World) (word : Int) : floatValue × State × World :=
  readFFile s w word

def getFFile (s : State) (w : World) (word : Int) : floatValue × State × World :=
  readFFile s w word

def setFloat (t : Target) (s : State) (w : World) (word : Int) (value : floatValue) :
    State × World :=
  writeFFile t s w word value

def setFFile (t : Target) (s : State) (w : World) (word : Int) (value : floatValue) :
    State × World :=
  writeFFile t s w word value

/-! ## Construction and `init` -/

/-- A freshly constructed object: the member initialisers of the header for capacities
`bSize` and `ndfSize`; members without an initialiser are taken as zero. -/
def State.fresh (bSize ndfSize : Nat) : State :=
  { bSize := bSize
    ndfSize := ndfSize
    bFile := List.replicate bSize 0
    bFileOver := List.replicate bSize 0
    bFileUpdate := List.replicate bSize 0
    nFile := List.replicate ndfSize 0
    nFileOver := List.replicate ndfSize false
    nFileUpdate := List.replicate ndfSize false
    dFile := List.replicate ndfSize 0
    dFileOver := List.replicate ndfSize false
    dFileUpdate := List.replicate ndfSize false
    fFile := List.replicate ndfSize ⟨0, 0, 0, 0⟩
    fFileOver := List.replicate ndfSize false
    fFileUpdate := List.replicate ndfSize false
    inCount := false
    syncro := false
    overrideSend := false
    ld := 0
    md := 0
    hd := 0
    ld32 := 0
    md32 := 0
    hd32 := 0
    tempValue := 0
    tempValue32 := 0
    bufferSerial := List.replicate 128 0
    overDisplay := false
    reconectTime := 0
    startTime := 0
    serverTime := 0
    connectionType := ConnectionType.HARD_SERIAL
    lanConnectionStatus := false
    myLanSlot := 0
    lanTimeCount := false
    reconnectServer := false }

/-- The overload `Hmi2::init(HardwareSerial&)`. -/
def initHard (s : State) : State :=
  { s with connectionType := ConnectionType.HARD_SERIAL, syncro := true, overrideSend := false,
           overDisplay := false }

/-- The overload `Hmi2::init(SoftwareSerial&)`. -/
def initSoft (s : State) : State :=
  { s with connectionType := ConnectionType.SOFT_SERIAL, syncro := true, overrideSend := false,
           overDisplay := false }

/-- The overload `Hmi2::init(IPAddress, int)`. -/
def initLAN (s : State) (w : World) (lanMemoryBank : Int) : State × World :=
  let s := { s with myLanSlot := if lanMemoryBank < 1 then 1 else if lanMemoryBank > 6 then 6
                                  else lanMemoryBank }
  let s := { s with connectionType := ConnectionType.LAN }
  let s := { s with lanConnectionStatus := false, reconnectServer := true }
  let r := connect2Server s w
  ({ r.2.1 with syncro := true, overrideSend := false, overDisplay := false }, r.2.2)

/-- The arrays have the capacities the object announces. -/
def State.WF (s : State) : Prop :=
  s.bFile.length = s.bSize ∧ s.bFileOver.length = s.bSize ∧ s.bFileUpdate.length = s.bSize ∧
  s.nFile.length = s.ndfSize ∧ s.nFileOver.length = s.ndfSize ∧
  s.nFileUpdate.length = s.ndfSize ∧
  s.dFile.length = s.ndfSize ∧ s.dFileOver.length = s.ndfSize ∧
  s.dFileUpdate.length = s.ndfSize ∧
  s.fFile.length = s.ndfSize ∧ s.fFileOver.length = s.ndfSize ∧
  s.fFileUpdate.length = s.ndfSize ∧
  s.bufferSerial.length = 128

instance (s : State) : Decidable s.WF := by unfold State.WF; infer_instance

/-- The transport is a serial line that is compiled in. -/
def serialLink (t : Target) (s : State) : Prop :=
  s.connectionType = ConnectionType.HARD_SERIAL ∨
    (s.connectionType = ConnectionType.SOFT_SERIAL ∧ t.softSerial = true)

instance (t : Target) (s : State) : Decidable (serialLink t s) := by
  unfold serialLink; infer_instance

/-- An idle world with the given panel replies. -/
def World.idle (rx : List (List Nat)) : World :=
  { trace := [], rx := rx, clock := [], now := 0, connects := [] }

/-! ## SyncEngine

`update()` is the poll, the drain loop and the push-back pass.  The drain loop runs once
per reply of the panel; it is given `fuel` iterations and reports `outOfFuel` when they
do not suffice.  A record of the panel can drive the code into an access that C++ leaves
undefined (a negative array index when `char` is signed, a shift by at least the width of
`int`); such a run ends in a `Fault` instead of a made-up result. -/

/-- Why a run of `update()` has no result in the model. -/
inductive Fault where
  | outOfFuel
  | outOfBounds
  | shiftTooWide
deriving DecidableEq, Repr

/-- The cell `bufferSerial[i]` converted to `int`. -/
def bufAt (t : Target) (s : State) (i : Nat) : Int := charToInt t (s.bufferSerial.getD i 0)

/-- Method `Hmi2::sendBasicCommand`. -/
def sendBasicCommand (t : Target) (s : State) (w : World) (command : Nat) :
    Bool × State × World :=
  let okData := false
  match s.connectionType with
  | ConnectionType.SOFT_SERIAL =>
    if t.softSerial then
      let w := w.write 64
      let w := w.write command
      let w := w.write 98
      let w := w.flush
      checkSoftResponse t s w
    else (okData, s, w)
  | ConnectionType.HARD_SERIAL =>
    let w := w.write 64
    let w := w.write command
    let w := w.write 98
    let w := w.flush
    checkHardResponse s w
  | ConnectionType.LAN =>
    let (ok, s, w) := connect2Server s w
    if ok then
      let w := w.write (byteOfInt s.myLanSlot)
      let w := w.write 64
      let w := w.write command
      let w := w.write 98
      let w := w.flush
      checkLANResponse s w
    else (okData, s, w)

/-- The body of the `switch(bufferSerial[0])` in the drain loop of `Hmi2::update`, applied to
the record in the receive buffer.  It returns the object, `readingData` and
`update2Android`. -/
def applyRecord (t : Target) (s : State) (update2Android : Bool) :
    Except Fault (State × Bool × Bool) :=
  let tag := bufAt t s 0
  if tag = 65 then
    if bufAt t s 1 < s.bSize then
      if bufAt t s 1 < 0 then .error Fault.outOfBounds
      else if bufAt t s 3 = 49 then
        if (t.intBits : Int) ≤ bufAt t s 2 then .error Fault.shiftTooWide
        else .ok (setBitWord t s (bufAt t s 1) (bufAt t s 2) true, true, update2Android)
      else .ok (setBitWord t s (bufAt t s 1) (bufAt t s 2) false, true, update2Android)
    else .ok (s, true, update2Android)
  else if tag = 75 then
    if bufAt t s 1 < s.ndfSize then
      if bufAt t s 1 < 0 then .error Fault.outOfBounds
      else
        let v := joinInt16 t (s.bufferSerial.getD 2 0) (s.bufferSerial.getD 3 0)
          (s.bufferSerial.getD 4 0)
        .ok ({ s with nFile := setAt s.nFile (bufAt t s 1) v }, true, update2Android)
    else .ok (s, true, update2Android)
  else if tag = 77 then
    if bufAt t s 1 < s.ndfSize then
      if bufAt t s 1 < 0 then .error Fault.outOfBounds
      else
        let v := joinInt32 t (s.bufferSerial.getD 2 0) (s.bufferSerial.getD 3 0)
          (s.bufferSerial.getD 4 0) (s.bufferSerial.getD 5 0) (s.bufferSerial.getD 6 0)
          (s.bufferSerial.getD 7 0)
        .ok ({ s with dFile := setAt s.dFile (bufAt t s 1) v }, true, update2Android)
    else .ok (s, true, update2Android)
  else if tag = 79 then
    if bufAt t s 1 < s.ndfSize then
      if bufAt t s 1 < 0 then .error Fault.outOfBounds
      else
        let preFloat := joinInt32 t (s.bufferSerial.getD 2 0) (s.bufferSerial.getD 3 0)
          (s.bufferSerial.getD 4 0) (s.bufferSerial.getD 5 0) (s.bufferSerial.getD 6 0)
          (s.bufferSerial.getD 7 0)
        .ok ({ s with fFile := setAt s.fFile (bufAt t s 1) (joinFloat preFloat) }, true,
          update2Android)
    else .ok (s, true, update2Android)
  else if tag = 100 then .ok ({ s with syncro := false }, false, update2Android)
  else if tag = 102 then .ok ({ s with overrideSend := true }, true, update2Android)
  else if tag = 103 then .ok ({ s with syncro := false }, false, true)
  else .ok (s, true, update2Android)

/-- The loop `while(readingData)` of `Hmi2::update`. -/
def drainLoop (t : Target) : Nat → State → World → Bool → Except Fault (State × World × Bool)
  | 0, _, _, _ => .error Fault.outOfFuel
  | fuel + 1, s, w, update2Android =>
    let r := sendBasicCommand t s w 99
    if r.1 then
      match applyRecord t r.2.1 update2Android with
      | .error f => .error f
      | .ok a => if a.2.1 then drainLoop t fuel a.1 r.2.2 a.2.2 else .ok (a.1, r.2.2, a.2.2)
    else .ok (r.2.1, r.2.2, update2Android)

/-- The assignments `a[i] = v` for `i = 0 .. n-1`. -/
def setAll {α : Type} (l : List α) (n : Nat) (v : α) : List α :=
  (List.range n).foldl (fun l i => l.set i v) l

/-- The inner loop `for(j = 0; j < 16; j++)` of the push-back pass, for word `i`. -/
def pushBackBits (t : Target) (i : Nat) (sw : State × World) : State × World :=
  (List.range 16).foldl (fun sw (j : Nat) =>
    if getBitWordUpdate t sw.1 i j then
      writeBFile2 t sw.1 sw.2 i j (getBitWord t sw.1 i j)
    else sw) sw

/-- The push-back pass of `Hmi2::update` (the block `if(update2Android)`). -/
def pushBack (t : Target) (s : State) (w : World) : State × World :=
  let sw := (List.range s.bSize).foldl (fun sw (i : Nat) =>
    if getAt sw.1.bFileUpdate i 0 ≠ 0 then pushBackBits t i sw else sw) (s, w)
  (List.range s.ndfSize).foldl (fun sw (i : Nat) =>
    let sw := if getAt sw.1.nFileUpdate i false then
      writeNFile2 t sw.1 sw.2 i (getAt sw.1.nFile i 0) else sw
    let sw := if getAt sw.1.dFileUpdate i false then
      writeDFile2 t sw.1 sw.2 i (getAt sw.1.dFile i 0) else sw
    if getAt sw.1.fFileUpdate i false then
      writeFFile2 t sw.1 sw.2 i (getAt sw.1.fFile i ⟨0, 0, 0, 0⟩) else sw) sw

/-- The part of `Hmi2::update` after the drain loop: `overDisplay`, the resend request
(`overrideSend`) and the push-back pass. -/
def finishTick (t : Target) (s : State) (w : World) (update2Android : Bool) : State × World :=
  let s := if s.overDisplay then { s with overDisplay := false } else s
  let s :=
    if s.overrideSend then
      { s with overrideSend := false, overDisplay := true,
               bFileOver := setAll s.bFileOver s.bSize 65535,
               nFileOver := setAll s.nFileOver s.ndfSize true,
               dFileOver := setAll s.dFileOver s.ndfSize true,
               fFileOver := setAll s.fFileOver s.ndfSize true }
    else s
  if update2Android then pushBack t s w else (s, w)

/-- The poll of `Hmi2::update`: command `a` in sync mode, `e` otherwise. -/
def pollTick (t : Target) (s : State) (w : World) : Bool × State × World :=
  if s.syncro then sendBasicCommand t s w 97 else sendBasicCommand t s w 101

/-- The poll and the drain loop of `Hmi2::update`: everything up to the end of the block
`if(okData)`.  It returns the object, the world and `update2Android`. -/
def drainTick (t : Target) (s : State) (w : World) : Except Fault (State × World × Bool) :=
  let update2Android := false
  let r := pollTick t s w
  if r.1 then
    if bufAt t r.2.1 0 = 99 then drainLoop t (r.2.2.rx.length + 1) r.2.1 r.2.2 update2Android
    else if bufAt t r.2.1 0 = 100 then
      .ok ({ r.2.1 with syncro := false }, r.2.2, update2Android)
    else .ok (r.2.1, r.2.2, update2Android)
  else .ok (r.2.1, r.2.2, update2Android)

/-- Method `Hmi2::update`. -/
def update (t : Target) (s : State) (w : World) : Except Fault (State × World) :=
  match drainTick t s w with
  | .error f => .error f
  | .ok a => .ok (finishTick t a.1 a.2.1 a.2.2)

/-! ## Observations used in the statements -/

/-- The register store: capacities, values, dirty flags and override flags of the four files. -/
structure Store where
  bSize : Nat
  ndfSize : Nat
  bFile : List Nat
  bFileOver : List Nat
  bFileUpdate : List Nat
  nFile : List Nat
  nFileOver : List Bool
  nFileUpdate : List Bool
  dFile : List Nat
  dFileOver : List Bool
  dFileUpdate : List Bool
  fFile : List floatValue
  fFileOver : List Bool
  fFileUpdate : List Bool
deriving DecidableEq, Repr

def State.store (s : State) : Store :=
  { bSize := s.bSize, ndfSize := s.ndfSize, bFile := s.bFile, bFileOver := s.bFileOver,
    bFileUpdate := s.bFileUpdate, nFile := s.nFile, nFileOver := s.nFileOver,
    nFileUpdate := s.nFileUpdate, dFile := s.dFile, dFileOver := s.dFileOver,
    dFileUpdate := s.dFileUpdate, fFile := s.fFile, fFileOver := s.fFileOver,
    fFileUpdate := s.fFileUpdate }

/-- The override flag of a Bit address, as `getBitWordOver` reports it. -/
def bitOver (t : Target) (s : State) (word bit : Int) : Bool := (getBitWordOver t s word bit).1

/-- The override flag of an Int address, as `getNWordOver` reports it. -/
def intOver (s : State) (word : Int) : Bool := (getNWordOver s word).1

/-- The override flag of a DInt address, as `getDWordOver` reports it. -/
def dintOver (s : State) (word : Int) : Bool := (getDWordOver s word).1

/-- The override flag of a Float address, as `getFWordOver` reports it. -/
def floatOver (s : State) (word : Int) : Bool := (getFWordOver s word).1

/-- Whether a frame handed to the transport is put on the wire: always on a compiled-in
serial line, on the socket when `connect2Server` returns true. -/
def linkUp (t : Target) (s : State) (w : World) : Bool :=
  match s.connectionType with
  | ConnectionType.HARD_SERIAL => true
  | ConnectionType.SOFT_SERIAL => t.softSerial
  | ConnectionType.LAN => (connect2Server s w).1

/-- The slot selector that precedes a frame on the socket. -/
def slotPrefix (s : State) : List Nat :=
  match s.connectionType with
  | ConnectionType.LAN => [byteOfInt s.myLanSlot]
  | _ => []

/-- The bytes of a `C` (write bit) frame. -/
def frameC (word bit : Int) (value : Bool) : List Nat :=
  [64, 67, byteOfInt word, byteOfInt bit, if value then 49 else 48, 98]

/-- The bytes of an `L` (write 16-bit int) frame: the sextets of `fragmentData16`. -/
def frameL (s : State) (word : Int) (value : Nat) : List Nat :=
  [64, 76, byteOfInt word, (fragmentData16 s value).hd, (fragmentData16 s value).md,
    (fragmentData16 s value).ld, 98]

/-- The bytes of an `N` (write 32-bit int) frame: the sextets of `fragmentData32`. -/
def frameN (s : State) (word : Int) (value : Nat) : List Nat :=
  [64, 78, byteOfInt word, (fragmentData32 s value).hd32, (fragmentData32 s value).md32,
    (fragmentData32 s value).ld32, (fragmentData32 s value).hd, (fragmentData32 s value).md,
    (fragmentData32 s value).ld, 98]

/-- The bytes of a `P` (write float) frame: the sextets of `fragmentDataFloat`. -/
def frameP (s : State) (word : Int) (value : floatValue) : List Nat :=
  [64, 80, byteOfInt word, (fragmentDataFloat s value).hd32, (fragmentDataFloat s value).md32,
    (fragmentDataFloat s value).ld32, (fragmentDataFloat s value).hd,
    (fragmentDataFloat s value).md, (fragmentDataFloat s value).ld, 98]

/-- The bytes of a poll or continue frame with command character `command`. -/
def frameCmd (command : Nat) : List Nat := [64, command % 256, 98]

/-- The members of the SyncEngine that the transport never writes: sync mode, the
resend-owed flag, `overDisplay`, the selected transport and the slot. -/
def State.sync (s : State) : Bool × Bool × Bool × ConnectionType × Int :=
  (s.syncro, s.overrideSend, s.overDisplay, s.connectionType, s.myLanSlot)

/-- A write frame: a `C`, `L`, `N` or `P` frame for some address and value. -/
def WriteFrame (f : List Nat) : Prop :=
  (∃ (word bit : Int) (v : Bool), f = frameC word bit v) ∨
  (∃ (s : State) (word : Int) (v : Nat), f = frameL s word v) ∨
  (∃ (s : State) (word : Int) (v : Nat), f = frameN s word v) ∨
  (∃ (s : State) (word : Int) (v : floatValue), f = frameP s word v)

/-- Whether the drain loop, started in this state and world, consumes a record whose tag
is `tag` (the loop of `drainLoop`, reduced to this question). -/
def drainSees (t : Target) (tag : Int) : Nat → State → World → Bool → Bool
  | 0, _, _, _ => false
  | fuel + 1, s, w, update2Android =>
    let r := sendBasicCommand t s w 99
    if r.1 then
      if bufAt t r.2.1 0 = tag then true
      else
        match applyRecord t r.2.1 update2Android with
        | .error _ => false
        | .ok a => if a.2.1 then drainSees t tag fuel a.1 r.2.2 a.2.2 else false
    else false

/-- Whether the batch drained by this tick contains a record whose tag is `tag`. -/
def tickSees (t : Target) (tag : Int) (s : State) (w : World) : Bool :=
  let r := pollTick t s w
  if r.1 then
    if bufAt t r.2.1 0 = 99 then drainSees t tag (r.2.2.rx.length + 1) r.2.1 r.2.2 false
    else false
  else false

/-- Whether the poll of this tick succeeds with a response whose first byte is `tag`. -/
def pollSees (t : Target) (tag : Int) (s : State) (w : World) : Bool :=
  (pollTick t s w).1 && decide (bufAt t (pollTick t s w).2.1 0 = tag)

/-- The dirty flags of the four files. -/
def State.dirty (s : State) : List Nat × List Bool × List Bool × List Bool :=
  (s.bFileUpdate, s.nFileUpdate, s.dFileUpdate, s.fFileUpdate)

/-- The override flags of the four files. -/
def State.over (s : State) : List Nat × List Bool × List Bool × List Bool :=
  (s.bFileOver, s.nFileOver, s.dFileOver, s.fFileOver)

/-- The members that neither an exchange nor a record touches, and the direction in which
the two mode flags can move. -/
def Keeps (s s' : State) : Prop :=
  s'.dirty = s.dirty ∧ s'.over = s.over ∧ s'.bSize = s.bSize ∧ s'.ndfSize = s.ndfSize ∧
  s'.connectionType = s.connectionType ∧ s'.overDisplay = s.overDisplay ∧
  s'.myLanSlot = s.myLanSlot ∧
  (s.overrideSend = true → s'.overrideSend = true) ∧ (s.syncro = false → s'.syncro = false)

/-! ## Sequences of calls -/

/-- The calls an application makes on the object. -/
inductive Call where
  | getBoolean (word bit : Int)
  | getBFileBit (word bit : Int)
  | setBoolean (word bit : Int) (value : Bool)
  | setBFileBit (word bit : Int) (value : Bool)
  | getInt (word : Int)
  | getNFile (word : Int)
  | setInt (word : Int) (value : Nat)
  | setNFile (word : Int) (value : Nat)
  | getDouble (word : Int)
  | getDInt (word : Int)
  | setDouble (word : Int) (value : Nat)
  | setDInt (word : Int) (value : Nat)
  | getFloat (word : Int)
  | getFFile (word : Int)
  | setFloat (word : Int) (value : floatValue)
  | setFFile (word : Int) (value : floatValue)
  | update

/-- One call on the object, in a world. -/
def Call.run (t : Target) (c : Call) (sw : State × World) : Except Fault (State × World) :=
  match c with
  | .getBoolean word bit => .ok (Hmi2.getBoolean t sw.1 sw.2 word bit).2
  | .getBFileBit word bit => .ok (Hmi2.getBFileBit t sw.1 sw.2 word bit).2
  | .setBoolean word bit value => .ok (Hmi2.setBoolean t sw.1 sw.2 word bit value)
  | .setBFileBit word bit value => .ok (Hmi2.setBFileBit t sw.1 sw.2 word bit value)
  | .getInt word => .ok (Hmi2.getInt sw.1 sw.2 word).2
  | .getNFile word => .ok (Hmi2.getNFile sw.1 sw.2 word).2
  | .setInt word value => .ok (Hmi2.setInt t sw.1 sw.2 word value)
  | .setNFile word value => .ok (Hmi2.setNFile t sw.1 sw.2 word value)
  | .getDouble word => .ok (Hmi2.getDouble sw.1 sw.2 word).2
  | .getDInt word => .ok (Hmi2.getDInt sw.1 sw.2 word).2
  | .setDouble word value => .ok (Hmi2.setDouble t sw.1 sw.2 word value)
  | .setDInt word value => .ok (Hmi2.setDInt t sw.1 sw.2 word value)
  | .getFloat word => .ok (Hmi2.getFloat sw.1 sw.2 word).2
  | .getFFile word => .ok (Hmi2.getFFile sw.1 sw.2 word).2
  | .setFloat word value => .ok (Hmi2.setFloat t sw.1 sw.2 word value)
  | .setFFile word value => .ok (Hmi2.setFFile t sw.1 sw.2 word value)
  | .update => Hmi2.update t sw.1 sw.2

/-- A sequence of calls, one after the other. -/
def runCalls (t : Target) : List Call → State × World → Except Fault (State × World)
  | [], sw => .ok sw
  | c :: cs, sw =>
    match c.run t sw with
    | .error f => .error f
    | .ok sw1 => runCalls t cs sw1

/-- Every dirty flag that is set in `s` is set in `s1`. -/
def DirtyKept (t : Target) (s s1 : State) : Prop :=
  (∀ word bit : Int, 0 ≤ bit ∧ bit < 16 →
    getBitWordUpdate t s word bit = true → getBitWordUpdate t s1 word bit = true) ∧
  (∀ word : Int, getAt s.nFileUpdate word false = true →
    getAt s1.nFileUpdate word false = true) ∧
  (∀ word : Int, getAt s.dFileUpdate word false = true →
    getAt s1.dFileUpdate word false = true) ∧
  (∀ word : Int, getAt s.fFileUpdate word false = true →
    getAt s1.fFileUpdate word false = true)

/-! ## The frames of the push-back pass, and frames as text -/

/-- The write frames of the dirty addresses, in the order of the specification: the Bit file by
ascending word and bit (`C` frames), then for every word index the `L`, `N` and `P` frame of
the Int, DInt and Float word; each frame carries the stored value. -/
def pushFrames (t : Target) (s : State) : List (List Nat) :=
  ((List.range s.bSize).flatMap fun (i : Nat) =>
    (List.range 16).flatMap fun (j : Nat) =>
      if getBitWordUpdate t s i j then [frameC i j (getBitWord t s i j)] else [])
  ++ (List.range s.ndfSize).flatMap fun (i : Nat) =>
    (if getAt s.nFileUpdate i false then [frameL s i (getAt s.nFile i 0)] else [])
    ++ (if getAt s.dFileUpdate i false then [frameN s i (getAt s.dFile i 0)] else [])
    ++ (if getAt s.fFileUpdate i false then
          [frameP s i (getAt s.fFile i ⟨0, 0, 0, 0⟩)] else [])

/-- What the transport of `s` does with the frames `fs` handed to it one by one: `outs` are
the bytes put on the wire for each.  A frame goes out behind the slot selector or, on the
socket while `connect2Server` returns false, not at all; a serial line that is compiled in
sends every frame as it is. -/
def Handed (t : Target) (s : State) (fs outs : List (List Nat)) : Prop :=
  List.Forall₂ (fun f o => o = [] ∨ o = slotPrefix s ++ f) fs outs ∧
  (serialLink t s → outs = fs)

/-- A frame that is safe to carry as text: the lead byte `0x40` comes first and nowhere
else, the terminator `0x62` comes last and nowhere else, and every byte after the command
byte and before the terminator (address and payload) is below 64. -/
def TextSafe (f : List Nat) : Prop :=
  f.head? = some 64 ∧ f.getLast? = some 98 ∧ f.count 64 = 1 ∧ f.count 98 = 1 ∧
  ∀ b ∈ (f.drop 2).dropLast, b < 64

/-- What a write adds to the wire: the frame behind the slot selector when the link is up,
nothing otherwise. -/
def onWire (t : Target) (s : State) (w : World) (frame : List Nat) : List Nat :=
  if linkUp t s w then slotPrefix s ++ frame else []

/-! ## Out-of-range records, and the writes of the push-back pass -/

/-- The record in the receive buffer drives the switch of the drain loop into an access that
C++ leaves undefined: a record of tag 65, 75, 77 or 79 whose word byte reads as a negative
`char` (it passes the guard `bufferSerial[1] < size`, which has no lower bound, and indexes
below the array), or a BINARY record that sets a bit of an in-range word at a position of at
least the width of `int`. -/
def recordFaults (t : Target) (s : State) : Bool :=
  if bufAt t s 0 = 65 then
    decide (bufAt t s 1 < 0) ||
      (decide (bufAt t s 1 < s.bSize) && decide (bufAt t s 3 = 49) &&
        decide ((t.intBits : Int) ≤ bufAt t s 2))
  else if bufAt t s 0 = 75 ∨ bufAt t s 0 = 77 ∨ bufAt t s 0 = 79 then
    decide (bufAt t s 1 < 0)
  else false

/-- Whether the drain loop, started in this state and world, consumes a record for which
`recordFaults` holds (the loop of `drainLoop`, reduced to this question). -/
def drainFaults (t : Target) : Nat → State → World → Bool → Bool
  | 0, _, _, _ => false
  | fuel + 1, s, w, update2Android =>
    let r := sendBasicCommand t s w 99
    if r.1 then
      if recordFaults t r.2.1 then true
      else
        match applyRecord t r.2.1 update2Android with
        | .error _ => false
        | .ok a => if a.2.1 then drainFaults t fuel a.1 r.2.2 a.2.2 else false
    else false

/-- Whether the batch drained by this tick contains a record for which `recordFaults`
holds. -/
def tickFaults (t : Target) (s : State) (w : World) : Bool :=
  let r := pollTick t s w
  if r.1 then
    if bufAt t r.2.1 0 = 99 then drainFaults t (r.2.2.rx.length + 1) r.2.1 r.2.2 false
    else false
  else false

/-- Whether the call is a tick. -/
def Call.isTick : Call → Bool
  | .update => true
  | _ => false

/-- Whether some tick of a sequence of calls drains a record for which `recordFaults`
holds. -/
def callsFault (t : Target) : List Call → State × World → Bool
  | [], _ => false
  | c :: cs, sw =>
    (c.isTick && tickFaults t sw.1 sw.2) ||
    (match c.run t sw with
      | .ok sw1 => callsFault t cs sw1
      | .error _ => false)

/-- The fault of a run, if it has one. -/
def faultOf {α : Type} : Except Fault α → Option Fault
  | .ok _ => none
  | .error f => some f

/-- A write of the push-back pass: the address and the value that one call of
`writeBFile2`, `writeNFile2`, `writeDFile2` or `writeFFile2` carries. -/
inductive Write where
  | ofBit (word pos : Nat) (value : Bool)
  | ofInt (word : Nat) (value : Nat)
  | ofDInt (word : Nat) (value : Nat)
  | ofFloat (word : Nat) (value : floatValue)
deriving DecidableEq, Repr

/-- The frame of a write (`C`, `L`, `N` or `P`). -/
def Write.frame (s : State) : Write → List Nat
  | .ofBit word pos value => frameC word pos value
  | .ofInt word value => frameL s word value
  | .ofDInt word value => frameN s word value
  | .ofFloat word value => frameP s word value

/-- The call that makes the write: the method of the class for its file. -/
def Write.send (t : Target) (x : Write) (sw : State × World) : State × World :=
  match x with
  | .ofBit word pos value => writeBFile2 t sw.1 sw.2 word pos value
  | .ofInt word value => writeNFile2 t sw.1 sw.2 word value
  | .ofDInt word value => writeDFile2 t sw.1 sw.2 word value
  | .ofFloat word value => writeFFile2 t sw.1 sw.2 word value

/-- The writes one after the other. -/
def sendAll (t : Target) (xs : List Write) (sw : State × World) : State × World :=
  xs.foldl (fun sw x => x.send t sw) sw

/-- The writes of the dirty addresses with the stored values, in the order of the
push-back pass: the Bit file by word and bit, then for every word index the Int, the DInt
and the Float word. -/
def pushWrites (t : Target) (s : State) : List Write :=
  ((List.range s.bSize).flatMap fun (i : Nat) =>
    (List.range 16).flatMap fun (j : Nat) =>
      if getBitWordUpdate t s i j then [Write.ofBit i j (getBitWord t s i j)] else [])
  ++ (List.range s.ndfSize).flatMap fun (i : Nat) =>
    (if getAt s.nFileUpdate i false then [Write.ofInt i (getAt s.nFile i 0)] else [])
    ++ (if getAt s.dFileUpdate i false then [Write.ofDInt i (getAt s.dFile i 0)] else [])
    ++ (if getAt s.fFileUpdate i false then
          [Write.ofFloat i (getAt s.fFile i ⟨0, 0, 0, 0⟩)] else [])

/-! ## Concrete objects used in the examples -/

/-- A 32-bit board on the hardware serial line, just after `init`. -/
def serialUp : State := initHard (State.fresh 60 50)

/-- The object and the world after `init(ip, 1)` when the first connect fails. -/
def lanDown : State × World := initLAN (State.fresh 60 50) (World.idle []) 1

/-- The object `lanDown` with every override flag set, as a resend request leaves it. -/
def lanDownOver : State :=
  { lanDown.1 with bFileOver := List.replicate 60 65535, nFileOver := List.replicate 50 true,
                   dFileOver := List.replicate 50 true, fFileOver := List.replicate 50 true }

/-- The object `serialUp` with every override flag set, as a resend request leaves it. -/
def serialOver : State :=
  { serialUp with bFileOver := List.replicate 60 65535, nFileOver := List.replicate 50 true,
                  dFileOver := List.replicate 50 true, fFileOver := List.replicate 50 true }

/-- A small object on the hardware serial line, just after `init`: two Bit words and three
words in each of the other files. -/
def serialSmall : State := initHard (State.fresh 2 3)

/-- The object `serialSmall` with the BINARY record `[65, 1, 5, '1']` in the receive buffer. -/
def bitByte5 : State :=
  { serialSmall with bufferSerial := [65, 1, 5, 49] ++ List.replicate 124 0 }

/-- The object `serialSmall` with the BINARY record `[65, 0, 200, '1']` in the receive
buffer: word 0, bit byte 200, value 1. -/
def bitByte200 : State :=
  { serialSmall with bufferSerial := [65, 0, 200, 49] ++ List.replicate 124 0 }

/-- A LAN session that is open, with 5 as its slot and no silence timer running. -/
def lanUp : State :=
  { State.fresh 2 3 with connectionType := ConnectionType.LAN, lanConnectionStatus := true,
                         myLanSlot := 5, syncro := true }

/-- A world in which the panel stays silent: `millis()` reads 1000, then 2000 twice, then
2100. -/
def silentWorld : World := { World.idle [] with clock := [1000, 2000, 2000, 2100] }

/-- The object `serialSmall` out of sync mode, as a batch that ended with END leaves it. -/
def serialAsync : State := { serialSmall with syncro := false }

/-- The object `serialSmall` at the head of a loop iteration, the receive buffer holding
the five bytes `[1, 2, 0, 0, 9]` of the response before. -/
def staleBuffer : State :=
  { serialSmall with bufferSerial := [1, 2, 0, 0, 9] ++ List.replicate 123 0 }

/-- An AVR board with the capacities of the ATmega328P (20 words in every file) on the
hardware serial line, just after `init`. -/
def serialAvr : State := initHard (State.fresh 20 20)

/-- The object `serialAvr` out of sync mode. -/
def serialAvrAsync : State := { serialAvr with syncro := false }

theorem and_mask_shiftRight (v k n : Nat) :
    (v &&& ((2 ^ n - 1) <<< k)) >>> k = v / 2 ^ k % 2 ^ n := by
  apply Nat.eq_of_testBit_eq
  intro i
  rw [← Nat.shiftRight_eq_div_pow]
  simp only [Nat.testBit_shiftRight, Nat.testBit_and, Nat.testBit_shiftLeft,
    Nat.testBit_two_pow_sub_one, Nat.testBit_mod_two_pow]
  have h1 : k + i ≥ k := Nat.le_add_right k i
  have h2 : k + i - k = i := by omega
  simp [h1, h2, Bool.and_comm]

theorem and_low_mask (v n : Nat) (m : Nat) (hm : m = 2 ^ n - 1) : v &&& m = v % 2 ^ n := by
  subst hm
  exact Nat.and_pow_two_sub_one_eq_mod v n

theorem and_mask_shiftRight_lit (v k n m : Nat) (hm : m = (2 ^ n - 1) <<< k) :
    (v &&& m) >>> k = v / 2 ^ k % 2 ^ n := by
  subst hm
  exact and_mask_shiftRight v k n

/-- A disjoint `or` of a low part and a shifted high part is their sum. -/
theorem or_shift_eq_add (lo hi k : Nat) (h : lo < 2 ^ k) : lo ||| hi * 2 ^ k = lo + hi * 2 ^ k := by
  rw [Nat.or_comm, Nat.mul_comm, ← Nat.mul_add_lt_is_or h hi, Nat.add_comm]

theorem charToInt_of_lt (t : Target) (c : Nat) (h : c < 128) : charToInt t c = (c : Int) := by
  unfold charToInt
  have h1 : c % 256 = c := Nat.mod_eq_of_lt (by omega)
  have h2 : ¬ (128 ≤ c) := by omega
  simp [h1, h2]

theorem toU16_natCast (c : Nat) : toU16 (c : Int) = c % 65536 := by
  unfold toU16; omega

theorem toU32_natCast (c : Nat) : toU32 (c : Int) = c % 4294967296 := by
  unfold toU32; omega

theorem shl32_natCast (c k : Nat) : shl32 (c : Int) k = (c * 2 ^ k) % 4294967296 := by
  unfold shl32
  have : ((c : Int) * 2 ^ k) = ((c * 2 ^ k : Nat) : Int) := by push_cast; ring
  rw [this, toU32_natCast]

/-! ## The sextets written by the encoders -/

theorem fragmentData16_ld (s : State) (v : Nat) : (fragmentData16 s v).ld = v % 64 := by
  have h : v &&& LDMASK = v % 2 ^ 6 := and_low_mask v 6 _ (by decide)
  simp only [fragmentData16, toU8, h]
  omega

theorem fragmentData16_md (s : State) (v : Nat) : (fragmentData16 s v).md = v / 64 % 64 := by
  have h : (v &&& MDMASK) >>> 6 = v / 2 ^ 6 % 2 ^ 6 := and_mask_shiftRight_lit v 6 6 _ (by decide)
  simp only [fragmentData16, toU8, h]
  omega

theorem fragmentData16_hd (s : State) (v : Nat) : (fragmentData16 s v).hd = v / 4096 % 16 := by
  have h : (v &&& HDMASK) >>> 12 = v / 2 ^ 12 % 2 ^ 4 := and_mask_shiftRight_lit v 12 4 _ (by decide)
  simp only [fragmentData16, toU8, h]
  omega

theorem joinInt16_sextets (t : Target) (h m l : Nat) (hh : h < 16) (hm : m < 64) (hl : l < 64) :
    joinInt16 t h m l = l + m * 64 + h * 4096 := by
  have e1 : (l ||| m * 2 ^ 6) = l + m * 2 ^ 6 := or_shift_eq_add l m 6 (by omega)
  have e2 : (l + m * 2 ^ 6 ||| h * 2 ^ 12) = l + m * 2 ^ 6 + h * 2 ^ 12 :=
    or_shift_eq_add (l + m * 2 ^ 6) h 12 (by omega)
  have e3 : ∀ x : Nat, x &&& gmask16 = x % 2 ^ 16 := fun x => and_low_mask x 16 _ (by decide)
  have m1 : m % 65536 * 2 ^ 6 % 65536 = m * 2 ^ 6 := by omega
  have m2 : h % 65536 * 2 ^ 12 % 65536 = h * 2 ^ 12 := by omega
  have m3 : l % 65536 = l := by omega
  simp only [joinInt16, charToInt_of_lt t h (by omega), charToInt_of_lt t m (by omega),
    charToInt_of_lt t l (by omega), toU16_natCast, Nat.shiftLeft_eq, m1, m2, m3, e1, e2, e3]
  omega

theorem fragmentData32_ld (s : State) (v : Nat) : (fragmentData32 s v).ld = v % 64 := by
  have h : v &&& BYTE6MASK0 = v % 2 ^ 6 := and_low_mask v 6 _ (by decide)
  simp only [fragmentData32, toU8, h]
  omega

theorem fragmentData32_md (s : State) (v : Nat) : (fragmentData32 s v).md = v / 64 % 64 := by
  have h : (v &&& BYTE6MASK1) >>> 6 = v / 2 ^ 6 % 2 ^ 6 :=
    and_mask_shiftRight_lit v 6 6 _ (by decide)
  simp only [fragmentData32, toU8, h]
  omega

theorem fragmentData32_hd (s : State) (v : Nat) : (fragmentData32 s v).hd = v / 4096 % 64 := by
  have h : (v &&& BYTE6MASK2) >>> 12 = v / 2 ^ 12 % 2 ^ 6 :=
    and_mask_shiftRight_lit v 12 6 _ (by decide)
  simp only [fragmentData32, toU8, h]
  omega

theorem fragmentData32_ld32 (s : State) (v : Nat) :
    (fragmentData32 s v).ld32 = v / 262144 % 64 := by
  have h : (v &&& BYTE6MASK3) >>> 18 = v / 2 ^ 18 % 2 ^ 6 :=
    and_mask_shiftRight_lit v 18 6 _ (by decide)
  simp only [fragmentData32, toU8, h]
  omega

theorem fragmentData32_md32 (s : State) (v : Nat) :
    (fragmentData32 s v).md32 = v / 16777216 % 64 := by
  have h : (v &&& BYTE6MASK4) >>> 24 = v / 2 ^ 24 % 2 ^ 6 :=
    and_mask_shiftRight_lit v 24 6 _ (by decide)
  simp only [fragmentData32, toU8, h]
  omega

theorem fragmentData32_hd32 (s : State) (v : Nat) :
    (fragmentData32 s v).hd32 = v / 1073741824 % 4 := by
  have h : (v &&& BYTE6MASK5) >>> 30 = v / 2 ^ 30 % 2 ^ 2 :=
    and_mask_shiftRight_lit v 30 2 _ (by decide)
  simp only [fragmentData32, toU8, h]
  omega

/-- A disjoint `or` of a shifted high part and a low part is their sum. -/
theorem shift_or_eq_add (hi lo k : Nat) (h : lo < 2 ^ k) : hi * 2 ^ k ||| lo = hi * 2 ^ k + lo := by
  rw [Nat.mul_comm, ← Nat.mul_add_lt_is_or h hi]

theorem joinInt32_sextets (t : Target) (s6 s5 s4 s3 s2 s1 : Nat) (h6 : s6 < 4) (h5 : s5 < 64)
    (h4 : s4 < 64) (h3 : s3 < 64) (h2 : s2 < 64) (h1 : s1 < 64) :
    joinInt32 t s6 s5 s4 s3 s2 s1 =
      s6 * 1073741824 + s5 * 16777216 + s4 * 262144 + s3 * 4096 + s2 * 64 + s1 := by
  have e1 : s2 * 2 ^ 6 ||| s1 = s2 * 2 ^ 6 + s1 := shift_or_eq_add s2 s1 6 (by omega)
  have e2 : s3 * 2 ^ 12 ||| (s2 * 2 ^ 6 + s1) = s3 * 2 ^ 12 + (s2 * 2 ^ 6 + s1) :=
    shift_or_eq_add s3 _ 12 (by omega)
  have e3 : s4 * 2 ^ 18 ||| (s3 * 2 ^ 12 + (s2 * 2 ^ 6 + s1))
      = s4 * 2 ^ 18 + (s3 * 2 ^ 12 + (s2 * 2 ^ 6 + s1)) := shift_or_eq_add s4 _ 18 (by omega)
  have e4 : s5 * 2 ^ 24 ||| (s4 * 2 ^ 18 + (s3 * 2 ^ 12 + (s2 * 2 ^ 6 + s1)))
      = s5 * 2 ^ 24 + (s4 * 2 ^ 18 + (s3 * 2 ^ 12 + (s2 * 2 ^ 6 + s1))) :=
    shift_or_eq_add s5 _ 24 (by omega)
  have e5 : s6 * 2 ^ 30 ||| (s5 * 2 ^ 24 + (s4 * 2 ^ 18 + (s3 * 2 ^ 12 + (s2 * 2 ^ 6 + s1))))
      = s6 * 2 ^ 30 + (s5 * 2 ^ 24 + (s4 * 2 ^ 18 + (s3 * 2 ^ 12 + (s2 * 2 ^ 6 + s1)))) :=
    shift_or_eq_add s6 _ 30 (by omega)
  have m6 : s6 * 2 ^ 30 % 4294967296 = s6 * 2 ^ 30 := by omega
  have m5 : s5 * 2 ^ 24 % 4294967296 = s5 * 2 ^ 24 := by omega
  have m4 : s4 * 2 ^ 18 % 4294967296 = s4 * 2 ^ 18 := by omega
  have m3 : s3 * 2 ^ 12 % 4294967296 = s3 * 2 ^ 12 := by omega
  have m2 : s2 * 2 ^ 6 % 4294967296 = s2 * 2 ^ 6 := by omega
  have m1 : s1 % 4294967296 = s1 := by omega
  simp only [joinInt32, charToInt_of_lt t s6 (by omega), charToInt_of_lt t s5 (by omega),
    charToInt_of_lt t s4 (by omega), charToInt_of_lt t s3 (by omega),
    charToInt_of_lt t s2 (by omega), charToInt_of_lt t s1 (by omega), shl32_natCast,
    toU32_natCast, m6, m5, m4, m3, m2, m1, Nat.or_assoc, e1, e2, e3, e4, e5]
  omega

/-- The sextets of `fragmentData32` join back to the encoded value, for every `uint32_t`. -/
theorem joinInt32_fragmentData32 (t : Target) (s : State) (v : Nat) (hv : v < 4294967296) :
    joinInt32 t (fragmentData32 s v).hd32 (fragmentData32 s v).md32 (fragmentData32 s v).ld32
      (fragmentData32 s v).hd (fragmentData32 s v).md (fragmentData32 s v).ld = v := by
  rw [fragmentData32_hd32, fragmentData32_md32, fragmentData32_ld32, fragmentData32_hd,
    fragmentData32_md, fragmentData32_ld]
  rw [joinInt32_sextets t _ _ _ _ _ _ (by omega) (by omega) (by omega) (by omega) (by omega)
    (by omega)]
  omega

theorem fragmentDataFloat_eq (s : State) (f : floatValue) :
    fragmentDataFloat s f = fragmentData32 s (floatBits f) := by
  have a1 : f.bytes1 % 256 * 2 ^ 8 % 4294967296 = f.bytes1 % 256 * 2 ^ 8 := by omega
  have a2 : f.bytes2 % 256 * 2 ^ 16 % 4294967296 = f.bytes2 % 256 * 2 ^ 16 := by omega
  have a3 : f.bytes3 % 256 * 2 ^ 24 % 4294967296 = f.bytes3 % 256 * 2 ^ 24 := by omega
  have e1 : f.bytes0 % 256 ||| f.bytes1 % 256 * 2 ^ 8 = f.bytes0 % 256 + f.bytes1 % 256 * 2 ^ 8 :=
    or_shift_eq_add _ _ 8 (by omega)
  have e2 : f.bytes0 % 256 + f.bytes1 % 256 * 2 ^ 8 ||| f.bytes2 % 256 * 2 ^ 16
      = f.bytes0 % 256 + f.bytes1 % 256 * 2 ^ 8 + f.bytes2 % 256 * 2 ^ 16 :=
    or_shift_eq_add _ _ 16 (by omega)
  have e3 : f.bytes0 % 256 + f.bytes1 % 256 * 2 ^ 8 + f.bytes2 % 256 * 2 ^ 16
        ||| f.bytes3 % 256 * 2 ^ 24
      = f.bytes0 % 256 + f.bytes1 % 256 * 2 ^ 8 + f.bytes2 % 256 * 2 ^ 16
        + f.bytes3 % 256 * 2 ^ 24 :=
    or_shift_eq_add _ _ 24 (by omega)
  simp only [fragmentDataFloat, Nat.shiftLeft_eq, a1, a2, a3, e1, e2, e3, floatBits]
  congr 1

theorem joinFloat_bytes (v : Nat) :
    joinFloat v = ⟨v % 256, v / 256 % 256, v / 65536 % 256, v / 16777216 % 256⟩ := by
  have h0 : v &&& BYTEMASK0 = v % 2 ^ 8 := and_low_mask v 8 _ (by decide)
  have h1 : (v &&& BYTEMASK1) >>> 8 = v / 2 ^ 8 % 2 ^ 8 :=
    and_mask_shiftRight_lit v 8 8 _ (by decide)
  have h2 : (v &&& BYTEMASK2) >>> 16 = v / 2 ^ 16 % 2 ^ 8 :=
    and_mask_shiftRight_lit v 16 8 _ (by decide)
  have h3 : (v &&& BYTEMASK3) >>> 24 = v / 2 ^ 24 % 2 ^ 8 :=
    and_mask_shiftRight_lit v 24 8 _ (by decide)
  simp only [joinFloat, toU8, h0, h1, h2, h3]
  congr 1 <;> omega

/-! ## Codec laws -/

/-- C1: 16-bit codec round trip.  For every 16-bit unsigned value `v`, joining the three
sextets that `fragmentData16 v` leaves in `hd`, `md`, `ld` with `joinInt16` gives `v` back,
whatever the signedness of `char`. -/
theorem codec16_round_trip (t : Target) (s : State) (v : Nat) (hv : v < 65536) :
    joinInt16 t (fragmentData16 s v).hd (fragmentData16 s v).md (fragmentData16 s v).ld = v := by
  rw [fragmentData16_hd, fragmentData16_md, fragmentData16_ld]
  rw [joinInt16_sextets t _ _ _ (by omega) (by omega) (by omega)]
  omega

theorem codec16_round_trip_witness :
    joinInt16 Target.avr (fragmentData16 (State.fresh 20 20) 1234).hd
      (fragmentData16 (State.fresh 20 20) 1234).md
      (fragmentData16 (State.fresh 20 20) 1234).ld = 1234 :=
  codec16_round_trip Target.avr (State.fresh 20 20) 1234 (by decide)

/-- C2: 32-bit codec round trip.  For every unsigned value `v` below `2^30`, joining the six
sextets produced by `fragmentData32 v` with `joinInt32` (shifts taken modulo `2^32`) gives
`v` back. -/
theorem codec32_round_trip (t : Target) (s : State) (v : Nat) (hv : v < 1073741824) :
    joinInt32 t (fragmentData32 s v).hd32 (fragmentData32 s v).md32 (fragmentData32 s v).ld32
      (fragmentData32 s v).hd (fragmentData32 s v).md (fragmentData32 s v).ld = v :=
  joinInt32_fragmentData32 t s v (by omega)

theorem codec32_round_trip_witness :
    joinInt32 Target.avr (fragmentData32 (State.fresh 20 20) 123456789).hd32
      (fragmentData32 (State.fresh 20 20) 123456789).md32
      (fragmentData32 (State.fresh 20 20) 123456789).ld32
      (fragmentData32 (State.fresh 20 20) 123456789).hd
      (fragmentData32 (State.fresh 20 20) 123456789).md
      (fragmentData32 (State.fresh 20 20) 123456789).ld = 123456789 :=
  codec32_round_trip Target.avr (State.fresh 20 20) 123456789 (by decide)

/-- C3: float codec round trip at the bit level.  For every four-byte float representation
`(b0, b1, b2, b3)`, encoding it with `fragmentDataFloat`, joining the six sextets with
`joinInt32` and passing the result to `joinFloat` reconstructs exactly the four bytes. -/
theorem float_codec_round_trip (t : Target) (s : State) (f : floatValue)
    (h0 : f.bytes0 < 256) (h1 : f.bytes1 < 256) (h2 : f.bytes2 < 256) (h3 : f.bytes3 < 256) :
    joinFloat (joinInt32 t (fragmentDataFloat s f).hd32 (fragmentDataFloat s f).md32
      (fragmentDataFloat s f).ld32 (fragmentDataFloat s f).hd (fragmentDataFloat s f).md
      (fragmentDataFloat s f).ld) = f := by
  have hb : floatBits f < 4294967296 := by unfold floatBits; omega
  rw [fragmentDataFloat_eq, joinInt32_fragmentData32 t s _ hb, joinFloat_bytes]
  cases f with
  | mk b0 b1 b2 b3 =>
    simp only [floatBits] at *
    congr 1 <;> omega

theorem float_codec_round_trip_witness :
    joinFloat (joinInt32 Target.arm32
      (fragmentDataFloat (State.fresh 60 50) ⟨0, 0, 128, 191⟩).hd32
      (fragmentDataFloat (State.fresh 60 50) ⟨0, 0, 128, 191⟩).md32
      (fragmentDataFloat (State.fresh 60 50) ⟨0, 0, 128, 191⟩).ld32
      (fragmentDataFloat (State.fresh 60 50) ⟨0, 0, 128, 191⟩).hd
      (fragmentDataFloat (State.fresh 60 50) ⟨0, 0, 128, 191⟩).md
      (fragmentDataFloat (State.fresh 60 50) ⟨0, 0, 128, 191⟩).ld) = ⟨0, 0, 128, 191⟩ :=
  float_codec_round_trip Target.arm32 (State.fresh 60 50) ⟨0, 0, 128, 191⟩
    (by decide) (by decide) (by decide) (by decide)

/-- C4: every encoder output is a sextet.  Each byte that `fragmentData16` writes to
`hd`, `md`, `ld` and each byte that `fragmentData32` and `fragmentDataFloat` write to
`hd32`, `md32`, `ld32`, `hd`, `md`, `ld` is in `0..63`; the top sextet is at most 15 for
the 16-bit encoding and at most 3 for the 32-bit encodings. -/
theorem encoder_outputs_are_sextets (s : State) (v : Nat) (f : floatValue) :
    ((fragmentData16 s v).hd ≤ 15 ∧ (fragmentData16 s v).md ≤ 63 ∧
      (fragmentData16 s v).ld ≤ 63) ∧
    ((fragmentData32 s v).hd32 ≤ 3 ∧ (fragmentData32 s v).md32 ≤ 63 ∧
      (fragmentData32 s v).ld32 ≤ 63 ∧ (fragmentData32 s v).hd ≤ 63 ∧
      (fragmentData32 s v).md ≤ 63 ∧ (fragmentData32 s v).ld ≤ 63) ∧
    ((fragmentDataFloat s f).hd32 ≤ 3 ∧ (fragmentDataFloat s f).md32 ≤ 63 ∧
      (fragmentDataFloat s f).ld32 ≤ 63 ∧ (fragmentDataFloat s f).hd ≤ 63 ∧
      (fragmentDataFloat s f).md ≤ 63 ∧ (fragmentDataFloat s f).ld ≤ 63) := by
  rw [fragmentDataFloat_eq]
  simp only [fragmentData16_hd, fragmentData16_md, fragmentData16_ld, fragmentData32_hd32,
    fragmentData32_md32, fragmentData32_ld32, fragmentData32_hd, fragmentData32_md,
    fragmentData32_ld]
  omega

/-! ## Bit patterns -/

theorem sext_lt (t : Target) (ht : t.ok) (p : Nat) : sext t p < 2 ^ t.intBits := by
  unfold sext
  rcases ht with h | h <;> rw [h] <;> split <;> omega

theorem sext_testBit (t : Target) (ht : t.ok) (p j : Nat) (hj : j < 16) :
    (sext t p).testBit j = p.testBit j := by
  have hq : (p % 65536).testBit j = p.testBit j := by
    have : (65536 : Nat) = 2 ^ 16 := by norm_num
    rw [this, Nat.testBit_mod_two_pow]
    simp [hj]
  unfold sext
  split
  · rcases ht with h | h <;> rw [h]
    · simpa using hq
    · have e : p % 65536 + (2 ^ 32 - 65536) = 2 ^ 16 * 65535 + p % 65536 := by omega
      rw [e, Nat.testBit_mul_pow_two_add _ (by omega)]
      simp [hj, hq]
  · exact hq

theorem asr_bit (t : Target) (x k : Nat) (hx : x < 2 ^ t.intBits)
    (hk : k < t.intBits) :
    (if asr t x (k : Int) &&& 1 = 1 then true else false) = x.testBit k := by
  have h0 : ∀ a : Nat, (if a &&& 1 = 1 then true else false) = a.testBit 0 := by
    intro a
    rw [Nat.and_one_is_mod, Nat.testBit_zero]
    by_cases h : a % 2 = 1 <;> simp [h]
  rw [h0]
  unfold asr
  simp only [Int.toNat_ofNat]
  split
  · simp [Nat.testBit_shiftRight]
  · have hz : (2 ^ t.intBits - 1 - x) >>> k < 2 ^ t.intBits := by
      rw [Nat.shiftRight_eq_div_pow]
      exact lt_of_le_of_lt (Nat.div_le_self _ _) (by omega)
    have e1 : 2 ^ t.intBits - 1 - (2 ^ t.intBits - 1 - x) >>> k
        = 2 ^ t.intBits - ((2 ^ t.intBits - 1 - x) >>> k + 1) := by omega
    have e2 : 2 ^ t.intBits - 1 - x = 2 ^ t.intBits - (x + 1) := by omega
    have hpos : 0 < t.intBits := by omega
    rw [e1, Nat.testBit_two_pow_sub_succ hz, Nat.testBit_shiftRight, e2,
      Nat.testBit_two_pow_sub_succ hx]
    simp [hk, hpos]

theorem bit_read (t : Target) (ht : t.ok) (p k : Nat) (hk : k < 16) :
    (if asr t (sext t p) (k : Int) &&& 1 = 1 then true else false) = p.testBit k := by
  have hW : k < t.intBits := by rcases ht with h | h <;> omega
  rw [asr_bit t _ k (sext_lt t ht p) hW, sext_testBit t ht p k hk]

theorem setBitToInt_eq (t : Target) (ht : t.ok) (k : Nat) (hk : k < 16) :
    setBitToInt t (k : Int) = 2 ^ k := by
  unfold setBitToInt
  have hlt : 2 ^ k < 2 ^ t.intBits :=
    Nat.pow_lt_pow_right (by norm_num) (by rcases ht with h | h <;> omega)
  by_cases h : (k : Int) > 0
  · simp only [h, if_true, Int.toNat_ofNat, Nat.one_shiftLeft]
    exact Nat.mod_eq_of_lt hlt
  · have : k = 0 := by omega
    subst this
    simp

theorem testBit_two_mul_add_one (a m : Nat) :
    (2 * a + 1).testBit m = if m = 0 then true else a.testBit (m - 1) := by
  have h := Nat.testBit_mul_pow_two_add a (show 1 < 2 ^ 1 by norm_num) m
  simp only [pow_one] at h
  rw [h]
  by_cases hm : m = 0
  · subst hm; simp
  · have : ¬ m < 1 := by omega
    simp [hm, this]

theorem clearBitLoop_testBit (t : Target) (ht : t.ok) (n a j : Nat) (hj : j < t.intBits) :
    (clearBitLoop t n a).testBit j = if j < n then true else a.testBit (j - n) := by
  induction n generalizing a with
  | zero => simp [clearBitLoop]
  | succ n ih =>
    have hM : 1 % 2 ^ t.intBits = 1 := by
      rcases ht with h | h <;> rw [h] <;> norm_num
    have hf : ((a <<< 1) % 2 ^ t.intBits + 1) % 2 ^ t.intBits = (2 * a + 1) % 2 ^ t.intBits := by
      rw [Nat.shiftLeft_eq, pow_one, Nat.mul_comm a 2]
      conv_rhs => rw [Nat.add_mod, hM]
    rw [clearBitLoop, hf, ih]
    by_cases h1 : j < n
    · have : j < n + 1 := by omega
      simp [h1, this]
    · have hlt : j - n < t.intBits := by omega
      rw [if_neg h1, Nat.testBit_mod_two_pow, testBit_two_mul_add_one]
      by_cases h2 : j = n
      · subst h2
        have : 0 < t.intBits := by omega
        simp [this]
      · have h3 : ¬ j < n + 1 := by omega
        have h4 : j - n ≠ 0 := by omega
        have h5 : j - n - 1 = j - (n + 1) := by omega
        simp [h3, h4, h5, hlt]

theorem testBit_65534 (m : Nat) : (65534 : Nat).testBit m = (decide (m ≠ 0) && decide (m < 16)) := by
  have h := Nat.testBit_two_pow_sub_succ (show 1 < 2 ^ 16 by norm_num) m
  have e : (2 : Nat) ^ 16 - (1 + 1) = 65534 := by norm_num
  rw [e] at h
  rw [h]
  by_cases hm : m = 0
  · subst hm; simp
  · have : Nat.testBit 1 m = false := by
      cases hb : Nat.testBit 1 m
      · rfl
      · exact absurd (Nat.testBit_one_eq_true_iff_self_eq_zero.mp hb) hm
    simp [hm, this, Bool.and_comm]

theorem clearBitToInt_testBit (t : Target) (ht : t.ok) (k j : Nat) (hk : k < 16) (hj : j < 16) :
    (clearBitToInt t (k : Int)).testBit j = decide (j ≠ k) := by
  have hW : j < t.intBits := by rcases ht with h | h <;> omega
  have h0 : 0xFFFE % 2 ^ t.intBits = 65534 := by
    rcases ht with h | h <;> rw [h] <;> norm_num
  unfold clearBitToInt
  rw [h0]
  by_cases h : (k : Int) > 0
  · simp only [h, if_true, Int.toNat_ofNat]
    rw [clearBitLoop_testBit t ht k 65534 j hW, testBit_65534]
    by_cases h1 : j < k
    · have : j ≠ k := by omega
      simp [h1, this]
    · by_cases h2 : j = k
      · subst h2; simp
      · have h3 : j - k ≠ 0 := by omega
        have h4 : j - k < 16 := by omega
        simp [h1, h2, h3, h4]
  · have : k = 0 := by omega
    subst this
    simp [testBit_65534, hj]

theorem and_gmask16_testBit (x j : Nat) (hj : j < 16) :
    ((x &&& gmask16) % 65536).testBit j = x.testBit j := by
  have e : (65536 : Nat) = 2 ^ 16 := by norm_num
  have g : gmask16 = 2 ^ 16 - 1 := by decide
  rw [e, Nat.testBit_mod_two_pow, g, Nat.and_pow_two_sub_one_eq_mod, Nat.testBit_mod_two_pow]
  simp [hj]

theorem and_gmask16_lt (x : Nat) : (x &&& gmask16) % 65536 < 65536 := Nat.mod_lt _ (by norm_num)

/-- The word written by `setBitWord` with `value = true`. -/
theorem set_pattern_testBit (t : Target) (ht : t.ok) (p k j : Nat) (hk : k < 16) (hj : j < 16) :
    (((sext t p ||| setBitToInt t (k : Int)) &&& gmask16) % 65536).testBit j
      = (p.testBit j || decide (k = j)) := by
  rw [and_gmask16_testBit _ _ hj, Nat.testBit_or, sext_testBit t ht p j hj,
    setBitToInt_eq t ht k hk, Nat.testBit_two_pow]

/-- The word written by `setBitWord` with `value = false` and by `resetBitWordOver`. -/
theorem clear_pattern_testBit (t : Target) (ht : t.ok) (p k j : Nat) (hk : k < 16)
    (hj : j < 16) :
    (((sext t p &&& clearBitToInt t (k : Int)) &&& gmask16) % 65536).testBit j
      = (p.testBit j && decide (j ≠ k)) := by
  rw [and_gmask16_testBit _ _ hj, Nat.testBit_and, sext_testBit t ht p j hj,
    clearBitToInt_testBit t ht k j hk hj]

/-! ## The wire under the transport operations -/

theorem sent_write (w : World) (b : Nat) : (w.write b).sent = w.sent ++ [b % 256] := by
  simp [World.write, World.sent, List.filterMap_append]

theorem sent_flush (w : World) : w.flush.sent = w.sent := by
  simp [World.flush, World.sent, List.filterMap_append]

theorem sent_stop (w : World) : w.stop.sent = w.sent := by
  simp [World.stop, World.sent, List.filterMap_append]

theorem sent_millis (w : World) : w.millis.2.sent = w.sent := by
  unfold World.millis
  split <;> rfl

theorem sent_recv (w : World) : w.recv.2.sent = w.sent := by
  unfold World.recv
  split <;> rfl

theorem sent_connect (w : World) : w.connect.2.sent = w.sent := by
  unfold World.connect
  split <;> simp [World.sent, List.filterMap_append]

theorem sent_waitDeadline (w : World) (t0 : Nat) : (w.waitDeadline t0).sent = w.sent := rfl

theorem checkHardResponse_sent (s : State) (w : World) :
    (checkHardResponse s w).2.2.sent = w.sent := by
  unfold checkHardResponse
  dsimp only
  split <;> simp [sent_millis, sent_recv, sent_waitDeadline]

theorem checkHardResponse_store (s : State) (w : World) :
    (checkHardResponse s w).2.1.store = s.store := by
  unfold checkHardResponse
  dsimp only
  split <;> rfl

theorem checkSoftResponse_sent (t : Target) (s : State) (w : World) :
    (checkSoftResponse t s w).2.2.sent = w.sent := by
  unfold checkSoftResponse
  split
  · exact checkHardResponse_sent s w
  · simp [sent_millis, sent_waitDeadline]

theorem checkSoftResponse_store (t : Target) (s : State) (w : World) :
    (checkSoftResponse t s w).2.1.store = s.store := by
  unfold checkSoftResponse
  split
  · exact checkHardResponse_store s w
  · rfl

theorem checkLANResponse_sent (s : State) (w : World) :
    (checkLANResponse s w).2.2.sent = w.sent := by
  unfold checkLANResponse
  dsimp only
  split_ifs <;> simp [sent_millis, sent_recv, sent_waitDeadline, sent_stop]

theorem checkLANResponse_store (s : State) (w : World) :
    (checkLANResponse s w).2.1.store = s.store := by
  unfold checkLANResponse
  dsimp only
  split_ifs <;> rfl

theorem connect2Server_sent (s : State) (w : World) :
    (connect2Server s w).2.2.sent = w.sent := by
  unfold connect2Server
  dsimp only
  split_ifs <;> simp [sent_millis, sent_connect]

theorem connect2Server_store (s : State) (w : World) :
    (connect2Server s w).2.1.store = s.store := by
  unfold connect2Server
  dsimp only
  split_ifs <;> rfl

theorem connect2Server_slot (s : State) (w : World) :
    (connect2Server s w).2.1.myLanSlot = s.myLanSlot := by
  unfold connect2Server
  dsimp only
  split_ifs <;> rfl

theorem connect2Server_sextets (s : State) (w : World) :
    (connect2Server s w).2.1.hd = s.hd ∧ (connect2Server s w).2.1.md = s.md ∧
    (connect2Server s w).2.1.ld = s.ld ∧ (connect2Server s w).2.1.hd32 = s.hd32 ∧
    (connect2Server s w).2.1.md32 = s.md32 ∧ (connect2Server s w).2.1.ld32 = s.ld32 := by
  unfold connect2Server
  dsimp only
  split_ifs <;> simp

/-- The verdict of `connect2Server` and the world it leaves depend on the connection
members only. -/
theorem connect2Server_congr (s1 s2 : State) (w : World)
    (h1 : s1.lanConnectionStatus = s2.lanConnectionStatus)
    (h2 : s1.reconnectServer = s2.reconnectServer) (h3 : s1.serverTime = s2.serverTime) :
    (connect2Server s1 w).1 = (connect2Server s2 w).1 ∧
      (connect2Server s1 w).2.2 = (connect2Server s2 w).2.2 := by
  unfold connect2Server
  dsimp only
  rw [h1, h2, h3]
  split_ifs <;> simp_all

theorem byteOfInt_lt (i : Int) : byteOfInt i < 256 := by
  unfold byteOfInt; omega

theorem byteOfInt_mod (i : Int) : byteOfInt i % 256 = byteOfInt i :=
  Nat.mod_eq_of_lt (byteOfInt_lt i)

theorem byteOfInt_natCast (n : Nat) (h : n < 256) : byteOfInt (n : Int) = n := by
  unfold byteOfInt; omega

/-! ## The write frames on the wire -/

theorem writeNFile2_store (t : Target) (s : State) (w : World) (word : Int) (v : Nat) :
    (writeNFile2 t s w word v).1.store = s.store := by
  unfold writeNFile2
  dsimp only
  split
  · split
    · rw [checkSoftResponse_store]; rfl
    · rfl
  · rw [checkHardResponse_store]; rfl
  · split
    · rw [checkLANResponse_store, connect2Server_store]; rfl
    · rw [connect2Server_store]; rfl

theorem writeNFile2_sent (t : Target) (s : State) (w : World) (word : Int) (v : Nat) :
    (writeNFile2 t s w word v).2.sent = w.sent ++ onWire t s w (frameL s word v) := by
  have e1 : (fragmentData16 s v).hd % 256 = (fragmentData16 s v).hd := by
    rw [fragmentData16_hd]; omega
  have e2 : (fragmentData16 s v).md % 256 = (fragmentData16 s v).md := by
    rw [fragmentData16_md]; omega
  have e3 : (fragmentData16 s v).ld % 256 = (fragmentData16 s v).ld := by
    rw [fragmentData16_ld]; omega
  have hc : (fragmentData16 s v).connectionType = s.connectionType := rfl
  have hl := connect2Server_congr (fragmentData16 s v) s w rfl rfl rfl
  have hs : (connect2Server (fragmentData16 s v) w).2.1.myLanSlot = s.myLanSlot := by
    rw [connect2Server_slot]; rfl
  unfold writeNFile2 onWire linkUp slotPrefix frameL
  dsimp only
  rw [hc]
  cases h : s.connectionType
  · simp [checkHardResponse_sent, sent_flush, sent_write, byteOfInt_mod, e1, e2, e3]
  · by_cases hsoft : t.softSerial = true
    · simp [hsoft, checkSoftResponse_sent, sent_flush, sent_write, byteOfInt_mod, e1, e2, e3]
    · simp [hsoft]
  · by_cases hok : (connect2Server s w).1 = true
    · have hx := connect2Server_sextets (fragmentData16 s v) w
      simp [hl.1, hok, hs, hx.1, hx.2.1, hx.2.2.1, checkLANResponse_sent, sent_flush,
        sent_write, byteOfInt_mod, e1, e2, e3, connect2Server_sent]
    · simp [hl.1, hok, connect2Server_sent]

theorem writeDFile2_store (t : Target) (s : State) (w : World) (word : Int) (v : Nat) :
    (writeDFile2 t s w word v).1.store = s.store := by
  unfold writeDFile2
  dsimp only
  split
  · split
    · rw [checkSoftResponse_store]; rfl
    · rfl
  · rw [checkHardResponse_store]; rfl
  · split
    · rw [checkLANResponse_store, connect2Server_store]; rfl
    · rw [connect2Server_store]; rfl

theorem writeDFile2_sent (t : Target) (s : State) (w : World) (word : Int) (v : Nat) :
    (writeDFile2 t s w word v).2.sent = w.sent ++ onWire t s w (frameN s word v) := by
  have e1 : (fragmentData32 s v).hd % 256 = (fragmentData32 s v).hd := by
    rw [fragmentData32_hd]; omega
  have e2 : (fragmentData32 s v).md % 256 = (fragmentData32 s v).md := by
    rw [fragmentData32_md]; omega
  have e3 : (fragmentData32 s v).ld % 256 = (fragmentData32 s v).ld := by
    rw [fragmentData32_ld]; omega
  have e4 : (fragmentData32 s v).hd32 % 256 = (fragmentData32 s v).hd32 := by
    rw [fragmentData32_hd32]; omega
  have e5 : (fragmentData32 s v).md32 % 256 = (fragmentData32 s v).md32 := by
    rw [fragmentData32_md32]; omega
  have e6 : (fragmentData32 s v).ld32 % 256 = (fragmentData32 s v).ld32 := by
    rw [fragmentData32_ld32]; omega
  have hc : (fragmentData32 s v).connectionType = s.connectionType := rfl
  have hl := connect2Server_congr (fragmentData32 s v) s w rfl rfl rfl
  have hs : (connect2Server (fragmentData32 s v) w).2.1.myLanSlot = s.myLanSlot := by
    rw [connect2Server_slot]; rfl
  unfold writeDFile2 onWire linkUp slotPrefix frameN
  dsimp only
  rw [hc]
  cases h : s.connectionType
  · simp [checkHardResponse_sent, sent_flush, sent_write, byteOfInt_mod, e1, e2, e3, e4, e5, e6]
  · by_cases hsoft : t.softSerial = true
    · simp [hsoft, checkSoftResponse_sent, sent_flush, sent_write, byteOfInt_mod, e1, e2, e3,
        e4, e5, e6]
    · simp [hsoft]
  · by_cases hok : (connect2Server s w).1 = true
    · have hx := connect2Server_sextets (fragmentData32 s v) w
      simp [hl.1, hok, hs, hx.1, hx.2.1, hx.2.2.1, hx.2.2.2.1, hx.2.2.2.2.1, hx.2.2.2.2.2,
        checkLANResponse_sent, sent_flush, sent_write, byteOfInt_mod, e1, e2, e3, e4, e5, e6,
        connect2Server_sent]
    · simp [hl.1, hok, connect2Server_sent]

theorem writeBFile2_store (t : Target) (s : State) (w : World) (word bit : Int) (v : Bool) :
    (writeBFile2 t s w word bit v).1.store = s.store := by
  unfold writeBFile2
  dsimp only
  split
  · split
    · rw [checkSoftResponse_store]
    · rfl
  · rw [checkHardResponse_store]
  · split
    · rw [checkLANResponse_store, connect2Server_store]
    · rw [connect2Server_store]

theorem writeBFile2_sent (t : Target) (s : State) (w : World) (word bit : Int) (v : Bool) :
    (writeBFile2 t s w word bit v).2.sent = w.sent ++ onWire t s w (frameC word bit v) := by
  unfold writeBFile2 onWire linkUp slotPrefix frameC
  dsimp only
  cases h : s.connectionType
  · cases v <;>
      simp [checkHardResponse_sent, sent_flush, sent_write, byteOfInt_mod]
  · by_cases hsoft : t.softSerial = true
    · cases v <;>
        simp [hsoft, checkSoftResponse_sent, sent_flush, sent_write, byteOfInt_mod]
    · simp [hsoft]
  · by_cases hok : (connect2Server s w).1 = true
    · cases v <;>
        simp [hok, connect2Server_slot, checkLANResponse_sent, sent_flush, sent_write,
          byteOfInt_mod, connect2Server_sent]
    · simp [hok, connect2Server_sent]

/-! ## Array cells -/

theorem getAt_setAt_same {α : Type} (l : List α) (i : Int) (v d : α) (h0 : 0 ≤ i)
    (h1 : i < l.length) : getAt (setAt l i v) i d = v := by
  have h2 : i.toNat < l.length := by omega
  simp [getAt, setAt, h0, List.getD_eq_getElem?_getD, List.getElem?_set, h2]

theorem intOver_eq (s : State) (word : Int) : intOver s word = getAt s.nFileOver word false := by
  unfold intOver getNWordOver
  dsimp only
  split <;> rfl

theorem dintOver_eq (s : State) (word : Int) : dintOver s word = getAt s.dFileOver word false := by
  unfold dintOver getDWordOver
  dsimp only
  split <;> rfl

theorem frameL_congr (s s' : State) (word : Int) (v : Nat) :
    frameL s word v = frameL s' word v := by
  simp [frameL, fragmentData16_hd, fragmentData16_md, fragmentData16_ld]

theorem frameN_congr (s s' : State) (word : Int) (v : Nat) :
    frameN s word v = frameN s' word v := by
  simp [frameN, fragmentData32_hd, fragmentData32_md, fragmentData32_ld, fragmentData32_hd32,
    fragmentData32_md32, fragmentData32_ld32]

/-- What reaches the wire depends on the transport members only. -/
theorem onWire_congr (t : Target) (s s' : State) (w : World) (f : List Nat)
    (hc : s'.connectionType = s.connectionType)
    (h1 : s'.lanConnectionStatus = s.lanConnectionStatus)
    (h2 : s'.reconnectServer = s.reconnectServer) (h3 : s'.serverTime = s.serverTime)
    (h4 : s'.myLanSlot = s.myLanSlot) : onWire t s' w f = onWire t s w f := by
  have hl := (connect2Server_congr s' s w h1 h2 h3).1
  unfold onWire linkUp slotPrefix
  rw [hc, h4]
  cases s.connectionType <;> simp [hl]

/-! ## Int file -/

theorem writeNFile_noop (t : Target) (s : State) (w : World) (word : Int) (v : Nat)
    (hv : getAt s.nFile word 0 = v) (ho : intOver s word = false) :
    writeNFile t s w word v = (s, w) := by
  rw [intOver_eq] at ho
  unfold writeNFile getNWordOver
  simp [hv, ho]

theorem writeNFile_changed (t : Target) (s : State) (w : World) (word : Int) (v : Nat)
    (hr : 0 ≤ word ∧ word < s.ndfSize) (hv : getAt s.nFile word 0 ≠ v) :
    (writeNFile t s w word v).1.store =
        { s.store with nFile := setAt s.nFile word v,
                       nFileUpdate := setAt s.nFileUpdate word true } ∧
      (writeNFile t s w word v).2.sent = w.sent ++ onWire t s w (frameL s word v) := by
  unfold writeNFile
  simp only [hr, and_self, if_true, hv, ne_eq, not_false_eq_true]
  constructor
  · rw [writeNFile2_store]; rfl
  · rw [writeNFile2_sent, frameL_congr _ s]
    exact congrArg _ (onWire_congr t s _ w _ rfl rfl rfl rfl rfl)

theorem writeNFile_forced (t : Target) (s : State) (w : World) (word : Int) (v : Nat)
    (hr : 0 ≤ word ∧ word < s.ndfSize) (hv : getAt s.nFile word 0 = v)
    (ho : intOver s word = true) :
    (writeNFile t s w word v).1.store =
        { s.store with nFile := setAt s.nFile word v,
                       nFileOver := setAt s.nFileOver word false,
                       nFileUpdate := setAt s.nFileUpdate word true } ∧
      (writeNFile t s w word v).2.sent = w.sent ++ onWire t s w (frameL s word v) := by
  rw [intOver_eq] at ho
  unfold writeNFile getNWordOver
  simp only [hr, and_self, if_true, hv, ne_eq, not_true_eq_false, if_false, ho]
  constructor
  · rw [writeNFile2_store]; rfl
  · rw [writeNFile2_sent, frameL_congr _ s]
    exact congrArg _ (onWire_congr t s _ w _ rfl rfl rfl rfl rfl)

/-! ## DInt file -/

theorem writeDFile_noop (t : Target) (s : State) (w : World) (word : Int) (v : Nat)
    (hv : getAt s.dFile word 0 = v) (ho : dintOver s word = false) :
    writeDFile t s w word v = (s, w) := by
  rw [dintOver_eq] at ho
  unfold writeDFile getDWordOver
  simp [hv, ho]

theorem writeDFile_changed (t : Target) (s : State) (w : World) (word : Int) (v : Nat)
    (hr : 0 ≤ word ∧ word < s.ndfSize) (hv : getAt s.dFile word 0 ≠ v) :
    (writeDFile t s w word v).1.store =
        { s.store with dFile := setAt s.dFile word v,
                       dFileUpdate := setAt s.dFileUpdate word true } ∧
      (writeDFile t s w word v).2.sent = w.sent ++ onWire t s w (frameN s word v) := by
  unfold writeDFile
  simp only [hr, and_self, if_true, hv, ne_eq, not_false_eq_true]
  constructor
  · rw [writeDFile2_store]; rfl
  · rw [writeDFile2_sent, frameN_congr _ s]
    exact congrArg _ (onWire_congr t s _ w _ rfl rfl rfl rfl rfl)

theorem writeDFile_forced (t : Target) (s : State) (w : World) (word : Int) (v : Nat)
    (hr : 0 ≤ word ∧ word < s.ndfSize) (hv : getAt s.dFile word 0 = v)
    (ho : dintOver s word = true) :
    (writeDFile t s w word v).1.store =
        { s.store with dFile := setAt s.dFile word v,
                       dFileOver := setAt s.dFileOver word false,
                       dFileUpdate := setAt s.dFileUpdate word true } ∧
      (writeDFile t s w word v).2.sent = w.sent ++ onWire t s w (frameN s word v) := by
  rw [dintOver_eq] at ho
  unfold writeDFile getDWordOver
  simp only [hr, and_self, if_true, hv, ne_eq, not_true_eq_false, if_false, ho]
  constructor
  · rw [writeDFile2_store]; rfl
  · rw [writeDFile2_sent, frameN_congr _ s]
    exact congrArg _ (onWire_congr t s _ w _ rfl rfl rfl rfl rfl)

/-! ## Bit file -/

theorem getBitWord_eq (t : Target) (ht : t.ok) (s : State) (word bit : Int)
    (hb : 0 ≤ bit ∧ bit < 16) :
    getBitWord t s word bit = (getAt s.bFile word 0).testBit bit.toNat := by
  obtain ⟨k, rfl⟩ := Int.eq_ofNat_of_zero_le hb.1
  have hk : k < 16 := by omega
  simp only [getBitWord, Int.toNat_ofNat]
  exact bit_read t ht _ k hk

theorem getBitWordUpdate_eq (t : Target) (ht : t.ok) (s : State) (word bit : Int)
    (hb : 0 ≤ bit ∧ bit < 16) :
    getBitWordUpdate t s word bit = (getAt s.bFileUpdate word 0).testBit bit.toNat := by
  obtain ⟨k, rfl⟩ := Int.eq_ofNat_of_zero_le hb.1
  have hk : k < 16 := by omega
  simp only [getBitWordUpdate, Int.toNat_ofNat]
  exact bit_read t ht _ k hk

theorem bitOver_eq (t : Target) (ht : t.ok) (s : State) (word bit : Int)
    (hb : 0 ≤ bit ∧ bit < 16) :
    bitOver t s word bit = (getAt s.bFileOver word 0).testBit bit.toNat := by
  obtain ⟨k, rfl⟩ := Int.eq_ofNat_of_zero_le hb.1
  have hk : k < 16 := by omega
  have h := bit_read t ht (getAt s.bFileOver word 0) k hk
  simp only [bitOver, getBitWordOver, Int.toNat_ofNat]
  rw [← h]
  split <;> simp_all

theorem getBitWordOver_of_clear (t : Target) (s : State) (word bit : Int)
    (h : bitOver t s word bit = false) : getBitWordOver t s word bit = (false, s) := by
  unfold bitOver getBitWordOver at *
  dsimp only at *
  split at h
  · simp at h
  · rename_i hc; rw [if_neg hc]

theorem getBitWordOver_of_set (t : Target) (s : State) (word bit : Int)
    (h : bitOver t s word bit = true) :
    getBitWordOver t s word bit = (true, resetBitWordOver t s word bit) := by
  unfold bitOver getBitWordOver at *
  dsimp only at *
  split at h
  · rename_i hc; rw [if_pos hc]
  · simp at h

theorem writeBFile_noop (t : Target) (s : State) (w : World) (word bit : Int) (v : Bool)
    (hv : getBitWord t s word bit = v) (ho : bitOver t s word bit = false) :
    writeBFile t s w word bit v = (s, w) := by
  unfold writeBFile
  simp [hv, getBitWordOver_of_clear t s word bit ho]

theorem writeBFile_changed (t : Target) (s : State) (w : World) (word bit : Int) (v : Bool)
    (hr : (0 ≤ word ∧ word < s.bSize) ∧ (0 ≤ bit ∧ bit < 16))
    (hv : getBitWord t s word bit ≠ v) :
    (writeBFile t s w word bit v).1.store
        = (setBitWordUpdate t (setBitWord t s word bit v) word bit).store ∧
      (writeBFile t s w word bit v).2.sent = w.sent ++ onWire t s w (frameC word bit v) := by
  have hne : (getBitWord t s word bit != v) = true := by simpa using hv
  unfold writeBFile
  simp only [hr, and_self, if_true, hne]
  constructor
  · rw [writeBFile2_store]
  · rw [writeBFile2_sent]
    exact congrArg _ (onWire_congr t s _ w _ rfl rfl rfl rfl rfl)

theorem writeBFile_forced (t : Target) (s : State) (w : World) (word bit : Int) (v : Bool)
    (hr : (0 ≤ word ∧ word < s.bSize) ∧ (0 ≤ bit ∧ bit < 16))
    (hv : getBitWord t s word bit = v) (ho : bitOver t s word bit = true) :
    (writeBFile t s w word bit v).1.store
        = (setBitWordUpdate t (setBitWord t (resetBitWordOver t s word bit) word bit v)
            word bit).store ∧
      (writeBFile t s w word bit v).2.sent = w.sent ++ onWire t s w (frameC word bit v) := by
  have hne : (getBitWord t s word bit != v) = false := by simp [hv]
  unfold writeBFile
  simp only [hr, and_self, if_true, hne, getBitWordOver_of_set t s word bit ho,
    Bool.false_eq_true, if_false]
  constructor
  · rw [writeBFile2_store]
  · rw [writeBFile2_sent]
    exact congrArg _ (onWire_congr t s _ w _ rfl rfl rfl rfl rfl)

/-- After `setBitWord` the addressed bit reads as the value written. -/
theorem getBitWord_setBitWord (t : Target) (ht : t.ok) (s : State) (word bit : Int) (v : Bool)
    (hw : 0 ≤ word ∧ word < s.bFile.length) (hb : 0 ≤ bit ∧ bit < 16) :
    getBitWord t (setBitWord t s word bit v) word bit = v := by
  rw [getBitWord_eq t ht _ word bit hb]
  obtain ⟨k, rfl⟩ := Int.eq_ofNat_of_zero_le hb.1
  have hk : k < 16 := by omega
  simp only [setBitWord, Int.toNat_ofNat]
  rw [getAt_setAt_same _ word _ _ hw.1 hw.2]
  cases v
  · simp only [Bool.false_eq_true, if_false]
    rw [clear_pattern_testBit t ht _ k k hk hk]
    simp
  · simp only [if_true]
    rw [set_pattern_testBit t ht _ k k hk hk]
    simp

/-- After `setBitWordUpdate` the dirty bit of the address is set. -/
theorem getBitWordUpdate_setBitWordUpdate (t : Target) (ht : t.ok) (s : State) (word bit : Int)
    (hw : 0 ≤ word ∧ word < s.bFileUpdate.length) (hb : 0 ≤ bit ∧ bit < 16) :
    getBitWordUpdate t (setBitWordUpdate t s word bit) word bit = true := by
  rw [getBitWordUpdate_eq t ht _ word bit hb]
  obtain ⟨k, rfl⟩ := Int.eq_ofNat_of_zero_le hb.1
  have hk : k < 16 := by omega
  simp only [setBitWordUpdate, Int.toNat_ofNat]
  rw [getAt_setAt_same _ word _ _ hw.1 hw.2, set_pattern_testBit t ht _ k k hk hk]
  simp

/-- After `resetBitWordOver` the override bit of the address is clear. -/
theorem bitOver_resetBitWordOver (t : Target) (ht : t.ok) (s : State) (word bit : Int)
    (hw : 0 ≤ word ∧ word < s.bFileOver.length) (hb : 0 ≤ bit ∧ bit < 16) :
    bitOver t (resetBitWordOver t s word bit) word bit = false := by
  rw [bitOver_eq t ht _ word bit hb]
  obtain ⟨k, rfl⟩ := Int.eq_ofNat_of_zero_le hb.1
  have hk : k < 16 := by omega
  simp only [resetBitWordOver, Int.toNat_ofNat]
  rw [getAt_setAt_same _ word _ _ hw.1 hw.2, clear_pattern_testBit t ht _ k k hk hk]
  simp

theorem getBitWord_congr (t : Target) (s1 s2 : State) (word bit : Int)
    (h : s1.store = s2.store) : getBitWord t s1 word bit = getBitWord t s2 word bit := by
  have hb : s1.bFile = s2.bFile := congrArg Store.bFile h
  simp only [getBitWord, hb]

theorem getBitWordUpdate_congr (t : Target) (s1 s2 : State) (word bit : Int)
    (h : s1.store = s2.store) :
    getBitWordUpdate t s1 word bit = getBitWordUpdate t s2 word bit := by
  have hb : s1.bFileUpdate = s2.bFileUpdate := congrArg Store.bFileUpdate h
  simp only [getBitWordUpdate, hb]

theorem bitOver_congr (t : Target) (s1 s2 : State) (word bit : Int)
    (h : s1.bFileOver = s2.bFileOver) : bitOver t s1 word bit = bitOver t s2 word bit := by
  unfold bitOver getBitWordOver
  dsimp only
  rw [h]
  split <;> rfl

/-! ## Write eligibility -/

theorem onWire_serial (t : Target) (s : State) (w : World) (f : List Nat)
    (h : serialLink t s) : onWire t s w f = f := by
  unfold onWire linkUp slotPrefix
  rcases h with h | h
  · simp [h]
  · simp [h.1, h.2]

/-- What an eligible `writeBFile` leaves: the bit stored, the dirty bit set, the frame
handed to the transport. -/
theorem writeBFile_eligible (t : Target) (ht : t.ok) (s : State) (hs : s.WF) (w : World)
    (wb bit : Int) (vb : Bool) (hb : (0 ≤ wb ∧ wb < s.bSize) ∧ (0 ≤ bit ∧ bit < 16))
    (h : getBitWord t s wb bit ≠ vb ∨ bitOver t s wb bit = true) :
    getBitWord t (writeBFile t s w wb bit vb).1 wb bit = vb ∧
      getBitWordUpdate t (writeBFile t s w wb bit vb).1 wb bit = true ∧
      (writeBFile t s w wb bit vb).2.sent = w.sent ++ onWire t s w (frameC wb bit vb) := by
  obtain ⟨hbF, hbO, hbU, -⟩ := hs
  have hwb : 0 ≤ wb ∧ wb < (s.bFile.length : Int) := by rw [hbF]; exact hb.1
  have hwbU : 0 ≤ wb ∧ wb < (s.bFileUpdate.length : Int) := by rw [hbU]; exact hb.1
  have key : ∃ s0 : State, s0.bFile.length = s.bFile.length ∧
      s0.bFileUpdate.length = s.bFileUpdate.length ∧
      (writeBFile t s w wb bit vb).1.store
        = (setBitWordUpdate t (setBitWord t s0 wb bit vb) wb bit).store ∧
      (writeBFile t s w wb bit vb).2.sent = w.sent ++ onWire t s w (frameC wb bit vb) := by
    by_cases hv : getBitWord t s wb bit = vb
    · have ho : bitOver t s wb bit = true := by
        rcases h with h | h
        · exact absurd hv h
        · exact h
      exact ⟨resetBitWordOver t s wb bit, rfl, rfl, writeBFile_forced t s w wb bit vb hb hv ho⟩
    · exact ⟨s, rfl, rfl, writeBFile_changed t s w wb bit vb hb hv⟩
  obtain ⟨s0, hl1, hl2, hst, hsent⟩ := key
  refine ⟨?_, ?_, hsent⟩
  · rw [getBitWord_congr t _ _ wb bit hst]
    exact getBitWord_setBitWord t ht s0 wb bit vb (by rw [hl1]; exact hwb) hb.2
  · rw [getBitWordUpdate_congr t _ _ wb bit hst]
    exact getBitWordUpdate_setBitWordUpdate t ht _ wb bit (by
      show 0 ≤ wb ∧ wb < ((setBitWord t s0 wb bit vb).bFileUpdate.length : Int)
      have : (setBitWord t s0 wb bit vb).bFileUpdate = s0.bFileUpdate := rfl
      rw [this, hl2]; exact hwbU) hb.2

/-- What an eligible `writeNFile` leaves. -/
theorem writeNFile_eligible (t : Target) (s : State) (hs : s.WF) (w : World)
    (wn : Int) (vn : Nat) (hn : 0 ≤ wn ∧ wn < s.ndfSize)
    (h : getAt s.nFile wn 0 ≠ vn ∨ intOver s wn = true) :
    getAt (writeNFile t s w wn vn).1.nFile wn 0 = vn ∧
      getAt (writeNFile t s w wn vn).1.nFileUpdate wn false = true ∧
      (writeNFile t s w wn vn).2.sent = w.sent ++ onWire t s w (frameL s wn vn) := by
  obtain ⟨-, -, -, hnF, -, hnU, -⟩ := hs
  have key : (writeNFile t s w wn vn).1.nFile = setAt s.nFile wn vn ∧
      (writeNFile t s w wn vn).1.nFileUpdate = setAt s.nFileUpdate wn true ∧
      (writeNFile t s w wn vn).2.sent = w.sent ++ onWire t s w (frameL s wn vn) := by
    by_cases hv : getAt s.nFile wn 0 = vn
    · have ho : intOver s wn = true := by
        rcases h with h | h
        · exact absurd hv h
        · exact h
      have r := writeNFile_forced t s w wn vn hn hv ho
      exact ⟨congrArg Store.nFile r.1, congrArg Store.nFileUpdate r.1, r.2⟩
    · have r := writeNFile_changed t s w wn vn hn hv
      exact ⟨congrArg Store.nFile r.1, congrArg Store.nFileUpdate r.1, r.2⟩
  obtain ⟨k1, k2, k3⟩ := key
  refine ⟨?_, ?_, k3⟩
  · rw [k1]; exact getAt_setAt_same _ wn _ _ hn.1 (by rw [hnF]; exact hn.2)
  · rw [k2]; exact getAt_setAt_same _ wn _ _ hn.1 (by rw [hnU]; exact hn.2)

/-- What an eligible `writeDFile` leaves. -/
theorem writeDFile_eligible (t : Target) (s : State) (hs : s.WF) (w : World)
    (wd : Int) (vd : Nat) (hd : 0 ≤ wd ∧ wd < s.ndfSize)
    (h : getAt s.dFile wd 0 ≠ vd ∨ dintOver s wd = true) :
    getAt (writeDFile t s w wd vd).1.dFile wd 0 = vd ∧
      getAt (writeDFile t s w wd vd).1.dFileUpdate wd false = true ∧
      (writeDFile t s w wd vd).2.sent = w.sent ++ onWire t s w (frameN s wd vd) := by
  obtain ⟨-, -, -, -, -, -, hdF, -, hdU, -⟩ := hs
  have key : (writeDFile t s w wd vd).1.dFile = setAt s.dFile wd vd ∧
      (writeDFile t s w wd vd).1.dFileUpdate = setAt s.dFileUpdate wd true ∧
      (writeDFile t s w wd vd).2.sent = w.sent ++ onWire t s w (frameN s wd vd) := by
    by_cases hv : getAt s.dFile wd 0 = vd
    · have ho : dintOver s wd = true := by
        rcases h with h | h
        · exact absurd hv h
        · exact h
      have r := writeDFile_forced t s w wd vd hd hv ho
      exact ⟨congrArg Store.dFile r.1, congrArg Store.dFileUpdate r.1, r.2⟩
    · have r := writeDFile_changed t s w wd vd hd hv
      exact ⟨congrArg Store.dFile r.1, congrArg Store.dFileUpdate r.1, r.2⟩
  obtain ⟨k1, k2, k3⟩ := key
  refine ⟨?_, ?_, k3⟩
  · rw [k1]; exact getAt_setAt_same _ wd _ _ hd.1 (by rw [hdF]; exact hd.2)
  · rw [k2]; exact getAt_setAt_same _ wd _ _ hd.1 (by rw [hdU]; exact hd.2)

/-- A second `writeBFile` of the value just written returns object and world unchanged. -/
theorem writeBFile_again (t : Target) (ht : t.ok) (s : State) (hs : s.WF) (w : World)
    (wb bit : Int) (vb : Bool) (hb : (0 ≤ wb ∧ wb < s.bSize) ∧ (0 ≤ bit ∧ bit < 16))
    (h : getBitWord t s wb bit = vb ∨ bitOver t s wb bit = false) :
    writeBFile t (writeBFile t s w wb bit vb).1 (writeBFile t s w wb bit vb).2 wb bit vb
      = writeBFile t s w wb bit vb := by
  obtain ⟨hbF, hbO, hbU, -⟩ := hs
  by_cases hv : getBitWord t s wb bit = vb
  · cases ho : bitOver t s wb bit
    · rw [writeBFile_noop t s w wb bit vb hv ho]
      exact writeBFile_noop t s w wb bit vb hv ho
    · have r := writeBFile_forced t s w wb bit vb hb hv ho
      have k3 : (writeBFile t s w wb bit vb).1.bFileOver
          = (resetBitWordOver t s wb bit).bFileOver := congrArg Store.bFileOver r.1
      apply writeBFile_noop
      · rw [getBitWord_congr t _ _ wb bit r.1]
        exact getBitWord_setBitWord t ht _ wb bit _ (by
          show 0 ≤ wb ∧ wb < ((resetBitWordOver t s wb bit).bFile.length : Int)
          have : (resetBitWordOver t s wb bit).bFile = s.bFile := rfl
          rw [this, hbF]; exact hb.1) hb.2
      · rw [bitOver_congr t _ _ wb bit k3]
        exact bitOver_resetBitWordOver t ht s wb bit (by rw [hbO]; exact hb.1) hb.2
  · have ho : bitOver t s wb bit = false := by
      rcases h with h | h
      · exact absurd h hv
      · exact h
    have r := writeBFile_changed t s w wb bit vb hb hv
    have k3 : (writeBFile t s w wb bit vb).1.bFileOver = s.bFileOver :=
      congrArg Store.bFileOver r.1
    apply writeBFile_noop
    · rw [getBitWord_congr t _ _ wb bit r.1]
      exact getBitWord_setBitWord t ht s wb bit vb (by rw [hbF]; exact hb.1) hb.2
    · rw [bitOver_congr t _ s wb bit k3]; exact ho

/-- A second `writeNFile` of the value just written returns object and world unchanged. -/
theorem writeNFile_again (t : Target) (s : State) (hs : s.WF) (w : World)
    (wn : Int) (vn : Nat) (hn : 0 ≤ wn ∧ wn < s.ndfSize)
    (h : getAt s.nFile wn 0 = vn ∨ intOver s wn = false) :
    writeNFile t (writeNFile t s w wn vn).1 (writeNFile t s w wn vn).2 wn vn
      = writeNFile t s w wn vn := by
  obtain ⟨-, -, -, hnF, hnO, -⟩ := hs
  by_cases hv : getAt s.nFile wn 0 = vn
  · cases ho : intOver s wn
    · rw [writeNFile_noop t s w wn vn hv ho]
      exact writeNFile_noop t s w wn vn hv ho
    · have r := writeNFile_forced t s w wn vn hn hv ho
      have k1 : (writeNFile t s w wn vn).1.nFile = setAt s.nFile wn vn :=
        congrArg Store.nFile r.1
      have k3 : (writeNFile t s w wn vn).1.nFileOver = setAt s.nFileOver wn false :=
        congrArg Store.nFileOver r.1
      apply writeNFile_noop
      · rw [k1]; exact getAt_setAt_same _ wn _ _ hn.1 (by rw [hnF]; exact hn.2)
      · rw [intOver_eq, k3]; exact getAt_setAt_same _ wn _ _ hn.1 (by rw [hnO]; exact hn.2)
  · have ho : intOver s wn = false := by
      rcases h with h | h
      · exact absurd h hv
      · exact h
    have r := writeNFile_changed t s w wn vn hn hv
    have k1 : (writeNFile t s w wn vn).1.nFile = setAt s.nFile wn vn := congrArg Store.nFile r.1
    have k3 : (writeNFile t s w wn vn).1.nFileOver = s.nFileOver := congrArg Store.nFileOver r.1
    apply writeNFile_noop
    · rw [k1]; exact getAt_setAt_same _ wn _ _ hn.1 (by rw [hnF]; exact hn.2)
    · rw [intOver_eq, k3, ← intOver_eq]; exact ho

/-- A second `writeDFile` of the value just written returns object and world unchanged. -/
theorem writeDFile_again (t : Target) (s : State) (hs : s.WF) (w : World)
    (wd : Int) (vd : Nat) (hd : 0 ≤ wd ∧ wd < s.ndfSize)
    (h : getAt s.dFile wd 0 = vd ∨ dintOver s wd = false) :
    writeDFile t (writeDFile t s w wd vd).1 (writeDFile t s w wd vd).2 wd vd
      = writeDFile t s w wd vd := by
  obtain ⟨-, -, -, -, -, -, hdF, hdO, -⟩ := hs
  by_cases hv : getAt s.dFile wd 0 = vd
  · cases ho : dintOver s wd
    · rw [writeDFile_noop t s w wd vd hv ho]
      exact writeDFile_noop t s w wd vd hv ho
    · have r := writeDFile_forced t s w wd vd hd hv ho
      have k1 : (writeDFile t s w wd vd).1.dFile = setAt s.dFile wd vd :=
        congrArg Store.dFile r.1
      have k3 : (writeDFile t s w wd vd).1.dFileOver = setAt s.dFileOver wd false :=
        congrArg Store.dFileOver r.1
      apply writeDFile_noop
      · rw [k1]; exact getAt_setAt_same _ wd _ _ hd.1 (by rw [hdF]; exact hd.2)
      · rw [dintOver_eq, k3]; exact getAt_setAt_same _ wd _ _ hd.1 (by rw [hdO]; exact hd.2)
  · have ho : dintOver s wd = false := by
      rcases h with h | h
      · exact absurd h hv
      · exact h
    have r := writeDFile_changed t s w wd vd hd hv
    have k1 : (writeDFile t s w wd vd).1.dFile = setAt s.dFile wd vd := congrArg Store.dFile r.1
    have k3 : (writeDFile t s w wd vd).1.dFileOver = s.dFileOver := congrArg Store.dFileOver r.1
    apply writeDFile_noop
    · rw [k1]; exact getAt_setAt_same _ wd _ _ hd.1 (by rw [hdF]; exact hd.2)
    · rw [dintOver_eq, k3, ← dintOver_eq]; exact ho

/-- The claim C5 as written fails on the socket transport: after `init(ip, 1)` with a
failed connect, `writeNFile(3, 77)` meets a stored value that differs (0), yet no byte
reaches the wire, because `connect2Server` returns false inside the cool-down. -/
theorem write_eligibility_counterexample :
    lanDown.1.WF ∧ lanDown.1.connectionType = ConnectionType.LAN ∧
    (0 ≤ (3 : Int) ∧ (3 : Int) < lanDown.1.ndfSize) ∧
    getAt lanDown.1.nFile 3 0 ≠ 77 ∧
    (writeNFile Target.arm32 lanDown.1 lanDown.2 3 77).2.sent = lanDown.2.sent := by
  decide

/-- C5 (amended): write eligibility for the Bit, Int and DInt files.  A write to an
in-range address whose stored value equals the new value and whose override flag is clear
returns the object and the world unchanged.  If the stored value differs or the override
flag is set, the write stores the value, sets the dirty flag of the address and hands the
write frame to the transport: the frame reaches the wire when the link is up (a serial
line, or the socket when `connect2Server` returns true, behind the slot byte) and no byte
is sent otherwise. -/
theorem write_eligibility (t : Target) (ht : t.ok) (s : State) (hs : s.WF) (w : World)
    (wb bit : Int) (vb : Bool) (wn : Int) (vn : Nat) (wd : Int) (vd : Nat) :
    ((0 ≤ wb ∧ wb < s.bSize) ∧ (0 ≤ bit ∧ bit < 16) →
      (getBitWord t s wb bit = vb ∧ bitOver t s wb bit = false →
        writeBFile t s w wb bit vb = (s, w)) ∧
      (getBitWord t s wb bit ≠ vb ∨ bitOver t s wb bit = true →
        getBitWord t (writeBFile t s w wb bit vb).1 wb bit = vb ∧
        getBitWordUpdate t (writeBFile t s w wb bit vb).1 wb bit = true ∧
        (writeBFile t s w wb bit vb).2.sent = w.sent ++ onWire t s w (frameC wb bit vb))) ∧
    (0 ≤ wn ∧ wn < s.ndfSize →
      (getAt s.nFile wn 0 = vn ∧ intOver s wn = false → writeNFile t s w wn vn = (s, w)) ∧
      (getAt s.nFile wn 0 ≠ vn ∨ intOver s wn = true →
        getAt (writeNFile t s w wn vn).1.nFile wn 0 = vn ∧
        getAt (writeNFile t s w wn vn).1.nFileUpdate wn false = true ∧
        (writeNFile t s w wn vn).2.sent = w.sent ++ onWire t s w (frameL s wn vn))) ∧
    (0 ≤ wd ∧ wd < s.ndfSize →
      (getAt s.dFile wd 0 = vd ∧ dintOver s wd = false → writeDFile t s w wd vd = (s, w)) ∧
      (getAt s.dFile wd 0 ≠ vd ∨ dintOver s wd = true →
        getAt (writeDFile t s w wd vd).1.dFile wd 0 = vd ∧
        getAt (writeDFile t s w wd vd).1.dFileUpdate wd false = true ∧
        (writeDFile t s w wd vd).2.sent = w.sent ++ onWire t s w (frameN s wd vd))) := by
  refine ⟨fun hb => ⟨?_, ?_⟩, fun hn => ⟨?_, ?_⟩, fun hd => ⟨?_, ?_⟩⟩
  · rintro ⟨hv, ho⟩
    exact writeBFile_noop t s w wb bit vb hv ho
  · exact writeBFile_eligible t ht s hs w wb bit vb hb
  · rintro ⟨hv, ho⟩
    exact writeNFile_noop t s w wn vn hv ho
  · exact writeNFile_eligible t s hs w wn vn hn
  · rintro ⟨hv, ho⟩
    exact writeDFile_noop t s w wd vd hv ho
  · exact writeDFile_eligible t s hs w wd vd hd

theorem write_eligibility_witness :
    serialUp.WF ∧
    (writeNFile Target.arm32 serialUp (World.idle []) 3 1234).2.sent
      = (World.idle []).sent
        ++ onWire Target.arm32 serialUp (World.idle []) (frameL serialUp 3 1234) :=
  ⟨by decide,
    (((write_eligibility Target.arm32 (by decide) serialUp (by decide) (World.idle [])
      3 5 true 3 1234 3 100000).2.1 (by decide)).2 (Or.inl (by decide))).2.2⟩

/-! ## Write idempotence -/

/-- C6: write idempotence on a serial transport.  For an in-range Int address with the
override flag clear and a value `vn` different from the stored one, the first `setInt`
puts exactly the `L` frame on the wire and sets the dirty flag; the second `setInt`
returns the object and the world unchanged, so both calls together emit one frame and
mark the address dirty once.  The same holds for `setBoolean` (frame `C`) and `setDInt`
(frame `N`). -/
theorem write_idempotence (t : Target) (ht : t.ok) (s : State) (hs : s.WF) (w : World)
    (hser : serialLink t s)
    (wn : Int) (vn : Nat) (wb bit : Int) (vb : Bool) (wd : Int) (vd : Nat) :
    ((0 ≤ wn ∧ wn < s.ndfSize) ∧ intOver s wn = false ∧ getAt s.nFile wn 0 ≠ vn →
      (setInt t s w wn vn).2.sent = w.sent ++ frameL s wn vn ∧
      getAt (setInt t s w wn vn).1.nFileUpdate wn false = true ∧
      setInt t (setInt t s w wn vn).1 (setInt t s w wn vn).2 wn vn = setInt t s w wn vn) ∧
    (((0 ≤ wb ∧ wb < s.bSize) ∧ (0 ≤ bit ∧ bit < 16)) ∧ bitOver t s wb bit = false ∧
        getBitWord t s wb bit ≠ vb →
      (setBoolean t s w wb bit vb).2.sent = w.sent ++ frameC wb bit vb ∧
      getBitWordUpdate t (setBoolean t s w wb bit vb).1 wb bit = true ∧
      setBoolean t (setBoolean t s w wb bit vb).1 (setBoolean t s w wb bit vb).2 wb bit vb
        = setBoolean t s w wb bit vb) ∧
    ((0 ≤ wd ∧ wd < s.ndfSize) ∧ dintOver s wd = false ∧ getAt s.dFile wd 0 ≠ vd →
      (setDInt t s w wd vd).2.sent = w.sent ++ frameN s wd vd ∧
      getAt (setDInt t s w wd vd).1.dFileUpdate wd false = true ∧
      setDInt t (setDInt t s w wd vd).1 (setDInt t s w wd vd).2 wd vd = setDInt t s w wd vd) := by
  unfold setInt setBoolean setDInt
  refine ⟨?_, ?_, ?_⟩
  · rintro ⟨hn, hon, hvn⟩
    have e := writeNFile_eligible t s hs w wn vn hn (Or.inl hvn)
    refine ⟨?_, e.2.1, writeNFile_again t s hs w wn vn hn (Or.inr hon)⟩
    rw [e.2.2, onWire_serial t s w _ hser]
  · rintro ⟨hb, hob, hvb⟩
    have e := writeBFile_eligible t ht s hs w wb bit vb hb (Or.inl hvb)
    refine ⟨?_, e.2.1, writeBFile_again t ht s hs w wb bit vb hb (Or.inr hob)⟩
    rw [e.2.2, onWire_serial t s w _ hser]
  · rintro ⟨hd, hod, hvd⟩
    have e := writeDFile_eligible t s hs w wd vd hd (Or.inl hvd)
    refine ⟨?_, e.2.1, writeDFile_again t s hs w wd vd hd (Or.inr hod)⟩
    rw [e.2.2, onWire_serial t s w _ hser]

theorem write_idempotence_witness :
    serialUp.WF ∧ serialLink Target.arm32 serialUp ∧
    (setInt Target.arm32 serialUp (World.idle []) 3 1234).2.sent
      = (World.idle []).sent ++ frameL serialUp 3 1234 :=
  ⟨by decide, by decide,
    ((write_idempotence Target.arm32 (by decide) serialUp (by decide) (World.idle [])
      (by decide) 3 1234 3 5 true 3 100000).1 (by decide)).1⟩

/-! ## Override flags -/

/-- The claim C7 as written fails on the socket transport: with the override flag of Int
address 3 set and the stored value 0 written again, no frame is emitted while
`connect2Server` returns false. -/
theorem override_resend_counterexample :
    lanDownOver.WF ∧ (0 ≤ (3 : Int) ∧ (3 : Int) < lanDownOver.ndfSize) ∧
    intOver lanDownOver 3 = true ∧ getAt lanDownOver.nFile 3 0 = 0 ∧
    (writeNFile Target.arm32 lanDownOver lanDown.2 3 0).2.sent = lanDown.2.sent := by
  decide

/-- C7 (amended): override forces a resend.  For every in-range address (Bit, Int, DInt)
whose override flag is set, writing the value that is already stored sets the dirty flag
of that address and hands exactly one write frame carrying that value to the transport
(on the wire when the link is up: a serial line, or the socket when `connect2Server`
returns true; no byte otherwise); a further write of the same value immediately
afterwards changes nothing and emits nothing. -/
theorem override_forces_resend (t : Target) (ht : t.ok) (s : State) (hs : s.WF) (w : World)
    (wb bit wn wd : Int) :
    (((0 ≤ wb ∧ wb < s.bSize) ∧ (0 ≤ bit ∧ bit < 16)) ∧ bitOver t s wb bit = true →
      getBitWordUpdate t (writeBFile t s w wb bit (getBitWord t s wb bit)).1 wb bit = true ∧
      (writeBFile t s w wb bit (getBitWord t s wb bit)).2.sent
        = w.sent ++ onWire t s w (frameC wb bit (getBitWord t s wb bit)) ∧
      writeBFile t (writeBFile t s w wb bit (getBitWord t s wb bit)).1
          (writeBFile t s w wb bit (getBitWord t s wb bit)).2 wb bit (getBitWord t s wb bit)
        = writeBFile t s w wb bit (getBitWord t s wb bit)) ∧
    ((0 ≤ wn ∧ wn < s.ndfSize) ∧ intOver s wn = true →
      getAt (writeNFile t s w wn (getAt s.nFile wn 0)).1.nFileUpdate wn false = true ∧
      (writeNFile t s w wn (getAt s.nFile wn 0)).2.sent
        = w.sent ++ onWire t s w (frameL s wn (getAt s.nFile wn 0)) ∧
      writeNFile t (writeNFile t s w wn (getAt s.nFile wn 0)).1
          (writeNFile t s w wn (getAt s.nFile wn 0)).2 wn (getAt s.nFile wn 0)
        = writeNFile t s w wn (getAt s.nFile wn 0)) ∧
    ((0 ≤ wd ∧ wd < s.ndfSize) ∧ dintOver s wd = true →
      getAt (writeDFile t s w wd (getAt s.dFile wd 0)).1.dFileUpdate wd false = true ∧
      (writeDFile t s w wd (getAt s.dFile wd 0)).2.sent
        = w.sent ++ onWire t s w (frameN s wd (getAt s.dFile wd 0)) ∧
      writeDFile t (writeDFile t s w wd (getAt s.dFile wd 0)).1
          (writeDFile t s w wd (getAt s.dFile wd 0)).2 wd (getAt s.dFile wd 0)
        = writeDFile t s w wd (getAt s.dFile wd 0)) := by
  refine ⟨?_, ?_, ?_⟩
  · rintro ⟨hb, hob⟩
    have e := writeBFile_eligible t ht s hs w wb bit (getBitWord t s wb bit) hb (Or.inr hob)
    exact ⟨e.2.1, e.2.2, writeBFile_again t ht s hs w wb bit _ hb (Or.inl rfl)⟩
  · rintro ⟨hn, hon⟩
    have e := writeNFile_eligible t s hs w wn (getAt s.nFile wn 0) hn (Or.inr hon)
    exact ⟨e.2.1, e.2.2, writeNFile_again t s hs w wn _ hn (Or.inl rfl)⟩
  · rintro ⟨hd, hod⟩
    have e := writeDFile_eligible t s hs w wd (getAt s.dFile wd 0) hd (Or.inr hod)
    exact ⟨e.2.1, e.2.2, writeDFile_again t s hs w wd _ hd (Or.inl rfl)⟩

theorem override_forces_resend_witness :
    serialOver.WF ∧ intOver serialOver 3 = true ∧
    (writeNFile Target.arm32 serialOver (World.idle []) 3 (getAt serialOver.nFile 3 0)).2.sent
      = (World.idle []).sent ++ onWire Target.arm32 serialOver (World.idle [])
          (frameL serialOver 3 (getAt serialOver.nFile 3 0)) :=
  ⟨by decide, by decide,
    ((override_forces_resend Target.arm32 (by decide) serialOver (by decide) (World.idle [])
      3 5 3 3).2.1 (by decide)).2.1⟩

/-- The claim C8 as written fails when the written value differs from the stored one:
with the override flag of Int address 3 set and 0 stored, `writeNFile(3, 5)` returns with
the override flag still set, because `||` does not evaluate `getNWordOver`. -/
theorem override_one_shot_counterexample :
    serialOver.WF ∧ (0 ≤ (3 : Int) ∧ (3 : Int) < serialOver.ndfSize) ∧
    intOver serialOver 3 = true ∧ getAt serialOver.nFile 3 0 ≠ 5 ∧
    intOver (writeNFile Target.arm32 serialOver (World.idle []) 3 5).1 3 = true := by
  decide

/-- C8 (amended): override flags are consumed by a write of the stored value.  For every
in-range address, after `writeBFile` / `writeNFile` / `writeDFile` returns from a write of
the value that is already stored, the override flag of that address is clear; a write of
a different value does not evaluate the override check and leaves the flag as it was. -/
theorem override_one_shot (t : Target) (ht : t.ok) (s : State) (hs : s.WF) (w : World)
    (wb bit : Int) (vb : Bool) (wn : Int) (vn : Nat) (wd : Int) (vd : Nat) :
    ((0 ≤ wb ∧ wb < s.bSize) ∧ (0 ≤ bit ∧ bit < 16) →
      (getBitWord t s wb bit = vb → bitOver t (writeBFile t s w wb bit vb).1 wb bit = false) ∧
      (getBitWord t s wb bit ≠ vb →
        bitOver t (writeBFile t s w wb bit vb).1 wb bit = bitOver t s wb bit)) ∧
    (0 ≤ wn ∧ wn < s.ndfSize →
      (getAt s.nFile wn 0 = vn → intOver (writeNFile t s w wn vn).1 wn = false) ∧
      (getAt s.nFile wn 0 ≠ vn → intOver (writeNFile t s w wn vn).1 wn = intOver s wn)) ∧
    (0 ≤ wd ∧ wd < s.ndfSize →
      (getAt s.dFile wd 0 = vd → dintOver (writeDFile t s w wd vd).1 wd = false) ∧
      (getAt s.dFile wd 0 ≠ vd → dintOver (writeDFile t s w wd vd).1 wd = dintOver s wd)) := by
  obtain ⟨hbF, hbO, hbU, hnF, hnO, hnU, hdF, hdO, hdU, -⟩ := hs
  refine ⟨fun hb => ⟨?_, ?_⟩, fun hn => ⟨?_, ?_⟩, fun hd => ⟨?_, ?_⟩⟩
  · intro hv
    cases ho : bitOver t s wb bit
    · rw [writeBFile_noop t s w wb bit vb hv ho]; exact ho
    · have r := writeBFile_forced t s w wb bit vb hb hv ho
      have k3 : (writeBFile t s w wb bit vb).1.bFileOver
          = (resetBitWordOver t s wb bit).bFileOver := congrArg Store.bFileOver r.1
      rw [bitOver_congr t _ _ wb bit k3]
      exact bitOver_resetBitWordOver t ht s wb bit (by rw [hbO]; exact hb.1) hb.2
  · intro hv
    have r := writeBFile_changed t s w wb bit vb hb hv
    have k3 : (writeBFile t s w wb bit vb).1.bFileOver = s.bFileOver :=
      congrArg Store.bFileOver r.1
    exact bitOver_congr t _ s wb bit k3
  · intro hv
    cases ho : intOver s wn
    · rw [writeNFile_noop t s w wn vn hv ho]; exact ho
    · have r := writeNFile_forced t s w wn vn hn hv ho
      have k3 : (writeNFile t s w wn vn).1.nFileOver = setAt s.nFileOver wn false :=
        congrArg Store.nFileOver r.1
      rw [intOver_eq, k3]
      exact getAt_setAt_same _ wn _ _ hn.1 (by rw [hnO]; exact hn.2)
  · intro hv
    have r := writeNFile_changed t s w wn vn hn hv
    have k3 : (writeNFile t s w wn vn).1.nFileOver = s.nFileOver := congrArg Store.nFileOver r.1
    rw [intOver_eq, k3, ← intOver_eq]
  · intro hv
    cases ho : dintOver s wd
    · rw [writeDFile_noop t s w wd vd hv ho]; exact ho
    · have r := writeDFile_forced t s w wd vd hd hv ho
      have k3 : (writeDFile t s w wd vd).1.dFileOver = setAt s.dFileOver wd false :=
        congrArg Store.dFileOver r.1
      rw [dintOver_eq, k3]
      exact getAt_setAt_same _ wd _ _ hd.1 (by rw [hdO]; exact hd.2)
  · intro hv
    have r := writeDFile_changed t s w wd vd hd hv
    have k3 : (writeDFile t s w wd vd).1.dFileOver = s.dFileOver := congrArg Store.dFileOver r.1
    rw [dintOver_eq, k3, ← dintOver_eq]

theorem override_one_shot_witness :
    serialOver.WF ∧ getAt serialOver.nFile 3 0 = 0 ∧
    intOver (writeNFile Target.arm32 serialOver (World.idle []) 3 0).1 3 = false :=
  ⟨by decide, by decide,
    ((override_one_shot Target.arm32 (by decide) serialOver (by decide) (World.idle [])
      3 5 true 3 0 3 0).2.1 (by decide)).1 (by decide)⟩

/-! ## Range safety and purity of reads -/

/-- C9: range safety of the local API.  For every word index outside `[0, capacity)`
(negative, or at least `bSize` / `ndfSize`) and, for the Bit file, every bit index outside
`[0, 16)`, the getters return the neutral default (`false`, `0`, `0.0`) and the setters
return the object and the world unchanged: no stored value, dirty flag or override flag
changes and no byte is sent. -/
theorem range_safety (t : Target) (s : State) (w : World) (wb bit word : Int)
    (vb : Bool) (vn vd : Nat) (vf : floatValue) :
    (wb < 0 ∨ (s.bSize : Int) ≤ wb ∨ bit < 0 ∨ 16 ≤ bit →
      getBoolean t s w wb bit = (false, s, w) ∧ setBoolean t s w wb bit vb = (s, w)) ∧
    (word < 0 ∨ (s.ndfSize : Int) ≤ word →
      getInt s w word = (0, s, w) ∧ setInt t s w word vn = (s, w) ∧
      getDInt s w word = (0, s, w) ∧ setDInt t s w word vd = (s, w) ∧
      getFloat s w word = (⟨0, 0, 0, 0⟩, s, w) ∧ setFloat t s w word vf = (s, w)) := by
  constructor
  · intro hb
    have h1 : ¬ ((0 ≤ wb ∧ wb < (s.bSize : Int)) ∧ (0 ≤ bit ∧ bit < 16)) := by omega
    simp only [getBoolean, setBoolean, readBFile, writeBFile, if_neg h1, and_self]
  · intro hw
    have h2 : ¬ (0 ≤ word ∧ word < (s.ndfSize : Int)) := by omega
    simp only [getInt, setInt, getDInt, setDInt, getFloat, setFloat, readNFile, writeNFile,
      readDFile, writeDFile, readFFile, writeFFile, if_neg h2, and_self]

theorem range_safety_witness :
    getBoolean Target.avr serialUp (World.idle []) 60 0 = (false, serialUp, World.idle []) ∧
    setInt Target.avr serialUp (World.idle []) (-1) 7 = (serialUp, World.idle []) :=
  ⟨((range_safety Target.avr serialUp (World.idle []) 60 0 (-1) true 7 7 ⟨0, 0, 0, 0⟩).1
      (by decide)).1,
   ((range_safety Target.avr serialUp (World.idle []) 60 0 (-1) true 7 7 ⟨0, 0, 0, 0⟩).2
      (by decide)).2.1⟩

/-- C10: reads are pure.  For every state and every address, `getBoolean`, `getInt`,
`getDInt` and `getFloat` return the object and the world unchanged: no value, dirty flag
or override flag changes (an override flag is not consumed) and no byte is sent. -/
theorem reads_are_pure (t : Target) (s : State) (w : World) (wb bit word : Int) :
    (getBoolean t s w wb bit).2 = (s, w) ∧ (getInt s w word).2 = (s, w) ∧
    (getDInt s w word).2 = (s, w) ∧ (getFloat s w word).2 = (s, w) := by
  simp only [getBoolean, getInt, getDInt, getFloat, readBFile, readNFile, readDFile, readFFile]
  refine ⟨?_, ?_, ?_, ?_⟩ <;> split <;> rfl

/-! ## Float frame and command frames on the wire -/

theorem writeFFile2_store (t : Target) (s : State) (w : World) (word : Int) (v : floatValue) :
    (writeFFile2 t s w word v).1.store = s.store := by
  unfold writeFFile2
  dsimp only
  split
  · split
    · rw [checkSoftResponse_store]; rfl
    · rfl
  · rw [checkHardResponse_store]; rfl
  · split
    · rw [checkLANResponse_store, connect2Server_store]; rfl
    · rw [connect2Server_store]; rfl

theorem writeFFile2_sent (t : Target) (s : State) (w : World) (word : Int) (v : floatValue) :
    (writeFFile2 t s w word v).2.sent = w.sent ++ onWire t s w (frameP s word v) := by
  have e1 : (fragmentDataFloat s v).hd % 256 = (fragmentDataFloat s v).hd := by
    rw [fragmentDataFloat_eq, fragmentData32_hd]; omega
  have e2 : (fragmentDataFloat s v).md % 256 = (fragmentDataFloat s v).md := by
    rw [fragmentDataFloat_eq, fragmentData32_md]; omega
  have e3 : (fragmentDataFloat s v).ld % 256 = (fragmentDataFloat s v).ld := by
    rw [fragmentDataFloat_eq, fragmentData32_ld]; omega
  have e4 : (fragmentDataFloat s v).hd32 % 256 = (fragmentDataFloat s v).hd32 := by
    rw [fragmentDataFloat_eq, fragmentData32_hd32]; omega
  have e5 : (fragmentDataFloat s v).md32 % 256 = (fragmentDataFloat s v).md32 := by
    rw [fragmentDataFloat_eq, fragmentData32_md32]; omega
  have e6 : (fragmentDataFloat s v).ld32 % 256 = (fragmentDataFloat s v).ld32 := by
    rw [fragmentDataFloat_eq, fragmentData32_ld32]; omega
  have hc : (fragmentDataFloat s v).connectionType = s.connectionType := rfl
  have hl := connect2Server_congr (fragmentDataFloat s v) s w rfl rfl rfl
  have hs : (connect2Server (fragmentDataFloat s v) w).2.1.myLanSlot = s.myLanSlot := by
    rw [connect2Server_slot]; rfl
  unfold writeFFile2 onWire linkUp slotPrefix frameP
  dsimp only
  rw [hc]
  cases h : s.connectionType
  · simp [checkHardResponse_sent, sent_flush, sent_write, byteOfInt_mod, e1, e2, e3, e4, e5, e6]
  · by_cases hsoft : t.softSerial = true
    · simp [hsoft, checkSoftResponse_sent, sent_flush, sent_write, byteOfInt_mod, e1, e2, e3,
        e4, e5, e6]
    · simp [hsoft]
  · by_cases hok : (connect2Server s w).1 = true
    · have hx := connect2Server_sextets (fragmentDataFloat s v) w
      simp [hl.1, hok, hs, hx.1, hx.2.1, hx.2.2.1, hx.2.2.2.1, hx.2.2.2.2.1, hx.2.2.2.2.2,
        checkLANResponse_sent, sent_flush, sent_write, byteOfInt_mod, e1, e2, e3, e4, e5, e6,
        connect2Server_sent]
    · simp [hl.1, hok, connect2Server_sent]

theorem sendBasicCommand_store (t : Target) (s : State) (w : World) (c : Nat) :
    (sendBasicCommand t s w c).2.1.store = s.store := by
  unfold sendBasicCommand
  dsimp only
  split
  · split
    · rw [checkSoftResponse_store]
    · rfl
  · rw [checkHardResponse_store]
  · split
    · rw [checkLANResponse_store, connect2Server_store]
    · rw [connect2Server_store]

theorem sendBasicCommand_sent (t : Target) (s : State) (w : World) (c : Nat) :
    (sendBasicCommand t s w c).2.2.sent = w.sent ++ onWire t s w (frameCmd c) := by
  unfold sendBasicCommand onWire linkUp slotPrefix frameCmd
  dsimp only
  cases h : s.connectionType
  · simp [checkHardResponse_sent, sent_flush, sent_write]
  · by_cases hsoft : t.softSerial = true
    · simp [hsoft, checkSoftResponse_sent, sent_flush, sent_write]
    · simp [hsoft]
  · by_cases hok : (connect2Server s w).1 = true
    · simp [hok, connect2Server_slot, checkLANResponse_sent, sent_flush, sent_write,
        byteOfInt_mod, connect2Server_sent]
    · simp [hok, connect2Server_sent]

theorem onWire_lan (t : Target) (s : State) (w : World) (f : List Nat)
    (h : s.connectionType = ConnectionType.LAN) :
    onWire t s w f = if (connect2Server s w).1 then byteOfInt s.myLanSlot :: f else [] := by
  unfold onWire linkUp slotPrefix
  simp [h]

/-! ## The Int write frame -/

/-- C11: the Int write frame.  On a serial transport, for every in-range word `word` and
every value `v` that differs from the stored one, `setInt(word, v)` emits exactly one
frame, the 7 bytes `[0x40, 'L', word, hd, md, ld, 0x62]` where `hd`, `md`, `ld` are the
sextets left by `fragmentData16(v)`. -/
theorem int_write_frame (t : Target) (s : State) (w : World) (hser : serialLink t s)
    (hcap : s.ndfSize ≤ 127) (word : Int) (v : Nat) (hr : 0 ≤ word ∧ word < s.ndfSize)
    (hv : getAt s.nFile word 0 ≠ v) :
    (setInt t s w word v).2.sent
      = w.sent ++ [64, 76, word.toNat, (fragmentData16 s v).hd, (fragmentData16 s v).md,
          (fragmentData16 s v).ld, 98] := by
  have hb : byteOfInt word = word.toNat := by unfold byteOfInt; omega
  unfold setInt
  rw [(writeNFile_changed t s w word v hr hv).2, onWire_serial t s w _ hser, frameL, hb]

theorem int_write_frame_witness :
    serialLink Target.arm32 serialUp ∧
    (setInt Target.arm32 serialUp (World.idle []) 3 1234).2.sent = [64, 76, 3, 0, 19, 18, 98] :=
  ⟨by decide,
    (int_write_frame Target.arm32 serialUp (World.idle []) (by decide) (by decide) 3 1234
      (by decide) (by decide)).trans (by decide)⟩

/-! ## Reconnect cool-down -/

theorem trace_millis (w : World) : w.millis.2.trace = w.trace := by
  unfold World.millis
  split <;> rfl

theorem trace_connect (w : World) : w.connect.2.trace = w.trace ++ [Event.connect] := by
  unfold World.connect
  split <;> rfl

/-- C13: reconnect cool-down, with the clock as an explicit input.  After a failed connect
at time `T` (`lanConnectionStatus = false`, `reconnectServer = false`, `serverTime = T`),
`connect2Server` called when `millis()` reads `now` makes a socket connect attempt if and
only if the unsigned 32-bit difference `now - T` exceeds 3000; otherwise it returns false
without touching the socket.  In particular it does not attempt at `T + 2999` and attempts
at `T + 3001`. -/
theorem reconnect_cool_down (s : State) (w : World) (T now : Nat) (cs : List Nat)
    (h1 : s.lanConnectionStatus = false) (h2 : s.reconnectServer = false)
    (h3 : s.serverTime = T) (hc : w.clock = now :: cs) :
    ((connect2Server s w).2.2.trace = w.trace ++ [Event.connect] ↔ subU32 now T > 3000) ∧
    (¬ subU32 now T > 3000 →
      (connect2Server s w).1 = false ∧ (connect2Server s w).2.2.trace = w.trace) ∧
    (T < 4294967296 → now = (T + 2999) % 4294967296 →
      (connect2Server s w).1 = false ∧ (connect2Server s w).2.2.trace = w.trace) ∧
    (T < 4294967296 → now = (T + 3001) % 4294967296 →
      (connect2Server s w).2.2.trace = w.trace ++ [Event.connect]) := by
  have hm1 : w.millis.1 = now % 4294967296 := by simp [World.millis, hc]
  have hm2 : w.millis.2.trace = w.trace := by simp [World.millis, hc]
  have hsub : subU32 w.millis.1 s.serverTime = subU32 now T := by
    rw [hm1, h3]; unfold subU32; omega
  have hyes : subU32 now T > 3000 →
      (connect2Server s w).2.2.trace = w.trace ++ [Event.connect] := by
    intro h
    unfold connect2Server
    simp only [h1, h2, Bool.not_false, if_true, hsub, h]
    split_ifs <;> simp [trace_connect, trace_millis]
  have hno : ¬ subU32 now T > 3000 →
      (connect2Server s w).1 = false ∧ (connect2Server s w).2.2.trace = w.trace := by
    intro h
    unfold connect2Server
    simp [h1, h2, hsub, h, hm2]
  refine ⟨⟨?_, hyes⟩, hno, ?_, ?_⟩
  · intro h
    by_contra hn
    have h' := (hno hn).2
    rw [h'] at h
    have := congrArg List.length h
    simp at this
  · intro hT hn
    apply hno
    rw [hn]; unfold subU32; omega
  · intro hT hn
    apply hyes
    rw [hn]; unfold subU32; omega

theorem reconnect_cool_down_witness :
    (connect2Server lanDown.1 { lanDown.2 with clock := [2999] }).1 = false ∧
    (connect2Server lanDown.1 { lanDown.2 with clock := [2999] }).2.2.trace = lanDown.2.trace :=
  (reconnect_cool_down lanDown.1 { lanDown.2 with clock := [2999] } 0 2999 []
    (by decide) (by decide) (by decide) rfl).2.1 (by decide)

/-! ## The top two bits of the 32-bit codec -/

/-- The claim C18 as written fails at `v = 2^30`: the six sextets of
`fragmentData32(2^30)` are `(1, 0, 0, 0, 0, 0)` and `joinInt32` gives `2^30` back. -/
theorem codec32_top_bits_counterexample :
    joinInt32 Target.arm32 (fragmentData32 (State.fresh 60 50) 1073741824).hd32
      (fragmentData32 (State.fresh 60 50) 1073741824).md32
      (fragmentData32 (State.fresh 60 50) 1073741824).ld32
      (fragmentData32 (State.fresh 60 50) 1073741824).hd
      (fragmentData32 (State.fresh 60 50) 1073741824).md
      (fragmentData32 (State.fresh 60 50) 1073741824).ld = 1073741824 := by
  decide

/-- C18 (amended): 32-bit values at or above `2^30` are carried by the wire format too.
For every `v` with `2^30 <= v < 2^32` the top sextet holds bits 30 and 31 (a value in
`1..3`) and `joinInt32` applied to the six sextets of `fragmentData32(v)` gives `v` back
(the shift by 30 taken modulo `2^32`). -/
theorem codec32_top_bits (t : Target) (s : State) (v : Nat) (hlo : 1073741824 ≤ v)
    (hhi : v < 4294967296) :
    (1 ≤ (fragmentData32 s v).hd32 ∧ (fragmentData32 s v).hd32 ≤ 3) ∧
    joinInt32 t (fragmentData32 s v).hd32 (fragmentData32 s v).md32 (fragmentData32 s v).ld32
      (fragmentData32 s v).hd (fragmentData32 s v).md (fragmentData32 s v).ld = v := by
  refine ⟨?_, joinInt32_fragmentData32 t s v hhi⟩
  rw [fragmentData32_hd32]
  omega

theorem codec32_top_bits_witness :
    joinInt32 Target.avr (fragmentData32 (State.fresh 20 20) 4294967295).hd32
      (fragmentData32 (State.fresh 20 20) 4294967295).md32
      (fragmentData32 (State.fresh 20 20) 4294967295).ld32
      (fragmentData32 (State.fresh 20 20) 4294967295).hd
      (fragmentData32 (State.fresh 20 20) 4294967295).md
      (fragmentData32 (State.fresh 20 20) 4294967295).ld = 4294967295 :=
  (codec32_top_bits Target.avr (State.fresh 20 20) 4294967295 (by decide) (by decide)).2

/-! ## The slot selector of the socket transport -/

/-- C19: the LAN slot selector.  `init(ip, lanMemoryBank)` sets
`myLanSlot = min(max(lanMemoryBank, 1), 6)`.  On the LAN transport every operation that
emits a frame (poll or continue with command `c`, bit / int / dint / float write) puts the
slot byte followed by exactly the bytes the serial transport emits for the same operation
when `connect2Server` returns true, and puts nothing on the wire when it returns false. -/
theorem lan_slot_selector (t : Target) (s0 : State) (w0 : World) (lanMemoryBank : Int)
    (sl ss : State) (w : World) (c : Nat) (word bit : Int) (vb : Bool) (vn vd : Nat)
    (vf : floatValue)
    (hlan : sl.connectionType = ConnectionType.LAN) (hser : serialLink t ss) :
    (initLAN s0 w0 lanMemoryBank).1.myLanSlot = min (max lanMemoryBank 1) 6 ∧
    (initLAN s0 w0 lanMemoryBank).1.connectionType = ConnectionType.LAN ∧
    ((sendBasicCommand t ss w c).2.2.sent = w.sent ++ frameCmd c ∧
      (sendBasicCommand t sl w c).2.2.sent = w.sent ++
        if (connect2Server sl w).1 then byteOfInt sl.myLanSlot :: frameCmd c else []) ∧
    ((writeBFile2 t ss w word bit vb).2.sent = w.sent ++ frameC word bit vb ∧
      (writeBFile2 t sl w word bit vb).2.sent = w.sent ++
        if (connect2Server sl w).1 then byteOfInt sl.myLanSlot :: frameC word bit vb else []) ∧
    ((writeNFile2 t ss w word vn).2.sent = w.sent ++ frameL ss word vn ∧
      (writeNFile2 t sl w word vn).2.sent = w.sent ++
        if (connect2Server sl w).1 then byteOfInt sl.myLanSlot :: frameL ss word vn else []) ∧
    ((writeDFile2 t ss w word vd).2.sent = w.sent ++ frameN ss word vd ∧
      (writeDFile2 t sl w word vd).2.sent = w.sent ++
        if (connect2Server sl w).1 then byteOfInt sl.myLanSlot :: frameN ss word vd else []) ∧
    ((writeFFile2 t ss w word vf).2.sent = w.sent ++ frameP ss word vf ∧
      (writeFFile2 t sl w word vf).2.sent = w.sent ++
        if (connect2Server sl w).1 then byteOfInt sl.myLanSlot :: frameP ss word vf else []) := by
  have hP : frameP sl word vf = frameP ss word vf := by
    simp [frameP, fragmentDataFloat_eq, fragmentData32_hd, fragmentData32_md,
      fragmentData32_ld, fragmentData32_hd32, fragmentData32_md32, fragmentData32_ld32]
  refine ⟨?_, ?_, ⟨?_, ?_⟩, ⟨?_, ?_⟩, ⟨?_, ?_⟩, ⟨?_, ?_⟩, ⟨?_, ?_⟩⟩
  · have hslot : (initLAN s0 w0 lanMemoryBank).1.myLanSlot
        = if lanMemoryBank < 1 then 1 else if lanMemoryBank > 6 then 6 else lanMemoryBank := by
      unfold initLAN
      dsimp only
      rw [connect2Server_slot]
    rw [hslot]
    split_ifs <;> omega
  · unfold initLAN connect2Server
    dsimp only
    split_ifs <;> rfl
  · rw [sendBasicCommand_sent, onWire_serial t ss w _ hser]
  · rw [sendBasicCommand_sent, onWire_lan t sl w _ hlan]
  · rw [writeBFile2_sent, onWire_serial t ss w _ hser]
  · rw [writeBFile2_sent, onWire_lan t sl w _ hlan]
  · rw [writeNFile2_sent, onWire_serial t ss w _ hser]
  · rw [writeNFile2_sent, onWire_lan t sl w _ hlan, frameL_congr sl ss]
  · rw [writeDFile2_sent, onWire_serial t ss w _ hser]
  · rw [writeDFile2_sent, onWire_lan t sl w _ hlan, frameN_congr sl ss]
  · rw [writeFFile2_sent, onWire_serial t ss w _ hser]
  · rw [writeFFile2_sent, onWire_lan t sl w _ hlan, hP]

theorem lan_slot_selector_witness :
    lanDown.1.connectionType = ConnectionType.LAN ∧ serialLink Target.arm32 serialUp ∧
    (initLAN (State.fresh 60 50) (World.idle []) 9).1.myLanSlot = min (max 9 1) 6 :=
  ⟨by decide, by decide,
    (lan_slot_selector Target.arm32 (State.fresh 60 50) (World.idle []) 9 lanDown.1 serialUp
      (World.idle []) 97 3 5 true 1234 100000 ⟨0, 0, 128, 63⟩ (by decide) (by decide)).1⟩

/-! ## What the transport leaves alone -/

theorem checkHardResponse_sync (s : State) (w : World) :
    (checkHardResponse s w).2.1.sync = s.sync := by
  unfold checkHardResponse
  dsimp only
  split <;> rfl

theorem checkSoftResponse_sync (t : Target) (s : State) (w : World) :
    (checkSoftResponse t s w).2.1.sync = s.sync := by
  unfold checkSoftResponse
  split
  · exact checkHardResponse_sync s w
  · rfl

theorem checkLANResponse_sync (s : State) (w : World) :
    (checkLANResponse s w).2.1.sync = s.sync := by
  unfold checkLANResponse
  dsimp only
  split_ifs <;> rfl

theorem connect2Server_sync (s : State) (w : World) :
    (connect2Server s w).2.1.sync = s.sync := by
  unfold connect2Server
  dsimp only
  split_ifs <;> rfl

theorem sendBasicCommand_sync (t : Target) (s : State) (w : World) (c : Nat) :
    (sendBasicCommand t s w c).2.1.sync = s.sync := by
  unfold sendBasicCommand
  dsimp only
  split
  · split
    · rw [checkSoftResponse_sync]
    · rfl
  · rw [checkHardResponse_sync]
  · split
    · rw [checkLANResponse_sync, connect2Server_sync]
    · rw [connect2Server_sync]

theorem writeBFile2_sync (t : Target) (s : State) (w : World) (word bit : Int) (v : Bool) :
    (writeBFile2 t s w word bit v).1.sync = s.sync := by
  unfold writeBFile2
  dsimp only
  split
  · split
    · rw [checkSoftResponse_sync]
    · rfl
  · rw [checkHardResponse_sync]
  · split
    · rw [checkLANResponse_sync, connect2Server_sync]
    · rw [connect2Server_sync]

theorem writeNFile2_sync (t : Target) (s : State) (w : World) (word : Int) (v : Nat) :
    (writeNFile2 t s w word v).1.sync = s.sync := by
  unfold writeNFile2
  dsimp only
  split
  · split
    · rw [checkSoftResponse_sync]; rfl
    · rfl
  · rw [checkHardResponse_sync]; rfl
  · split
    · rw [checkLANResponse_sync, connect2Server_sync]; rfl
    · rw [connect2Server_sync]; rfl

theorem writeDFile2_sync (t : Target) (s : State) (w : World) (word : Int) (v : Nat) :
    (writeDFile2 t s w word v).1.sync = s.sync := by
  unfold writeDFile2
  dsimp only
  split
  · split
    · rw [checkSoftResponse_sync]; rfl
    · rfl
  · rw [checkHardResponse_sync]; rfl
  · split
    · rw [checkLANResponse_sync, connect2Server_sync]; rfl
    · rw [connect2Server_sync]; rfl

theorem writeFFile2_sync (t : Target) (s : State) (w : World) (word : Int) (v : floatValue) :
    (writeFFile2 t s w word v).1.sync = s.sync := by
  unfold writeFFile2
  dsimp only
  split
  · split
    · rw [checkSoftResponse_sync]; rfl
    · rfl
  · rw [checkHardResponse_sync]; rfl
  · split
    · rw [checkLANResponse_sync, connect2Server_sync]; rfl
    · rw [connect2Server_sync]; rfl

theorem serialLink_of_sync (t : Target) (s s' : State) (h : s'.sync = s.sync)
    (hs : serialLink t s) : serialLink t s' := by
  have hc : s'.connectionType = s.connectionType := congrArg (fun x => x.2.2.2.1) h
  unfold serialLink at *
  rw [hc]; exact hs

/-! ## The replies left to read -/

theorem rx_write (w : World) (b : Nat) : (w.write b).rx = w.rx := rfl

theorem rx_flush (w : World) : w.flush.rx = w.rx := rfl

theorem rx_stop (w : World) : w.stop.rx = w.rx := rfl

theorem rx_waitDeadline (w : World) (t0 : Nat) : (w.waitDeadline t0).rx = w.rx := rfl

theorem rx_millis (w : World) : w.millis.2.rx = w.rx := by
  unfold World.millis
  split <;> rfl

theorem rx_connect (w : World) : w.connect.2.rx = w.rx := by
  unfold World.connect
  split <;> rfl

theorem rx_recv_le (w : World) : w.recv.2.rx.length ≤ w.rx.length := by
  unfold World.recv
  split
  · exact Nat.le_refl _
  · rename_i r rs h
    rw [h]; simp

theorem rx_recv_lt (w : World) (h : w.recv.1 ≠ []) : w.recv.2.rx.length < w.rx.length := by
  unfold World.recv at *
  split
  · rename_i h0; simp [h0] at h
  · rename_i r rs h0
    rw [h0]; simp

theorem rx_connect2Server (s : State) (w : World) : (connect2Server s w).2.2.rx = w.rx := by
  unfold connect2Server
  dsimp only
  split_ifs <;> simp [rx_millis, rx_connect]

/-- An exchange on the serial line reads at most one reply, and exactly one when it
succeeds. -/
theorem checkHardResponse_rx (s : State) (w : World) :
    (checkHardResponse s w).2.2.rx.length ≤ w.rx.length ∧
    ((checkHardResponse s w).1 = true → (checkHardResponse s w).2.2.rx.length < w.rx.length) := by
  have hle := rx_recv_le w.millis.2
  rw [rx_millis] at hle
  unfold checkHardResponse
  dsimp only
  split
  · rename_i h
    have hlt := rx_recv_lt w.millis.2 h
    rw [rx_millis] at hlt
    simp only [rx_millis]
    exact ⟨hle, fun _ => hlt⟩
  · simp only [rx_waitDeadline]
    exact ⟨hle, fun h => by simp at h⟩

theorem checkSoftResponse_rx (t : Target) (s : State) (w : World) :
    (checkSoftResponse t s w).2.2.rx.length ≤ w.rx.length ∧
    ((checkSoftResponse t s w).1 = true →
      (checkSoftResponse t s w).2.2.rx.length < w.rx.length) := by
  unfold checkSoftResponse
  split
  · exact checkHardResponse_rx s w
  · simp [rx_waitDeadline, rx_millis]

theorem checkLANResponse_rx (s : State) (w : World) :
    (checkLANResponse s w).2.2.rx.length ≤ w.rx.length ∧
    ((checkLANResponse s w).1 = true → (checkLANResponse s w).2.2.rx.length < w.rx.length) := by
  have hle := rx_recv_le w.millis.2
  rw [rx_millis] at hle
  unfold checkLANResponse
  dsimp only
  by_cases h : w.millis.2.recv.1 ≠ []
  · have hlt := rx_recv_lt w.millis.2 h
    rw [rx_millis] at hlt
    rw [if_pos h]
    split_ifs <;> simp [rx_millis, rx_stop] <;> omega
  · rw [if_neg h]
    split_ifs <;> simp [rx_millis, rx_stop, rx_waitDeadline] <;> omega

theorem sendBasicCommand_rx (t : Target) (s : State) (w : World) (c : Nat) :
    (sendBasicCommand t s w c).2.2.rx.length ≤ w.rx.length ∧
    ((sendBasicCommand t s w c).1 = true →
      (sendBasicCommand t s w c).2.2.rx.length < w.rx.length) := by
  unfold sendBasicCommand
  dsimp only
  split
  · split
    · exact checkSoftResponse_rx t s _
    · simp
  · exact checkHardResponse_rx s _
  · split
    · have h := checkLANResponse_rx (connect2Server s w).2.1
        (((((connect2Server s w).2.2.write (byteOfInt (connect2Server s w).2.1.myLanSlot)).write
          64).write c).write 98).flush
      simp only [rx_flush, rx_write, rx_connect2Server] at h
      exact h
    · simp [rx_connect2Server]

/-! ## Records and the drain loop -/

/-- What applying a record can change: the four value arrays, and the two mode flags in one
direction each (`syncro` to false, `overrideSend` to true). -/
theorem applyRecord_shape (t : Target) (s : State) (u : Bool) (a : State × Bool × Bool)
    (h : applyRecord t s u = .ok a) :
    ∃ (bF nF dF : List Nat) (fF : List floatValue) (sy ov : Bool),
      a.1 = { s with bFile := bF, nFile := nF, dFile := dF, fFile := fF, syncro := sy,
                     overrideSend := ov } ∧
      (sy = s.syncro ∨ sy = false) ∧ (ov = s.overrideSend ∨ ov = true) := by
  unfold applyRecord at h
  dsimp only at h
  split_ifs at h <;> injection h with h <;> subst h
  all_goals first
    | exact ⟨_, s.nFile, s.dFile, s.fFile, s.syncro, s.overrideSend, rfl, Or.inl rfl, Or.inl rfl⟩
    | exact ⟨s.bFile, _, s.dFile, s.fFile, s.syncro, s.overrideSend, rfl, Or.inl rfl, Or.inl rfl⟩
    | exact ⟨s.bFile, s.nFile, _, s.fFile, s.syncro, s.overrideSend, rfl, Or.inl rfl, Or.inl rfl⟩
    | exact ⟨s.bFile, s.nFile, s.dFile, _, s.syncro, s.overrideSend, rfl, Or.inl rfl, Or.inl rfl⟩
    | exact ⟨s.bFile, s.nFile, s.dFile, s.fFile, false, s.overrideSend, rfl, Or.inr rfl,
        Or.inl rfl⟩
    | exact ⟨s.bFile, s.nFile, s.dFile, s.fFile, s.syncro, true, rfl, Or.inl rfl, Or.inr rfl⟩

theorem applyRecord_ne_outOfFuel (t : Target) (s : State) (u : Bool) :
    applyRecord t s u ≠ .error Fault.outOfFuel := by
  unfold applyRecord
  dsimp only
  split_ifs <;> simp

/-- An invariant of the exchange `c` and of the record switch is an invariant of the drain
loop. -/
theorem drainLoop_inv (t : Target) (I : State → World → Bool → Prop)
    (hsend : ∀ s w u, I s w u →
      I (sendBasicCommand t s w 99).2.1 (sendBasicCommand t s w 99).2.2 u)
    (happly : ∀ s w u a, I s w u → applyRecord t s u = .ok a → I a.1 w a.2.2) :
    ∀ (fuel : Nat) (s : State) (w : World) (u : Bool) (r : State × World × Bool),
      I s w u → drainLoop t fuel s w u = .ok r → I r.1 r.2.1 r.2.2 := by
  intro fuel
  induction fuel with
  | zero => intro s w u r _ h; simp [drainLoop] at h
  | succ n ih =>
    intro s w u r hI h
    have h1 := hsend s w u hI
    unfold drainLoop at h
    dsimp only at h
    split_ifs at h with hok
    · cases ha : applyRecord t (sendBasicCommand t s w 99).2.1 u with
      | error f => rw [ha] at h; simp at h
      | ok a =>
        rw [ha] at h
        dsimp only at h
        have h2 := happly _ _ _ a h1 ha
        split_ifs at h with hrd
        · exact ih _ _ _ r h2 h
        · injection h with h; subst h; exact h2
    · injection h with h; subst h; exact h1

/-- The drain loop ends before its fuel when the fuel exceeds the number of replies. -/
theorem drainLoop_fuel (t : Target) :
    ∀ (fuel : Nat) (s : State) (w : World) (u : Bool), w.rx.length < fuel →
      drainLoop t fuel s w u ≠ .error Fault.outOfFuel := by
  intro fuel
  induction fuel with
  | zero => intro s w u h; omega
  | succ n ih =>
    intro s w u hlen
    have hrx := sendBasicCommand_rx t s w 99
    unfold drainLoop
    dsimp only
    split_ifs with hok
    · cases ha : applyRecord t (sendBasicCommand t s w 99).2.1 u with
      | error f =>
        dsimp only
        intro h
        injection h with h
        subst h
        exact applyRecord_ne_outOfFuel t _ u ha
      | ok a =>
        dsimp only
        split_ifs
        · exact ih _ _ _ (by have := hrx.2 hok; omega)
        · simp
    · simp

/-! ## The push-back pass and the end of a tick -/

theorem foldl_inv {α β : Type} (P : β → Prop) (f : β → α → β)
    (hf : ∀ b a, P b → P (f b a)) : ∀ (l : List α) (b : β), P b → P (l.foldl f b) := by
  intro l
  induction l with
  | nil => intro b hb; exact hb
  | cons a l ih => intro b hb; exact ih _ (hf b a hb)

theorem ite_inv {β : Type} (P : β → Prop) (c : Prop) [Decidable c] (a b : β) (ha : P a)
    (hb : P b) : P (if c then a else b) := by
  split <;> assumption

/-- An invariant of the four `write?File2` methods is an invariant of the push-back pass. -/
theorem pushBack_inv (t : Target) (P : State × World → Prop)
    (hB : ∀ sw word bit v, P sw → P (writeBFile2 t sw.1 sw.2 word bit v))
    (hN : ∀ sw word v, P sw → P (writeNFile2 t sw.1 sw.2 word v))
    (hD : ∀ sw word v, P sw → P (writeDFile2 t sw.1 sw.2 word v))
    (hF : ∀ sw word v, P sw → P (writeFFile2 t sw.1 sw.2 word v)) :
    ∀ (s : State) (w : World), P (s, w) → P (pushBack t s w) := by
  intro s w h
  unfold pushBack
  dsimp only
  apply foldl_inv P
  · intro sw i hsw
    dsimp only
    refine ite_inv P _ _ _ (hF _ _ _ ?_) ?_ <;>
      refine ite_inv P _ _ _ (hD _ _ _ ?_) ?_ <;>
        exact ite_inv P _ _ _ (hN _ _ _ hsw) hsw
  · apply foldl_inv P
    · intro sw i hsw
      refine ite_inv P _ _ _ ?_ hsw
      unfold pushBackBits
      apply foldl_inv P
      · intro sw' j hsw'
        exact ite_inv P _ _ _ (hB _ _ _ _ hsw') hsw'
      · exact hsw
    · exact h

theorem pushBack_store (t : Target) (s : State) (w : World) :
    (pushBack t s w).1.store = s.store :=
  pushBack_inv t (fun sw => sw.1.store = s.store)
    (fun sw word bit v h => (writeBFile2_store t sw.1 sw.2 word bit v).trans h)
    (fun sw word v h => (writeNFile2_store t sw.1 sw.2 word v).trans h)
    (fun sw word v h => (writeDFile2_store t sw.1 sw.2 word v).trans h)
    (fun sw word v h => (writeFFile2_store t sw.1 sw.2 word v).trans h) s w rfl

theorem pushBack_sync (t : Target) (s : State) (w : World) :
    (pushBack t s w).1.sync = s.sync :=
  pushBack_inv t (fun sw => sw.1.sync = s.sync)
    (fun sw word bit v h => (writeBFile2_sync t sw.1 sw.2 word bit v).trans h)
    (fun sw word v h => (writeNFile2_sync t sw.1 sw.2 word v).trans h)
    (fun sw word v h => (writeDFile2_sync t sw.1 sw.2 word v).trans h)
    (fun sw word v h => (writeFFile2_sync t sw.1 sw.2 word v).trans h) s w rfl

/-- On a serial link the push-back pass puts a sequence of write frames on the wire. -/
theorem pushBack_frames (t : Target) (s : State) (w : World) (hser : serialLink t s) :
    ∃ fs : List (List Nat), (∀ f ∈ fs, WriteFrame f) ∧
      (pushBack t s w).2.sent = w.sent ++ fs.flatten := by
  have key := pushBack_inv t
    (fun sw => sw.1.sync = s.sync ∧
      ∃ fs : List (List Nat), (∀ f ∈ fs, WriteFrame f) ∧ sw.2.sent = w.sent ++ fs.flatten)
    (fun sw word bit v h => by
      obtain ⟨hs, fs, hfs, hsent⟩ := h
      refine ⟨(writeBFile2_sync t sw.1 sw.2 word bit v).trans hs,
        fs ++ [frameC word bit v], ?_, ?_⟩
      · intro f hf
        rcases List.mem_append.mp hf with hf | hf
        · exact hfs f hf
        · rw [List.mem_singleton.mp hf]; exact Or.inl ⟨word, bit, v, rfl⟩
      · rw [writeBFile2_sent, onWire_serial t sw.1 sw.2 _ (serialLink_of_sync t s sw.1 hs hser),
          hsent]
        simp)
    (fun sw word v h => by
      obtain ⟨hs, fs, hfs, hsent⟩ := h
      refine ⟨(writeNFile2_sync t sw.1 sw.2 word v).trans hs,
        fs ++ [frameL sw.1 word v], ?_, ?_⟩
      · intro f hf
        rcases List.mem_append.mp hf with hf | hf
        · exact hfs f hf
        · rw [List.mem_singleton.mp hf]; exact Or.inr (Or.inl ⟨sw.1, word, v, rfl⟩)
      · rw [writeNFile2_sent, onWire_serial t sw.1 sw.2 _ (serialLink_of_sync t s sw.1 hs hser),
          hsent]
        simp)
    (fun sw word v h => by
      obtain ⟨hs, fs, hfs, hsent⟩ := h
      refine ⟨(writeDFile2_sync t sw.1 sw.2 word v).trans hs,
        fs ++ [frameN sw.1 word v], ?_, ?_⟩
      · intro f hf
        rcases List.mem_append.mp hf with hf | hf
        · exact hfs f hf
        · rw [List.mem_singleton.mp hf]; exact Or.inr (Or.inr (Or.inl ⟨sw.1, word, v, rfl⟩))
      · rw [writeDFile2_sent, onWire_serial t sw.1 sw.2 _ (serialLink_of_sync t s sw.1 hs hser),
          hsent]
        simp)
    (fun sw word v h => by
      obtain ⟨hs, fs, hfs, hsent⟩ := h
      refine ⟨(writeFFile2_sync t sw.1 sw.2 word v).trans hs,
        fs ++ [frameP sw.1 word v], ?_, ?_⟩
      · intro f hf
        rcases List.mem_append.mp hf with hf | hf
        · exact hfs f hf
        · rw [List.mem_singleton.mp hf]; exact Or.inr (Or.inr (Or.inr ⟨sw.1, word, v, rfl⟩))
      · rw [writeFFile2_sent, onWire_serial t sw.1 sw.2 _ (serialLink_of_sync t s sw.1 hs hser),
          hsent]
        simp)
    s w ⟨rfl, [], by simp, by simp⟩
  exact key.2

/-! ## What a tick keeps -/

theorem Keeps.refl (s : State) : Keeps s s :=
  ⟨rfl, rfl, rfl, rfl, rfl, rfl, rfl, id, id⟩

theorem Keeps.trans {s1 s2 s3 : State} (h1 : Keeps s1 s2) (h2 : Keeps s2 s3) : Keeps s1 s3 := by
  obtain ⟨a1, a2, a3, a4, a5, a6, a7, a8, a9⟩ := h1
  obtain ⟨b1, b2, b3, b4, b5, b6, b7, b8, b9⟩ := h2
  exact ⟨b1.trans a1, b2.trans a2, b3.trans a3, b4.trans a4, b5.trans a5, b6.trans a6,
    b7.trans a7, fun h => b8 (a8 h), fun h => b9 (a9 h)⟩

theorem Keeps_of_store_sync (s s' : State) (h1 : s'.store = s.store) (h2 : s'.sync = s.sync) :
    Keeps s s' := by
  have e1 : s'.bFileUpdate = s.bFileUpdate := congrArg Store.bFileUpdate h1
  have e2 : s'.nFileUpdate = s.nFileUpdate := congrArg Store.nFileUpdate h1
  have e3 : s'.dFileUpdate = s.dFileUpdate := congrArg Store.dFileUpdate h1
  have e4 : s'.fFileUpdate = s.fFileUpdate := congrArg Store.fFileUpdate h1
  have e5 : s'.bFileOver = s.bFileOver := congrArg Store.bFileOver h1
  have e6 : s'.nFileOver = s.nFileOver := congrArg Store.nFileOver h1
  have e7 : s'.dFileOver = s.dFileOver := congrArg Store.dFileOver h1
  have e8 : s'.fFileOver = s.fFileOver := congrArg Store.fFileOver h1
  have e9 : s'.bSize = s.bSize := congrArg Store.bSize h1
  have e10 : s'.ndfSize = s.ndfSize := congrArg Store.ndfSize h1
  have f1 : s'.syncro = s.syncro := congrArg (fun x => x.1) h2
  have f2 : s'.overrideSend = s.overrideSend := congrArg (fun x => x.2.1) h2
  have f3 : s'.overDisplay = s.overDisplay := congrArg (fun x => x.2.2.1) h2
  have f4 : s'.connectionType = s.connectionType := congrArg (fun x => x.2.2.2.1) h2
  have f5 : s'.myLanSlot = s.myLanSlot := congrArg (fun x => x.2.2.2.2) h2
  refine ⟨?_, ?_, e9, e10, f4, f3, f5, fun h => by rw [f2]; exact h, fun h => by rw [f1]; exact h⟩
  · simp [State.dirty, e1, e2, e3, e4]
  · simp [State.over, e5, e6, e7, e8]

theorem sendBasicCommand_keeps (t : Target) (s : State) (w : World) (c : Nat) :
    Keeps s (sendBasicCommand t s w c).2.1 :=
  Keeps_of_store_sync _ _ (sendBasicCommand_store t s w c) (sendBasicCommand_sync t s w c)

theorem applyRecord_keeps (t : Target) (s : State) (u : Bool) (a : State × Bool × Bool)
    (h : applyRecord t s u = .ok a) : Keeps s a.1 := by
  obtain ⟨bF, nF, dF, fF, sy, ov, ha, hsy, hov⟩ := applyRecord_shape t s u a h
  rw [ha]
  refine ⟨rfl, rfl, rfl, rfl, rfl, rfl, rfl, ?_, ?_⟩
  · intro h1
    rcases hov with h2 | h2
    · show ov = true
      rw [h2]; exact h1
    · exact h2
  · intro h1
    rcases hsy with h2 | h2
    · show sy = false
      rw [h2]; exact h1
    · exact h2

theorem drainLoop_keeps (t : Target) (fuel : Nat) (s : State) (w : World) (u : Bool)
    (r : State × World × Bool) (h : drainLoop t fuel s w u = .ok r) : Keeps s r.1 :=
  drainLoop_inv t (fun s' _ _ => Keeps s s')
    (fun s' w' _ hI => hI.trans (sendBasicCommand_keeps t s' w' 99))
    (fun s' _ u' a hI ha => hI.trans (applyRecord_keeps t s' u' a ha))
    fuel s w u r (Keeps.refl s) h

theorem pollTick_keeps (t : Target) (s : State) (w : World) : Keeps s (pollTick t s w).2.1 := by
  unfold pollTick
  split <;> exact sendBasicCommand_keeps t s w _

theorem drainTick_keeps (t : Target) (s : State) (w : World) (a : State × World × Bool)
    (h : drainTick t s w = .ok a) : Keeps s a.1 := by
  have hp := pollTick_keeps t s w
  unfold drainTick at h
  dsimp only at h
  split_ifs at h
  · exact hp.trans (drainLoop_keeps t _ _ _ _ a h)
  · injection h with h; subst h
    refine hp.trans ⟨rfl, rfl, rfl, rfl, rfl, rfl, rfl, id, fun _ => rfl⟩
  · injection h with h; subst h; exact hp
  · injection h with h; subst h; exact hp

theorem drainTick_fuel (t : Target) (s : State) (w : World) :
    drainTick t s w ≠ .error Fault.outOfFuel := by
  unfold drainTick
  dsimp only
  split_ifs
  · exact drainLoop_fuel t _ _ _ _ (Nat.lt_succ_self _)
  · simp
  · simp
  · simp

/-- A tick ends: the model of `update()` never runs out of fuel. -/
theorem update_fuel (t : Target) (s : State) (w : World) :
    update t s w ≠ .error Fault.outOfFuel := by
  have h := drainTick_fuel t s w
  unfold update
  cases hd : drainTick t s w with
  | error f =>
    dsimp only
    intro h2
    injection h2 with h2
    subst h2
    exact h hd
  | ok a => simp

theorem update_ok (t : Target) (s : State) (w : World) (r : State × World)
    (h : update t s w = .ok r) :
    ∃ a, drainTick t s w = .ok a ∧ r = finishTick t a.1 a.2.1 a.2.2 := by
  unfold update at h
  cases hd : drainTick t s w with
  | error f => rw [hd] at h; simp at h
  | ok a =>
    rw [hd] at h
    injection h with h
    exact ⟨a, rfl, h.symm⟩

theorem finishTick_dirty (t : Target) (s : State) (w : World) (u : Bool) :
    (finishTick t s w u).1.dirty = s.dirty := by
  unfold finishTick
  dsimp only
  have hp : ∀ s' w', (pushBack t s' w').1.dirty = s'.dirty := by
    intro s' w'
    have h := pushBack_store t s' w'
    have e1 := congrArg Store.bFileUpdate h
    have e2 := congrArg Store.nFileUpdate h
    have e3 := congrArg Store.dFileUpdate h
    have e4 := congrArg Store.fFileUpdate h
    simp only [State.store] at e1 e2 e3 e4
    simp [State.dirty, e1, e2, e3, e4]
  split_ifs <;> first | rw [hp] | skip
  all_goals rfl

/-! ## Dirty flags across a tick -/

theorem update_dirty (t : Target) (s : State) (w : World) (r : State × World)
    (h : update t s w = .ok r) : r.1.dirty = s.dirty := by
  obtain ⟨a, ha, hr⟩ := update_ok t s w r h
  rw [hr, finishTick_dirty]
  exact (drainTick_keeps t s w a ha).1

theorem pollTick_sent (t : Target) (s : State) (w : World) :
    (pollTick t s w).2.2.sent
      = w.sent ++ onWire t s w (frameCmd (if s.syncro then 97 else 101)) := by
  unfold pollTick
  split <;> exact sendBasicCommand_sent t s w _

theorem pollTick_store (t : Target) (s : State) (w : World) :
    (pollTick t s w).2.1.store = s.store := by
  unfold pollTick
  split <;> exact sendBasicCommand_store t s w _

theorem pollTick_sync (t : Target) (s : State) (w : World) :
    (pollTick t s w).2.1.sync = s.sync := by
  unfold pollTick
  split <;> exact sendBasicCommand_sync t s w _

theorem finishTick_false_world (t : Target) (s : State) (w : World) :
    (finishTick t s w false).2 = w := by
  unfold finishTick
  simp

theorem finishTick_syncro (t : Target) (s : State) (w : World) (u : Bool) :
    (finishTick t s w u).1.syncro = s.syncro := by
  have hp : ∀ s' w', (pushBack t s' w').1.syncro = s'.syncro :=
    fun s' w' => congrArg (fun x => x.1) (pushBack_sync t s' w')
  unfold finishTick
  dsimp only
  split_ifs <;> first | rw [hp] | skip
  all_goals rfl

/-- Without a resend owed and without `update2Android` the end of a tick only resets
`overDisplay`. -/
theorem finishTick_idle (t : Target) (s : State) (w : World) (h : s.overrideSend = false) :
    (finishTick t s w false).1 = { s with overDisplay := false } := by
  unfold finishTick
  cases hd : s.overDisplay <;> simp [h, hd]
  cases s
  simp_all

/-- C17: a failed exchange aborts the batch of the tick.  If the poll exchange fails,
`update()` returns having sent the poll frame only (no `c` frame) and, no resend being
owed at entry, with every stored value, dirty flag, override flag and the sync mode
unchanged.  If a `c` exchange at the head of a loop iteration fails, the drain loop
returns at once with the state that exchange left: sync mode is as it was, and with
`update2Android` false (its value at every iteration head of a tick, since a record that
sets it ends the loop) the rest of the tick puts nothing on the wire. -/
theorem failed_exchange_aborts (t : Target) (s : State) (w : World) :
    ((pollTick t s w).1 = false → s.overrideSend = false →
      ∃ r, update t s w = .ok r ∧ r.1.store = s.store ∧ r.1.syncro = s.syncro ∧
        r.2.sent = w.sent ++ onWire t s w (frameCmd (if s.syncro then 97 else 101))) ∧
    ((sendBasicCommand t s w 99).1 = false →
      (∀ fuel u, drainLoop t (fuel + 1) s w u
        = .ok ((sendBasicCommand t s w 99).2.1, (sendBasicCommand t s w 99).2.2, u)) ∧
      (sendBasicCommand t s w 99).2.1.syncro = s.syncro ∧
      (sendBasicCommand t s w 99).2.2.sent = w.sent ++ onWire t s w (frameCmd 99) ∧
      (finishTick t (sendBasicCommand t s w 99).2.1 (sendBasicCommand t s w 99).2.2 false).2
        = (sendBasicCommand t s w 99).2.2 ∧
      (finishTick t (sendBasicCommand t s w 99).2.1
        (sendBasicCommand t s w 99).2.2 false).1.syncro = s.syncro) ∧
    (∀ a, applyRecord t s false = .ok a → a.2.1 = true → a.2.2 = false) := by
  refine ⟨?_, ?_, ?_⟩
  · intro hp hov
    have hst := pollTick_store t s w
    have hsy := pollTick_sync t s w
    have hov1 : (pollTick t s w).2.1.overrideSend = false := by
      have : (pollTick t s w).2.1.overrideSend = s.overrideSend := congrArg (fun x => x.2.1) hsy
      rw [this]; exact hov
    have hd : drainTick t s w = .ok ((pollTick t s w).2.1, (pollTick t s w).2.2, false) := by
      unfold drainTick
      simp [hp]
    refine ⟨finishTick t (pollTick t s w).2.1 (pollTick t s w).2.2 false, ?_, ?_, ?_, ?_⟩
    · unfold update
      rw [hd]
    · rw [finishTick_idle t _ _ hov1]
      exact hst
    · rw [finishTick_idle t _ _ hov1]
      exact congrArg (fun x => x.1) hsy
    · rw [finishTick_false_world, pollTick_sent]
  · intro hc
    have hsy := sendBasicCommand_sync t s w 99
    have hsyn : (sendBasicCommand t s w 99).2.1.syncro = s.syncro := congrArg (fun x => x.1) hsy
    refine ⟨?_, hsyn, sendBasicCommand_sent t s w 99, finishTick_false_world t _ _, ?_⟩
    · intro fuel u
      unfold drainLoop
      simp [hc]
    · rw [finishTick_syncro]
      exact hsyn
  · intro a ha h1
    unfold applyRecord at ha
    dsimp only at ha
    split_ifs at ha <;> injection ha with ha <;> subst ha <;> first | rfl | simp at h1

theorem failed_exchange_aborts_witness :
    (pollTick Target.arm32 serialUp (World.idle [])).1 = false ∧
    serialUp.overrideSend = false ∧
    ∃ r, update Target.arm32 serialUp (World.idle []) = .ok r ∧ r.1.store = serialUp.store ∧
      r.1.syncro = serialUp.syncro ∧
      r.2.sent = (World.idle []).sent ++ onWire Target.arm32 serialUp (World.idle [])
        (frameCmd (if serialUp.syncro then 97 else 101)) :=
  ⟨by decide, by decide,
    (failed_exchange_aborts Target.arm32 serialUp (World.idle [])).1 (by decide) (by decide)⟩

/-! ## The frames of a tick -/

theorem applyRecord_serialLink (t : Target) (s : State) (u : Bool) (a : State × Bool × Bool)
    (h : applyRecord t s u = .ok a) (hs : serialLink t s) : serialLink t a.1 := by
  have hk := (applyRecord_keeps t s u a h).2.2.2.2.1
  unfold serialLink at *
  rw [hk]; exact hs

theorem finishTick_frames (t : Target) (s : State) (w : World) (u : Bool)
    (hser : serialLink t s) :
    ∃ fs : List (List Nat), (∀ f ∈ fs, WriteFrame f) ∧
      (finishTick t s w u).2.sent = w.sent ++ fs.flatten := by
  cases u
  · exact ⟨[], by simp, by rw [finishTick_false_world]; simp⟩
  · unfold finishTick
    dsimp only
    simp only [if_true]
    apply pushBack_frames
    unfold serialLink at *
    split_ifs <;> exact hser

/-- C20: the shape of the frame trace of a tick.  On a serial transport, for every state
and every sequence of panel replies, `update()` ends, and unless a panel record drives it
into an undefined access the bytes it puts on the wire are, in order, exactly one poll
frame (`[0x40, 'a', 0x62]` if sync mode is set at entry, `[0x40, 'e', 0x62]` otherwise),
then `k` continue frames `[0x40, 'c', 0x62]` for some `k >= 0`, then a sequence of write
frames (`C`, `L`, `N`, `P`). -/
theorem tick_frame_shape (t : Target) (s : State) (w : World) (hser : serialLink t s) :
    match update t s w with
    | .ok r =>
      ∃ (k : Nat) (fs : List (List Nat)), (∀ f ∈ fs, WriteFrame f) ∧
        r.2.sent = w.sent ++ [64, if s.syncro then 97 else 101, 98]
          ++ (List.replicate k [64, 99, 98]).flatten ++ fs.flatten
    | .error f => f ≠ Fault.outOfFuel := by
  cases h : update t s w with
  | error f =>
    dsimp only
    intro hf
    rw [hf] at h
    exact update_fuel t _ _ h
  | ok r =>
    dsimp only
    obtain ⟨a, ha, hr⟩ := update_ok t s w r h
    have hpoll : (pollTick t s w).2.2.sent = w.sent ++ [64, if s.syncro then 97 else 101, 98] := by
      rw [pollTick_sent, onWire_serial t s w _ hser]
      unfold frameCmd
      split <;> rfl
    have hser1 : serialLink t (pollTick t s w).2.1 :=
      serialLink_of_sync t s _ (pollTick_sync t s w) hser
    have key : serialLink t a.1 ∧ ∃ k : Nat, a.2.1.sent
        = w.sent ++ [64, if s.syncro then 97 else 101, 98]
          ++ (List.replicate k [64, 99, 98]).flatten := by
      unfold drainTick at ha
      dsimp only at ha
      split_ifs at ha
      · refine drainLoop_inv t
          (fun s' w' _ => serialLink t s' ∧ ∃ k : Nat, w'.sent
            = w.sent ++ [64, if s.syncro then 97 else 101, 98]
              ++ (List.replicate k [64, 99, 98]).flatten)
          ?_ ?_ _ _ _ _ a ⟨hser1, 0, by simpa using hpoll⟩ ha
        · rintro s' w' _ ⟨hs', k, hk⟩
          refine ⟨serialLink_of_sync t s' _ (sendBasicCommand_sync t s' w' 99) hs', k + 1, ?_⟩
          rw [sendBasicCommand_sent, onWire_serial t s' w' _ hs', hk, List.replicate_succ']
          simp [frameCmd]
        · rintro s' w' u' a' ⟨hs', hk⟩ ha'
          exact ⟨applyRecord_serialLink t s' u' a' ha' hs', hk⟩
      · injection ha with ha; subst ha
        exact ⟨hser1, 0, by simpa using hpoll⟩
      · injection ha with ha; subst ha
        exact ⟨hser1, 0, by simpa using hpoll⟩
      · injection ha with ha; subst ha
        exact ⟨hser1, 0, by simpa using hpoll⟩
    obtain ⟨hsa, k, hk⟩ := key
    obtain ⟨fs, hfs, hsent⟩ := finishTick_frames t a.1 a.2.1 a.2.2 hsa
    refine ⟨k, fs, hfs, ?_⟩
    rw [hr, hsent, hk]

theorem tick_frame_shape_witness :
    serialLink Target.arm32 serialUp ∧
    (match update Target.arm32 serialUp (World.idle [[99, 98], [100, 98]]) with
      | .ok r =>
        ∃ (k : Nat) (fs : List (List Nat)), (∀ f ∈ fs, WriteFrame f) ∧
          r.2.sent = (World.idle [[99, 98], [100, 98]]).sent
            ++ [64, if serialUp.syncro then 97 else 101, 98]
            ++ (List.replicate k [64, 99, 98]).flatten ++ fs.flatten
      | .error f => f ≠ Fault.outOfFuel) :=
  ⟨by decide,
    tick_frame_shape Target.arm32 serialUp (World.idle [[99, 98], [100, 98]]) (by decide)⟩

/-! ## The resend request -/

theorem setAll_succ {α : Type} (l : List α) (n : Nat) (v : α) :
    setAll l (n + 1) v = (setAll l n v).set n v := by
  unfold setAll
  rw [List.range_succ, List.foldl_append]
  rfl

theorem length_setAll {α : Type} (l : List α) (n : Nat) (v : α) :
    (setAll l n v).length = l.length := by
  induction n with
  | zero => rfl
  | succ n ih => rw [setAll_succ, List.length_set, ih]

theorem getD_setAll {α : Type} (l : List α) (v d : α) :
    ∀ (n i : Nat), i < n → i < l.length → (setAll l n v).getD i d = v := by
  intro n
  induction n with
  | zero => intro i h; omega
  | succ n ih =>
    intro i hi hl
    rw [setAll_succ]
    have hlen : i < (setAll l n v).length := by rw [length_setAll]; exact hl
    by_cases h : i = n
    · subst h
      simp [List.getD_eq_getElem?_getD, List.getElem?_set, hlen]
    · have h2 : i < n := by omega
      have h3 := ih i h2 hl
      simp only [List.getD_eq_getElem?_getD] at h3 ⊢
      rw [List.getElem?_set]
      have h4 : ¬ n = i := fun e => h e.symm
      simp only [h4, if_false]
      exact h3

theorem getAt_setAll {α : Type} (l : List α) (n : Nat) (v d : α) (i : Int)
    (hi : 0 ≤ i ∧ i < n) (hl : n ≤ l.length) : getAt (setAll l n v) i d = v := by
  unfold getAt
  rw [if_pos hi.1]
  exact getD_setAll l v d n i.toNat (by omega) (by omega)

theorem floatOver_eq (s : State) (word : Int) :
    floatOver s word = getAt s.fFileOver word false := by
  unfold floatOver getFWordOver
  dsimp only
  split <;> rfl

theorem finishTick_overrideSend (t : Target) (s : State) (w : World) (u : Bool) :
    (finishTick t s w u).1.overrideSend = false := by
  have hp : ∀ s' w', (pushBack t s' w').1.overrideSend = s'.overrideSend :=
    fun s' w' => congrArg (fun x => x.2.1) (pushBack_sync t s' w')
  unfold finishTick
  dsimp only
  split_ifs with h1 h2 h3 h4 h5 <;> first | rw [hp] | skip
  all_goals first
    | rfl
    | (simp only [Bool.not_eq_true] at *; assumption)

/-- When a resend is owed at the end of the drain loop, the tick returns with every
override cell assigned: `-1` in each `bFileOver` word, `true` in the three other files. -/
theorem finishTick_over (t : Target) (s : State) (w : World) (u : Bool)
    (h : s.overrideSend = true) :
    (finishTick t s w u).1.over
      = (setAll s.bFileOver s.bSize 65535, setAll s.nFileOver s.ndfSize true,
          setAll s.dFileOver s.ndfSize true, setAll s.fFileOver s.ndfSize true) ∧
    (finishTick t s w u).1.bSize = s.bSize ∧ (finishTick t s w u).1.ndfSize = s.ndfSize := by
  have hp : ∀ s' w', (pushBack t s' w').1.over = s'.over ∧
      (pushBack t s' w').1.bSize = s'.bSize ∧ (pushBack t s' w').1.ndfSize = s'.ndfSize := by
    intro s' w'
    have hk := Keeps_of_store_sync s' _ (pushBack_store t s' w') (pushBack_sync t s' w')
    exact ⟨hk.2.1, hk.2.2.1, hk.2.2.2.1⟩
  unfold finishTick
  dsimp only
  cases u
  · cases hd : s.overDisplay <;> simp [h, hd, State.over]
  · cases hd : s.overDisplay <;> simp only [h, hd, if_true, Bool.false_eq_true, if_false]
    · exact hp _ w
    · exact hp _ w

theorem applyRecord_102 (t : Target) (s : State) (u : Bool) (h : bufAt t s 0 = 102) :
    applyRecord t s u = .ok ({ s with overrideSend := true }, true, u) := by
  unfold applyRecord
  simp [h]

/-- A batch that contains a record with tag 102 ends with the resend owed. -/
theorem drainSees_override (t : Target) :
    ∀ (fuel : Nat) (s : State) (w : World) (u : Bool) (r : State × World × Bool),
      drainSees t 102 fuel s w u = true → drainLoop t fuel s w u = .ok r →
      r.1.overrideSend = true := by
  intro fuel
  induction fuel with
  | zero => intro s w u r h; simp [drainSees] at h
  | succ n ih =>
    intro s w u r h1 h2
    unfold drainSees at h1
    unfold drainLoop at h2
    dsimp only at h1 h2
    by_cases hok : (sendBasicCommand t s w 99).1 = true
    · rw [if_pos hok] at h1 h2
      by_cases htag : bufAt t (sendBasicCommand t s w 99).2.1 0 = 102
      · rw [applyRecord_102 t _ u htag] at h2
        dsimp only at h2
        rw [if_pos rfl] at h2
        exact (drainLoop_keeps t n _ _ _ r h2).2.2.2.2.2.2.2.1 rfl
      · rw [if_neg htag] at h1
        cases ha : applyRecord t (sendBasicCommand t s w 99).2.1 u with
        | error f => rw [ha] at h1; simp at h1
        | ok a =>
          rw [ha] at h1 h2
          dsimp only at h1 h2
          by_cases hrd : a.2.1 = true
          · rw [if_pos hrd] at h1 h2
            exact ih _ _ _ r h1 h2
          · rw [if_neg hrd] at h1
            simp at h1
    · rw [if_neg hok] at h1
      simp at h1

/-- OVERRIDE-REQUEST flags every address.  If the batch drained by a tick contains a
record with tag 102, the tick ends, and unless another record of the batch drives it into an
undefined access, when `update()` returns the override flag is set for each of the 16 bits
of each of the `bSize` Bit words and for each word of the Int, DInt and Float files, and
`overrideSend` is false again. -/
theorem override_request_sets_flags (t : Target) (ht : t.ok) (s : State) (hs : s.WF)
    (w : World) (h102 : tickSees t 102 s w = true) :
    match update t s w with
    | .ok r =>
      (∀ word bit : Int, 0 ≤ word ∧ word < s.bSize → 0 ≤ bit ∧ bit < 16 →
        bitOver t r.1 word bit = true) ∧
      (∀ word : Int, 0 ≤ word ∧ word < s.ndfSize →
        intOver r.1 word = true ∧ dintOver r.1 word = true ∧ floatOver r.1 word = true) ∧
      r.1.overrideSend = false ∧ r.1.bSize = s.bSize ∧ r.1.ndfSize = s.ndfSize
    | .error f => f ≠ Fault.outOfFuel := by
  cases hu : update t s w with
  | error f =>
    dsimp only
    intro hf
    subst hf
    exact update_fuel t s w hu
  | ok r =>
    dsimp only
    obtain ⟨a, ha, hr⟩ := update_ok t s w r hu
    have hk := drainTick_keeps t s w a ha
    have hov : a.1.overrideSend = true := by
      unfold tickSees at h102
      unfold drainTick at ha
      dsimp only at h102 ha
      by_cases h1 : (pollTick t s w).1 = true
      · rw [if_pos h1] at h102 ha
        by_cases h2 : bufAt t (pollTick t s w).2.1 0 = 99
        · rw [if_pos h2] at h102 ha
          exact drainSees_override t _ _ _ _ a h102 ha
        · rw [if_neg h2] at h102
          simp at h102
      · rw [if_neg h1] at h102
        simp at h102
    obtain ⟨ho, hb, hn⟩ := finishTick_over t a.1 a.2.1 a.2.2 hov
    have hfalse := finishTick_overrideSend t a.1 a.2.1 a.2.2
    rw [← hr] at ho hb hn hfalse
    have hover := hk.2.1
    have hbs := hk.2.2.1
    have hns := hk.2.2.2.1
    simp only [State.over, Prod.mk.injEq] at ho hover
    obtain ⟨hs1, hs2, hs3, hs4, hs5, hs6, hs7, hs8, hs9, hs10, hs11, hs12, hs13⟩ := hs
    refine ⟨?_, ?_, hfalse, hb.trans hbs, hn.trans hns⟩
    · intro word bit hw hbit
      rw [bitOver_eq t ht r.1 word bit hbit, ho.1, hbs, hover.1,
        getAt_setAll _ _ _ _ word hw (by omega)]
      have hlt : bit.toNat < 16 := by omega
      generalize bit.toNat = k at hlt
      interval_cases k <;> rfl
    · intro word hw
      rw [intOver_eq, dintOver_eq, floatOver_eq, ho.2.1, ho.2.2.1, ho.2.2.2, hns,
        hover.2.1, hover.2.2.1, hover.2.2.2]
      exact ⟨getAt_setAll _ _ _ _ word hw (by omega), getAt_setAll _ _ _ _ word hw (by omega),
        getAt_setAll _ _ _ _ word hw (by omega)⟩

/-! ## Replies on the serial line -/

/-- A reply that holds a record and its terminator is stored at the head of the buffer. -/
theorem readBytesUntil_record (tl : List Nat) :
    ∀ (rec buf : List Nat) (i : Nat), (∀ c ∈ rec, c < 256 ∧ c ≠ 98) →
      i + rec.length ≤ 128 → i + rec.length ≤ buf.length →
      readBytesUntil 98 128 (rec ++ 98 :: tl) buf i
        = (buf.take i ++ rec ++ buf.drop (i + rec.length), i + rec.length) := by
  intro rec
  induction rec with
  | nil =>
    intro buf i _ _ _
    simp [readBytesUntil]
  | cons c rec ih =>
    intro buf i hc h1 h2
    have hc0 := hc c (List.mem_cons_self _ _)
    have hmod : c % 256 = c := Nat.mod_eq_of_lt hc0.1
    simp only [List.length_cons] at h1 h2
    have hi : i < 128 := by omega
    simp only [List.cons_append, readBytesUntil, hi, if_true, hmod, hc0.2, if_false]
    change readBytesUntil 98 128 (rec ++ 98 :: tl) (buf.set i c) (i + 1) = _
    rw [ih (buf.set i c) (i + 1) (fun x hx => hc x (List.mem_cons_of_mem _ hx))
      (by omega) (by rw [List.length_set]; omega)]
    have e1 : (buf.set i c).take (i + 1) = buf.take i ++ [c] := by
      have hlt : i < buf.length := by omega
      apply List.ext_getElem?
      intro n
      simp only [List.getElem?_take, List.getElem?_set, List.getElem?_append, List.length_take,
        List.length_set, Nat.min_eq_left (Nat.le_of_lt hlt)]
      by_cases h1 : n < i
      · have h3 : ¬ i = n := by omega
        have h4 : n < i + 1 := by omega
        simp [h1, h3, h4]
      · by_cases h5 : n = i
        · subst h5
          simp [hlt]
        · have h6 : ¬ n < i + 1 := by omega
          have h7 : n - i ≠ 0 := by omega
          simp [h1, h6]
          omega
    have e2 : (buf.set i c).drop (i + 1 + rec.length) = buf.drop (i + (rec.length + 1)) := by
      rw [List.drop_set_of_lt _ _ (by omega)]
      congr 1
      omega
    rw [e1, e2]
    simp
    omega

theorem readBytesUntil_length (T L : Nat) :
    ∀ (inp buf : List Nat) (i : Nat), (readBytesUntil T L inp buf i).1.length = buf.length := by
  intro inp
  induction inp with
  | nil => intro buf i; rfl
  | cons c cs ih =>
    intro buf i
    unfold readBytesUntil
    split_ifs
    · rfl
    · rw [ih, List.length_set]
    · rfl

theorem readBytesUntil_index (T L : Nat) :
    ∀ (inp buf : List Nat) (i : Nat), i ≤ (readBytesUntil T L inp buf i).2 := by
  intro inp
  induction inp with
  | nil => intro buf i; exact Nat.le_refl _
  | cons c cs ih =>
    intro buf i
    unfold readBytesUntil
    split_ifs
    · exact Nat.le_refl _
    · exact Nat.le_trans (Nat.le_succ i) (ih _ _)
    · exact Nat.le_refl _

theorem readBytesUntil_below (T L : Nat) :
    ∀ (inp buf : List Nat) (i j : Nat), j < i →
      (readBytesUntil T L inp buf i).1.getD j 0 = buf.getD j 0 := by
  intro inp
  induction inp with
  | nil => intro buf i j _; rfl
  | cons c cs ih =>
    intro buf i j hj
    unfold readBytesUntil
    split_ifs
    · rfl
    · rw [ih _ _ j (by omega)]
      have hne : ¬ i = j := by omega
      simp [List.getD_eq_getElem?_getD, List.getElem?_set, hne]
    · rfl

theorem recv_cons (w : World) (reply : List Nat) (rest : List (List Nat))
    (h : w.rx = reply :: rest) : w.recv = (reply, { w with rx := rest }) := by
  unfold World.recv
  rw [h]

theorem checkHardResponse_reply (s : State) (w : World) (reply : List Nat)
    (rest : List (List Nat)) (hrx : w.rx = reply :: rest) (hne : reply ≠ []) :
    (checkHardResponse s w).1 = decide ((readBytesUntil 98 128 reply s.bufferSerial 0).2 ≠ 0) ∧
    (checkHardResponse s w).2.1.bufferSerial = (readBytesUntil 98 128 reply s.bufferSerial 0).1 ∧
    (checkHardResponse s w).2.2.rx = rest := by
  have h := recv_cons w.millis.2 reply rest (by rw [rx_millis]; exact hrx)
  unfold checkHardResponse
  dsimp only
  rw [h]
  simp [hne, rx_millis]

/-- An exchange on a serial line for which the panel has a reply: the reply is read into
the receive buffer up to the terminator, and the exchange succeeds when a byte was
stored. -/
theorem exchange_serial (t : Target) (s : State) (w : World) (c : Nat) (reply : List Nat)
    (rest : List (List Nat)) (hser : serialLink t s) (hrx : w.rx = reply :: rest)
    (hne : reply ≠ []) :
    (sendBasicCommand t s w c).1
      = decide ((readBytesUntil 98 128 reply s.bufferSerial 0).2 ≠ 0) ∧
    (sendBasicCommand t s w c).2.1.bufferSerial
      = (readBytesUntil 98 128 reply s.bufferSerial 0).1 ∧
    (sendBasicCommand t s w c).2.2.rx = rest := by
  unfold sendBasicCommand
  dsimp only
  rcases hser with h | ⟨h, hsoft⟩
  · rw [h]
    exact checkHardResponse_reply s _ reply rest hrx hne
  · rw [h]
    dsimp only
    rw [if_pos hsoft]
    unfold checkSoftResponse
    rw [if_pos hsoft]
    exact checkHardResponse_reply s _ reply rest hrx hne

theorem drainLoop_record (t : Target) (fuel : Nat) (s : State) (w : World) (u : Bool)
    (a : State × Bool × Bool) (hok : (sendBasicCommand t s w 99).1 = true)
    (ha : applyRecord t (sendBasicCommand t s w 99).2.1 u = .ok a) :
    drainLoop t (fuel + 1) s w u
      = if a.2.1 then drainLoop t fuel a.1 (sendBasicCommand t s w 99).2.2 a.2.2
        else .ok (a.1, (sendBasicCommand t s w 99).2.2, a.2.2) := by
  rw [drainLoop]
  simp only [hok, if_true, ha]

theorem charToInt_of_nonneg (t : Target) (c : Nat) (hc : c < 256) (h : 0 ≤ charToInt t c) :
    charToInt t c = (c : Int) := by
  unfold charToInt at *
  have h1 : c % 256 = c := Nat.mod_eq_of_lt hc
  rw [h1] at h ⊢
  split_ifs at h ⊢ with h2
  · simp only [Bool.and_eq_true, decide_eq_true_eq] at h2
    omega
  · rfl

/-- A `c` exchange on a serial line for which the panel has a record: the record is in the
receive buffer afterwards, and the exchange succeeds. -/
theorem record_arrives (t : Target) (s : State) (w : World) (rec tl : List Nat)
    (rest : List (List Nat)) (hser : serialLink t s) (hbuf : s.bufferSerial.length = 128)
    (hrx : w.rx = (rec ++ 98 :: tl) :: rest) (hrec : ∀ c ∈ rec, c < 256 ∧ c ≠ 98)
    (hne : rec ≠ []) (hlen : rec.length ≤ 128) :
    (sendBasicCommand t s w 99).1 = true ∧
    (sendBasicCommand t s w 99).2.1.bufferSerial = rec ++ s.bufferSerial.drop rec.length ∧
    (sendBasicCommand t s w 99).2.1.bufferSerial.length = 128 ∧
    (sendBasicCommand t s w 99).2.2.rx = rest := by
  obtain ⟨h1, h2, h3⟩ := exchange_serial t s w 99 (rec ++ 98 :: tl) rest hser hrx (by simp)
  rw [readBytesUntil_record tl rec s.bufferSerial 0 hrec (by omega) (by omega)] at h1 h2
  have hpos : 0 < rec.length := List.length_pos.mpr hne
  refine ⟨?_, ?_, ?_, h3⟩
  · rw [h1]
    simp [hne]
  · rw [h2]
    simp
  · rw [h2]
    simp [hbuf]
    omega

/-- One turn of the drain loop on a serial line when the panel answers with a record that
the switch accepts: `f` is what the record does to the object, `rd` and `v` are
`readingData` and `update2Android` afterwards. -/
theorem drain_step (t : Target) (fuel : Nat) (s : State) (w : World) (u : Bool)
    (rec tl : List Nat) (rest : List (List Nat)) (hser : serialLink t s)
    (hbuf : s.bufferSerial.length = 128) (hrx : w.rx = (rec ++ 98 :: tl) :: rest)
    (hrec : ∀ c ∈ rec, c < 256 ∧ c ≠ 98) (hne : rec ≠ []) (hlen : rec.length ≤ 128)
    (f : State → State) (rd v : Bool)
    (happ : ∀ s1 : State, s1.store = s.store →
      s1.bufferSerial = rec ++ s.bufferSerial.drop rec.length →
      applyRecord t s1 u = .ok (f s1, rd, v)) :
    ∃ s1 w1, s1.store = s.store ∧ s1.sync = s.sync ∧ s1.bufferSerial.length = 128 ∧
      w1.rx = rest ∧
      drainLoop t (fuel + 1) s w u
        = if rd then drainLoop t fuel (f s1) w1 v else .ok (f s1, w1, v) := by
  obtain ⟨h1, h2, h3, h4⟩ := record_arrives t s w rec tl rest hser hbuf hrx hrec hne hlen
  have hst := sendBasicCommand_store t s w 99
  refine ⟨(sendBasicCommand t s w 99).2.1, (sendBasicCommand t s w 99).2.2, hst,
    sendBasicCommand_sync t s w 99, h3, h4, ?_⟩
  exact drainLoop_record t fuel s w u _ h1 (happ _ hst h2)

theorem getAt_setAt {α : Type} (l : List α) (i j : Int) (v d : α) :
    getAt (setAt l i v) j d
      = if i = j ∧ 0 ≤ i ∧ i < l.length then v else getAt l j d := by
  unfold getAt setAt
  by_cases hi : 0 ≤ i
  · by_cases hj : 0 ≤ j
    · simp only [hi, hj, if_true, List.getD_eq_getElem?_getD, List.getElem?_set, true_and]
      by_cases hij : i = j
      · subst hij
        by_cases hl : i < l.length
        · have hl2 : i.toNat < l.length := by omega
          simp [hl, hl2]
        · have hl2 : ¬ i.toNat < l.length := by omega
          have hl3 : l[i.toNat]? = none := List.getElem?_eq_none (by omega)
          simp [hl, hl2, hl3]
      · have hne : ¬ i.toNat = j.toNat := by omega
        simp [hij, hne]
    · have hij : ¬ i = j := by omega
      simp [hi, hj, hij]
  · simp [hi]

theorem setBitWord_store_congr (t : Target) (s1 s2 : State) (word bit : Int) (v : Bool)
    (h : s1.store = s2.store) :
    (setBitWord t s1 word bit v).store = (setBitWord t s2 word bit v).store := by
  have hb : s1.bFile = s2.bFile := congrArg Store.bFile h
  simp only [State.store, Store.mk.injEq] at h
  simp only [setBitWord, State.store, hb, h, Store.mk.injEq, and_self]

/-- A bit write leaves the other bits of the Bit file as they are. -/
theorem getBitWord_setBitWord_other (t : Target) (ht : t.ok) (s : State) (word bit : Int)
    (v : Bool) (word1 bit1 : Int) (hb : 0 ≤ bit ∧ bit < 16) (hb1 : 0 ≤ bit1 ∧ bit1 < 16)
    (hne : word1 ≠ word ∨ bit1 ≠ bit) :
    getBitWord t (setBitWord t s word bit v) word1 bit1 = getBitWord t s word1 bit1 := by
  rw [getBitWord_eq t ht _ word1 bit1 hb1, getBitWord_eq t ht _ word1 bit1 hb1]
  obtain ⟨k, rfl⟩ := Int.eq_ofNat_of_zero_le hb.1
  obtain ⟨j, rfl⟩ := Int.eq_ofNat_of_zero_le hb1.1
  have hk : k < 16 := by omega
  have hj : j < 16 := by omega
  have hjk : word1 = word → j ≠ k := by
    intro hw
    rcases hne with h | h
    · exact absurd hw h
    · intro e; exact h (by rw [e])
  cases v
  · simp only [setBitWord, Int.toNat_ofNat, Bool.false_eq_true, if_false]
    rw [getAt_setAt]
    by_cases hc : word = word1 ∧ 0 ≤ word ∧ word < s.bFile.length
    · rw [if_pos hc, clear_pattern_testBit t ht _ k j hk hj, ← hc.1]
      simp [hjk hc.1.symm]
    · rw [if_neg hc]
  · simp only [setBitWord, Int.toNat_ofNat, if_true]
    rw [getAt_setAt]
    by_cases hc : word = word1 ∧ 0 ≤ word ∧ word < s.bFile.length
    · rw [if_pos hc, set_pattern_testBit t ht _ k j hk hj, ← hc.1]
      have hkj : ¬ k = j := fun e => hjk hc.1.symm e.symm
      simp [hkj]
    · rw [if_neg hc]

/-! ## Records accepted by the switch -/

theorem applyRecord_binary (t : Target) (ht : t.ok) (s : State) (u : Bool) (wb b : Nat)
    (val : Bool) (junk : List Nat)
    (hbuf : s.bufferSerial = [65, wb, b, if val then 49 else 48] ++ junk)
    (hwb : wb < 256) (h0 : 0 ≤ charToInt t wb) (hlt : wb < s.bSize) (hb : b < 16) :
    applyRecord t s u = .ok (setBitWord t s wb b val, true, u) := by
  have e0 : bufAt t s 0 = 65 := by
    unfold bufAt; rw [hbuf]; exact charToInt_of_lt t 65 (by norm_num)
  have e1 : bufAt t s 1 = (wb : Int) := by
    unfold bufAt; rw [hbuf]; exact charToInt_of_nonneg t wb hwb h0
  have e2 : bufAt t s 2 = (b : Int) := by
    unfold bufAt; rw [hbuf]; exact charToInt_of_lt t b (by omega)
  have e3 : bufAt t s 3 = if val then 49 else 48 := by
    unfold bufAt; rw [hbuf]
    cases val
    · exact charToInt_of_lt t 48 (by norm_num)
    · exact charToInt_of_lt t 49 (by norm_num)
  have h1 : (wb : Int) < (s.bSize : Int) := by exact_mod_cast hlt
  have h2 : ¬ ((wb : Int) < 0) := by omega
  have h3 : ¬ ((t.intBits : Int) ≤ (b : Int)) := by
    rcases ht with h | h <;> rw [h] <;> omega
  unfold applyRecord
  simp only [e0, e1, e2, e3, if_true, h1, h2, if_false]
  cases val
  · simp
  · simp [h3]

theorem applyRecord_int (t : Target) (s : State) (u : Bool) (wn hd md ld : Nat)
    (junk : List Nat) (hbuf : s.bufferSerial = [75, wn, hd, md, ld] ++ junk)
    (hwn : wn < 256) (h0 : 0 ≤ charToInt t wn) (hlt : wn < s.ndfSize) :
    applyRecord t s u
      = .ok ({ s with nFile := setAt s.nFile wn (joinInt16 t hd md ld) }, true, u) := by
  have e0 : bufAt t s 0 = 75 := by
    unfold bufAt; rw [hbuf]; exact charToInt_of_lt t 75 (by norm_num)
  have e1 : bufAt t s 1 = (wn : Int) := by
    unfold bufAt; rw [hbuf]; exact charToInt_of_nonneg t wn hwn h0
  have g2 : s.bufferSerial.getD 2 0 = hd := by rw [hbuf]; rfl
  have g3 : s.bufferSerial.getD 3 0 = md := by rw [hbuf]; rfl
  have g4 : s.bufferSerial.getD 4 0 = ld := by rw [hbuf]; rfl
  have h1 : (wn : Int) < (s.ndfSize : Int) := by exact_mod_cast hlt
  have h2 : ¬ ((wn : Int) < 0) := by omega
  unfold applyRecord
  simp only [e0, e1, g2, g3, g4]
  simp [h1, h2]

/-- A REAL record whose word byte is a valid index value: the word is stored when it is in
range, and the record is skipped otherwise. -/
theorem applyRecord_real (t : Target) (s : State) (u : Bool) (wf b6 b5 b4 b3 b2 b1 : Nat)
    (junk : List Nat) (hbuf : s.bufferSerial = [79, wf, b6, b5, b4, b3, b2, b1] ++ junk)
    (hwf : wf < 256) (h0 : 0 ≤ charToInt t wf) :
    applyRecord t s u
      = .ok ({ s with
          fFile := if wf < s.ndfSize then
              setAt s.fFile wf (joinFloat (joinInt32 t b6 b5 b4 b3 b2 b1))
            else s.fFile }, true, u) := by
  have e0 : bufAt t s 0 = 79 := by
    unfold bufAt; rw [hbuf]; exact charToInt_of_lt t 79 (by norm_num)
  have e1 : bufAt t s 1 = (wf : Int) := by
    unfold bufAt; rw [hbuf]; exact charToInt_of_nonneg t wf hwf h0
  have g2 : s.bufferSerial.getD 2 0 = b6 := by rw [hbuf]; rfl
  have g3 : s.bufferSerial.getD 3 0 = b5 := by rw [hbuf]; rfl
  have g4 : s.bufferSerial.getD 4 0 = b4 := by rw [hbuf]; rfl
  have g5 : s.bufferSerial.getD 5 0 = b3 := by rw [hbuf]; rfl
  have g6 : s.bufferSerial.getD 6 0 = b2 := by rw [hbuf]; rfl
  have g7 : s.bufferSerial.getD 7 0 = b1 := by rw [hbuf]; rfl
  have h2 : ¬ ((wf : Int) < 0) := by omega
  unfold applyRecord
  by_cases h1 : wf < s.ndfSize
  · have h3 : (wf : Int) < (s.ndfSize : Int) := by exact_mod_cast h1
    simp only [e0, e1, g2, g3, g4, g5, g6, g7]
    simp [h1, h2, h3]
  · have h3 : ¬ (wf : Int) < (s.ndfSize : Int) := by omega
    simp [e0, e1, h1, h3]

theorem applyRecord_100 (t : Target) (s : State) (u : Bool) (h : bufAt t s 0 = 100) :
    applyRecord t s u = .ok ({ s with syncro := false }, false, u) := by
  unfold applyRecord
  simp [h]

theorem applyRecord_103 (t : Target) (s : State) (u : Bool) (h : bufAt t s 0 = 103) :
    applyRecord t s u = .ok ({ s with syncro := false }, false, true) := by
  unfold applyRecord
  simp [h]

/-- The poll of a tick on a serial line when the panel answers `c`: the drain loop starts,
with the replies that follow. -/
theorem poll_starts_batch (t : Target) (s : State) (w : World) (p : List Nat)
    (rest : List (List Nat)) (hser : serialLink t s) (hbuf : s.bufferSerial.length = 128)
    (hrx : w.rx = (99 :: p) :: rest) :
    ∃ s0 w0, s0.store = s.store ∧ s0.sync = s.sync ∧ s0.bufferSerial.length = 128 ∧
      w0.rx = rest ∧ drainTick t s w = drainLoop t (rest.length + 1) s0 w0 false := by
  have key : ∀ c, (sendBasicCommand t s w c).1 = true ∧
      bufAt t (sendBasicCommand t s w c).2.1 0 = 99 ∧
      (sendBasicCommand t s w c).2.1.bufferSerial.length = 128 ∧
      (sendBasicCommand t s w c).2.2.rx = rest := by
    intro c
    obtain ⟨h1, h2, h3⟩ := exchange_serial t s w c (99 :: p) rest hser hrx (by simp)
    have e : readBytesUntil 98 128 (99 :: p) s.bufferSerial 0
        = readBytesUntil 98 128 p (s.bufferSerial.set 0 99) 1 := by
      simp [readBytesUntil]
    rw [e] at h1 h2
    have hi := readBytesUntil_index 98 128 p (s.bufferSerial.set 0 99) 1
    have hb := readBytesUntil_below 98 128 p (s.bufferSerial.set 0 99) 1 0 (by omega)
    have hl := readBytesUntil_length 98 128 p (s.bufferSerial.set 0 99) 1
    refine ⟨?_, ?_, ?_, h3⟩
    · rw [h1]
      simp
      omega
    · unfold bufAt
      rw [h2, hb]
      have h0 : 0 < s.bufferSerial.length := by omega
      simp [List.getD_eq_getElem?_getD, List.getElem?_set, h0]
      exact charToInt_of_lt t 99 (by norm_num)
    · rw [h2, hl, List.length_set]
      exact hbuf
  have hcases : ∃ c, pollTick t s w = sendBasicCommand t s w c := by
    unfold pollTick
    split
    · exact ⟨97, rfl⟩
    · exact ⟨101, rfl⟩
  obtain ⟨c, hc⟩ := hcases
  obtain ⟨k1, k2, k3, k4⟩ := key c
  refine ⟨(sendBasicCommand t s w c).2.1, (sendBasicCommand t s w c).2.2,
    sendBasicCommand_store t s w c, sendBasicCommand_sync t s w c, k3, k4, ?_⟩
  unfold drainTick
  dsimp only
  rw [hc, if_pos k1, if_pos k2, k4]

theorem getBitWord_of_bFile (t : Target) (s1 s2 : State) (word bit : Int)
    (h : s1.bFile = s2.bFile) : getBitWord t s1 word bit = getBitWord t s2 word bit := by
  simp only [getBitWord, h]

theorem dirty_of_store (s1 s2 : State) (h : s1.store = s2.store) : s1.dirty = s2.dirty := by
  simp only [State.store, Store.mk.injEq] at h
  simp only [State.dirty, h]

theorem over_of_store (s1 s2 : State) (h : s1.store = s2.store) : s1.over = s2.over := by
  simp only [State.store, Store.mk.injEq] at h
  simp only [State.over, h]

/-- C14: batch drain [BINARY, INT, END] on a serial line.  When the panel answers the poll
with `c` and the next three `c` exchanges with the records `[65, w, b, '1' or '0']`
(`w < bSize`, `b < 16`), `[75, w', hd, md, ld]` (`w' < ndfSize`) and `[100]`, the record
bytes being byte values other than the terminator and the word bytes valid `char` index
values, and no resend is owed at entry, `update()` returns; afterwards bit `(w, b)` of the Bit
file is the received value, every other bit is as before, `nFile` differs from before in
`nFile[w'] = joinInt16(hd, md, ld)` only, the DInt and Float files, the dirty flags and the
override flags are unchanged, and `syncro` and `overrideSend` are false. -/
theorem batch_drain (t : Target) (ht : t.ok) (s : State) (hs : s.WF) (w : World)
    (hser : serialLink t s) (hov : s.overrideSend = false)
    (p t1 t2 t3 : List Nat) (rest : List (List Nat)) (wb b wn hd md ld : Nat) (val : Bool)
    (hwb : wb < 256 ∧ wb ≠ 98 ∧ 0 ≤ charToInt t wb ∧ wb < s.bSize) (hb : b < 16)
    (hwn : wn < 256 ∧ wn ≠ 98 ∧ 0 ≤ charToInt t wn ∧ wn < s.ndfSize)
    (hhd : hd < 256 ∧ hd ≠ 98) (hmd : md < 256 ∧ md ≠ 98) (hld : ld < 256 ∧ ld ≠ 98)
    (hrx : w.rx = (99 :: p) :: ([65, wb, b, if val then 49 else 48] ++ 98 :: t1)
      :: ([75, wn, hd, md, ld] ++ 98 :: t2) :: ([100] ++ 98 :: t3) :: rest) :
    ∃ r, update t s w = .ok r ∧
      getBitWord t r.1 wb b = val ∧
      (∀ word bit : Int, 0 ≤ bit ∧ bit < 16 → word ≠ wb ∨ bit ≠ b →
        getBitWord t r.1 word bit = getBitWord t s word bit) ∧
      getAt r.1.nFile wn 0 = joinInt16 t hd md ld ∧
      r.1.nFile = setAt s.nFile wn (joinInt16 t hd md ld) ∧
      r.1.dFile = s.dFile ∧ r.1.fFile = s.fFile ∧
      r.1.dirty = s.dirty ∧ r.1.over = s.over ∧
      r.1.syncro = false ∧ r.1.overrideSend = false := by
  have hbuf : s.bufferSerial.length = 128 := hs.2.2.2.2.2.2.2.2.2.2.2.2
  obtain ⟨s0, w0, hst0, hsy0, hb0, hrx0, hd0⟩ := poll_starts_batch t s w p _ hser hbuf hrx
  simp only [List.length_cons] at hd0
  have hser0 := serialLink_of_sync t s s0 hsy0 hser
  -- the BINARY record
  have hrec1 : ∀ c ∈ [65, wb, b, if val then 49 else 48], c < 256 ∧ c ≠ 98 := by
    intro c hc
    simp only [List.mem_cons, List.mem_singleton, List.not_mem_nil, or_false] at hc
    rcases hc with rfl | rfl | rfl | rfl
    · omega
    · exact ⟨hwb.1, hwb.2.1⟩
    · omega
    · cases val <;> simp
  obtain ⟨s1, w1, hst1, hsy1, hb1, hrx1, hd1⟩ := drain_step t (rest.length + 1 + 1 + 1) s0 w0 false
    [65, wb, b, if val then 49 else 48] t1 _ hser0 hb0 hrx0 hrec1 (by simp) (by simp)
    (fun x => setBitWord t x wb b val) true false
    (fun x hx hbx => applyRecord_binary t ht x false wb b val _ hbx hwb.1 hwb.2.2.1
      (by rw [show x.bSize = s.bSize from congrArg Store.bSize (hx.trans hst0)]
          exact hwb.2.2.2) hb)
  simp only [if_true] at hd1
  have e1 : (setBitWord t s1 wb b val).store = (setBitWord t s wb b val).store :=
    setBitWord_store_congr t s1 s wb b val (hst1.trans hst0)
  have hser1 : serialLink t (setBitWord t s1 wb b val) :=
    serialLink_of_sync t s0 _ hsy1 hser0
  -- the INT record
  have hrec2 : ∀ c ∈ [75, wn, hd, md, ld], c < 256 ∧ c ≠ 98 := by
    intro c hc
    simp only [List.mem_cons, List.mem_singleton, List.not_mem_nil, or_false] at hc
    rcases hc with rfl | rfl | rfl | rfl | rfl
    · omega
    · exact ⟨hwn.1, hwn.2.1⟩
    · exact hhd
    · exact hmd
    · exact hld
  obtain ⟨s2, w2, hst2, hsy2, hb2, hrx2, hd2⟩ := drain_step t (rest.length + 1 + 1)
    (setBitWord t s1 wb b val) w1 false [75, wn, hd, md, ld] t2 _ hser1 hb1 hrx1 hrec2
    (by simp) (by simp)
    (fun x => { x with nFile := setAt x.nFile wn (joinInt16 t hd md ld) }) true false
    (fun x hx hbx => applyRecord_int t x false wn hd md ld _ hbx hwn.1 hwn.2.2.1
      (by rw [show x.ndfSize = s.ndfSize from congrArg Store.ndfSize (hx.trans e1)]
          exact hwn.2.2.2))
  simp only [if_true] at hd2
  have e2 : s2.store = (setBitWord t s wb b val).store := hst2.trans e1
  have hsy2s : s2.sync = s.sync := hsy2.trans (hsy1.trans hsy0)
  have hser2 : serialLink t { s2 with nFile := setAt s2.nFile wn (joinInt16 t hd md ld) } :=
    serialLink_of_sync t s _ hsy2s hser
  -- the END record
  obtain ⟨s3, w3, hst3, hsy3, hb3, hrx3, hd3⟩ := drain_step t (rest.length + 1)
    { s2 with nFile := setAt s2.nFile wn (joinInt16 t hd md ld) } w2 false [100] t3 _ hser2
    hb2 hrx2 (by simp) (by simp) (by simp)
    (fun x => { x with syncro := false }) false false
    (fun x _ hbx => applyRecord_100 t x false
      (by unfold bufAt; rw [hbx]; exact charToInt_of_lt t 100 (by norm_num)))
  simp only [Bool.false_eq_true, if_false] at hd3
  have hsy3s : s3.sync = s.sync := hsy3.trans hsy2s
  have hov3 : s3.overrideSend = false := (congrArg (fun x => x.2.1) hsy3s).trans hov
  have hupd : update t s w = .ok (finishTick t { s3 with syncro := false } w3 false) := by
    unfold update
    rw [hd0, hd1, hd2, hd3]
  have hfin := finishTick_idle t { s3 with syncro := false } w3 hov3
  have hbF : s3.bFile = (setBitWord t s wb b val).bFile :=
    (congrArg Store.bFile hst3).trans (congrArg Store.bFile e2)
  have hnF : s3.nFile = setAt s.nFile wn (joinInt16 t hd md ld) := by
    have h1 : s3.nFile = setAt s2.nFile wn (joinInt16 t hd md ld) := congrArg Store.nFile hst3
    have h2 : s2.nFile = s.nFile := congrArg Store.nFile e2
    rw [h1, h2]
  have hdF : s3.dFile = s.dFile :=
    (congrArg Store.dFile hst3).trans (congrArg Store.dFile e2)
  have hfF : s3.fFile = s.fFile :=
    (congrArg Store.fFile hst3).trans (congrArg Store.fFile e2)
  have hdirty : s3.dirty = s.dirty := by
    have h1 : s3.dirty = s2.dirty := by
      simp only [State.store, Store.mk.injEq] at hst3
      simp only [State.dirty, hst3]
    have h2 : s2.dirty = (setBitWord t s wb b val).dirty := dirty_of_store _ _ e2
    rw [h1, h2]
    rfl
  have hover : s3.over = s.over := by
    have h1 : s3.over = s2.over := by
      simp only [State.store, Store.mk.injEq] at hst3
      simp only [State.over, hst3]
    have h2 : s2.over = (setBitWord t s wb b val).over := over_of_store _ _ e2
    rw [h1, h2]
    rfl
  have hw : (0 : Int) ≤ (wb : Int) ∧ (wb : Int) < (s.bFile.length : Int) := by
    rw [hs.1]
    exact ⟨by omega, by exact_mod_cast hwb.2.2.2⟩
  have hbit : (0 : Int) ≤ (b : Int) ∧ (b : Int) < 16 := ⟨by omega, by exact_mod_cast hb⟩
  refine ⟨_, hupd, ?_, ?_, ?_, ?_, ?_, ?_, ?_, ?_, ?_, ?_⟩
  · rw [hfin]
    exact (getBitWord_of_bFile t _ (setBitWord t s wb b val) wb b hbF).trans
      (getBitWord_setBitWord t ht s wb b val hw hbit)
  · intro word bit hb1 hne
    rw [hfin]
    exact (getBitWord_of_bFile t _ (setBitWord t s wb b val) word bit hbF).trans
      (getBitWord_setBitWord_other t ht s wb b val word bit hbit hb1 hne)
  · rw [hfin]
    show getAt s3.nFile wn 0 = _
    rw [hnF, getAt_setAt_same _ _ _ _ (by omega)
      (by rw [hs.2.2.2.1]; exact_mod_cast hwn.2.2.2)]
  · rw [hfin]; exact hnF
  · rw [hfin]; exact hdF
  · rw [hfin]; exact hfF
  · rw [hfin]; exact hdirty
  · rw [hfin]; exact hover
  · rw [hfin]
  · rw [hfin]; exact hov3

set_option maxRecDepth 100000 in
theorem batch_drain_witness :
    ∃ r, update Target.arm32 serialUp
        (World.idle [[99, 98], [65, 2, 5, 49, 98], [75, 3, 1, 2, 3, 98], [100, 98]]) = .ok r ∧
      getBitWord Target.arm32 r.1 2 5 = true ∧
      getAt r.1.nFile 3 0 = joinInt16 Target.arm32 1 2 3 ∧
      r.1.dirty = serialUp.dirty ∧ r.1.over = serialUp.over ∧
      r.1.syncro = false ∧ r.1.overrideSend = false := by
  obtain ⟨r, h1, h2, _, h3, _, _, _, h4, h5, h6, h7⟩ :=
    batch_drain Target.arm32 (by decide) serialUp (by decide)
      (World.idle [[99, 98], [65, 2, 5, 49, 98], [75, 3, 1, 2, 3, 98], [100, 98]])
      (by decide) (by decide) [98] [] [] [] [] 2 5 3 1 2 3 true
      (by decide) (by decide) (by decide) (by decide) (by decide) (by decide) rfl
  exact ⟨r, h1, h2, h3, h4, h5, h6, h7⟩

/-! ## The batch that ends with tag 103 -/

/-- C25: decode is the exact inverse of encode on the sextet domain.  For `hd <= 15` and
`md, ld <= 63`, `fragmentData16(joinInt16(hd, md, ld))` leaves `(hd, md, ld)` in the members
`hd`, `md`, `ld`; for `s6 <= 3` and the other five sextets `<= 63`,
`fragmentData32(joinInt32(s6, .., s1))` leaves the same six sextets in `hd32`, `md32`,
`ld32`, `hd`, `md`, `ld`. -/
theorem decode_inverts_encode (t : Target) (s : State) (hd md ld s6 s5 s4 s3 s2 s1 : Nat) :
    (hd ≤ 15 → md ≤ 63 → ld ≤ 63 →
      (fragmentData16 s (joinInt16 t hd md ld)).hd = hd ∧
      (fragmentData16 s (joinInt16 t hd md ld)).md = md ∧
      (fragmentData16 s (joinInt16 t hd md ld)).ld = ld) ∧
    (s6 ≤ 3 → s5 ≤ 63 → s4 ≤ 63 → s3 ≤ 63 → s2 ≤ 63 → s1 ≤ 63 →
      (fragmentData32 s (joinInt32 t s6 s5 s4 s3 s2 s1)).hd32 = s6 ∧
      (fragmentData32 s (joinInt32 t s6 s5 s4 s3 s2 s1)).md32 = s5 ∧
      (fragmentData32 s (joinInt32 t s6 s5 s4 s3 s2 s1)).ld32 = s4 ∧
      (fragmentData32 s (joinInt32 t s6 s5 s4 s3 s2 s1)).hd = s3 ∧
      (fragmentData32 s (joinInt32 t s6 s5 s4 s3 s2 s1)).md = s2 ∧
      (fragmentData32 s (joinInt32 t s6 s5 s4 s3 s2 s1)).ld = s1) := by
  constructor
  · intro h1 h2 h3
    rw [fragmentData16_hd, fragmentData16_md, fragmentData16_ld,
      joinInt16_sextets t hd md ld (by omega) (by omega) (by omega)]
    omega
  · intro h6 h5 h4 h3 h2 h1
    rw [fragmentData32_hd32, fragmentData32_md32, fragmentData32_ld32, fragmentData32_hd,
      fragmentData32_md, fragmentData32_ld,
      joinInt32_sextets t s6 s5 s4 s3 s2 s1 (by omega) (by omega) (by omega) (by omega)
        (by omega) (by omega)]
    omega

theorem decode_inverts_encode_witness :
    ((fragmentData16 serialUp (joinInt16 Target.avr 15 63 0)).hd = 15 ∧
      (fragmentData16 serialUp (joinInt16 Target.avr 15 63 0)).md = 63 ∧
      (fragmentData16 serialUp (joinInt16 Target.avr 15 63 0)).ld = 0) ∧
    ((fragmentData32 serialUp (joinInt32 Target.avr 3 63 0 1 2 33)).hd32 = 3 ∧
      (fragmentData32 serialUp (joinInt32 Target.avr 3 63 0 1 2 33)).md32 = 63 ∧
      (fragmentData32 serialUp (joinInt32 Target.avr 3 63 0 1 2 33)).ld32 = 0 ∧
      (fragmentData32 serialUp (joinInt32 Target.avr 3 63 0 1 2 33)).hd = 1 ∧
      (fragmentData32 serialUp (joinInt32 Target.avr 3 63 0 1 2 33)).md = 2 ∧
      (fragmentData32 serialUp (joinInt32 Target.avr 3 63 0 1 2 33)).ld = 33) :=
  ⟨(decode_inverts_encode Target.avr serialUp 15 63 0 3 63 0 1 2 33).1
      (by decide) (by decide) (by decide),
    (decode_inverts_encode Target.avr serialUp 15 63 0 3 63 0 1 2 33).2
      (by decide) (by decide) (by decide) (by decide) (by decide) (by decide)⟩

/-- C27: the DInt and Float write frames.  `writeDFile2(word, v)` hands to the transport the
10 bytes `[0x40, 'N', word, hd32, md32, ld32, hd, md, ld, 0x62]` with the sextets of
`fragmentData32(v)`, most significant first (`v / 2^30`, then the 6-bit groups downwards);
`writeFFile2(word, f)` hands over the bytes of the `N` frame for the integer
`b0 + 2^8 b1 + 2^16 b2 + 2^24 b3` of the four bytes of `f`, with the command byte `P` in
place of `N`.  On a serial line the frame is what the call puts on the wire; on the socket
it goes behind the slot byte when `connect2Server` returns true.  The word byte of an
in-range word is the word. -/
theorem dint_float_write_frames (t : Target) (s : State) (w : World) (word : Int) (v : Nat)
    (f : floatValue) :
    (writeDFile2 t s w word v).2.sent = w.sent ++ onWire t s w (frameN s word v) ∧
    (writeFFile2 t s w word f).2.sent = w.sent ++ onWire t s w (frameP s word f) ∧
    frameN s word v = [64, 78, byteOfInt word, v / 1073741824 % 4, v / 16777216 % 64,
      v / 262144 % 64, v / 4096 % 64, v / 64 % 64, v % 64, 98] ∧
    frameP s word f = (frameN s word (floatBits f)).set 1 80 ∧
    floatBits f = f.bytes0 % 256 + 2 ^ 8 * (f.bytes1 % 256) + 2 ^ 16 * (f.bytes2 % 256)
      + 2 ^ 24 * (f.bytes3 % 256) ∧
    (0 ≤ word ∧ word < 256 → byteOfInt word = word.toNat) ∧
    (serialLink t s →
      (writeDFile2 t s w word v).2.sent = w.sent ++ frameN s word v ∧
      (writeFFile2 t s w word f).2.sent = w.sent ++ (frameN s word (floatBits f)).set 1 80) := by
  have hP : frameP s word f = (frameN s word (floatBits f)).set 1 80 := by
    simp only [frameP, frameN, fragmentDataFloat_eq]
    rfl
  refine ⟨writeDFile2_sent t s w word v, writeFFile2_sent t s w word f, ?_, hP, ?_, ?_, ?_⟩
  · simp only [frameN, fragmentData32_hd32, fragmentData32_md32, fragmentData32_ld32,
      fragmentData32_hd, fragmentData32_md, fragmentData32_ld]
  · unfold floatBits
    omega
  · intro hw
    unfold byteOfInt
    omega
  · intro hser
    rw [writeDFile2_sent, writeFFile2_sent, onWire_serial t s w _ hser,
      onWire_serial t s w _ hser, hP]
    exact ⟨rfl, rfl⟩

theorem dint_float_write_frames_witness :
    (writeDFile2 Target.arm32 serialUp (World.idle []) 3 1073741889).2.sent
      = [64, 78, 3, 1, 0, 0, 0, 1, 1, 98] ∧
    (writeFFile2 Target.arm32 serialUp (World.idle []) 3 ⟨0, 0, 128, 63⟩).2.sent
      = [64, 80, 3, 0, 63, 32, 0, 0, 0, 98] := by
  have h := (dint_float_write_frames Target.arm32 serialUp (World.idle []) 3 1073741889
    ⟨0, 0, 128, 63⟩).2.2.2.2.2.2 (by decide)
  exact ⟨h.1.trans (by decide), h.2.trans (by decide)⟩

/-! ## Bit cells -/

/-- The cell array after one cell was given the `set` pattern for bit `k`. -/
theorem cell_set_testBit (t : Target) (ht : t.ok) (l : List Nat) (word word1 : Int)
    (k j : Nat) (hk : k < 16) (hj : j < 16) :
    (getAt (setAt l word (((sext t (getAt l word 0) ||| setBitToInt t (k : Int)) &&& gmask16)
        % 65536)) word1 0).testBit j
      = ((getAt l word1 0).testBit j ||
          (decide (word = word1 ∧ 0 ≤ word ∧ word < l.length) && decide (k = j))) := by
  rw [getAt_setAt]
  by_cases hc : word = word1 ∧ 0 ≤ word ∧ word < l.length
  · rw [if_pos hc, decide_eq_true hc]
    obtain ⟨rfl, -, -⟩ := hc
    rw [set_pattern_testBit t ht _ k j hk hj]
    simp
  · rw [if_neg hc, decide_eq_false hc]
    simp

/-- The cell array after one cell was given the `clear` pattern for bit `k`. -/
theorem cell_clear_testBit (t : Target) (ht : t.ok) (l : List Nat) (word word1 : Int)
    (k j : Nat) (hk : k < 16) (hj : j < 16) :
    (getAt (setAt l word (((sext t (getAt l word 0) &&& clearBitToInt t (k : Int)) &&& gmask16)
        % 65536)) word1 0).testBit j
      = ((getAt l word1 0).testBit j &&
          !(decide (word = word1 ∧ 0 ≤ word ∧ word < l.length) && decide (j = k))) := by
  rw [getAt_setAt]
  by_cases hc : word = word1 ∧ 0 ≤ word ∧ word < l.length
  · rw [if_pos hc, decide_eq_true hc]
    obtain ⟨rfl, -, -⟩ := hc
    rw [clear_pattern_testBit t ht _ k j hk hj]
    simp
  · rw [if_neg hc, decide_eq_false hc]
    simp

theorem getBitWordUpdate_setBitWordUpdate_any (t : Target) (ht : t.ok) (s : State)
    (word bit word1 bit1 : Int) (hb : 0 ≤ bit ∧ bit < 16) (hb1 : 0 ≤ bit1 ∧ bit1 < 16) :
    getBitWordUpdate t (setBitWordUpdate t s word bit) word1 bit1
      = (getBitWordUpdate t s word1 bit1 ||
          (decide (word = word1 ∧ 0 ≤ word ∧ word < s.bFileUpdate.length) &&
            decide (bit = bit1))) := by
  rw [getBitWordUpdate_eq t ht _ word1 bit1 hb1, getBitWordUpdate_eq t ht _ word1 bit1 hb1]
  obtain ⟨k, rfl⟩ := Int.eq_ofNat_of_zero_le hb.1
  obtain ⟨j, rfl⟩ := Int.eq_ofNat_of_zero_le hb1.1
  simp only [setBitWordUpdate, Int.toNat_ofNat]
  rw [cell_set_testBit t ht _ word word1 k j (by omega) (by omega)]
  simp

theorem bitOver_resetBitWordOver_any (t : Target) (ht : t.ok) (s : State)
    (word bit word1 bit1 : Int) (hb : 0 ≤ bit ∧ bit < 16) (hb1 : 0 ≤ bit1 ∧ bit1 < 16) :
    bitOver t (resetBitWordOver t s word bit) word1 bit1
      = (bitOver t s word1 bit1 &&
          !(decide (word = word1 ∧ 0 ≤ word ∧ word < s.bFileOver.length) &&
            decide (bit1 = bit))) := by
  rw [bitOver_eq t ht _ word1 bit1 hb1, bitOver_eq t ht _ word1 bit1 hb1]
  obtain ⟨k, rfl⟩ := Int.eq_ofNat_of_zero_le hb.1
  obtain ⟨j, rfl⟩ := Int.eq_ofNat_of_zero_le hb1.1
  simp only [resetBitWordOver, Int.toNat_ofNat]
  rw [cell_clear_testBit t ht _ word word1 k j (by omega) (by omega)]
  simp

theorem getBitWordUpdate_of_list (t : Target) (s1 s2 : State) (word bit : Int)
    (h : s1.bFileUpdate = s2.bFileUpdate) :
    getBitWordUpdate t s1 word bit = getBitWordUpdate t s2 word bit := by
  simp only [getBitWordUpdate, h]

/-- The store a `writeBFile` leaves: the store it found (no-op), or the one after
`setBitWord` and `setBitWordUpdate`, with `resetBitWordOver` before them when the write was
forced by the override flag. -/
theorem writeBFile_store_cases (t : Target) (s : State) (w : World) (word bit : Int)
    (v : Bool) :
    (writeBFile t s w word bit v).1.store = s.store ∨
    ((0 ≤ word ∧ word < s.bSize) ∧ (0 ≤ bit ∧ bit < 16)) ∧
      ((writeBFile t s w word bit v).1.store
          = (setBitWordUpdate t (setBitWord t s word bit v) word bit).store ∨
        (writeBFile t s w word bit v).1.store
          = (setBitWordUpdate t (setBitWord t (resetBitWordOver t s word bit) word bit v)
              word bit).store) := by
  by_cases hr : (0 ≤ word ∧ word < s.bSize) ∧ (0 ≤ bit ∧ bit < 16)
  · by_cases hv : getBitWord t s word bit = v
    · cases ho : bitOver t s word bit
      · left
        rw [writeBFile_noop t s w word bit v hv ho]
      · right
        exact ⟨hr, Or.inr (writeBFile_forced t s w word bit v hr hv ho).1⟩
    · right
      exact ⟨hr, Or.inl (writeBFile_changed t s w word bit v hr hv).1⟩
  · left
    unfold writeBFile
    rw [if_neg hr]


/-- C24: bit-packing isolation.  For an in-range word and a bit in `0..15`,
`writeBFile(word, bit, value)` leaves `getBitWord(word, bit) = value` and can change only
bit `bit` of `bFile[word]`, of `bFileUpdate[word]` and of `bFileOver[word]`: every other bit
of the three words (read modulo `2^16`, as `getBitWord`, `getBitWordUpdate` and the override
test read them), every other word of the three arrays, and every value and flag of the Int,
DInt and Float files are as before. -/
theorem bit_packing_isolation (t : Target) (ht : t.ok) (s : State) (hs : s.WF) (w : World)
    (word bit : Int) (v : Bool)
    (hr : (0 ≤ word ∧ word < s.bSize) ∧ (0 ≤ bit ∧ bit < 16)) :
    getBitWord t (writeBFile t s w word bit v).1 word bit = v ∧
    (∀ word1 bit1 : Int, 0 ≤ bit1 ∧ bit1 < 16 → word1 ≠ word ∨ bit1 ≠ bit →
      getBitWord t (writeBFile t s w word bit v).1 word1 bit1 = getBitWord t s word1 bit1 ∧
      getBitWordUpdate t (writeBFile t s w word bit v).1 word1 bit1
        = getBitWordUpdate t s word1 bit1 ∧
      bitOver t (writeBFile t s w word bit v).1 word1 bit1 = bitOver t s word1 bit1) ∧
    (∀ word1 : Int, word1 ≠ word →
      getAt (writeBFile t s w word bit v).1.bFile word1 0 = getAt s.bFile word1 0 ∧
      getAt (writeBFile t s w word bit v).1.bFileUpdate word1 0 = getAt s.bFileUpdate word1 0 ∧
      getAt (writeBFile t s w word bit v).1.bFileOver word1 0 = getAt s.bFileOver word1 0) ∧
    (writeBFile t s w word bit v).1.nFile = s.nFile ∧
    (writeBFile t s w word bit v).1.nFileUpdate = s.nFileUpdate ∧
    (writeBFile t s w word bit v).1.nFileOver = s.nFileOver ∧
    (writeBFile t s w word bit v).1.dFile = s.dFile ∧
    (writeBFile t s w word bit v).1.dFileUpdate = s.dFileUpdate ∧
    (writeBFile t s w word bit v).1.dFileOver = s.dFileOver ∧
    (writeBFile t s w word bit v).1.fFile = s.fFile ∧
    (writeBFile t s w word bit v).1.fFileUpdate = s.fFileUpdate ∧
    (writeBFile t s w word bit v).1.fFileOver = s.fFileOver := by
  by_cases hnoop : getBitWord t s word bit = v ∧ bitOver t s word bit = false
  · rw [writeBFile_noop t s w word bit v hnoop.1 hnoop.2]
    exact ⟨hnoop.1, fun _ _ _ _ => ⟨rfl, rfl, rfl⟩, fun _ _ => ⟨rfl, rfl, rfl⟩,
      rfl, rfl, rfl, rfl, rfl, rfl, rfl, rfl, rfl⟩
  · have key : ∃ s0 : State, (s0 = s ∨ s0 = resetBitWordOver t s word bit) ∧
        (writeBFile t s w word bit v).1.store
          = (setBitWordUpdate t (setBitWord t s0 word bit v) word bit).store := by
      by_cases hv : getBitWord t s word bit = v
      · have ho : bitOver t s word bit = true := by
          cases h : bitOver t s word bit
          · exact absurd ⟨hv, h⟩ hnoop
          · rfl
        exact ⟨_, Or.inr rfl, (writeBFile_forced t s w word bit v hr hv ho).1⟩
      · exact ⟨s, Or.inl rfl, (writeBFile_changed t s w word bit v hr hv).1⟩
    obtain ⟨s0, h0, hst⟩ := key
    generalize (writeBFile t s w word bit v).1 = r at hst ⊢
    have hb0 : s0.bFile = s.bFile := by rcases h0 with rfl | rfl <;> rfl
    have hu0 : s0.bFileUpdate = s.bFileUpdate := by rcases h0 with rfl | rfl <;> rfl
    have hst0 : s0.nFile = s.nFile ∧ s0.nFileUpdate = s.nFileUpdate ∧
        s0.nFileOver = s.nFileOver ∧ s0.dFile = s.dFile ∧ s0.dFileUpdate = s.dFileUpdate ∧
        s0.dFileOver = s.dFileOver ∧ s0.fFile = s.fFile ∧ s0.fFileUpdate = s.fFileUpdate ∧
        s0.fFileOver = s.fFileOver := by
      rcases h0 with rfl | rfl <;> exact ⟨rfl, rfl, rfl, rfl, rfl, rfl, rfl, rfl, rfl⟩
    have hbit : ∀ word1 bit1 : Int, 0 ≤ bit1 ∧ bit1 < 16 → word1 ≠ word ∨ bit1 ≠ bit →
        bitOver t s0 word1 bit1 = bitOver t s word1 bit1 := by
      intro word1 bit1 hb1 hne
      rcases h0 with rfl | rfl
      · rfl
      · rw [bitOver_resetBitWordOver_any t ht s word bit word1 bit1 hr.2 hb1]
        have : ¬ ((word = word1 ∧ 0 ≤ word ∧ word < (s.bFileOver.length : Int)) ∧ bit1 = bit) := by
          rintro ⟨⟨e, -, -⟩, e2⟩
          rcases hne with h | h
          · exact h e.symm
          · exact h e2
        by_cases hc : word = word1 ∧ 0 ≤ word ∧ word < (s.bFileOver.length : Int)
        · have hb : ¬ bit1 = bit := fun e => this ⟨hc, e⟩
          simp [hb]
        · simp [hc]
    have hword : ∀ word1 : Int, word1 ≠ word →
        getAt s0.bFileOver word1 0 = getAt s.bFileOver word1 0 := by
      intro word1 hne
      rcases h0 with rfl | rfl
      · rfl
      · simp only [resetBitWordOver]
        rw [getAt_setAt]
        have hc : ¬ (word = word1 ∧ 0 ≤ word ∧ word < (s.bFileOver.length : Int)) :=
          fun h => hne h.1.symm
        rw [if_neg hc]
    have eB : r.bFile = (setBitWord t s0 word bit v).bFile := congrArg Store.bFile hst
    have eU : r.bFileUpdate = (setBitWordUpdate t s0 word bit).bFileUpdate :=
      congrArg Store.bFileUpdate hst
    have eO : r.bFileOver = s0.bFileOver := congrArg Store.bFileOver hst
    have hw0 : 0 ≤ word ∧ word < (s0.bFile.length : Int) := by
      rw [hb0, hs.1]; exact hr.1
    obtain ⟨g1, g2, g3, g4, g5, g6, g7, g8, g9⟩ := hst0
    refine ⟨?_, ?_, ?_, (congrArg Store.nFile hst).trans g1,
      (congrArg Store.nFileUpdate hst).trans g2, (congrArg Store.nFileOver hst).trans g3,
      (congrArg Store.dFile hst).trans g4, (congrArg Store.dFileUpdate hst).trans g5,
      (congrArg Store.dFileOver hst).trans g6, (congrArg Store.fFile hst).trans g7,
      (congrArg Store.fFileUpdate hst).trans g8, (congrArg Store.fFileOver hst).trans g9⟩
    · rw [getBitWord_of_bFile t r _ word bit eB]
      exact getBitWord_setBitWord t ht s0 word bit v hw0 hr.2
    · intro word1 bit1 hb1 hne
      refine ⟨?_, ?_, ?_⟩
      · rw [getBitWord_of_bFile t r _ word1 bit1 eB,
          getBitWord_setBitWord_other t ht s0 word bit v word1 bit1 hr.2 hb1 hne]
        exact getBitWord_of_bFile t s0 s word1 bit1 hb0
      · rw [getBitWordUpdate_of_list t r _ word1 bit1 eU,
          getBitWordUpdate_setBitWordUpdate_any t ht s0 word bit word1 bit1 hr.2 hb1,
          getBitWordUpdate_of_list t s0 s word1 bit1 hu0]
        by_cases hc : word = word1 ∧ 0 ≤ word ∧ word < (s0.bFileUpdate.length : Int)
        · have hb : ¬ bit = bit1 := by
            intro e
            rcases hne with h | h
            · exact h hc.1.symm
            · exact h e.symm
          simp [hb]
        · simp [hc]
      · rw [bitOver_congr t r s0 word1 bit1 eO]
        exact hbit word1 bit1 hb1 hne
    · intro word1 hne
      have hc : ∀ n : Nat, ¬ (word = word1 ∧ 0 ≤ word ∧ word < (n : Int)) :=
        fun n h => hne h.1.symm
      refine ⟨?_, ?_, ?_⟩
      · rw [eB]
        simp only [setBitWord]
        rw [getAt_setAt, if_neg (hc _), hb0]
      · rw [eU]
        simp only [setBitWordUpdate]
        rw [getAt_setAt, if_neg (hc _), hu0]
      · rw [eO]
        exact hword word1 hne

theorem bit_packing_isolation_witness :
    getBitWord Target.avr (writeBFile Target.avr serialUp (World.idle []) 2 5 true).1 2 5 = true ∧
    getBitWord Target.avr (writeBFile Target.avr serialUp (World.idle []) 2 5 true).1 2 6
      = getBitWord Target.avr serialUp 2 6 ∧
    (writeBFile Target.avr serialUp (World.idle []) 2 5 true).1.nFile = serialUp.nFile := by
  obtain ⟨h1, h2, _, h3, _⟩ :=
    bit_packing_isolation Target.avr (by decide) serialUp (by decide) (World.idle []) 2 5 true
      (by decide)
  exact ⟨h1, (h2 2 6 (by decide) (by decide)).1, h3⟩

/-! ## Dirty flags along a run -/

theorem DirtyKept_refl (t : Target) (s : State) : DirtyKept t s s :=
  ⟨fun _ _ _ h => h, fun _ h => h, fun _ h => h, fun _ h => h⟩

theorem DirtyKept_trans {t : Target} {s1 s2 s3 : State} (h1 : DirtyKept t s1 s2)
    (h2 : DirtyKept t s2 s3) : DirtyKept t s1 s3 :=
  ⟨fun a b hb h => h2.1 a b hb (h1.1 a b hb h), fun a h => h2.2.1 a (h1.2.1 a h),
    fun a h => h2.2.2.1 a (h1.2.2.1 a h), fun a h => h2.2.2.2 a (h1.2.2.2 a h)⟩

theorem DirtyKept_of_dirty (t : Target) (s s1 : State) (h : s1.dirty = s.dirty) :
    DirtyKept t s s1 := by
  simp only [State.dirty, Prod.mk.injEq] at h
  obtain ⟨h1, h2, h3, h4⟩ := h
  refine ⟨fun a b _ h => ?_, fun a h => ?_, fun a h => ?_, fun a h => ?_⟩
  · rw [getBitWordUpdate_of_list t s1 s a b h1]; exact h
  · rw [h2]; exact h
  · rw [h3]; exact h
  · rw [h4]; exact h

theorem getAt_setAt_true (l : List Bool) (i j : Int) (h : getAt l j false = true) :
    getAt (setAt l i true) j false = true := by
  rw [getAt_setAt]
  split
  · rfl
  · exact h

theorem writeBFile_dirtyKept (t : Target) (ht : t.ok) (s : State) (w : World)
    (word bit : Int) (v : Bool) : DirtyKept t s (writeBFile t s w word bit v).1 := by
  rcases writeBFile_store_cases t s w word bit v with h | ⟨hr, h⟩
  · exact DirtyKept_of_dirty t _ _ (dirty_of_store _ _ h)
  · have key : ∃ s0 : State, s0.dirty = s.dirty ∧
        (writeBFile t s w word bit v).1.dirty = (setBitWordUpdate t s0 word bit).dirty := by
      rcases h with h | h
      · exact ⟨s, rfl, dirty_of_store _
          (setBitWordUpdate t (setBitWord t s word bit v) word bit) h⟩
      · exact ⟨s, rfl, dirty_of_store _
          (setBitWordUpdate t (setBitWord t (resetBitWordOver t s word bit) word bit v)
            word bit) h⟩
    obtain ⟨s0, h0, h1⟩ := key
    refine DirtyKept_trans (DirtyKept_of_dirty t s s0 h0)
      (DirtyKept_trans ?_ (DirtyKept_of_dirty t _ _ h1))
    refine ⟨fun a b hb h => ?_, fun a h => h, fun a h => h, fun a h => h⟩
    rw [getBitWordUpdate_setBitWordUpdate_any t ht s0 word bit a b hr.2 hb, h]
    rfl

theorem writeNFile_dirtyKept (t : Target) (s : State) (w : World) (word : Int) (v : Nat) :
    DirtyKept t s (writeNFile t s w word v).1 := by
  have key : (writeNFile t s w word v).1.dirty = s.dirty ∨
      (writeNFile t s w word v).1.dirty
        = (s.bFileUpdate, setAt s.nFileUpdate word true, s.dFileUpdate, s.fFileUpdate) := by
    unfold writeNFile getNWordOver
    dsimp only
    split_ifs <;>
      first
      | exact Or.inl rfl
      | exact Or.inr (dirty_of_store _ _ (writeNFile2_store t _ w word v))
  rcases key with h | h
  · exact DirtyKept_of_dirty t _ _ h
  · simp only [State.dirty, Prod.mk.injEq] at h
    obtain ⟨h1, h2, h3, h4⟩ := h
    refine ⟨fun a b _ h => ?_, fun a h => ?_, fun a h => ?_, fun a h => ?_⟩
    · rw [getBitWordUpdate_of_list t _ s a b h1]; exact h
    · rw [h2]; exact getAt_setAt_true _ _ _ h
    · rw [h3]; exact h
    · rw [h4]; exact h

theorem writeDFile_dirtyKept (t : Target) (s : State) (w : World) (word : Int) (v : Nat) :
    DirtyKept t s (writeDFile t s w word v).1 := by
  have key : (writeDFile t s w word v).1.dirty = s.dirty ∨
      (writeDFile t s w word v).1.dirty
        = (s.bFileUpdate, s.nFileUpdate, setAt s.dFileUpdate word true, s.fFileUpdate) := by
    unfold writeDFile getDWordOver
    dsimp only
    split_ifs <;>
      first
      | exact Or.inl rfl
      | exact Or.inr (dirty_of_store _ _ (writeDFile2_store t _ w word v))
  rcases key with h | h
  · exact DirtyKept_of_dirty t _ _ h
  · simp only [State.dirty, Prod.mk.injEq] at h
    obtain ⟨h1, h2, h3, h4⟩ := h
    refine ⟨fun a b _ h => ?_, fun a h => ?_, fun a h => ?_, fun a h => ?_⟩
    · rw [getBitWordUpdate_of_list t _ s a b h1]; exact h
    · rw [h2]; exact h
    · rw [h3]; exact getAt_setAt_true _ _ _ h
    · rw [h4]; exact h

theorem writeFFile_dirtyKept (t : Target) (s : State) (w : World) (word : Int)
    (v : floatValue) : DirtyKept t s (writeFFile t s w word v).1 := by
  have key : (writeFFile t s w word v).1.dirty = s.dirty ∨
      (writeFFile t s w word v).1.dirty
        = (s.bFileUpdate, s.nFileUpdate, s.dFileUpdate, setAt s.fFileUpdate word true) := by
    unfold writeFFile getFWordOver
    dsimp only
    split_ifs <;>
      first
      | exact Or.inl rfl
      | exact Or.inr (dirty_of_store _ _ (writeFFile2_store t _ w word v))
  rcases key with h | h
  · exact DirtyKept_of_dirty t _ _ h
  · simp only [State.dirty, Prod.mk.injEq] at h
    obtain ⟨h1, h2, h3, h4⟩ := h
    refine ⟨fun a b _ h => ?_, fun a h => ?_, fun a h => ?_, fun a h => ?_⟩
    · rw [getBitWordUpdate_of_list t _ s a b h1]; exact h
    · rw [h2]; exact h
    · rw [h3]; exact h
    · rw [h4]; exact getAt_setAt_true _ _ _ h

theorem reads_keep_world (t : Target) (s : State) (w : World) (wb bit word : Int) :
    (readBFile t s w wb bit).2 = (s, w) ∧ (readNFile s w word).2 = (s, w) ∧
    (readDFile s w word).2 = (s, w) ∧ (readFFile s w word).2 = (s, w) := by
  simp only [readBFile, readNFile, readDFile, readFFile]
  refine ⟨?_, ?_, ?_, ?_⟩ <;> split <;> rfl

theorem Call.run_dirtyKept (t : Target) (ht : t.ok) (c : Call) (sw sw1 : State × World)
    (h : c.run t sw = .ok sw1) : DirtyKept t sw.1 sw1.1 := by
  have hpure := reads_keep_world t sw.1 sw.2
  cases c with
  | update => exact DirtyKept_of_dirty t _ _ (update_dirty t sw.1 sw.2 sw1 h)
  | getBoolean word bit =>
    injection h with h; subst h
    unfold Hmi2.getBoolean
    rw [(hpure word bit 0).1]; exact DirtyKept_refl t _
  | getBFileBit word bit =>
    injection h with h; subst h
    unfold Hmi2.getBFileBit
    rw [(hpure word bit 0).1]; exact DirtyKept_refl t _
  | getInt word =>
    injection h with h; subst h
    unfold Hmi2.getInt
    rw [(hpure 0 0 word).2.1]; exact DirtyKept_refl t _
  | getNFile word =>
    injection h with h; subst h
    unfold Hmi2.getNFile
    rw [(hpure 0 0 word).2.1]; exact DirtyKept_refl t _
  | getDouble word =>
    injection h with h; subst h
    unfold Hmi2.getDouble
    rw [(hpure 0 0 word).2.2.1]; exact DirtyKept_refl t _
  | getDInt word =>
    injection h with h; subst h
    unfold Hmi2.getDInt
    rw [(hpure 0 0 word).2.2.1]; exact DirtyKept_refl t _
  | getFloat word =>
    injection h with h; subst h
    unfold Hmi2.getFloat
    rw [(hpure 0 0 word).2.2.2]; exact DirtyKept_refl t _
  | getFFile word =>
    injection h with h; subst h
    unfold Hmi2.getFFile
    rw [(hpure 0 0 word).2.2.2]; exact DirtyKept_refl t _
  | setBoolean word bit value =>
    injection h with h; subst h; exact writeBFile_dirtyKept t ht _ _ word bit value
  | setBFileBit word bit value =>
    injection h with h; subst h; exact writeBFile_dirtyKept t ht _ _ word bit value
  | setInt word value =>
    injection h with h; subst h; exact writeNFile_dirtyKept t _ _ word value
  | setNFile word value =>
    injection h with h; subst h; exact writeNFile_dirtyKept t _ _ word value
  | setDouble word value =>
    injection h with h; subst h; exact writeDFile_dirtyKept t _ _ word value
  | setDInt word value =>
    injection h with h; subst h; exact writeDFile_dirtyKept t _ _ word value
  | setFloat word value =>
    injection h with h; subst h; exact writeFFile_dirtyKept t _ _ word value
  | setFFile word value =>
    injection h with h; subst h; exact writeFFile_dirtyKept t _ _ word value

theorem Call.run_fuel (t : Target) (c : Call) (sw : State × World) :
    c.run t sw ≠ .error Fault.outOfFuel := by
  cases c <;> first | exact update_fuel t sw.1 sw.2 | (intro h; cases h)

/-- Dirty flags are monotone along the runs that return.  Along every sequence of calls on the object (the
getters, the setters, `update()` with whatever the panel answers), every dirty flag that
is set at the start (a bit of `bFileUpdate`, an entry of `nFileUpdate`, `dFileUpdate` or
`fFileUpdate`) is set at the end; the sequence ends, a run that a panel record drives into an
undefined access apart. -/
theorem runCalls_dirtyKept (t : Target) (ht : t.ok) (cs : List Call) (sw : State × World) :
    match runCalls t cs sw with
    | .ok sw1 => DirtyKept t sw.1 sw1.1
    | .error f => f ≠ Fault.outOfFuel := by
  induction cs generalizing sw with
  | nil => exact DirtyKept_refl t _
  | cons c cs ih =>
    unfold runCalls
    cases hc : c.run t sw with
    | error f =>
      dsimp only
      intro hf
      subst hf
      exact Call.run_fuel t c sw hc
    | ok sw1 =>
      dsimp only
      have h1 := Call.run_dirtyKept t ht c sw sw1 hc
      have h2 := ih sw1
      cases hr : runCalls t cs sw1 with
      | error f => rw [hr] at h2; exact h2
      | ok sw2 => rw [hr] at h2; exact DirtyKept_trans h1 h2

/-! ## Records of the panel and the store -/

theorem applyRecord_65 (t : Target) (s : State) (u : Bool) (h0 : bufAt t s 0 = 65)
    (hw : 0 ≤ bufAt t s 1 ∧ bufAt t s 1 < s.bSize) (hb : bufAt t s 2 < t.intBits) :
    applyRecord t s u
      = .ok (setBitWord t s (bufAt t s 1) (bufAt t s 2) (decide (bufAt t s 3 = 49)), true, u) := by
  have h1 : ¬ bufAt t s 1 < 0 := by omega
  have h2 : ¬ (t.intBits : Int) ≤ bufAt t s 2 := by omega
  unfold applyRecord
  simp only [h0, if_true, hw.2, h1, if_false]
  by_cases h3 : bufAt t s 3 = 49
  · simp [h3, h2]
  · simp [h3]

theorem applyRecord_75 (t : Target) (s : State) (u : Bool) (h0 : bufAt t s 0 = 75)
    (hw : 0 ≤ bufAt t s 1 ∧ bufAt t s 1 < s.ndfSize) :
    applyRecord t s u
      = .ok ({ s with
          nFile := setAt s.nFile (bufAt t s 1)
            (joinInt16 t (s.bufferSerial.getD 2 0) (s.bufferSerial.getD 3 0)
              (s.bufferSerial.getD 4 0)) }, true, u) := by
  have h1 : ¬ bufAt t s 1 < 0 := by omega
  unfold applyRecord
  simp only [h0, if_true, hw.2, h1, if_false]
  simp

theorem applyRecord_77 (t : Target) (s : State) (u : Bool) (h0 : bufAt t s 0 = 77)
    (hw : 0 ≤ bufAt t s 1 ∧ bufAt t s 1 < s.ndfSize) :
    applyRecord t s u
      = .ok ({ s with
          dFile := setAt s.dFile (bufAt t s 1)
            (joinInt32 t (s.bufferSerial.getD 2 0) (s.bufferSerial.getD 3 0)
              (s.bufferSerial.getD 4 0) (s.bufferSerial.getD 5 0)
              (s.bufferSerial.getD 6 0) (s.bufferSerial.getD 7 0)) }, true, u) := by
  have h1 : ¬ bufAt t s 1 < 0 := by omega
  unfold applyRecord
  simp only [h0, if_true, hw.2, h1, if_false]
  simp

theorem applyRecord_79 (t : Target) (s : State) (u : Bool) (h0 : bufAt t s 0 = 79)
    (hw : 0 ≤ bufAt t s 1 ∧ bufAt t s 1 < s.ndfSize) :
    applyRecord t s u
      = .ok ({ s with
          fFile := setAt s.fFile (bufAt t s 1)
            (joinFloat (joinInt32 t (s.bufferSerial.getD 2 0) (s.bufferSerial.getD 3 0)
              (s.bufferSerial.getD 4 0) (s.bufferSerial.getD 5 0)
              (s.bufferSerial.getD 6 0) (s.bufferSerial.getD 7 0))) }, true, u) := by
  have h1 : ¬ bufAt t s 1 < 0 := by omega
  unfold applyRecord
  simp only [h0, if_true, hw.2, h1, if_false]
  simp

theorem getAt_setAt_other {α : Type} (l : List α) (i j : Int) (v d : α) (h : j ≠ i) :
    getAt (setAt l i v) j d = getAt l j d := by
  rw [getAt_setAt, if_neg (fun hc => h hc.1.symm)]


/-- C23: remote updates do not echo.  Applying a drained BINARY, INT, DINT or REAL record
with an in-range address (`0 <= word < capacity`, and `0 <= bit < 16` for BINARY) changes
only the addressed bit or word of the targeted file: the other bits and words, the other
files, every dirty flag and every override flag are as before, the loop goes on
(`readingData` stays true) and `update2Android` is as it was.  The loop iteration that
applies a record passes on the world its `c` exchange left: the bytes of the iteration are
the continue frame, no write frame. -/
theorem remote_updates_do_not_echo (t : Target) (ht : t.ok) (s : State) (hs : s.WF)
    (u : Bool) :
    (bufAt t s 0 = 65 → 0 ≤ bufAt t s 1 ∧ bufAt t s 1 < s.bSize →
      0 ≤ bufAt t s 2 ∧ bufAt t s 2 < 16 →
      ∃ a, applyRecord t s u = .ok a ∧ a.2.1 = true ∧ a.2.2 = u ∧
        a.1.dirty = s.dirty ∧ a.1.over = s.over ∧
        getBitWord t a.1 (bufAt t s 1) (bufAt t s 2) = decide (bufAt t s 3 = 49) ∧
        (∀ word bit : Int, 0 ≤ bit ∧ bit < 16 → word ≠ bufAt t s 1 ∨ bit ≠ bufAt t s 2 →
          getBitWord t a.1 word bit = getBitWord t s word bit) ∧
        a.1.nFile = s.nFile ∧ a.1.dFile = s.dFile ∧ a.1.fFile = s.fFile) ∧
    (bufAt t s 0 = 75 → 0 ≤ bufAt t s 1 ∧ bufAt t s 1 < s.ndfSize →
      ∃ a, applyRecord t s u = .ok a ∧ a.2.1 = true ∧ a.2.2 = u ∧
        a.1.dirty = s.dirty ∧ a.1.over = s.over ∧
        getAt a.1.nFile (bufAt t s 1) 0 = joinInt16 t (s.bufferSerial.getD 2 0)
          (s.bufferSerial.getD 3 0) (s.bufferSerial.getD 4 0) ∧
        (∀ word : Int, word ≠ bufAt t s 1 → getAt a.1.nFile word 0 = getAt s.nFile word 0) ∧
        a.1.bFile = s.bFile ∧ a.1.dFile = s.dFile ∧ a.1.fFile = s.fFile) ∧
    (bufAt t s 0 = 77 → 0 ≤ bufAt t s 1 ∧ bufAt t s 1 < s.ndfSize →
      ∃ a, applyRecord t s u = .ok a ∧ a.2.1 = true ∧ a.2.2 = u ∧
        a.1.dirty = s.dirty ∧ a.1.over = s.over ∧
        getAt a.1.dFile (bufAt t s 1) 0 = joinInt32 t (s.bufferSerial.getD 2 0)
          (s.bufferSerial.getD 3 0) (s.bufferSerial.getD 4 0) (s.bufferSerial.getD 5 0)
          (s.bufferSerial.getD 6 0) (s.bufferSerial.getD 7 0) ∧
        (∀ word : Int, word ≠ bufAt t s 1 → getAt a.1.dFile word 0 = getAt s.dFile word 0) ∧
        a.1.bFile = s.bFile ∧ a.1.nFile = s.nFile ∧ a.1.fFile = s.fFile) ∧
    (bufAt t s 0 = 79 → 0 ≤ bufAt t s 1 ∧ bufAt t s 1 < s.ndfSize →
      ∃ a, applyRecord t s u = .ok a ∧ a.2.1 = true ∧ a.2.2 = u ∧
        a.1.dirty = s.dirty ∧ a.1.over = s.over ∧
        getAt a.1.fFile (bufAt t s 1) ⟨0, 0, 0, 0⟩
          = joinFloat (joinInt32 t (s.bufferSerial.getD 2 0)
            (s.bufferSerial.getD 3 0) (s.bufferSerial.getD 4 0) (s.bufferSerial.getD 5 0)
            (s.bufferSerial.getD 6 0) (s.bufferSerial.getD 7 0)) ∧
        (∀ word : Int, word ≠ bufAt t s 1 →
          getAt a.1.fFile word ⟨0, 0, 0, 0⟩ = getAt s.fFile word ⟨0, 0, 0, 0⟩) ∧
        a.1.bFile = s.bFile ∧ a.1.nFile = s.nFile ∧ a.1.dFile = s.dFile) ∧
    (∀ (s0 : State) (w0 : World) (fuel : Nat) (a : State × Bool × Bool),
      (sendBasicCommand t s0 w0 99).1 = true →
      applyRecord t (sendBasicCommand t s0 w0 99).2.1 u = .ok a → a.2.1 = true →
      drainLoop t (fuel + 1) s0 w0 u
          = drainLoop t fuel a.1 (sendBasicCommand t s0 w0 99).2.2 a.2.2 ∧
        (sendBasicCommand t s0 w0 99).2.2.sent = w0.sent ++ onWire t s0 w0 (frameCmd 99)) := by
  obtain ⟨hl1, -, -, hl4, -, -, hl7, -, -, hl10, -, -, -⟩ := hs
  refine ⟨?_, ?_, ?_, ?_, ?_⟩
  · intro h0 hw hb
    have hbits : bufAt t s 2 < (t.intBits : Int) := by
      rcases ht with h | h <;> rw [h] <;> omega
    refine ⟨_, applyRecord_65 t s u h0 hw hbits, rfl, rfl, rfl, rfl, ?_, ?_, rfl, rfl, rfl⟩
    · exact getBitWord_setBitWord t ht s _ _ _ ⟨hw.1, by rw [hl1]; exact hw.2⟩ hb
    · intro word bit hb1 hne
      exact getBitWord_setBitWord_other t ht s _ _ _ word bit hb hb1 hne
  · intro h0 hw
    refine ⟨_, applyRecord_75 t s u h0 hw, rfl, rfl, rfl, rfl, ?_, ?_, rfl, rfl, rfl⟩
    · exact getAt_setAt_same _ _ _ _ hw.1 (by rw [hl4]; exact hw.2)
    · intro word hne
      exact getAt_setAt_other _ _ _ _ _ hne
  · intro h0 hw
    refine ⟨_, applyRecord_77 t s u h0 hw, rfl, rfl, rfl, rfl, ?_, ?_, rfl, rfl, rfl⟩
    · exact getAt_setAt_same _ _ _ _ hw.1 (by rw [hl7]; exact hw.2)
    · intro word hne
      exact getAt_setAt_other _ _ _ _ _ hne
  · intro h0 hw
    refine ⟨_, applyRecord_79 t s u h0 hw, rfl, rfl, rfl, rfl, ?_, ?_, rfl, rfl, rfl⟩
    · exact getAt_setAt_same _ _ _ _ hw.1 (by rw [hl10]; exact hw.2)
    · intro word hne
      exact getAt_setAt_other _ _ _ _ _ hne
  · intro s0 w0 fuel a hok ha hrd
    refine ⟨?_, sendBasicCommand_sent t s0 w0 99⟩
    rw [drainLoop_record t fuel s0 w0 u a hok ha, if_pos hrd]

set_option maxRecDepth 100000 in
theorem remote_updates_do_not_echo_witness :
    ∃ a, applyRecord Target.avr bitByte5 false = .ok a ∧ a.2.1 = true ∧ a.2.2 = false ∧
      a.1.dirty = bitByte5.dirty ∧ a.1.over = bitByte5.over ∧
      getBitWord Target.avr a.1 1 5 = true := by
  obtain ⟨a, h1, h2, h3, h4, h5, h6, _⟩ :=
    (remote_updates_do_not_echo Target.avr (by decide) bitByte5 (by decide) false).1
      (by decide) (by decide) (by decide)
  exact ⟨a, h1, h2, h3, h4, h5, h6⟩

/-! ## The unchecked bit byte of a BINARY record -/

/-- With a negative position `setBitToInt` returns 1, the mask of bit 0. -/
theorem setBitWord_negative (t : Target) (s : State) (word bit : Int) (h : bit < 0) :
    setBitWord t s word bit true = setBitWord t s word 0 true := by
  have h1 : ¬ bit > 0 := by omega
  simp only [setBitWord, setBitToInt, if_neg h1, if_true]
  rfl

/-- C29 fails in the code for the bit byte of a BINARY record.  On a target whose `char` is
signed (AVR), a drained record `[65, word, bit, '1']` with an in-range word and a bit byte
in `128..255`, which is outside `[0, 16)`, is applied: the byte reads as a negative `int`,
`setBitToInt` returns 1 for it, and bit 0 of the addressed word is set. -/
theorem remote_bit_byte_unchecked (t : Target) (ht : t.ok) (s : State) (hs : s.WF) (u : Bool)
    (hsigned : t.charSigned = true) (h0 : bufAt t s 0 = 65)
    (hw : 0 ≤ bufAt t s 1 ∧ bufAt t s 1 < s.bSize)
    (hbit : 128 ≤ s.bufferSerial.getD 2 0 ∧ s.bufferSerial.getD 2 0 < 256)
    (hval : bufAt t s 3 = 49) :
    ¬ (0 ≤ bufAt t s 2 ∧ bufAt t s 2 < 16) ∧
    ∃ a, applyRecord t s u = .ok a ∧ getBitWord t a.1 (bufAt t s 1) 0 = true := by
  have hneg : bufAt t s 2 < 0 := by
    unfold bufAt charToInt
    have h1 : s.bufferSerial.getD 2 0 % 256 = s.bufferSerial.getD 2 0 :=
      Nat.mod_eq_of_lt hbit.2
    rw [h1]
    simp only [hsigned, Bool.true_and, decide_eq_true_eq]
    rw [if_pos hbit.1]
    omega
  refine ⟨by omega, _, applyRecord_65 t s u h0 hw (by omega), ?_⟩
  simp only [hval, decide_True]
  rw [setBitWord_negative t s _ _ hneg]
  exact getBitWord_setBitWord t ht s _ 0 true ⟨hw.1, by rw [hs.1]; exact hw.2⟩ (by decide)

set_option maxRecDepth 100000 in
theorem remote_bit_byte_unchecked_witness :
    getBitWord Target.avr bitByte200 0 0 = false ∧
    ¬ (0 ≤ bufAt Target.avr bitByte200 2 ∧ bufAt Target.avr bitByte200 2 < 16) ∧
    ∃ a, applyRecord Target.avr bitByte200 false = .ok a ∧
      getBitWord Target.avr a.1 (bufAt Target.avr bitByte200 1) 0 = true :=
  ⟨by decide, remote_bit_byte_unchecked Target.avr (by decide) bitByte200 (by decide) false
    (by decide) (by decide) (by decide) (by decide) (by decide)⟩

set_option maxRecDepth 100000 in
/-- The same on a whole tick: on an AVR board on the hardware serial line, with every bit of
the Bit file clear, the batch `[c] [65, 0, 200, '1'] [100]` leaves `bFile[0] = 1`. -/
theorem remote_bit_byte_tick :
    (update Target.avr serialSmall
        (World.idle [[99, 98], [65, 0, 200, 49, 98], [100, 98]])).toOption.map
      (fun r => (getAt r.1.bFile 0 0, getAt serialSmall.bFile 0 0)) = some (1, 0) := by
  decide

/-! ## The silence timer of the LAN session -/

theorem checkLANResponse_split (s : State) (w : World) :
    checkLANResponse s w = lanSilence (lanReceive s w) := by
  unfold checkLANResponse lanSilence lanReceive
  dsimp only

/-- C28: the silence timer of the LAN session, with the clock as an explicit input (the
readings of `millis()` are those of the world).  (a) When no byte arrives before the 900 ms
deadline and no timer is running, the receive loop returns false with the timer started
(`lanTimeCount = true`, `reconectTime` the reading taken then) and the connection status
untouched; the exchange then ends with the timer running and the connection open unless
the next reading is already more than 3000 ms later.  (b) The block that ends an exchange
closes the session (`stop`, `lanConnectionStatus = false`, `lanTimeCount = false`) exactly
when the timer is running and the unsigned difference between the reading and
`reconectTime` exceeds 3000; otherwise it changes nothing.  (c) An exchange that reads at
least one byte and finishes within 900 ms returns true with the timer cleared and the
connection status untouched. -/
theorem lan_silence_timer (s : State) (w : World) :
    (s.lanTimeCount = false → w.millis.2.recv.1 = [] →
      (lanReceive s w).1 = false ∧ (lanReceive s w).2.1.lanTimeCount = true ∧
      (lanReceive s w).2.1.reconectTime
        = ((w.millis.2.recv.2).waitDeadline w.millis.1).millis.1 ∧
      (lanReceive s w).2.1.lanConnectionStatus = s.lanConnectionStatus ∧
      (subU32 (lanReceive s w).2.2.millis.1 (lanReceive s w).2.1.reconectTime ≤ 3000 →
        (checkLANResponse s w).1 = false ∧
        (checkLANResponse s w).2.1.lanTimeCount = true ∧
        (checkLANResponse s w).2.1.lanConnectionStatus = s.lanConnectionStatus ∧
        (checkLANResponse s w).2.2.trace = w.trace)) ∧
    checkLANResponse s w = lanSilence (lanReceive s w) ∧
    (∀ m : Bool × State × World,
      (m.2.1.lanTimeCount = true ∧ subU32 m.2.2.millis.1 m.2.1.reconectTime > 3000 →
        (lanSilence m).2.1.lanConnectionStatus = false ∧
        (lanSilence m).2.1.lanTimeCount = false ∧
        (lanSilence m).2.2.trace = m.2.2.trace ++ [Event.stop]) ∧
      (¬ (m.2.1.lanTimeCount = true ∧ subU32 m.2.2.millis.1 m.2.1.reconectTime > 3000) →
        (lanSilence m).1 = m.1 ∧ (lanSilence m).2.1 = m.2.1 ∧
        (lanSilence m).2.2.trace = m.2.2.trace)) ∧
    (w.millis.2.recv.1 ≠ [] →
      (readBytesUntil 98 128 w.millis.2.recv.1 s.bufferSerial 0).2 ≠ 0 →
      subU32 w.millis.2.recv.2.millis.1 w.millis.1 ≤ 900 →
      (checkLANResponse s w).1 = true ∧ (checkLANResponse s w).2.1.lanTimeCount = false ∧
      (checkLANResponse s w).2.1.lanConnectionStatus = s.lanConnectionStatus ∧
      (checkLANResponse s w).2.2.trace = w.trace) := by
  have hB : ∀ m : Bool × State × World,
      (m.2.1.lanTimeCount = true ∧ subU32 m.2.2.millis.1 m.2.1.reconectTime > 3000 →
        (lanSilence m).2.1.lanConnectionStatus = false ∧
        (lanSilence m).2.1.lanTimeCount = false ∧
        (lanSilence m).2.2.trace = m.2.2.trace ++ [Event.stop]) ∧
      (¬ (m.2.1.lanTimeCount = true ∧ subU32 m.2.2.millis.1 m.2.1.reconectTime > 3000) →
        (lanSilence m).1 = m.1 ∧ (lanSilence m).2.1 = m.2.1 ∧
        (lanSilence m).2.2.trace = m.2.2.trace) := by
    intro m
    constructor
    · rintro ⟨h1, h2⟩
      unfold lanSilence
      dsimp only
      rw [if_pos h1, if_pos h2]
      exact ⟨rfl, rfl, by simp [World.stop, trace_millis]⟩
    · intro h
      unfold lanSilence
      dsimp only
      by_cases h1 : m.2.1.lanTimeCount = true
      · have h2 : ¬ subU32 m.2.2.millis.1 m.2.1.reconectTime > 3000 := fun h2 => h ⟨h1, h2⟩
        rw [if_pos h1, if_neg h2]
        exact ⟨rfl, rfl, trace_millis _⟩
      · rw [if_neg h1]
        exact ⟨rfl, rfl, rfl⟩
  have hA : s.lanTimeCount = false → w.millis.2.recv.1 = [] →
      (lanReceive s w).1 = false ∧ (lanReceive s w).2.1.lanTimeCount = true ∧
      (lanReceive s w).2.1.reconectTime
        = ((w.millis.2.recv.2).waitDeadline w.millis.1).millis.1 ∧
      (lanReceive s w).2.1.lanConnectionStatus = s.lanConnectionStatus ∧
      (lanReceive s w).2.2.trace = w.trace := by
    intro h1 h2
    unfold lanReceive
    dsimp only
    have hrecv : ∀ x : World, x.recv.2.trace = x.trace := by
      intro x; unfold World.recv; split <;> rfl
    have htr : ((w.millis.2.recv.2).waitDeadline w.millis.1).millis.2.trace = w.trace := by
      rw [trace_millis]
      show (w.millis.2.recv.2).trace = w.trace
      rw [hrecv, trace_millis]
    simp only [h2, ne_eq, not_true_eq_false, if_false, h1, Bool.not_false, if_true, htr,
      and_self]
  refine ⟨?_, checkLANResponse_split s w, hB, ?_⟩
  · intro h1 h2
    obtain ⟨a1, a2, a3, a4, a5⟩ := hA h1 h2
    refine ⟨a1, a2, a3, a4, ?_⟩
    intro h3
    have hn : ¬ ((lanReceive s w).2.1.lanTimeCount = true ∧
        subU32 (lanReceive s w).2.2.millis.1 (lanReceive s w).2.1.reconectTime > 3000) := by
      rintro ⟨-, h⟩; omega
    obtain ⟨b1, b2, b3⟩ := (hB (lanReceive s w)).2 hn
    rw [checkLANResponse_split, b1, b2, b3]
    exact ⟨a1, a2, a4, a5⟩
  · intro h1 h2 h3
    have hR : (lanReceive s w).1 = true ∧ (lanReceive s w).2.1.lanTimeCount = false ∧
        (lanReceive s w).2.1.lanConnectionStatus = s.lanConnectionStatus ∧
        (lanReceive s w).2.2.trace = w.trace := by
      have h3n : ¬ subU32 w.millis.2.recv.2.millis.1 w.millis.1 > 900 := by omega
      unfold lanReceive
      dsimp only
      have hrecv : ∀ x : World, x.recv.2.trace = x.trace := by
        intro x; unfold World.recv; split <;> rfl
      have htr : w.millis.2.recv.2.millis.2.trace = w.trace := by
        rw [trace_millis, hrecv, trace_millis]
      simp only [h1, ne_eq, not_false_eq_true, if_true, h2, h3n, if_false, htr, and_self]
    obtain ⟨a1, a2, a3, a4⟩ := hR
    have hn : ¬ ((lanReceive s w).2.1.lanTimeCount = true ∧
        subU32 (lanReceive s w).2.2.millis.1 (lanReceive s w).2.1.reconectTime > 3000) := by
      rintro ⟨h, -⟩; rw [a2] at h; cases h
    obtain ⟨b1, b2, b3⟩ := (hB (lanReceive s w)).2 hn
    rw [checkLANResponse_split, b1, b2, b3]
    exact ⟨a1, a2, a3, a4⟩

theorem lan_silence_timer_witness :
    (lanReceive lanUp silentWorld).2.1.reconectTime = 2000 ∧
    (checkLANResponse lanUp silentWorld).1 = false ∧
    (checkLANResponse lanUp silentWorld).2.1.lanTimeCount = true ∧
    (checkLANResponse lanUp silentWorld).2.1.lanConnectionStatus = true := by
  obtain ⟨_, _, h3, _, h5⟩ := (lan_silence_timer lanUp silentWorld).1 (by decide) (by decide)
  obtain ⟨h6, h7, h8, _⟩ := h5 (by decide)
  exact ⟨h3.trans (by decide), h6, h7, h8⟩

/-! ## The push-back pass, frame by frame -/

theorem Handed.nil (t : Target) (s : State) : Handed t s [] [] :=
  ⟨List.Forall₂.nil, fun _ => rfl⟩

theorem Handed.append {t : Target} {s : State} {f1 o1 f2 o2 : List (List Nat)}
    (h1 : Handed t s f1 o1) (h2 : Handed t s f2 o2) : Handed t s (f1 ++ f2) (o1 ++ o2) :=
  ⟨List.rel_append h1.1 h2.1, fun h => by rw [h1.2 h, h2.2 h]⟩

theorem slotPrefix_of_sync (s s1 : State) (h : s1.sync = s.sync) :
    slotPrefix s1 = slotPrefix s := by
  have h1 : s1.connectionType = s.connectionType := congrArg (fun x => x.2.2.2.1) h
  have h2 : s1.myLanSlot = s.myLanSlot := congrArg (fun x => x.2.2.2.2) h
  unfold slotPrefix
  rw [h1, h2]

theorem Handed.single (t : Target) (s s1 : State) (w1 : World) (f : List Nat)
    (h : s1.sync = s.sync) : Handed t s [f] [onWire t s1 w1 f] := by
  constructor
  · refine List.Forall₂.cons ?_ List.Forall₂.nil
    unfold onWire
    split
    · right; rw [slotPrefix_of_sync s s1 h]
    · left; rfl
  · intro hser
    rw [onWire_serial t s1 w1 f (serialLink_of_sync t s s1 h hser)]

/-- A loop whose every turn hands the frames of its index to the transport hands over the
frames of all its indices, in order. -/
theorem foldl_emit {α : Type} (t : Target) (s : State)
    (step : State × World → α → State × World) (frames : α → List (List Nat))
    (hstep : ∀ sw a, sw.1.store = s.store → sw.1.sync = s.sync →
      (step sw a).1.store = s.store ∧ (step sw a).1.sync = s.sync ∧
      ∃ outs, Handed t s (frames a) outs ∧ (step sw a).2.sent = sw.2.sent ++ outs.flatten) :
    ∀ (l : List α) (sw : State × World), sw.1.store = s.store → sw.1.sync = s.sync →
      (l.foldl step sw).1.store = s.store ∧ (l.foldl step sw).1.sync = s.sync ∧
      ∃ outs, Handed t s (l.flatMap frames) outs ∧
        (l.foldl step sw).2.sent = sw.2.sent ++ outs.flatten := by
  intro l
  induction l with
  | nil =>
    intro sw h1 h2
    exact ⟨h1, h2, [], Handed.nil t s, by simp⟩
  | cons a l ih =>
    intro sw h1 h2
    obtain ⟨a1, a2, o1, a3, a4⟩ := hstep sw a h1 h2
    obtain ⟨b1, b2, o2, b3, b4⟩ := ih (step sw a) a1 a2
    refine ⟨b1, b2, o1 ++ o2, ?_, ?_⟩
    · rw [List.flatMap_cons]
      exact a3.append b3
    · rw [List.foldl_cons, b4, a4, List.flatten_append, List.append_assoc]

/-- One guarded write of the push-back pass. -/
theorem guarded_emit (t : Target) (s : State) (c : Bool) (sw : State × World)
    (wr : State × World) (f : List Nat) (h1 : sw.1.store = s.store) (h2 : sw.1.sync = s.sync)
    (hst : wr.1.store = sw.1.store) (hsy : wr.1.sync = sw.1.sync)
    (hsent : wr.2.sent = sw.2.sent ++ onWire t sw.1 sw.2 f) :
    (if c then wr else sw).1.store = s.store ∧ (if c then wr else sw).1.sync = s.sync ∧
    ∃ outs, Handed t s (if c then [f] else []) outs ∧
      (if c then wr else sw).2.sent = sw.2.sent ++ outs.flatten := by
  cases c
  · exact ⟨h1, h2, [], Handed.nil t s, by simp⟩
  · refine ⟨hst.trans h1, hsy.trans h2, [onWire t sw.1 sw.2 f], Handed.single t s sw.1 sw.2 f h2,
      ?_⟩
    simp [hsent]

theorem getBitWordUpdate_zero_cell (t : Target) (s : State) (word bit : Int)
    (h : getAt s.bFileUpdate word 0 = 0) : getBitWordUpdate t s word bit = false := by
  unfold getBitWordUpdate
  rw [h]
  have h1 : sext t 0 = 0 := by simp [sext]
  have h2 : asr t 0 bit = 0 := by
    unfold asr
    rw [if_pos (Nat.two_pow_pos _)]
    simp
  simp [h1, h2]


theorem frameP_congr (s s1 : State) (word : Int) (v : floatValue) :
    frameP s word v = frameP s1 word v := by
  simp [frameP, fragmentDataFloat_eq, fragmentData32_hd, fragmentData32_md, fragmentData32_ld,
    fragmentData32_hd32, fragmentData32_md32, fragmentData32_ld32]

theorem flatMap_nil_const {α β : Type} (l : List α) :
    (l.flatMap fun _ => ([] : List β)) = [] := by
  induction l with
  | nil => rfl
  | cons a l ih => rw [List.flatMap_cons, ih]; rfl

/-- The loop over the 16 bits of word `i` in the push-back pass. -/
theorem pushBackBits_emit (t : Target) (s : State) (i : Nat) (sw : State × World)
    (h1 : sw.1.store = s.store) (h2 : sw.1.sync = s.sync) :
    (pushBackBits t i sw).1.store = s.store ∧ (pushBackBits t i sw).1.sync = s.sync ∧
    ∃ outs, Handed t s ((List.range 16).flatMap fun (j : Nat) =>
        if getBitWordUpdate t s i j then [frameC i j (getBitWord t s i j)] else []) outs ∧
      (pushBackBits t i sw).2.sent = sw.2.sent ++ outs.flatten := by
  unfold pushBackBits
  refine foldl_emit t s _ _ ?_ (List.range 16) sw h1 h2
  intro sw1 j g1 g2
  dsimp only
  rw [getBitWordUpdate_congr t sw1.1 s i j g1, getBitWord_congr t sw1.1 s i j g1]
  exact guarded_emit t s (getBitWordUpdate t s i j) sw1 _ _ g1 g2
    (writeBFile2_store t sw1.1 sw1.2 i j _) (writeBFile2_sync t sw1.1 sw1.2 i j _)
    (writeBFile2_sent t sw1.1 sw1.2 i j _)

/-- The three guarded writes of the push-back pass for word index `i`. -/
theorem pushBackWord_emit (t : Target) (s : State) (i : Nat) (sw : State × World)
    (h1 : sw.1.store = s.store) (h2 : sw.1.sync = s.sync) :
    ∃ sw3 : State × World,
      sw3 = (fun (sw : State × World) =>
        let sw := if getAt sw.1.nFileUpdate i false then
          writeNFile2 t sw.1 sw.2 i (getAt sw.1.nFile i 0) else sw
        let sw := if getAt sw.1.dFileUpdate i false then
          writeDFile2 t sw.1 sw.2 i (getAt sw.1.dFile i 0) else sw
        if getAt sw.1.fFileUpdate i false then
          writeFFile2 t sw.1 sw.2 i (getAt sw.1.fFile i ⟨0, 0, 0, 0⟩) else sw) sw ∧
      sw3.1.store = s.store ∧ sw3.1.sync = s.sync ∧
      ∃ outs, Handed t s
          ((if getAt s.nFileUpdate i false then [frameL s i (getAt s.nFile i 0)] else [])
            ++ (if getAt s.dFileUpdate i false then [frameN s i (getAt s.dFile i 0)] else [])
            ++ (if getAt s.fFileUpdate i false then
                  [frameP s i (getAt s.fFile i ⟨0, 0, 0, 0⟩)] else [])) outs ∧
        sw3.2.sent = sw.2.sent ++ outs.flatten := by
  have st : ∀ x : State, x.store = s.store →
      x.nFileUpdate = s.nFileUpdate ∧ x.nFile = s.nFile ∧ x.dFileUpdate = s.dFileUpdate ∧
      x.dFile = s.dFile ∧ x.fFileUpdate = s.fFileUpdate ∧ x.fFile = s.fFile := fun x h =>
    ⟨congrArg Store.nFileUpdate h, congrArg Store.nFile h, congrArg Store.dFileUpdate h,
      congrArg Store.dFile h, congrArg Store.fFileUpdate h, congrArg Store.fFile h⟩
  obtain ⟨e1, e2, -, -, -, -⟩ := st sw.1 h1
  obtain ⟨a1, a2, o1, a3, a4⟩ := guarded_emit t s (getAt s.nFileUpdate i false) sw
    (writeNFile2 t sw.1 sw.2 i (getAt s.nFile i 0)) (frameL s i (getAt s.nFile i 0)) h1 h2
    (writeNFile2_store t sw.1 sw.2 i _) (writeNFile2_sync t sw.1 sw.2 i _)
    (by rw [writeNFile2_sent, frameL_congr sw.1 s])
  generalize hsw1 : (if getAt s.nFileUpdate i false = true then
    writeNFile2 t sw.1 sw.2 i (getAt s.nFile i 0) else sw) = sw1 at a1 a2 a3 a4
  obtain ⟨-, -, e3, e4, -, -⟩ := st sw1.1 a1
  obtain ⟨b1, b2, o2, b3, b4⟩ := guarded_emit t s (getAt s.dFileUpdate i false) sw1
    (writeDFile2 t sw1.1 sw1.2 i (getAt s.dFile i 0)) (frameN s i (getAt s.dFile i 0)) a1 a2
    (writeDFile2_store t sw1.1 sw1.2 i _) (writeDFile2_sync t sw1.1 sw1.2 i _)
    (by rw [writeDFile2_sent, frameN_congr sw1.1 s])
  generalize hsw2 : (if getAt s.dFileUpdate i false = true then
    writeDFile2 t sw1.1 sw1.2 i (getAt s.dFile i 0) else sw1) = sw2 at b1 b2 b3 b4
  obtain ⟨-, -, -, -, e5, e6⟩ := st sw2.1 b1
  obtain ⟨c1, c2, o3, c3, c4⟩ := guarded_emit t s (getAt s.fFileUpdate i false) sw2
    (writeFFile2 t sw2.1 sw2.2 i (getAt s.fFile i ⟨0, 0, 0, 0⟩))
    (frameP s i (getAt s.fFile i ⟨0, 0, 0, 0⟩)) b1 b2
    (writeFFile2_store t sw2.1 sw2.2 i _) (writeFFile2_sync t sw2.1 sw2.2 i _)
    (by rw [writeFFile2_sent, frameP_congr sw2.1 s])
  refine ⟨_, ?_, c1, c2, o1 ++ o2 ++ o3, (a3.append b3).append c3, ?_⟩
  · dsimp only
    rw [e1, e2, hsw1, e3, e4, hsw2, e5, e6]
  · rw [c4, b4, a4]
    simp

/-- The push-back pass hands to the transport exactly the frames of the dirty addresses, in
order, and leaves the store as it is. -/
theorem pushBack_emit (t : Target) (s : State) (w : World) :
    (pushBack t s w).1.store = s.store ∧ (pushBack t s w).1.sync = s.sync ∧
    ∃ outs, Handed t s (pushFrames t s) outs ∧
      (pushBack t s w).2.sent = w.sent ++ outs.flatten := by
  have hB := foldl_emit t s
    (fun sw (i : Nat) => if getAt sw.1.bFileUpdate i 0 ≠ 0 then pushBackBits t i sw else sw)
    (fun (i : Nat) => (List.range 16).flatMap fun (j : Nat) =>
      if getBitWordUpdate t s i j then [frameC i j (getBitWord t s i j)] else [])
    (by
      intro sw i h1 h2
      dsimp only
      have e : sw.1.bFileUpdate = s.bFileUpdate := congrArg Store.bFileUpdate h1
      by_cases hg : getAt sw.1.bFileUpdate i 0 ≠ 0
      · rw [if_pos hg]
        exact pushBackBits_emit t s i sw h1 h2
      · rw [if_neg hg]
        have h0 : getAt s.bFileUpdate i 0 = 0 := by
          rw [← e]; exact not_not.mp hg
        have hz : ∀ bit : Int, getBitWordUpdate t s i bit = false :=
          fun bit => getBitWordUpdate_zero_cell t s i bit h0
        refine ⟨h1, h2, [], ?_, by simp⟩
        simp only [hz, Bool.false_eq_true, if_false, flatMap_nil_const]
        exact Handed.nil t s)
    (List.range s.bSize) (s, w) rfl rfl
  obtain ⟨a1, a2, o1, a3, a4⟩ := hB
  have hN := foldl_emit t s
    (fun sw (i : Nat) =>
      let sw := if getAt sw.1.nFileUpdate i false then
        writeNFile2 t sw.1 sw.2 i (getAt sw.1.nFile i 0) else sw
      let sw := if getAt sw.1.dFileUpdate i false then
        writeDFile2 t sw.1 sw.2 i (getAt sw.1.dFile i 0) else sw
      if getAt sw.1.fFileUpdate i false then
        writeFFile2 t sw.1 sw.2 i (getAt sw.1.fFile i ⟨0, 0, 0, 0⟩) else sw)
    (fun (i : Nat) =>
      (if getAt s.nFileUpdate i false then [frameL s i (getAt s.nFile i 0)] else [])
      ++ (if getAt s.dFileUpdate i false then [frameN s i (getAt s.dFile i 0)] else [])
      ++ (if getAt s.fFileUpdate i false then
            [frameP s i (getAt s.fFile i ⟨0, 0, 0, 0⟩)] else []))
    (by
      intro sw i h1 h2
      obtain ⟨sw3, h3, g1, g2, g3⟩ := pushBackWord_emit t s i sw h1 h2
      subst h3
      exact ⟨g1, g2, g3⟩)
    (List.range s.ndfSize) _ a1 a2
  obtain ⟨b1, b2, o2, b3, b4⟩ := hN
  unfold pushBack pushFrames
  refine ⟨b1, b2, o1 ++ o2, a3.append b3, ?_⟩
  rw [List.flatten_append, ← List.append_assoc, ← a4]
  exact b4

theorem applyRecord_flag (t : Target) (s : State) (u : Bool) (a : State × Bool × Bool)
    (h : applyRecord t s u = .ok a) (hn : bufAt t s 0 ≠ 103) : a.2.2 = u := by
  unfold applyRecord at h
  dsimp only at h
  split_ifs at h <;> (injection h with h; subst h; rfl)

/-- The drain loop returns with `update2Android` set exactly when it has consumed a record
with tag 103. -/
theorem drainLoop_flag (t : Target) :
    ∀ (fuel : Nat) (s : State) (w : World) (r : State × World × Bool),
      drainLoop t fuel s w false = .ok r → r.2.2 = drainSees t 103 fuel s w false := by
  intro fuel
  induction fuel with
  | zero => intro s w r h; simp [drainLoop] at h
  | succ n ih =>
    intro s w r h
    unfold drainLoop at h
    unfold drainSees
    dsimp only at h ⊢
    by_cases hok : (sendBasicCommand t s w 99).1 = true
    · rw [if_pos hok] at h ⊢
      by_cases htag : bufAt t (sendBasicCommand t s w 99).2.1 0 = 103
      · rw [if_pos htag]
        rw [applyRecord_103 t _ false htag] at h
        dsimp only at h
        rw [if_neg (by simp)] at h
        injection h with h
        subst h
        rfl
      · rw [if_neg htag]
        cases ha : applyRecord t (sendBasicCommand t s w 99).2.1 false with
        | error f => rw [ha] at h; simp at h
        | ok a =>
          rw [ha] at h
          dsimp only at h ⊢
          have hu : a.2.2 = false := applyRecord_flag t _ false a ha htag
          by_cases hrd : a.2.1 = true
          · rw [if_pos hrd] at h ⊢
            rw [hu] at h ⊢
            exact ih _ _ r h
          · rw [if_neg hrd] at h ⊢
            injection h with h
            subst h
            exact hu
    · rw [if_neg hok] at h ⊢
      injection h with h
      subst h
      rfl

theorem drainTick_flag (t : Target) (s : State) (w : World) (a : State × World × Bool)
    (h : drainTick t s w = .ok a) : a.2.2 = tickSees t 103 s w := by
  unfold drainTick at h
  unfold tickSees
  dsimp only at h ⊢
  by_cases h1 : (pollTick t s w).1 = true
  · rw [if_pos h1] at h ⊢
    by_cases h2 : bufAt t (pollTick t s w).2.1 0 = 99
    · rw [if_pos h2] at h ⊢
      exact drainLoop_flag t _ _ _ a h
    · rw [if_neg h2] at h ⊢
      split_ifs at h <;> (injection h with h; subst h; rfl)
  · rw [if_neg h1] at h ⊢
    injection h with h
    subst h
    rfl

/-- On a serial line the drain of a tick puts the poll frame and then continue frames on the
wire. -/
theorem drainTick_wire (t : Target) (s : State) (w : World) (hser : serialLink t s)
    (a : State × World × Bool) (ha : drainTick t s w = .ok a) :
    ∃ k : Nat, a.2.1.sent
      = w.sent ++ [64, if s.syncro then 97 else 101, 98]
        ++ (List.replicate k [64, 99, 98]).flatten := by
  have hpoll : (pollTick t s w).2.2.sent = w.sent ++ [64, if s.syncro then 97 else 101, 98] := by
    rw [pollTick_sent, onWire_serial t s w _ hser]
    unfold frameCmd
    split <;> rfl
  have hser1 : serialLink t (pollTick t s w).2.1 :=
    serialLink_of_sync t s _ (pollTick_sync t s w) hser
  have key : serialLink t a.1 ∧ ∃ k : Nat, a.2.1.sent
      = w.sent ++ [64, if s.syncro then 97 else 101, 98]
        ++ (List.replicate k [64, 99, 98]).flatten := by
    unfold drainTick at ha
    dsimp only at ha
    split_ifs at ha
    · refine drainLoop_inv t
        (fun s1 w1 _ => serialLink t s1 ∧ ∃ k : Nat, w1.sent
          = w.sent ++ [64, if s.syncro then 97 else 101, 98]
            ++ (List.replicate k [64, 99, 98]).flatten)
        ?_ ?_ _ _ _ _ a ⟨hser1, 0, by simpa using hpoll⟩ ha
      · rintro s1 w1 _ ⟨hs1, k, hk⟩
        refine ⟨serialLink_of_sync t s1 _ (sendBasicCommand_sync t s1 w1 99) hs1, k + 1, ?_⟩
        rw [sendBasicCommand_sent, onWire_serial t s1 w1 _ hs1, hk, List.replicate_succ']
        simp [frameCmd]
      · rintro s1 w1 u1 a1 ⟨hs1, hk⟩ ha1
        exact ⟨applyRecord_serialLink t s1 u1 a1 ha1 hs1, hk⟩
    · injection ha with ha; subst ha
      exact ⟨hser1, 0, by simpa using hpoll⟩
    · injection ha with ha; subst ha
      exact ⟨hser1, 0, by simpa using hpoll⟩
    · injection ha with ha; subst ha
      exact ⟨hser1, 0, by simpa using hpoll⟩
  exact key.2

theorem pushFrames_congr (t : Target) (s1 s2 : State) (h : s1.store = s2.store) :
    pushFrames t s1 = pushFrames t s2 := by
  have hb : ∀ word bit : Int, getBitWord t s1 word bit = getBitWord t s2 word bit :=
    fun word bit => getBitWord_congr t s1 s2 word bit h
  have hu : ∀ word bit : Int, getBitWordUpdate t s1 word bit = getBitWordUpdate t s2 word bit :=
    fun word bit => getBitWordUpdate_congr t s1 s2 word bit h
  simp only [State.store, Store.mk.injEq] at h
  obtain ⟨h1, h2, -, -, -, h6, -, h8, h9, -, h11, h12, -, h14⟩ := h
  unfold pushFrames
  simp only [h1, h2, h6, h8, h9, h11, h12, h14, hb, hu, frameL_congr s1 s2, frameN_congr s1 s2,
    frameP_congr s1 s2]

theorem Handed_congr (t : Target) (s s1 : State) (fs outs : List (List Nat))
    (h : s1.sync = s.sync) (hh : Handed t s fs outs) : Handed t s1 fs outs := by
  unfold Handed at *
  rw [slotPrefix_of_sync s s1 h]
  exact ⟨hh.1, fun hs => hh.2 (serialLink_of_sync t s1 s h.symm hs)⟩

/-- The end of a tick with `update2Android` set: the frames of the addresses that are dirty
when the tick returns are handed to the transport, in order. -/
theorem finishTick_emit (t : Target) (s : State) (w : World) :
    ∃ outs, Handed t (finishTick t s w true).1 (pushFrames t (finishTick t s w true).1) outs ∧
      (finishTick t s w true).2.sent = w.sent ++ outs.flatten := by
  have key : ∀ s1 : State, ∃ outs,
      Handed t (pushBack t s1 w).1 (pushFrames t (pushBack t s1 w).1) outs ∧
      (pushBack t s1 w).2.sent = w.sent ++ outs.flatten := by
    intro s1
    obtain ⟨h1, h2, outs, h3, h4⟩ := pushBack_emit t s1 w
    refine ⟨outs, ?_, h4⟩
    rw [pushFrames_congr t _ s1 h1]
    exact Handed_congr t s1 _ _ _ h2 h3
  unfold finishTick
  dsimp only
  simp only [if_true]
  exact key _


theorem finishTick_serialLink (t : Target) (s : State) (w : World) (u : Bool)
    (h : serialLink t s) : serialLink t (finishTick t s w u).1 := by
  have hp : ∀ s1 w1, (pushBack t s1 w1).1.connectionType = s1.connectionType :=
    fun s1 w1 => congrArg (fun x => x.2.2.2.1) (pushBack_sync t s1 w1)
  have hc : (finishTick t s w u).1.connectionType = s.connectionType := by
    unfold finishTick
    dsimp only
    split_ifs <;> first | rw [hp] | skip
    all_goals rfl
  unfold serialLink at *
  rw [hc]
  exact h

/-- END-WITH-OVERRIDE hands the frames of the dirty addresses to the transport.  The drain of a tick ends
with `update2Android` set exactly when its batch ends with tag 103.  In that case the rest of
the tick hands to the transport one write frame for each address whose dirty flag is set and
none for any other, in the order of `pushFrames` (Bit file by ascending word and bit, then
for each word index the `L`, `N` and `P` frame), each with the stored value; a serial line
puts every one of them on the wire, the socket puts a frame behind the slot byte or, while
`connect2Server` returns false, drops it.  Otherwise the rest of the tick leaves the world
as the drain left it: no write frame.  On a serial line the drain itself sends the poll
frame and continue frames only. -/
theorem flush_after_end_tick (t : Target) (s : State) (w : World) :
    match drainTick t s w with
    | .ok a =>
      update t s w = .ok (finishTick t a.1 a.2.1 a.2.2) ∧
      a.2.2 = tickSees t 103 s w ∧
      (tickSees t 103 s w = true →
        ∃ outs, Handed t (finishTick t a.1 a.2.1 a.2.2).1
            (pushFrames t (finishTick t a.1 a.2.1 a.2.2).1) outs ∧
          (finishTick t a.1 a.2.1 a.2.2).2.sent = a.2.1.sent ++ outs.flatten) ∧
      (tickSees t 103 s w = false → (finishTick t a.1 a.2.1 a.2.2).2 = a.2.1) ∧
      (serialLink t s →
        (∃ k : Nat, a.2.1.sent = w.sent ++ [64, if s.syncro then 97 else 101, 98]
          ++ (List.replicate k [64, 99, 98]).flatten) ∧
        (tickSees t 103 s w = true → (finishTick t a.1 a.2.1 a.2.2).2.sent
          = a.2.1.sent ++ (pushFrames t (finishTick t a.1 a.2.1 a.2.2).1).flatten))
    | .error f => update t s w = .error f ∧ f ≠ Fault.outOfFuel := by
  cases ha : drainTick t s w with
  | error f =>
    dsimp only
    refine ⟨by unfold update; rw [ha], ?_⟩
    intro hf
    subst hf
    exact drainTick_fuel t s w ha
  | ok a =>
    dsimp only
    have hflag := drainTick_flag t s w a ha
    have hk := drainTick_keeps t s w a ha
    refine ⟨by unfold update; rw [ha], hflag, ?_, ?_, ?_⟩
    · intro h
      rw [hflag, h]
      exact finishTick_emit t a.1 a.2.1
    · intro h
      rw [hflag, h]
      exact finishTick_false_world t a.1 a.2.1
    · intro hser
      refine ⟨drainTick_wire t s w hser a ha, ?_⟩
      intro h
      rw [hflag, h]
      obtain ⟨outs, h1, h2⟩ := finishTick_emit t a.1 a.2.1
      have hsa : serialLink t (finishTick t a.1 a.2.1 true).1 := by
        refine finishTick_serialLink t a.1 a.2.1 true ?_
        unfold serialLink at *
        rw [hk.2.2.2.2.1]
        exact hser
      rw [h2, h1.2 hsa]


/-! ## The resend request and the push-back pass -/

theorem count_of_lt (body : List Nat) (c : Nat) (hc : 64 ≤ c) (hb : ∀ b ∈ body, b < 64) :
    body.count c = 0 := by
  rw [List.count_eq_zero]
  intro h
  have := hb c h
  omega

theorem TextSafe_mk (cmd : Nat) (body : List Nat) (hc1 : cmd ≠ 64) (hc2 : cmd ≠ 98)
    (hb : ∀ b ∈ body, b < 64) : TextSafe (64 :: cmd :: (body ++ [98])) := by
  have h64 := count_of_lt body 64 (by norm_num) hb
  have h98 := count_of_lt body 98 (by norm_num) hb
  refine ⟨rfl, ?_, ?_, ?_, ?_⟩
  · show ((64 :: cmd :: body) ++ [98]).getLast? = some 98
    rw [List.getLast?_append]
    rfl
  · simp [List.count_cons, List.count_append, h64, hc1]
  · simp [List.count_cons, List.count_append, h98, hc2]
  · intro b hb1
    simp only [List.drop_succ_cons, List.drop_zero, List.dropLast_concat] at hb1
    exact hb b hb1

/-- The same on the wire: behind the slot selector of an initialised LAN object (a byte in
`1..6`), or as it is on a serial line. -/
theorem TextSafe_wire (s : State)
    (hslot : s.connectionType = ConnectionType.LAN → 1 ≤ s.myLanSlot ∧ s.myLanSlot ≤ 6)
    (f : List Nat) (hf : TextSafe f) :
    (slotPrefix s ++ f).count 64 = 1 ∧ (slotPrefix s ++ f).count 98 = 1 ∧
    (slotPrefix s ++ f).getLast? = some 98 ∧
    (slotPrefix s ++ f).getD (slotPrefix s).length 0 = 64 ∧
    (slotPrefix s).length = (if s.connectionType = ConnectionType.LAN then 1 else 0) := by
  obtain ⟨h1, h2, h3, h4, -⟩ := hf
  have hne : f ≠ [] := by
    intro h; rw [h] at h1; simp at h1
  obtain ⟨x, xs, rfl⟩ := List.exists_cons_of_ne_nil hne
  have hx : x = 64 := by simpa using h1
  subst hx
  cases hc : s.connectionType with
  | LAN =>
    obtain ⟨g1, g2⟩ := hslot hc
    have hb : byteOfInt s.myLanSlot = s.myLanSlot.toNat := by unfold byteOfInt; omega
    have hlt : s.myLanSlot.toNat < 64 := by omega
    have e : slotPrefix s = [s.myLanSlot.toNat] := by unfold slotPrefix; rw [hc, hb]
    rw [e]
    refine ⟨?_, ?_, ?_, rfl, rfl⟩
    · rw [List.count_append, h3]
      simp [List.count_cons]
      omega
    · rw [List.count_append, h4]
      simp [List.count_cons]
      omega
    · rw [List.getLast?_append, h2]; rfl
  | HARD_SERIAL =>
    have e : slotPrefix s = [] := by unfold slotPrefix; rw [hc]
    rw [e]
    exact ⟨h3, h4, h2, rfl, rfl⟩
  | SOFT_SERIAL =>
    have e : slotPrefix s = [] := by unfold slotPrefix; rw [hc]
    rw [e]
    exact ⟨h3, h4, h2, rfl, rfl⟩

theorem byteOfInt_lt_64 (word : Int) (h0 : 0 ≤ word) (h : word < 64) : byteOfInt word < 64 := by
  unfold byteOfInt; omega

theorem TextSafe_frameCmd (c : Nat) (hc : c = 97 ∨ c = 99 ∨ c = 101) :
    TextSafe (frameCmd c) := by
  have h := TextSafe_mk (c % 256) [] (by omega) (by omega) (by simp)
  exact h

theorem TextSafe_frameC (word bit : Int) (v : Bool) (hw : 0 ≤ word ∧ word < 64)
    (hb : 0 ≤ bit ∧ bit < 16) : TextSafe (frameC word bit v) := by
  refine TextSafe_mk 67 [byteOfInt word, byteOfInt bit, if v then 49 else 48] (by norm_num)
    (by norm_num) ?_
  intro b hb1
  simp only [List.mem_cons, List.mem_singleton, List.not_mem_nil, or_false] at hb1
  rcases hb1 with rfl | rfl | rfl
  · exact byteOfInt_lt_64 word hw.1 hw.2
  · exact byteOfInt_lt_64 bit hb.1 (by omega)
  · cases v <;> simp

theorem TextSafe_frameL (s : State) (word : Int) (v : Nat) (hw : 0 ≤ word ∧ word < 64) :
    TextSafe (frameL s word v) := by
  refine TextSafe_mk 76 [byteOfInt word, (fragmentData16 s v).hd, (fragmentData16 s v).md,
    (fragmentData16 s v).ld] (by norm_num) (by norm_num) ?_
  intro b hb1
  simp only [List.mem_cons, List.mem_singleton, List.not_mem_nil, or_false] at hb1
  rcases hb1 with rfl | rfl | rfl | rfl
  · exact byteOfInt_lt_64 word hw.1 hw.2
  · rw [fragmentData16_hd]; omega
  · rw [fragmentData16_md]; omega
  · rw [fragmentData16_ld]; omega

theorem TextSafe_frameN (s : State) (word : Int) (v : Nat) (hw : 0 ≤ word ∧ word < 64) :
    TextSafe (frameN s word v) := by
  refine TextSafe_mk 78 [byteOfInt word, (fragmentData32 s v).hd32, (fragmentData32 s v).md32,
    (fragmentData32 s v).ld32, (fragmentData32 s v).hd, (fragmentData32 s v).md,
    (fragmentData32 s v).ld] (by norm_num) (by norm_num) ?_
  intro b hb1
  simp only [List.mem_cons, List.mem_singleton, List.not_mem_nil, or_false] at hb1
  rcases hb1 with rfl | rfl | rfl | rfl | rfl | rfl | rfl
  · exact byteOfInt_lt_64 word hw.1 hw.2
  · rw [fragmentData32_hd32]; omega
  · rw [fragmentData32_md32]; omega
  · rw [fragmentData32_ld32]; omega
  · rw [fragmentData32_hd]; omega
  · rw [fragmentData32_md]; omega
  · rw [fragmentData32_ld]; omega

theorem TextSafe_frameP (s : State) (word : Int) (v : floatValue)
    (hw : 0 ≤ word ∧ word < 64) : TextSafe (frameP s word v) := by
  refine TextSafe_mk 80 [byteOfInt word, (fragmentDataFloat s v).hd32,
    (fragmentDataFloat s v).md32, (fragmentDataFloat s v).ld32, (fragmentDataFloat s v).hd,
    (fragmentDataFloat s v).md, (fragmentDataFloat s v).ld] (by norm_num) (by norm_num) ?_
  intro b hb1
  simp only [List.mem_cons, List.mem_singleton, List.not_mem_nil, or_false,
    fragmentDataFloat_eq] at hb1
  rcases hb1 with rfl | rfl | rfl | rfl | rfl | rfl | rfl
  · exact byteOfInt_lt_64 word hw.1 hw.2
  · rw [fragmentData32_hd32]; omega
  · rw [fragmentData32_md32]; omega
  · rw [fragmentData32_ld32]; omega
  · rw [fragmentData32_hd]; omega
  · rw [fragmentData32_md]; omega
  · rw [fragmentData32_ld]; omega

/-- The frames of the push-back pass are frames of in-range addresses. -/
theorem mem_pushFrames (t : Target) (s : State) (f : List Nat) (h : f ∈ pushFrames t s) :
    (∃ (i j : Nat) (v : Bool), i < s.bSize ∧ j < 16 ∧ f = frameC i j v) ∨
    (∃ (i : Nat) (v : Nat), i < s.ndfSize ∧ f = frameL s i v) ∨
    (∃ (i : Nat) (v : Nat), i < s.ndfSize ∧ f = frameN s i v) ∨
    (∃ (i : Nat) (v : floatValue), i < s.ndfSize ∧ f = frameP s i v) := by
  unfold pushFrames at h
  rcases List.mem_append.mp h with h | h
  · obtain ⟨i, hi, h⟩ := List.mem_flatMap.mp h
    obtain ⟨j, hj, h⟩ := List.mem_flatMap.mp h
    left
    split_ifs at h
    · exact ⟨i, j, _, List.mem_range.mp hi, List.mem_range.mp hj, List.mem_singleton.mp h⟩
    · simp at h
  · obtain ⟨i, hi, h⟩ := List.mem_flatMap.mp h
    have hi1 := List.mem_range.mp hi
    right
    rcases List.mem_append.mp h with h | h
    · rcases List.mem_append.mp h with h | h
      · left
        split_ifs at h
        · exact ⟨i, _, hi1, List.mem_singleton.mp h⟩
        · simp at h
      · right; left
        split_ifs at h
        · exact ⟨i, _, hi1, List.mem_singleton.mp h⟩
        · simp at h
    · right; right
      split_ifs at h
      · exact ⟨i, _, hi1, List.mem_singleton.mp h⟩
      · simp at h


/-- C26: frames are text-safe.  With the capacities of the header (at most 64 words per
file; 20/20 or 60/50 in `hmi2.h`) and, on the socket, the slot `1..6` that `init` leaves,
every frame of a poll, of a continue, of a bit / int / dint / float write to an in-range
address and of the push-back pass starts with the only `0x40` and ends with the only `0x62`
of the frame, and every address and payload byte in between (the bytes after the command
byte) is below 64.  What goes on the wire for such a frame is nothing, or the frame behind
the slot selector (one byte on the socket, none on a serial line): there too `0x40` and
`0x62` occur once, `0x62` last and `0x40` right after the selector. -/
theorem frames_text_safe (t : Target) (s : State) (w : World)
    (hcap : s.bSize ≤ 64 ∧ s.ndfSize ≤ 64)
    (hslot : s.connectionType = ConnectionType.LAN → 1 ≤ s.myLanSlot ∧ s.myLanSlot ≤ 6)
    (wb bit wn : Int) (vb : Bool) (vn vd : Nat) (vf : floatValue)
    (hb : (0 ≤ wb ∧ wb < s.bSize) ∧ (0 ≤ bit ∧ bit < 16)) (hn : 0 ≤ wn ∧ wn < s.ndfSize) :
    (∀ f, f ∈ [frameCmd 97, frameCmd 101, frameCmd 99, frameC wb bit vb, frameL s wn vn,
          frameN s wn vd, frameP s wn vf] ++ pushFrames t s →
      TextSafe f ∧
      (slotPrefix s ++ f).count 64 = 1 ∧ (slotPrefix s ++ f).count 98 = 1 ∧
      (slotPrefix s ++ f).getLast? = some 98 ∧
      (slotPrefix s ++ f).getD (slotPrefix s).length 0 = 64 ∧
      (slotPrefix s).length = (if s.connectionType = ConnectionType.LAN then 1 else 0) ∧
      (onWire t s w f = [] ∨ onWire t s w f = slotPrefix s ++ f)) ∧
    (pollTick t s w).2.2.sent
      = w.sent ++ onWire t s w (frameCmd (if s.syncro then 97 else 101)) ∧
    (sendBasicCommand t s w 99).2.2.sent = w.sent ++ onWire t s w (frameCmd 99) ∧
    (writeBFile2 t s w wb bit vb).2.sent = w.sent ++ onWire t s w (frameC wb bit vb) ∧
    (writeNFile2 t s w wn vn).2.sent = w.sent ++ onWire t s w (frameL s wn vn) ∧
    (writeDFile2 t s w wn vd).2.sent = w.sent ++ onWire t s w (frameN s wn vd) ∧
    (writeFFile2 t s w wn vf).2.sent = w.sent ++ onWire t s w (frameP s wn vf) ∧
    (∃ outs, Handed t s (pushFrames t s) outs ∧
      (pushBack t s w).2.sent = w.sent ++ outs.flatten) := by
  have hsafe : ∀ f, f ∈ [frameCmd 97, frameCmd 101, frameCmd 99, frameC wb bit vb,
      frameL s wn vn, frameN s wn vd, frameP s wn vf] ++ pushFrames t s → TextSafe f := by
    intro f hf
    rcases List.mem_append.mp hf with hf | hf
    · simp only [List.mem_cons, List.mem_singleton, List.not_mem_nil, or_false] at hf
      rcases hf with rfl | rfl | rfl | rfl | rfl | rfl | rfl
      · exact TextSafe_frameCmd 97 (by omega)
      · exact TextSafe_frameCmd 101 (by omega)
      · exact TextSafe_frameCmd 99 (by omega)
      · exact TextSafe_frameC wb bit vb ⟨hb.1.1, by omega⟩ hb.2
      · exact TextSafe_frameL s wn vn ⟨hn.1, by omega⟩
      · exact TextSafe_frameN s wn vd ⟨hn.1, by omega⟩
      · exact TextSafe_frameP s wn vf ⟨hn.1, by omega⟩
    · rcases mem_pushFrames t s f hf with ⟨i, j, v, hi, hj, rfl⟩ | ⟨i, v, hi, rfl⟩ |
        ⟨i, v, hi, rfl⟩ | ⟨i, v, hi, rfl⟩
      · exact TextSafe_frameC i j v ⟨by omega, by omega⟩ ⟨by omega, by omega⟩
      · exact TextSafe_frameL s i v ⟨by omega, by omega⟩
      · exact TextSafe_frameN s i v ⟨by omega, by omega⟩
      · exact TextSafe_frameP s i v ⟨by omega, by omega⟩
  refine ⟨?_, pollTick_sent t s w, sendBasicCommand_sent t s w 99,
    writeBFile2_sent t s w wb bit vb, writeNFile2_sent t s w wn vn,
    writeDFile2_sent t s w wn vd, writeFFile2_sent t s w wn vf, ?_⟩
  · intro f hf
    obtain ⟨h1, h2, h3, h4, h5⟩ := TextSafe_wire s hslot f (hsafe f hf)
    refine ⟨hsafe f hf, h1, h2, h3, h4, h5, ?_⟩
    unfold onWire
    split
    · right; rfl
    · left; rfl
  · obtain ⟨-, -, outs, h1, h2⟩ := pushBack_emit t s w
    exact ⟨outs, h1, h2⟩

theorem frames_text_safe_witness :
    TextSafe (frameN lanUp 2 4294967295) ∧
    ([5] ++ frameN lanUp 2 4294967295).count 64 = 1 ∧
    ([5] ++ frameN lanUp 2 4294967295).count 98 = 1 := by
  obtain ⟨h1, h2, h3, _⟩ := (frames_text_safe Target.arm32 lanUp (World.idle []) (by decide)
    (by decide) 1 15 2 true 65535 4294967295 ⟨255, 255, 255, 255⟩ (by decide) (by decide)).1
    (frameN lanUp 2 4294967295) (by simp)
  exact ⟨h1, h2, h3⟩

/-! ## Read after write -/

theorem writeNFile_reads_back (t : Target) (s : State) (hs : s.WF) (w : World) (word : Int)
    (v : Nat) (hr : 0 ≤ word ∧ word < s.ndfSize) :
    (writeNFile t s w word v).1.ndfSize = s.ndfSize ∧
    getAt (writeNFile t s w word v).1.nFile word 0 = v := by
  have hl : word < (s.nFile.length : Int) := by rw [hs.2.2.2.1]; exact hr.2
  by_cases hv : getAt s.nFile word 0 = v
  · cases ho : intOver s word
    · rw [writeNFile_noop t s w word v hv ho]
      exact ⟨rfl, hv⟩
    · have h := (writeNFile_forced t s w word v hr hv ho).1
      refine ⟨congrArg Store.ndfSize h, ?_⟩
      rw [show (writeNFile t s w word v).1.nFile = setAt s.nFile word v from
        congrArg Store.nFile h]
      exact getAt_setAt_same _ _ _ _ hr.1 hl
  · have h := (writeNFile_changed t s w word v hr hv).1
    refine ⟨congrArg Store.ndfSize h, ?_⟩
    rw [show (writeNFile t s w word v).1.nFile = setAt s.nFile word v from
      congrArg Store.nFile h]
    exact getAt_setAt_same _ _ _ _ hr.1 hl

theorem writeDFile_reads_back (t : Target) (s : State) (hs : s.WF) (w : World) (word : Int)
    (v : Nat) (hr : 0 ≤ word ∧ word < s.ndfSize) :
    (writeDFile t s w word v).1.ndfSize = s.ndfSize ∧
    getAt (writeDFile t s w word v).1.dFile word 0 = v := by
  have hl : word < (s.dFile.length : Int) := by rw [hs.2.2.2.2.2.2.1]; exact hr.2
  by_cases hv : getAt s.dFile word 0 = v
  · cases ho : dintOver s word
    · rw [writeDFile_noop t s w word v hv ho]
      exact ⟨rfl, hv⟩
    · have h := (writeDFile_forced t s w word v hr hv ho).1
      refine ⟨congrArg Store.ndfSize h, ?_⟩
      rw [show (writeDFile t s w word v).1.dFile = setAt s.dFile word v from
        congrArg Store.dFile h]
      exact getAt_setAt_same _ _ _ _ hr.1 hl
  · have h := (writeDFile_changed t s w word v hr hv).1
    refine ⟨congrArg Store.ndfSize h, ?_⟩
    rw [show (writeDFile t s w word v).1.dFile = setAt s.dFile word v from
      congrArg Store.dFile h]
    exact getAt_setAt_same _ _ _ _ hr.1 hl

theorem writeBFile_reads_back (t : Target) (ht : t.ok) (s : State) (hs : s.WF) (w : World)
    (word bit : Int) (v : Bool) (hr : (0 ≤ word ∧ word < s.bSize) ∧ (0 ≤ bit ∧ bit < 16)) :
    (writeBFile t s w word bit v).1.bSize = s.bSize ∧
    getBitWord t (writeBFile t s w word bit v).1 word bit = v := by
  have hl : 0 ≤ word ∧ word < (s.bFile.length : Int) := by rw [hs.1]; exact hr.1
  by_cases hv : getBitWord t s word bit = v
  · cases ho : bitOver t s word bit
    · rw [writeBFile_noop t s w word bit v hv ho]
      exact ⟨rfl, hv⟩
    · have h := (writeBFile_forced t s w word bit v hr hv ho).1
      refine ⟨congrArg Store.bSize h, ?_⟩
      rw [getBitWord_of_bFile t _ (setBitWord t (resetBitWordOver t s word bit) word bit v)
        word bit (congrArg Store.bFile h)]
      exact getBitWord_setBitWord t ht _ word bit v hl hr.2
  · have h := (writeBFile_changed t s w word bit v hr hv).1
    refine ⟨congrArg Store.bSize h, ?_⟩
    rw [getBitWord_of_bFile t _ (setBitWord t s word bit v) word bit
      (congrArg Store.bFile h)]
    exact getBitWord_setBitWord t ht _ word bit v hl hr.2

/-- C35: read after write.  For every object whose arrays have the announced capacities,
in every world (whatever the dirty and override flags, whichever transport is selected and
whether or not it delivers the frame), every in-range address and every value `v`:
`getInt(w)` after `setInt(w, v)` returns `v`, `getDInt(w)` after `setDInt(w, v)` returns `v`,
and for a bit in `0..15`, `getBoolean(w, b)` after `setBoolean(w, b, v)` returns `v`. -/
theorem read_after_write (t : Target) (ht : t.ok) (s : State) (hs : s.WF) (w : World) :
    (∀ (word : Int) (v : Nat), 0 ≤ word ∧ word < s.ndfSize →
      (getInt (setInt t s w word v).1 (setInt t s w word v).2 word).1 = v) ∧
    (∀ (word : Int) (v : Nat), 0 ≤ word ∧ word < s.ndfSize →
      (getDInt (setDInt t s w word v).1 (setDInt t s w word v).2 word).1 = v) ∧
    (∀ (word bit : Int) (v : Bool), (0 ≤ word ∧ word < s.bSize) ∧ (0 ≤ bit ∧ bit < 16) →
      (getBoolean t (setBoolean t s w word bit v).1 (setBoolean t s w word bit v).2
        word bit).1 = v) := by
  refine ⟨?_, ?_, ?_⟩
  · intro word v hr
    obtain ⟨h1, h2⟩ := writeNFile_reads_back t s hs w word v hr
    unfold getInt setInt readNFile
    rw [h1, if_pos hr]
    exact h2
  · intro word v hr
    obtain ⟨h1, h2⟩ := writeDFile_reads_back t s hs w word v hr
    unfold getDInt setDInt readDFile
    rw [h1, if_pos hr]
    exact h2
  · intro word bit v hr
    obtain ⟨h1, h2⟩ := writeBFile_reads_back t ht s hs w word bit v hr
    unfold getBoolean setBoolean readBFile
    rw [h1, if_pos hr]
    exact h2

set_option maxRecDepth 100000 in
theorem read_after_write_witness :
    Target.avr.ok ∧ serialOver.WF ∧
    (getInt (setInt Target.avr serialOver (World.idle []) 3 0).1
      (setInt Target.avr serialOver (World.idle []) 3 0).2 3).1 = 0 ∧
    (getDInt (setDInt Target.avr serialOver (World.idle []) 49 4000000000).1
      (setDInt Target.avr serialOver (World.idle []) 49 4000000000).2 49).1 = 4000000000 ∧
    (getBoolean Target.avr (setBoolean Target.avr serialOver (World.idle []) 59 15 true).1
      (setBoolean Target.avr serialOver (World.idle []) 59 15 true).2 59 15).1 = true :=
  ⟨by decide, by decide,
    (read_after_write Target.avr (by decide) serialOver (by decide) (World.idle [])).1 3 0
      (by decide),
    (read_after_write Target.avr (by decide) serialOver (by decide) (World.idle [])).2.1 49
      4000000000 (by decide),
    (read_after_write Target.avr (by decide) serialOver (by decide) (World.idle [])).2.2 59 15
      true (by decide)⟩

/-! ## Sync mode -/

theorem writeBFile_sync (t : Target) (s : State) (w : World) (word bit : Int) (v : Bool) :
    (writeBFile t s w word bit v).1.sync = s.sync := by
  unfold writeBFile getBitWordOver
  dsimp only
  split_ifs <;>
    first
    | rfl
    | exact (writeBFile2_sync t _ w word bit v).trans rfl

theorem writeNFile_sync (t : Target) (s : State) (w : World) (word : Int) (v : Nat) :
    (writeNFile t s w word v).1.sync = s.sync := by
  unfold writeNFile getNWordOver
  dsimp only
  split_ifs <;>
    first
    | rfl
    | exact (writeNFile2_sync t _ w word v).trans rfl

theorem writeDFile_sync (t : Target) (s : State) (w : World) (word : Int) (v : Nat) :
    (writeDFile t s w word v).1.sync = s.sync := by
  unfold writeDFile getDWordOver
  dsimp only
  split_ifs <;>
    first
    | rfl
    | exact (writeDFile2_sync t _ w word v).trans rfl

theorem writeFFile_sync (t : Target) (s : State) (w : World) (word : Int) (v : floatValue) :
    (writeFFile t s w word v).1.sync = s.sync := by
  unfold writeFFile getFWordOver
  dsimp only
  split_ifs <;>
    first
    | rfl
    | exact (writeFFile2_sync t _ w word v).trans rfl

theorem syncro_of_sync (s s' : State) (h : s'.sync = s.sync) : s'.syncro = s.syncro :=
  congrArg Prod.fst h

/-- A record other than END and END-WITH-OVERRIDE keeps the sync mode and the loop. -/
theorem applyRecord_syncro (t : Target) (s : State) (u : Bool) (a : State × Bool × Bool)
    (h : applyRecord t s u = .ok a) (h100 : bufAt t s 0 ≠ 100) (h103 : bufAt t s 0 ≠ 103) :
    a.1.syncro = s.syncro ∧ a.2.1 = true := by
  unfold applyRecord at h
  dsimp only at h
  split_ifs at h <;> (injection h with h; subst h; exact ⟨rfl, rfl⟩)

theorem drainSees_fail (t : Target) (tag : Int) (n : Nat) (s : State) (w : World) (u : Bool)
    (hok : (sendBasicCommand t s w 99).1 = false) : drainSees t tag (n + 1) s w u = false := by
  unfold drainSees
  simp [hok]

theorem drainSees_hit (t : Target) (tag : Int) (n : Nat) (s : State) (w : World) (u : Bool)
    (hok : (sendBasicCommand t s w 99).1 = true)
    (htag : bufAt t (sendBasicCommand t s w 99).2.1 0 = tag) :
    drainSees t tag (n + 1) s w u = true := by
  unfold drainSees
  simp [hok, htag]

theorem drainSees_next (t : Target) (tag : Int) (n : Nat) (s : State) (w : World) (u : Bool)
    (a : State × Bool × Bool) (hok : (sendBasicCommand t s w 99).1 = true)
    (htag : bufAt t (sendBasicCommand t s w 99).2.1 0 ≠ tag)
    (ha : applyRecord t (sendBasicCommand t s w 99).2.1 u = .ok a) :
    drainSees t tag (n + 1) s w u
      = (a.2.1 && drainSees t tag n a.1 (sendBasicCommand t s w 99).2.2 a.2.2) := by
  rw [drainSees]
  simp [hok, htag, ha]

theorem drainLoop_syncro (t : Target) :
    ∀ (fuel : Nat) (s : State) (w : World) (u : Bool) (r : State × World × Bool),
      drainLoop t fuel s w u = .ok r →
      r.1.syncro = (s.syncro && !(drainSees t 100 fuel s w u || drainSees t 103 fuel s w u)) := by
  intro fuel
  induction fuel with
  | zero => intro s w u r h; simp [drainLoop] at h
  | succ n ih =>
    intro s w u r h
    have hsy : (sendBasicCommand t s w 99).2.1.syncro = s.syncro :=
      syncro_of_sync _ _ (sendBasicCommand_sync t s w 99)
    unfold drainLoop at h
    dsimp only at h
    by_cases hok : (sendBasicCommand t s w 99).1 = true
    · rw [if_pos hok] at h
      by_cases h100 : bufAt t (sendBasicCommand t s w 99).2.1 0 = 100
      · rw [drainSees_hit t 100 n s w u hok h100]
        rw [applyRecord_100 t _ u h100] at h
        dsimp only at h
        rw [if_neg (by simp)] at h
        injection h with h
        subst h
        simp
      · by_cases h103 : bufAt t (sendBasicCommand t s w 99).2.1 0 = 103
        · rw [drainSees_hit t 103 n s w u hok h103]
          rw [applyRecord_103 t _ u h103] at h
          dsimp only at h
          rw [if_neg (by simp)] at h
          injection h with h
          subst h
          simp
        · cases ha : applyRecord t (sendBasicCommand t s w 99).2.1 u with
          | error f => rw [ha] at h; simp at h
          | ok a =>
            rw [ha] at h
            dsimp only at h
            obtain ⟨hs1, hrd⟩ := applyRecord_syncro t _ u a ha h100 h103
            rw [if_pos hrd] at h
            rw [drainSees_next t 100 n s w u a hok h100 ha,
              drainSees_next t 103 n s w u a hok h103 ha, hrd, ih _ _ _ r h, hs1, hsy]
            simp
    · rw [if_neg hok] at h
      have hf : (sendBasicCommand t s w 99).1 = false := by simpa using hok
      rw [drainSees_fail t 100 n s w u hf, drainSees_fail t 103 n s w u hf]
      injection h with h
      subst h
      simp [hsy]

theorem drainTick_syncro (t : Target) (s : State) (w : World) (a : State × World × Bool)
    (h : drainTick t s w = .ok a) :
    a.1.syncro
      = (s.syncro && !(pollSees t 100 s w || tickSees t 100 s w || tickSees t 103 s w)) := by
  have hsy : (pollTick t s w).2.1.syncro = s.syncro :=
    syncro_of_sync _ _ (pollTick_sync t s w)
  unfold drainTick at h
  dsimp only at h
  by_cases h1 : (pollTick t s w).1 = true
  · rw [if_pos h1] at h
    by_cases h2 : bufAt t (pollTick t s w).2.1 0 = 99
    · rw [if_pos h2] at h
      rw [drainLoop_syncro t _ _ _ _ a h, hsy]
      simp [tickSees, pollSees, h1, h2]
    · rw [if_neg h2] at h
      by_cases h3 : bufAt t (pollTick t s w).2.1 0 = 100
      · rw [if_pos h3] at h
        injection h with h; subst h
        simp [tickSees, pollSees, h1, h3]
      · rw [if_neg h3] at h
        injection h with h; subst h
        simp [tickSees, pollSees, h1, h2, h3, hsy]
  · rw [if_neg h1] at h
    injection h with h
    subst h
    simp [tickSees, pollSees, h1, hsy]

theorem update_syncro (t : Target) (s : State) (w : World) (r : State × World)
    (h : update t s w = .ok r) :
    r.1.syncro
      = (s.syncro && !(pollSees t 100 s w || tickSees t 100 s w || tickSees t 103 s w)) := by
  obtain ⟨a, ha, hr⟩ := update_ok t s w r h
  rw [hr, finishTick_syncro]
  exact drainTick_syncro t s w a ha

theorem Call.run_syncro (t : Target) (c : Call) (sw sw1 : State × World)
    (h : c.run t sw = .ok sw1) (hs : sw.1.syncro = false) : sw1.1.syncro = false := by
  have hpure := reads_keep_world t sw.1 sw.2
  cases c with
  | update =>
    rw [update_syncro t sw.1 sw.2 sw1 h, hs]
    rfl
  | getBoolean word bit =>
    injection h with h; subst h
    unfold Hmi2.getBoolean
    rw [(hpure word bit 0).1]; exact hs
  | getBFileBit word bit =>
    injection h with h; subst h
    unfold Hmi2.getBFileBit
    rw [(hpure word bit 0).1]; exact hs
  | getInt word =>
    injection h with h; subst h
    unfold Hmi2.getInt
    rw [(hpure 0 0 word).2.1]; exact hs
  | getNFile word =>
    injection h with h; subst h
    unfold Hmi2.getNFile
    rw [(hpure 0 0 word).2.1]; exact hs
  | getDouble word =>
    injection h with h; subst h
    unfold Hmi2.getDouble
    rw [(hpure 0 0 word).2.2.1]; exact hs
  | getDInt word =>
    injection h with h; subst h
    unfold Hmi2.getDInt
    rw [(hpure 0 0 word).2.2.1]; exact hs
  | getFloat word =>
    injection h with h; subst h
    unfold Hmi2.getFloat
    rw [(hpure 0 0 word).2.2.2]; exact hs
  | getFFile word =>
    injection h with h; subst h
    unfold Hmi2.getFFile
    rw [(hpure 0 0 word).2.2.2]; exact hs
  | setBoolean word bit value =>
    injection h with h; subst h
    exact (syncro_of_sync _ _ (writeBFile_sync t _ _ word bit value)).trans hs
  | setBFileBit word bit value =>
    injection h with h; subst h
    exact (syncro_of_sync _ _ (writeBFile_sync t _ _ word bit value)).trans hs
  | setInt word value =>
    injection h with h; subst h
    exact (syncro_of_sync _ _ (writeNFile_sync t _ _ word value)).trans hs
  | setNFile word value =>
    injection h with h; subst h
    exact (syncro_of_sync _ _ (writeNFile_sync t _ _ word value)).trans hs
  | setDouble word value =>
    injection h with h; subst h
    exact (syncro_of_sync _ _ (writeDFile_sync t _ _ word value)).trans hs
  | setDInt word value =>
    injection h with h; subst h
    exact (syncro_of_sync _ _ (writeDFile_sync t _ _ word value)).trans hs
  | setFloat word value =>
    injection h with h; subst h
    exact (syncro_of_sync _ _ (writeFFile_sync t _ _ word value)).trans hs
  | setFFile word value =>
    injection h with h; subst h
    exact (syncro_of_sync _ _ (writeFFile_sync t _ _ word value)).trans hs

theorem runCalls_syncro (t : Target) (cs : List Call) :
    ∀ (sw sw1 : State × World), runCalls t cs sw = .ok sw1 → sw.1.syncro = false →
      sw1.1.syncro = false := by
  induction cs with
  | nil =>
    intro sw sw1 h hs
    unfold runCalls at h
    injection h with h; subst h; exact hs
  | cons c cs ih =>
    intro sw sw1 h hs
    unfold runCalls at h
    cases hc : c.run t sw with
    | error f => rw [hc] at h; simp at h
    | ok sw0 =>
      rw [hc] at h
      exact ih sw0 sw1 h (Call.run_syncro t c sw sw0 hc hs)

theorem runCalls_fuel (t : Target) (cs : List Call) :
    ∀ sw : State × World, runCalls t cs sw ≠ .error Fault.outOfFuel := by
  induction cs with
  | nil => intro sw h; simp [runCalls] at h
  | cons c cs ih =>
    intro sw h
    unfold runCalls at h
    cases hc : c.run t sw with
    | error f =>
      rw [hc] at h
      injection h with h
      subst h
      exact Call.run_fuel t c sw hc
    | ok sw0 =>
      rw [hc] at h
      exact ih sw0 h

/-- Sync mode is left only once, along the runs that return.  Each overload of `init` leaves `syncro` true.  A
call of `update()` never runs out of fuel, and when it returns `syncro` is false exactly
when it was false before, or the poll succeeded with a response starting with `d` (100), or
the drained batch contained a record tagged 100 or 103.  A tick polls with `a` while
`syncro` is true and with `e` once it is false; no getter, setter or `update()` sets
`syncro` from false back to true: after any sequence of calls on an object whose `syncro`
is false, `syncro` is still false and the poll of the next tick is the exchange of command
`e` (101). -/
theorem sync_mode_calls (t : Target) (s : State) (w : World) :
    (initHard s).syncro = true ∧ (initSoft s).syncro = true ∧
    (∀ bank : Int, (initLAN s w bank).1.syncro = true) ∧
    (match update t s w with
      | .ok r =>
        r.1.syncro
          = (s.syncro && !(pollSees t 100 s w || tickSees t 100 s w || tickSees t 103 s w))
      | .error f => f ≠ Fault.outOfFuel) ∧
    (s.syncro = true → pollTick t s w = sendBasicCommand t s w 97) ∧
    (s.syncro = false → pollTick t s w = sendBasicCommand t s w 101 ∧
      ∀ cs : List Call,
        match runCalls t cs (s, w) with
        | .ok sw1 =>
          sw1.1.syncro = false ∧ pollTick t sw1.1 sw1.2 = sendBasicCommand t sw1.1 sw1.2 101
        | .error f => f ≠ Fault.outOfFuel) := by
  refine ⟨rfl, rfl, fun _ => rfl, ?_, ?_, ?_⟩
  · cases hu : update t s w with
    | error f =>
      dsimp only
      intro hf
      subst hf
      exact update_fuel t s w hu
    | ok r => exact update_syncro t s w r hu
  · intro h
    unfold pollTick
    rw [if_pos h]
  · intro h
    refine ⟨?_, ?_⟩
    · unfold pollTick
      rw [if_neg (by simp [h])]
    · intro cs
      cases hr : runCalls t cs (s, w) with
      | error f =>
        dsimp only
        intro hf
        subst hf
        exact runCalls_fuel t cs (s, w) hr
      | ok sw1 =>
        have h1 := runCalls_syncro t cs (s, w) sw1 hr h
        refine ⟨h1, ?_⟩
        unfold pollTick
        rw [if_neg (by simp [h1])]

/-! ## The drain loop and the response script -/

/-- A DINT record whose word byte is a valid index value in range. -/
theorem applyRecord_dint (t : Target) (s : State) (u : Bool) (wd b6 b5 b4 b3 b2 b1 : Nat)
    (junk : List Nat) (hbuf : s.bufferSerial = [77, wd, b6, b5, b4, b3, b2, b1] ++ junk)
    (hwd : wd < 256) (h0 : 0 ≤ charToInt t wd) (hlt : wd < s.ndfSize) :
    applyRecord t s u
      = .ok ({ s with dFile := setAt s.dFile wd (joinInt32 t b6 b5 b4 b3 b2 b1) }, true, u) := by
  have e0 : bufAt t s 0 = 77 := by
    unfold bufAt; rw [hbuf]; exact charToInt_of_lt t 77 (by norm_num)
  have e1 : bufAt t s 1 = (wd : Int) := by
    unfold bufAt; rw [hbuf]; exact charToInt_of_nonneg t wd hwd h0
  have g2 : s.bufferSerial.getD 2 0 = b6 := by rw [hbuf]; rfl
  have g3 : s.bufferSerial.getD 3 0 = b5 := by rw [hbuf]; rfl
  have g4 : s.bufferSerial.getD 4 0 = b4 := by rw [hbuf]; rfl
  have g5 : s.bufferSerial.getD 5 0 = b3 := by rw [hbuf]; rfl
  have g6 : s.bufferSerial.getD 6 0 = b2 := by rw [hbuf]; rfl
  have g7 : s.bufferSerial.getD 7 0 = b1 := by rw [hbuf]; rfl
  have h1 : (wd : Int) < (s.ndfSize : Int) := by exact_mod_cast hlt
  have h2 : ¬ ((wd : Int) < 0) := by omega
  unfold applyRecord
  simp only [e0, e1, g2, g3, g4, g5, g6, g7]
  simp [h1, h2]

/-- With `update2Android` false the rest of the tick leaves the four value arrays alone. -/
theorem finishTick_false_values (t : Target) (s : State) (w : World) :
    (finishTick t s w false).1.bFile = s.bFile ∧ (finishTick t s w false).1.nFile = s.nFile ∧
    (finishTick t s w false).1.dFile = s.dFile ∧ (finishTick t s w false).1.fFile = s.fFile ∧
    (finishTick t s w false).1.syncro = s.syncro := by
  unfold finishTick
  cases hd : s.overDisplay <;> cases ho : s.overrideSend <;> simp [hd, ho]

/-- A tick on a serial line whose batch is one record followed by END: the panel answers
the poll with `c`, the first continue frame with the record `rec` and the second with END.
The tick returns with the values the record leaves. -/
theorem tick_one_record (t : Target) (s : State) (hs : s.WF) (w : World)
    (hser : serialLink t s)
    (p rec t1 t2 : List Nat) (rest : List (List Nat))
    (hrx : w.rx = (99 :: p) :: (rec ++ 98 :: t1) :: ([100] ++ 98 :: t2) :: rest)
    (hrec : ∀ c ∈ rec, c < 256 ∧ c ≠ 98) (hne : rec ≠ []) (hlen : rec.length ≤ 128)
    (f : State → State)
    (hf : ∀ x : State, (f x).sync = x.sync ∧ (f x).bufferSerial = x.bufferSerial)
    (happ : ∀ (x : State) (junk : List Nat), x.store = s.store →
      x.bufferSerial = rec ++ junk → applyRecord t x false = .ok (f x, true, false)) :
    ∃ (s1 : State) (r : State × World), s1.store = s.store ∧ update t s w = .ok r ∧
      r.1.bFile = (f s1).bFile ∧ r.1.nFile = (f s1).nFile ∧ r.1.dFile = (f s1).dFile ∧
      r.1.fFile = (f s1).fFile ∧ r.1.syncro = false := by
  have hbuf : s.bufferSerial.length = 128 := hs.2.2.2.2.2.2.2.2.2.2.2.2
  obtain ⟨s0, w0, hst0, hsy0, hb0, hrx0, hd0⟩ := poll_starts_batch t s w p _ hser hbuf hrx
  simp only [List.length_cons] at hd0
  have hser0 := serialLink_of_sync t s s0 hsy0 hser
  obtain ⟨s1, w1, hst1, hsy1, hb1, hrx1, hd1⟩ := drain_step t (rest.length + 1 + 1) s0 w0 false
    rec t1 _ hser0 hb0 hrx0 hrec hne hlen f true false
    (fun x hx hbx => happ x _ (hx.trans hst0) hbx)
  simp only [if_true] at hd1
  have hsy1s : (f s1).sync = s.sync := (hf s1).1.trans (hsy1.trans hsy0)
  have hser1 : serialLink t (f s1) := serialLink_of_sync t s _ hsy1s hser
  have hb1f : (f s1).bufferSerial.length = 128 := by rw [(hf s1).2]; exact hb1
  obtain ⟨s2, w2, hst2, hsy2, hb2, hrx2, hd2⟩ := drain_step t (rest.length + 1)
    (f s1) w1 false [100] t2 _ hser1 hb1f hrx1 (by simp) (by simp) (by simp)
    (fun x => { x with syncro := false }) false false
    (fun x _ hbx => applyRecord_100 t x false
      (by unfold bufAt; rw [hbx]; exact charToInt_of_lt t 100 (by norm_num)))
  simp only [Bool.false_eq_true, if_false] at hd2
  have hupd : update t s w = .ok (finishTick t { s2 with syncro := false } w2 false) := by
    unfold update
    rw [hd0, hd1, hd2]
  obtain ⟨g1, g2, g3, g4, g5⟩ := finishTick_false_values t { s2 with syncro := false } w2
  exact ⟨s1, _, hst1.trans hst0, hupd, g1.trans (congrArg Store.bFile hst2),
    g2.trans (congrArg Store.nFile hst2), g3.trans (congrArg Store.dFile hst2),
    g4.trans (congrArg Store.fFile hst2), g5⟩

theorem joinInt16_fragmentData16 (t : Target) (s : State) (v : Nat) (hv : v < 65536) :
    joinInt16 t (fragmentData16 s v).hd (fragmentData16 s v).md (fragmentData16 s v).ld = v := by
  rw [fragmentData16_hd, fragmentData16_md, fragmentData16_ld]
  rw [joinInt16_sextets t _ _ _ (by omega) (by omega) (by omega)]
  omega

theorem joinFloat_fragmentDataFloat (t : Target) (s : State) (f : floatValue)
    (h0 : f.bytes0 < 256) (h1 : f.bytes1 < 256) (h2 : f.bytes2 < 256) (h3 : f.bytes3 < 256) :
    joinFloat (joinInt32 t (fragmentDataFloat s f).hd32 (fragmentDataFloat s f).md32
      (fragmentDataFloat s f).ld32 (fragmentDataFloat s f).hd (fragmentDataFloat s f).md
      (fragmentDataFloat s f).ld) = f := by
  have hb : floatBits f < 4294967296 := by unfold floatBits; omega
  rw [fragmentDataFloat_eq, joinInt32_fragmentData32 t s _ hb, joinFloat_bytes]
  cases f with
  | mk b0 b1 b2 b3 =>
    simp only [floatBits] at *
    congr 1 <;> omega

/-- The six payload bytes of an `N` or `P` frame are byte values other than the terminator. -/
theorem fragmentData32_bytes (s : State) (v : Nat) :
    ∀ c ∈ [(fragmentData32 s v).hd32, (fragmentData32 s v).md32, (fragmentData32 s v).ld32,
      (fragmentData32 s v).hd, (fragmentData32 s v).md, (fragmentData32 s v).ld],
      c < 256 ∧ c ≠ 98 := by
  intro c hc
  rw [fragmentData32_hd32, fragmentData32_md32, fragmentData32_ld32, fragmentData32_hd,
    fragmentData32_md, fragmentData32_ld] at hc
  simp only [List.mem_cons, List.mem_singleton, List.not_mem_nil, or_false] at hc
  rcases hc with rfl | rfl | rfl | rfl | rfl | rfl <;> omega

/-- C31: outbound and inbound payloads use the same layout.  Let the capacity be at most 98
words (the header has 20 and 50), so that a word index is a byte other than the terminator,
and let `w < ndfSize`.  Decoding: whenever the receive buffer starts with the tag and the
address and payload bytes of a write frame, the switch of the drain loop stores the value of
the frame and keeps the loop: the `L` frame of a 16-bit `v` behind tag 75 gives
`nFile[w] = v`, the `N` frame of a 32-bit `v` behind tag 77 gives `dFile[w] = v`, and the `P`
frame of a float behind tag 79 gives the same four bytes in `fFile[w]`; nothing else of the
object changes.  Whole tick: on a serial line, when the panel answers the poll with `c`, the
next `c` exchange with such a record and the one after with END, `update()` returns and has
stored that value. -/
theorem payload_layout_shared (t : Target) (s : State) (hcap : s.ndfSize ≤ 98) (word : Nat)
    (hword : word < s.ndfSize) :
    (∀ (v : Nat) (junk : List Nat) (u : Bool), v < 65536 →
      s.bufferSerial = 75 :: ((frameL s word v).drop 2).dropLast ++ junk →
      applyRecord t s u = .ok ({ s with nFile := setAt s.nFile word v }, true, u)) ∧
    (∀ (v : Nat) (junk : List Nat) (u : Bool), v < 4294967296 →
      s.bufferSerial = 77 :: ((frameN s word v).drop 2).dropLast ++ junk →
      applyRecord t s u = .ok ({ s with dFile := setAt s.dFile word v }, true, u)) ∧
    (∀ (v : floatValue) (junk : List Nat) (u : Bool),
      v.bytes0 < 256 → v.bytes1 < 256 → v.bytes2 < 256 → v.bytes3 < 256 →
      s.bufferSerial = 79 :: ((frameP s word v).drop 2).dropLast ++ junk →
      applyRecord t s u = .ok ({ s with fFile := setAt s.fFile word v }, true, u)) ∧
    (s.WF → serialLink t s → ∀ (p t1 t2 : List Nat) (rest : List (List Nat)) (w : World),
      (∀ v : Nat, v < 65536 →
        w.rx = (99 :: p) :: ((75 :: ((frameL s word v).drop 2).dropLast) ++ 98 :: t1)
          :: ([100] ++ 98 :: t2) :: rest →
        ∃ r, update t s w = .ok r ∧ r.1.nFile = setAt s.nFile word v ∧
          getAt r.1.nFile word 0 = v) ∧
      (∀ v : Nat, v < 4294967296 →
        w.rx = (99 :: p) :: ((77 :: ((frameN s word v).drop 2).dropLast) ++ 98 :: t1)
          :: ([100] ++ 98 :: t2) :: rest →
        ∃ r, update t s w = .ok r ∧ r.1.dFile = setAt s.dFile word v ∧
          getAt r.1.dFile word 0 = v) ∧
      (∀ v : floatValue, v.bytes0 < 256 → v.bytes1 < 256 → v.bytes2 < 256 → v.bytes3 < 256 →
        w.rx = (99 :: p) :: ((79 :: ((frameP s word v).drop 2).dropLast) ++ 98 :: t1)
          :: ([100] ++ 98 :: t2) :: rest →
        ∃ r, update t s w = .ok r ∧ r.1.fFile = setAt s.fFile word v ∧
          getAt r.1.fFile word ⟨0, 0, 0, 0⟩ = v)) := by
  have hw256 : word < 256 := by omega
  have hbyte : byteOfInt (word : Int) = word := byteOfInt_natCast word hw256
  have hchar : 0 ≤ charToInt t word := by
    rw [charToInt_of_lt t word (by omega)]; omega
  have hw0 : (0 : Int) ≤ (word : Int) := by omega
  have hL : ∀ v : Nat, 75 :: ((frameL s word v).drop 2).dropLast
      = [75, word, (fragmentData16 s v).hd, (fragmentData16 s v).md,
          (fragmentData16 s v).ld] := by
    intro v
    unfold frameL
    rw [hbyte]
    rfl
  have hN : ∀ v : Nat, 77 :: ((frameN s word v).drop 2).dropLast
      = [77, word, (fragmentData32 s v).hd32, (fragmentData32 s v).md32,
          (fragmentData32 s v).ld32, (fragmentData32 s v).hd, (fragmentData32 s v).md,
          (fragmentData32 s v).ld] := by
    intro v
    unfold frameN
    rw [hbyte]
    rfl
  have hP : ∀ v : floatValue, 79 :: ((frameP s word v).drop 2).dropLast
      = [79, word, (fragmentData32 s (floatBits v)).hd32,
          (fragmentData32 s (floatBits v)).md32, (fragmentData32 s (floatBits v)).ld32,
          (fragmentData32 s (floatBits v)).hd, (fragmentData32 s (floatBits v)).md,
          (fragmentData32 s (floatBits v)).ld] := by
    intro v
    unfold frameP
    rw [hbyte, fragmentDataFloat_eq]
    rfl
  have hfloat : ∀ v : floatValue,
      v.bytes0 < 256 → v.bytes1 < 256 → v.bytes2 < 256 → v.bytes3 < 256 →
      joinFloat (joinInt32 t (fragmentData32 s (floatBits v)).hd32
        (fragmentData32 s (floatBits v)).md32 (fragmentData32 s (floatBits v)).ld32
        (fragmentData32 s (floatBits v)).hd (fragmentData32 s (floatBits v)).md
        (fragmentData32 s (floatBits v)).ld) = v := by
    intro v h0 h1 h2 h3
    have hval := joinFloat_fragmentDataFloat t s v h0 h1 h2 h3
    rw [fragmentDataFloat_eq] at hval
    exact hval
  refine ⟨?_, ?_, ?_, ?_⟩
  · intro v junk u hv hbuf
    rw [hL] at hbuf
    rw [applyRecord_int t s u word _ _ _ junk hbuf hw256 hchar hword,
      joinInt16_fragmentData16 t s v hv]
  · intro v junk u hv hbuf
    rw [hN] at hbuf
    rw [applyRecord_dint t s u word _ _ _ _ _ _ junk hbuf hw256 hchar hword,
      joinInt32_fragmentData32 t s v hv]
  · intro v junk u h0 h1 h2 h3 hbuf
    rw [hP] at hbuf
    rw [applyRecord_real t s u word _ _ _ _ _ _ junk hbuf hw256 hchar, if_pos hword,
      hfloat v h0 h1 h2 h3]
  · intro hs hser p t1 t2 rest w
    refine ⟨?_, ?_, ?_⟩
    · intro v hv hrx
      rw [hL] at hrx
      have hrec : ∀ c ∈ [75, word, (fragmentData16 s v).hd, (fragmentData16 s v).md,
          (fragmentData16 s v).ld], c < 256 ∧ c ≠ 98 := by
        intro c hc
        rw [fragmentData16_hd, fragmentData16_md, fragmentData16_ld] at hc
        simp only [List.mem_cons, List.mem_singleton, List.not_mem_nil, or_false] at hc
        rcases hc with rfl | rfl | rfl | rfl | rfl <;> omega
      obtain ⟨s1, r, hs1, hupd, -, hst, -, -, -⟩ := tick_one_record t s hs w hser p _ t1 t2
        rest hrx hrec (by simp) (by simp)
        (fun x =>
          { x with
            nFile := setAt x.nFile word
              (joinInt16 t (fragmentData16 s v).hd (fragmentData16 s v).md
                (fragmentData16 s v).ld) })
        (fun x => ⟨rfl, rfl⟩)
        (fun x junk hx hbx => applyRecord_int t x false word _ _ _ junk hbx hw256 hchar
          (by rw [show x.ndfSize = s.ndfSize from congrArg Store.ndfSize hx]; exact hword))
      have hn : r.1.nFile = setAt s.nFile word v := by
        have h2 : s1.nFile = s.nFile := congrArg Store.nFile hs1
        rw [hst]
        dsimp only
        rw [h2, joinInt16_fragmentData16 t s v hv]
      refine ⟨r, hupd, hn, ?_⟩
      rw [hn]
      exact getAt_setAt_same _ _ _ _ hw0 (by rw [hs.2.2.2.1]; exact_mod_cast hword)
    · intro v hv hrx
      rw [hN] at hrx
      have hrec : ∀ c ∈ [77, word, (fragmentData32 s v).hd32, (fragmentData32 s v).md32,
          (fragmentData32 s v).ld32, (fragmentData32 s v).hd, (fragmentData32 s v).md,
          (fragmentData32 s v).ld], c < 256 ∧ c ≠ 98 := by
        intro c hc
        rw [List.mem_cons, List.mem_cons] at hc
        rcases hc with rfl | rfl | hc
        · omega
        · omega
        · exact fragmentData32_bytes s v c hc
      obtain ⟨s1, r, hs1, hupd, -, -, hst, -, -⟩ := tick_one_record t s hs w hser p _ t1 t2
        rest hrx hrec (by simp) (by simp)
        (fun x =>
          { x with
            dFile := setAt x.dFile word
              (joinInt32 t (fragmentData32 s v).hd32 (fragmentData32 s v).md32
                (fragmentData32 s v).ld32 (fragmentData32 s v).hd (fragmentData32 s v).md
                (fragmentData32 s v).ld) })
        (fun x => ⟨rfl, rfl⟩)
        (fun x junk hx hbx => applyRecord_dint t x false word _ _ _ _ _ _ junk hbx hw256 hchar
          (by rw [show x.ndfSize = s.ndfSize from congrArg Store.ndfSize hx]; exact hword))
      have hn : r.1.dFile = setAt s.dFile word v := by
        have h2 : s1.dFile = s.dFile := congrArg Store.dFile hs1
        rw [hst]
        dsimp only
        rw [h2, joinInt32_fragmentData32 t s v hv]
      refine ⟨r, hupd, hn, ?_⟩
      rw [hn]
      exact getAt_setAt_same _ _ _ _ hw0 (by rw [hs.2.2.2.2.2.2.1]; exact_mod_cast hword)
    · intro v h0 h1 h2 h3 hrx
      rw [hP] at hrx
      have hrec : ∀ c ∈ [79, word, (fragmentData32 s (floatBits v)).hd32,
          (fragmentData32 s (floatBits v)).md32, (fragmentData32 s (floatBits v)).ld32,
          (fragmentData32 s (floatBits v)).hd, (fragmentData32 s (floatBits v)).md,
          (fragmentData32 s (floatBits v)).ld], c < 256 ∧ c ≠ 98 := by
        intro c hc
        rw [List.mem_cons, List.mem_cons] at hc
        rcases hc with rfl | rfl | hc
        · omega
        · omega
        · exact fragmentData32_bytes s (floatBits v) c hc
      obtain ⟨s1, r, hs1, hupd, -, -, -, hst, -⟩ := tick_one_record t s hs w hser p _ t1 t2
        rest hrx hrec (by simp) (by simp)
        (fun x =>
          { x with
            fFile := if word < x.ndfSize then
                setAt x.fFile word
                  (joinFloat (joinInt32 t (fragmentData32 s (floatBits v)).hd32
                    (fragmentData32 s (floatBits v)).md32 (fragmentData32 s (floatBits v)).ld32
                    (fragmentData32 s (floatBits v)).hd (fragmentData32 s (floatBits v)).md
                    (fragmentData32 s (floatBits v)).ld))
              else x.fFile })
        (fun x => ⟨rfl, rfl⟩)
        (fun x junk hx hbx => applyRecord_real t x false word _ _ _ _ _ _ junk hbx hw256 hchar)
      have hn : r.1.fFile = setAt s.fFile word v := by
        have e2 : s1.fFile = s.fFile := congrArg Store.fFile hs1
        have e3 : s1.ndfSize = s.ndfSize := congrArg Store.ndfSize hs1
        rw [hst]
        dsimp only
        rw [e2, e3, if_pos hword, hfloat v h0 h1 h2 h3]
      refine ⟨r, hupd, hn, ?_⟩
      rw [hn]
      exact getAt_setAt_same _ _ _ _ hw0
        (by rw [hs.2.2.2.2.2.2.2.2.2.1]; exact_mod_cast hword)

set_option maxRecDepth 100000 in
theorem payload_layout_shared_witness :
    serialOver.WF ∧ serialLink Target.avr serialOver ∧
    (∃ r, update Target.avr serialOver
        (World.idle [[99, 98],
          75 :: ((frameL serialOver 49 54321).drop 2).dropLast ++ [98], [100, 98]]) = .ok r ∧
      r.1.nFile = setAt serialOver.nFile 49 54321 ∧ getAt r.1.nFile 49 0 = 54321) ∧
    (∃ r, update Target.avr serialSmall
        (World.idle [[99, 98],
          77 :: ((frameN serialSmall 1 4000000000).drop 2).dropLast ++ [98], [100, 98]])
        = .ok r ∧
      r.1.dFile = setAt serialSmall.dFile 1 4000000000 ∧ getAt r.1.dFile 1 0 = 4000000000) ∧
    (∃ r, update Target.avr serialSmall
        (World.idle [[99, 98],
          79 :: ((frameP serialSmall 0 ⟨0, 0, 128, 63⟩).drop 2).dropLast ++ [98], [100, 98]])
        = .ok r ∧
      r.1.fFile = setAt serialSmall.fFile 0 ⟨0, 0, 128, 63⟩ ∧
      getAt r.1.fFile 0 ⟨0, 0, 0, 0⟩ = ⟨0, 0, 128, 63⟩) :=
  ⟨by decide, by decide,
    ((payload_layout_shared Target.avr serialOver (by decide) 49 (by decide)).2.2.2
      (by decide) (by decide) [98] [] [] [] _).1 54321 (by decide) rfl,
    ((payload_layout_shared Target.avr serialSmall (by decide) 1 (by decide)).2.2.2
      (by decide) (by decide) [98] [] [] [] _).2.1 4000000000 (by decide) rfl,
    ((payload_layout_shared Target.avr serialSmall (by decide) 0 (by decide)).2.2.2
      (by decide) (by decide) [98] [] [] [] _).2.2 ⟨0, 0, 128, 63⟩ (by decide) (by decide)
      (by decide) (by decide) rfl⟩

/-! ## Bytes left in the receive buffer -/

/-- A one-byte read leaves every later cell of the buffer as it was. -/
theorem getD_after_one (l : List Nat) (c i : Nat) :
    ([c] ++ l.drop 1).getD (i + 1) 0 = l.getD (i + 1) 0 := by
  cases l with
  | nil => simp
  | cons a l1 => simp

/-- C32 fails in the code: a record is decoded from the receive buffer, not from its own
bytes.  On a serial line, when the response to a `c` frame is the single byte 75 (an INT
record cut short) followed by the terminator, the loop iteration stores into `nFile`, at the
word named by byte 1 of the buffer as the response before left it, the value that
`joinInt16` builds from bytes 2, 3 and 4 of that earlier response, and goes on with the
next iteration. -/
theorem short_record_reads_stale (t : Target) (s : State) (hs : s.WF) (w : World)
    (hser : serialLink t s) (tl : List Nat) (rest : List (List Nat))
    (hrx : w.rx = ([75] ++ 98 :: tl) :: rest)
    (hw : 0 ≤ bufAt t s 1 ∧ bufAt t s 1 < s.ndfSize) (fuel : Nat) (u : Bool) :
    ∃ (s1 : State) (w1 : World), s1.store = s.store ∧ w1.rx = rest ∧
      drainLoop t (fuel + 1) s w u
        = drainLoop t fuel
            { s1 with
              nFile := setAt s.nFile (bufAt t s 1)
                (joinInt16 t (s.bufferSerial.getD 2 0) (s.bufferSerial.getD 3 0)
                  (s.bufferSerial.getD 4 0)) } w1 u := by
  have hbuf : s.bufferSerial.length = 128 := hs.2.2.2.2.2.2.2.2.2.2.2.2
  obtain ⟨s1, w1, hst1, -, -, hrx1, hd1⟩ := drain_step t fuel s w u [75] tl rest hser hbuf hrx
    (by simp) (by simp) (by simp)
    (fun x =>
      { x with
        nFile := setAt x.nFile (bufAt t s 1)
          (joinInt16 t (s.bufferSerial.getD 2 0) (s.bufferSerial.getD 3 0)
            (s.bufferSerial.getD 4 0)) }) true u
    (fun x hx hbx => by
      have hb : x.bufferSerial = [75] ++ s.bufferSerial.drop 1 := hbx
      have e0 : bufAt t x 0 = 75 := by
        unfold bufAt; rw [hb]; exact charToInt_of_lt t 75 (by norm_num)
      have e1 : bufAt t x 1 = bufAt t s 1 := by
        unfold bufAt; rw [hb, getD_after_one]
      have g2 : x.bufferSerial.getD 2 0 = s.bufferSerial.getD 2 0 := by
        rw [hb, getD_after_one]
      have g3 : x.bufferSerial.getD 3 0 = s.bufferSerial.getD 3 0 := by
        rw [hb, getD_after_one]
      have g4 : x.bufferSerial.getD 4 0 = s.bufferSerial.getD 4 0 := by
        rw [hb, getD_after_one]
      have hn : x.ndfSize = s.ndfSize := congrArg Store.ndfSize hx
      rw [applyRecord_75 t x u e0 (by rw [e1, hn]; exact hw), e1, g2, g3, g4])
  rw [if_pos rfl] at hd1
  have hn : s1.nFile = s.nFile := congrArg Store.nFile hst1
  rw [hn] at hd1
  exact ⟨s1, w1, hst1, hrx1, hd1⟩

set_option maxRecDepth 100000 in
theorem short_record_reads_stale_witness :
    staleBuffer.WF ∧ serialLink Target.avr staleBuffer ∧
    (0 ≤ bufAt Target.avr staleBuffer 1 ∧ bufAt Target.avr staleBuffer 1 < staleBuffer.ndfSize) ∧
    ∃ (s1 : State) (w1 : World), s1.store = staleBuffer.store ∧ w1.rx = [[100, 98]] ∧
      drainLoop Target.avr 2 staleBuffer (World.idle [[75, 98], [100, 98]]) false
        = drainLoop Target.avr 1
            { s1 with
              nFile := setAt staleBuffer.nFile (bufAt Target.avr staleBuffer 1)
                (joinInt16 Target.avr (staleBuffer.bufferSerial.getD 2 0)
                  (staleBuffer.bufferSerial.getD 3 0) (staleBuffer.bufferSerial.getD 4 0)) }
            w1 false :=
  ⟨by decide, by decide, by decide,
    short_record_reads_stale Target.avr staleBuffer (by decide) (World.idle [[75, 98], [100, 98]])
      (by decide) [] [[100, 98]] rfl (by decide) 1 false⟩

set_option maxRecDepth 100000 in
/-- Two runs of a tick that receive the same bytes for the third exchange, the short INT
record `[75]`, and differ in the response before it (a record with the unknown tag 1, which
changes no state): the Int file afterwards differs, `nFile[2] = 9` against
`nFile[1] = 4227`, the values of bytes left in the buffer. -/
theorem stale_buffer_two_runs :
    (update Target.avr serialSmall
        (World.idle [[99, 98], [1, 2, 0, 0, 9, 98], [75, 98], [100, 98]])).toOption.map
      (fun r => r.1.nFile) = some [0, 0, 9] ∧
    (update Target.avr serialSmall
        (World.idle [[99, 98], [1, 1, 1, 2, 3, 98], [75, 98], [100, 98]])).toOption.map
      (fun r => r.1.nFile) = some [0, 4227, 0] ∧
    (update Target.avr serialSmall
        (World.idle [[99, 98], [1, 2, 0, 0, 9, 98], [100, 98]])).toOption.map
      (fun r => r.1.store) = some serialSmall.store := by
  decide

/-! ## Records outside the arrays -/

theorem applyRecord_defined (t : Target) (s : State) (u : Bool)
    (h : recordFaults t s = false) : ∃ a, applyRecord t s u = .ok a := by
  unfold recordFaults at h
  unfold applyRecord
  dsimp only
  by_cases h65 : bufAt t s 0 = 65
  · rw [if_pos h65] at h ⊢
    simp only [Bool.or_eq_false_iff, Bool.and_eq_false_iff, decide_eq_false_iff_not] at h
    obtain ⟨h1, h2⟩ := h
    split_ifs <;> first
      | exact ⟨_, rfl⟩
      | (exfalso; tauto)
  · rw [if_neg h65] at h ⊢
    by_cases h75 : bufAt t s 0 = 75 ∨ bufAt t s 0 = 77 ∨ bufAt t s 0 = 79
    · rw [if_pos h75] at h
      have h1 : ¬ bufAt t s 1 < 0 := by simpa using h
      split_ifs <;> exact ⟨_, rfl⟩
    · split_ifs <;> first
        | exact ⟨_, rfl⟩
        | (exfalso; tauto)

theorem applyRecord_faults (t : Target) (s : State) (u : Bool)
    (h : recordFaults t s = true) :
    ∃ f, applyRecord t s u = .error f ∧ f ≠ Fault.outOfFuel := by
  have key : ∃ f, applyRecord t s u = .error f := by
    unfold recordFaults at h
    unfold applyRecord
    dsimp only
    by_cases h65 : bufAt t s 0 = 65
    · rw [if_pos h65] at h ⊢
      simp only [Bool.or_eq_true, Bool.and_eq_true, decide_eq_true_eq] at h
      rcases h with h1 | ⟨⟨h1, h2⟩, h3⟩
      · have hb : bufAt t s 1 < (s.bSize : Int) := by omega
        rw [if_pos hb, if_pos h1]
        exact ⟨_, rfl⟩
      · rw [if_pos h1]
        by_cases h0 : bufAt t s 1 < 0
        · rw [if_pos h0]; exact ⟨_, rfl⟩
        · rw [if_neg h0, if_pos h2, if_pos h3]; exact ⟨_, rfl⟩
    · rw [if_neg h65] at h ⊢
      by_cases h75 : bufAt t s 0 = 75 ∨ bufAt t s 0 = 77 ∨ bufAt t s 0 = 79
      · rw [if_pos h75] at h
        have h1 : bufAt t s 1 < 0 := by simpa using h
        have hb : bufAt t s 1 < (s.ndfSize : Int) := by omega
        rcases h75 with e | e | e
        · rw [if_pos e, if_pos hb, if_pos h1]; exact ⟨_, rfl⟩
        · rw [if_neg (by omega), if_pos e, if_pos hb, if_pos h1]; exact ⟨_, rfl⟩
        · rw [if_neg (by omega), if_neg (by omega), if_pos e, if_pos hb, if_pos h1]
          exact ⟨_, rfl⟩
      · rw [if_neg h75] at h
        exact absurd h (by simp)
  obtain ⟨f, hf⟩ := key
  refine ⟨f, hf, ?_⟩
  intro e
  subst e
  exact applyRecord_ne_outOfFuel t s u hf

theorem drainLoop_defined (t : Target) :
    ∀ (fuel : Nat) (s : State) (w : World) (u : Bool),
      drainFaults t fuel s w u = false → w.rx.length < fuel →
      ∃ r, drainLoop t fuel s w u = .ok r := by
  intro fuel
  induction fuel with
  | zero => intro s w u _ h; omega
  | succ n ih =>
    intro s w u hd hlen
    rw [drainFaults] at hd
    rw [drainLoop]
    by_cases hok : (sendBasicCommand t s w 99).1 = true
    · rw [if_pos hok] at hd ⊢
      have hlt := (sendBasicCommand_rx t s w 99).2 hok
      by_cases hrf : recordFaults t (sendBasicCommand t s w 99).2.1 = true
      · rw [if_pos hrf] at hd
        exact absurd hd (by simp)
      · rw [if_neg hrf] at hd
        obtain ⟨a, ha⟩ := applyRecord_defined t (sendBasicCommand t s w 99).2.1 u
          (by simpa using hrf)
        rw [ha] at hd ⊢
        dsimp only at hd ⊢
        by_cases hrd : a.2.1 = true
        · rw [if_pos hrd] at hd ⊢
          exact ih _ _ _ hd (by omega)
        · rw [if_neg hrd]
          exact ⟨_, rfl⟩
    · rw [if_neg hok]
      exact ⟨_, rfl⟩

theorem drainLoop_faults (t : Target) :
    ∀ (fuel : Nat) (s : State) (w : World) (u : Bool),
      drainFaults t fuel s w u = true →
      ∃ f, drainLoop t fuel s w u = .error f ∧ f ≠ Fault.outOfFuel := by
  intro fuel
  induction fuel with
  | zero => intro s w u h; simp [drainFaults] at h
  | succ n ih =>
    intro s w u hd
    rw [drainFaults] at hd
    rw [drainLoop]
    by_cases hok : (sendBasicCommand t s w 99).1 = true
    · rw [if_pos hok] at hd ⊢
      by_cases hrf : recordFaults t (sendBasicCommand t s w 99).2.1 = true
      · obtain ⟨f, hf, hne⟩ := applyRecord_faults t (sendBasicCommand t s w 99).2.1 u hrf
        rw [hf]
        exact ⟨f, rfl, hne⟩
      · rw [if_neg hrf] at hd
        obtain ⟨a, ha⟩ := applyRecord_defined t (sendBasicCommand t s w 99).2.1 u
          (by simpa using hrf)
        rw [ha] at hd ⊢
        dsimp only at hd ⊢
        by_cases hrd : a.2.1 = true
        · rw [if_pos hrd] at hd ⊢
          exact ih _ _ _ hd
        · rw [if_neg hrd] at hd
          exact absurd hd (by simp)
    · rw [if_neg hok] at hd
      exact absurd hd (by simp)

theorem drainTick_defined (t : Target) (s : State) (w : World)
    (h : tickFaults t s w = false) : ∃ a, drainTick t s w = .ok a := by
  unfold tickFaults at h
  unfold drainTick
  dsimp only at h ⊢
  split_ifs at h ⊢
  · exact drainLoop_defined t _ _ _ _ h (by omega)
  · exact ⟨_, rfl⟩
  · exact ⟨_, rfl⟩
  · exact ⟨_, rfl⟩

theorem drainTick_faults (t : Target) (s : State) (w : World)
    (h : tickFaults t s w = true) :
    ∃ f, drainTick t s w = .error f ∧ f ≠ Fault.outOfFuel := by
  unfold tickFaults at h
  unfold drainTick
  dsimp only at h ⊢
  split_ifs at h ⊢
  · exact drainLoop_faults t _ _ _ _ h

/-- A tick whose batch holds no out-of-range record returns. -/
theorem update_defined (t : Target) (s : State) (w : World)
    (h : tickFaults t s w = false) : ∃ r, update t s w = .ok r := by
  obtain ⟨a, ha⟩ := drainTick_defined t s w h
  unfold update
  rw [ha]
  exact ⟨_, rfl⟩

/-- A tick whose batch holds an out-of-range record reaches the undefined access. -/
theorem update_faults (t : Target) (s : State) (w : World)
    (h : tickFaults t s w = true) :
    ∃ f, update t s w = .error f ∧ f ≠ Fault.outOfFuel := by
  obtain ⟨f, hf, hne⟩ := drainTick_faults t s w h
  unfold update
  rw [hf]
  exact ⟨f, rfl, hne⟩

theorem Call.run_defined (t : Target) (c : Call) (sw : State × World)
    (h : (c.isTick && tickFaults t sw.1 sw.2) = false) : ∃ sw0, c.run t sw = .ok sw0 := by
  cases c
  case update => exact update_defined t sw.1 sw.2 (by simpa [Call.isTick] using h)
  all_goals exact ⟨_, rfl⟩

theorem Call.run_faults (t : Target) (c : Call) (sw : State × World)
    (h : (c.isTick && tickFaults t sw.1 sw.2) = true) :
    ∃ f, c.run t sw = .error f ∧ f ≠ Fault.outOfFuel := by
  cases c
  case update => exact update_faults t sw.1 sw.2 (by simpa [Call.isTick] using h)
  all_goals simp [Call.isTick] at h

theorem runCalls_defined (t : Target) (cs : List Call) :
    ∀ sw : State × World, callsFault t cs sw = false → ∃ sw1, runCalls t cs sw = .ok sw1 := by
  induction cs with
  | nil => intro sw _; exact ⟨sw, rfl⟩
  | cons c cs ih =>
    intro sw h
    rw [callsFault] at h
    rw [runCalls]
    rw [Bool.or_eq_false_iff] at h
    obtain ⟨h1, h2⟩ := h
    obtain ⟨sw0, h0⟩ := Call.run_defined t c sw h1
    rw [h0] at h2 ⊢
    exact ih sw0 h2

theorem runCalls_faults (t : Target) (cs : List Call) :
    ∀ sw : State × World, callsFault t cs sw = true →
      ∃ f, runCalls t cs sw = .error f ∧ f ≠ Fault.outOfFuel := by
  induction cs with
  | nil => intro sw h; simp [callsFault] at h
  | cons c cs ih =>
    intro sw h
    rw [callsFault] at h
    rw [runCalls]
    cases hf : (c.isTick && tickFaults t sw.1 sw.2)
    · rw [hf, Bool.false_or] at h
      obtain ⟨sw0, h0⟩ := Call.run_defined t c sw hf
      rw [h0] at h ⊢
      exact ih sw0 h
    · obtain ⟨f, hf1, hne⟩ := Call.run_faults t c sw hf
      rw [hf1]
      exact ⟨f, rfl, hne⟩

/-! ## Ticks with and without an out-of-range record -/

/-- Where `char` is signed, a record of tag 65, 75, 77 or 79 with a word byte of 128 or more
is out of range: the byte reads as a negative index and passes the guard. -/
theorem recordFaults_signed (t : Target) (s : State) (hsigned : t.charSigned = true)
    (hbyte : 128 ≤ s.bufferSerial.getD 1 0 ∧ s.bufferSerial.getD 1 0 < 256)
    (htag : bufAt t s 0 = 65 ∨ bufAt t s 0 = 75 ∨ bufAt t s 0 = 77 ∨ bufAt t s 0 = 79) :
    bufAt t s 1 < 0 ∧ recordFaults t s = true := by
  have hneg : bufAt t s 1 < 0 := by
    unfold bufAt charToInt
    have h1 : s.bufferSerial.getD 1 0 % 256 = s.bufferSerial.getD 1 0 :=
      Nat.mod_eq_of_lt hbyte.2
    rw [h1]
    simp only [hsigned, Bool.true_and, decide_eq_true_eq]
    rw [if_pos hbyte.1]
    omega
  refine ⟨hneg, ?_⟩
  unfold recordFaults
  rcases htag with e | e | e | e
  · rw [if_pos e]; simp [hneg]
  · rw [if_neg (by omega), if_pos (Or.inl e)]; simp [hneg]
  · rw [if_neg (by omega), if_pos (Or.inr (Or.inl e))]; simp [hneg]
  · rw [if_neg (by omega), if_pos (Or.inr (Or.inr e))]; simp [hneg]

/-- Where `char` is unsigned no word byte reads as a negative index: the only out-of-range
record left is the BINARY record that sets a bit at a position of at least the width of
`int`. -/
theorem recordFaults_unsigned (t : Target) (s : State) (hunsigned : t.charSigned = false)
    (h : recordFaults t s = true) :
    bufAt t s 0 = 65 ∧ 0 ≤ bufAt t s 1 ∧ bufAt t s 1 < s.bSize ∧ bufAt t s 3 = 49 ∧
      (t.intBits : Int) ≤ bufAt t s 2 := by
  have hpos : 0 ≤ bufAt t s 1 := by
    unfold bufAt charToInt
    simp only [hunsigned, Bool.false_and, Bool.false_eq_true, if_false]
    omega
  unfold recordFaults at h
  split_ifs at h with h65 h75
  · simp only [Bool.or_eq_true, Bool.and_eq_true, decide_eq_true_eq] at h
    rcases h with h1 | ⟨⟨h1, h2⟩, h3⟩
    · omega
    · exact ⟨h65, hpos, h1, h2, h3⟩
  · simp only [decide_eq_true_eq] at h
    omega

set_option maxRecDepth 100000 in
/-- A tick with an out-of-range record: on an AVR board (signed `char`) the DINT record
`[77, 251, 0, ..]` has the word byte 251, which reads as -5 and passes the guard
`bufferSerial[1] < ndfSize`; the tick reaches the store to `dFile[-5]`. -/
theorem dirty_after_push_out_of_range :
    tickFaults Target.avr (setInt Target.avr serialAvr (World.idle []) 3 1234).1
      (World.idle [[99, 98], [77, 251, 0, 0, 0, 0, 0, 0, 98], [100, 98]]) = true ∧
    faultOf (update Target.avr (setInt Target.avr serialAvr (World.idle []) 3 1234).1
      (World.idle [[99, 98], [77, 251, 0, 0, 0, 0, 0, 0, 98], [100, 98]]))
      = some Fault.outOfBounds := by
  decide

set_option maxRecDepth 100000 in
/-- A tick with an out-of-range record: on an AVR board the REAL record `[79, 250, ..]`
has the word byte 250, which reads as -6 and passes the guard; the tick reaches the store to
`fFile[-6]`. -/
theorem end_with_override_out_of_range :
    tickFaults Target.avr serialAvr
      (World.idle [[99, 98], [79, 250, 0, 63, 32, 0, 0, 0, 98], [103, 98]]) = true ∧
    faultOf (update Target.avr serialAvr
      (World.idle [[99, 98], [79, 250, 0, 63, 32, 0, 0, 0, 98], [103, 98]]))
      = some Fault.outOfBounds := by
  decide

/-- C16 fails in the code for a batch with an out-of-range record.  (a) If the batch
drained by a tick contains a record with tag 102 and no out-of-range record, `update()`
returns with the override flag set for each of the 16 bits of each of the `bSize` Bit words
and for each word of the Int, DInt and Float files, and with `overrideSend` false again.
(b) If the batch also holds an out-of-range record, the tick reaches an access that the
drain loop does not guard (a store below an array, a shift by the width of `int` or more):
C++ leaves the outcome undefined and the flags need not be set. -/
theorem override_request_flags_all (t : Target) (ht : t.ok) (s : State) (hs : s.WF)
    (w : World) (h102 : tickSees t 102 s w = true) :
    (tickFaults t s w = false →
      ∃ r, update t s w = .ok r ∧
        (∀ word bit : Int, 0 ≤ word ∧ word < s.bSize → 0 ≤ bit ∧ bit < 16 →
          bitOver t r.1 word bit = true) ∧
        (∀ word : Int, 0 ≤ word ∧ word < s.ndfSize →
          intOver r.1 word = true ∧ dintOver r.1 word = true ∧ floatOver r.1 word = true) ∧
        r.1.overrideSend = false ∧ r.1.bSize = s.bSize ∧ r.1.ndfSize = s.ndfSize) ∧
    (tickFaults t s w = true → ∃ f, update t s w = .error f ∧ f ≠ Fault.outOfFuel) := by
  refine ⟨fun hdef => ?_, update_faults t s w⟩
  obtain ⟨r, h⟩ := update_defined t s w hdef
  have h1 := override_request_sets_flags t ht s hs w h102
  rw [h] at h1
  exact ⟨r, h, h1⟩

set_option maxRecDepth 100000 in
theorem override_request_flags_all_witness :
    (tickSees Target.avr 102 serialAvr (World.idle [[99, 98], [102, 98], [100, 98]]) = true ∧
      tickFaults Target.avr serialAvr (World.idle [[99, 98], [102, 98], [100, 98]]) = false ∧
      ∃ r, update Target.avr serialAvr (World.idle [[99, 98], [102, 98], [100, 98]]) = .ok r ∧
        (∀ word bit : Int, 0 ≤ word ∧ word < serialAvr.bSize → 0 ≤ bit ∧ bit < 16 →
          bitOver Target.avr r.1 word bit = true) ∧
        (∀ word : Int, 0 ≤ word ∧ word < serialAvr.ndfSize →
          intOver r.1 word = true ∧ dintOver r.1 word = true ∧ floatOver r.1 word = true) ∧
        r.1.overrideSend = false ∧ r.1.bSize = serialAvr.bSize ∧
        r.1.ndfSize = serialAvr.ndfSize) ∧
    (tickSees Target.avr 102 serialAvr
        (World.idle [[99, 98], [102, 98], [65, 255, 13, 49, 98],
          [79, 34, 0, 0, 0, 0, 0, 0, 98], [100, 98]]) = true ∧
      tickFaults Target.avr serialAvr
        (World.idle [[99, 98], [102, 98], [65, 255, 13, 49, 98],
          [79, 34, 0, 0, 0, 0, 0, 0, 98], [100, 98]]) = true ∧
      ∃ f, update Target.avr serialAvr
        (World.idle [[99, 98], [102, 98], [65, 255, 13, 49, 98],
          [79, 34, 0, 0, 0, 0, 0, 0, 98], [100, 98]]) = .error f ∧ f ≠ Fault.outOfFuel) :=
  ⟨⟨by decide, by decide,
      (override_request_flags_all Target.avr (by decide) serialAvr (by decide)
        (World.idle [[99, 98], [102, 98], [100, 98]]) (by decide)).1 (by decide)⟩,
    ⟨by decide, by decide,
      (override_request_flags_all Target.avr (by decide) serialAvr (by decide)
        (World.idle [[99, 98], [102, 98], [65, 255, 13, 49, 98],
          [79, 34, 0, 0, 0, 0, 0, 0, 98], [100, 98]]) (by decide)).2 (by decide)⟩⟩

set_option maxRecDepth 100000 in
/-- A tick with an out-of-range record: on an AVR board (signed `char`) the INT record
`[75, 200, 0, 0, 0]` has the word byte 200, which reads as -56 and passes the guard; the
tick reaches the store to `nFile[-56]`. -/
theorem resend_push_back_out_of_range :
    tickSees Target.avr 102 serialSmall
      (World.idle [[99, 98], [102, 98], [75, 200, 0, 0, 0, 98], [100, 98]]) = true ∧
    tickFaults Target.avr serialSmall
      (World.idle [[99, 98], [102, 98], [75, 200, 0, 0, 0, 98], [100, 98]]) = true ∧
    faultOf (update Target.avr serialSmall
      (World.idle [[99, 98], [102, 98], [75, 200, 0, 0, 0, 98], [100, 98]]))
      = some Fault.outOfBounds := by
  decide

/-- C30 fails in the code for a tick with an out-of-range record.  (a) Along every sequence
of calls on the object (the getters, the setters, `update()`) none of whose ticks drains an
out-of-range record, the sequence returns and every dirty flag that is set at the start (a
bit of `bFileUpdate`, an entry of `nFileUpdate`, `dFileUpdate` or `fFileUpdate`) is set at the
end.  (b) A sequence with such a tick reaches an access that the drain loop does not guard
(a store below an array, a shift by the width of `int` or more): C++ leaves the outcome
undefined, and a store below an array can land on the dirty flags. -/
theorem dirty_flags_monotone (t : Target) (ht : t.ok) (cs : List Call)
    (sw : State × World) :
    (callsFault t cs sw = false →
      ∃ sw1, runCalls t cs sw = .ok sw1 ∧ DirtyKept t sw.1 sw1.1) ∧
    (callsFault t cs sw = true →
      ∃ f, runCalls t cs sw = .error f ∧ f ≠ Fault.outOfFuel) := by
  refine ⟨fun hdef => ?_, runCalls_faults t cs sw⟩
  obtain ⟨sw1, h⟩ := runCalls_defined t cs sw hdef
  have h1 := runCalls_dirtyKept t ht cs sw
  rw [h] at h1
  exact ⟨sw1, h, h1⟩

set_option maxRecDepth 100000 in
theorem dirty_flags_monotone_witness :
    (callsFault Target.avr [Call.setBoolean 4 0 true, Call.update, Call.setInt 3 0]
        (serialAvr, World.idle [[], [99, 98], [75, 3, 0, 0, 7, 98], [103, 98]]) = false ∧
      ∃ sw1, runCalls Target.avr [Call.setBoolean 4 0 true, Call.update, Call.setInt 3 0]
          (serialAvr, World.idle [[], [99, 98], [75, 3, 0, 0, 7, 98], [103, 98]]) = .ok sw1 ∧
        DirtyKept Target.avr serialAvr sw1.1) ∧
    (callsFault Target.avr [Call.setInt 3 1234, Call.update]
        (serialAvr, World.idle [[], [99, 98], [77, 251, 0, 0, 0, 0, 0, 0, 98], [100, 98]])
        = true ∧
      ∃ f, runCalls Target.avr [Call.setInt 3 1234, Call.update]
          (serialAvr, World.idle [[], [99, 98], [77, 251, 0, 0, 0, 0, 0, 0, 98], [100, 98]])
          = .error f ∧ f ≠ Fault.outOfFuel) :=
  ⟨⟨by decide,
      (dirty_flags_monotone Target.avr (by decide)
        [Call.setBoolean 4 0 true, Call.update, Call.setInt 3 0]
        (serialAvr, World.idle [[], [99, 98], [75, 3, 0, 0, 7, 98], [103, 98]])).1
        (by decide)⟩,
    ⟨by decide,
      (dirty_flags_monotone Target.avr (by decide)
        [Call.setInt 3 1234, Call.update]
        (serialAvr, World.idle [[], [99, 98], [77, 251, 0, 0, 0, 0, 0, 0, 98], [100, 98]])).2
        (by decide)⟩⟩

/-- C34 fails in the code for a tick with an out-of-range record.  Each overload of `init`
leaves `syncro` true, and a tick polls with `a` while `syncro` is true and with `e` once it is
false.  (a) A tick whose batch holds no out-of-range record returns, and `syncro` is then
false exactly when it was false before, or the poll succeeded with a response starting with
`d` (100), or the drained batch contained a record tagged 100 or 103.  Along every sequence
of calls none of whose ticks drains an out-of-range record, on an object whose `syncro` is
false, the sequence returns, `syncro` is still false and the poll of the next tick is the
exchange of command `e` (101).  (b) A tick with an out-of-range record reaches an access that
the drain loop does not guard: C++ leaves the outcome undefined, and a store outside the
arrays can land on `syncro`. -/
theorem sync_left_once (t : Target) (s : State) (w : World) :
    (initHard s).syncro = true ∧ (initSoft s).syncro = true ∧
    (∀ bank : Int, (initLAN s w bank).1.syncro = true) ∧
    (s.syncro = true → pollTick t s w = sendBasicCommand t s w 97) ∧
    (s.syncro = false → pollTick t s w = sendBasicCommand t s w 101) ∧
    (tickFaults t s w = false →
      ∃ r, update t s w = .ok r ∧
        r.1.syncro
          = (s.syncro && !(pollSees t 100 s w || tickSees t 100 s w || tickSees t 103 s w))) ∧
    (tickFaults t s w = true → ∃ f, update t s w = .error f ∧ f ≠ Fault.outOfFuel) ∧
    (s.syncro = false → ∀ cs : List Call,
      (callsFault t cs (s, w) = false →
        ∃ sw1, runCalls t cs (s, w) = .ok sw1 ∧ sw1.1.syncro = false ∧
          pollTick t sw1.1 sw1.2 = sendBasicCommand t sw1.1 sw1.2 101) ∧
      (callsFault t cs (s, w) = true →
        ∃ f, runCalls t cs (s, w) = .error f ∧ f ≠ Fault.outOfFuel)) := by
  have h0 := sync_mode_calls t s w
  refine ⟨h0.1, h0.2.1, h0.2.2.1, h0.2.2.2.2.1, fun h => (h0.2.2.2.2.2 h).1, ?_,
    update_faults t s w, ?_⟩
  · intro hdef
    obtain ⟨r, h⟩ := update_defined t s w hdef
    exact ⟨r, h, update_syncro t s w r h⟩
  · intro hs cs
    refine ⟨fun hdef => ?_, runCalls_faults t cs (s, w)⟩
    obtain ⟨sw1, h⟩ := runCalls_defined t cs (s, w) hdef
    have h1 := (h0.2.2.2.2.2 hs).2 cs
    rw [h] at h1
    exact ⟨sw1, h, h1⟩

set_option maxRecDepth 100000 in
theorem sync_left_once_witness :
    serialAvrAsync.syncro = false ∧
    (callsFault Target.avr [Call.setInt 1 5, Call.update, Call.getInt 1]
        (serialAvrAsync, World.idle [[97, 98], [99, 98], [75, 0, 0, 0, 9, 98]]) = false ∧
      ∃ sw1, runCalls Target.avr [Call.setInt 1 5, Call.update, Call.getInt 1]
          (serialAvrAsync, World.idle [[97, 98], [99, 98], [75, 0, 0, 0, 9, 98]]) = .ok sw1 ∧
        sw1.1.syncro = false ∧
        pollTick Target.avr sw1.1 sw1.2 = sendBasicCommand Target.avr sw1.1 sw1.2 101) ∧
    (callsFault Target.avr [Call.update]
        (serialAvrAsync, World.idle [[99, 98], [65, 255, 13, 49, 98],
          [79, 34, 0, 0, 0, 0, 4, 0, 98]]) = true ∧
      ∃ f, runCalls Target.avr [Call.update]
          (serialAvrAsync, World.idle [[99, 98], [65, 255, 13, 49, 98],
            [79, 34, 0, 0, 0, 0, 4, 0, 98]]) = .error f ∧ f ≠ Fault.outOfFuel) :=
  ⟨rfl,
    ⟨by decide,
      (((sync_left_once Target.avr serialAvrAsync
        (World.idle [[97, 98], [99, 98], [75, 0, 0, 0, 9, 98]])).2.2.2.2.2.2.2 rfl)
        [Call.setInt 1 5, Call.update, Call.getInt 1]).1 (by decide)⟩,
    ⟨by decide,
      (((sync_left_once Target.avr serialAvrAsync
        (World.idle [[99, 98], [65, 255, 13, 49, 98], [79, 34, 0, 0, 0, 0, 4, 0, 98]])).2.2.2.2.2.2.2
        rfl) [Call.update]).2 (by decide)⟩⟩

/-! ## The push-back pass as a sequence of writes -/

theorem Write.send_sync (t : Target) (x : Write) (sw : State × World) :
    (x.send t sw).1.sync = sw.1.sync := by
  cases x with
  | ofBit word pos value => exact writeBFile2_sync t sw.1 sw.2 word pos value
  | ofInt word value => exact writeNFile2_sync t sw.1 sw.2 word value
  | ofDInt word value => exact writeDFile2_sync t sw.1 sw.2 word value
  | ofFloat word value => exact writeFFile2_sync t sw.1 sw.2 word value

theorem sendAll_cons (t : Target) (x : Write) (xs : List Write) (sw : State × World) :
    sendAll t (x :: xs) sw = sendAll t xs (x.send t sw) := rfl

theorem sendAll_sync (t : Target) (xs : List Write) :
    ∀ sw : State × World, (sendAll t xs sw).1.sync = sw.1.sync := by
  induction xs with
  | nil => intro sw; rfl
  | cons x xs ih =>
    intro sw
    rw [sendAll_cons, ih, Write.send_sync]

theorem pushFrames_eq (t : Target) (s : State) :
    pushFrames t s = (pushWrites t s).map (Write.frame s) := by
  unfold pushFrames pushWrites
  simp only [List.map_append, List.map_flatMap]
  congr 1
  · congr 1
    funext i
    congr 1
    funext j
    split <;> rfl
  · congr 1
    funext i
    split <;> split <;> split <;> rfl

end Hmi2
